import Mathlib

/-!
# GlowRenderer: frustum culling (`src/utils/FrustumCulling.cpp`)

A shallow embedding of `Frustum` and `BoundingBox`.

Scalars: the C++ `float` is modelled twice. First by an arbitrary linearly ordered
field `α` (exact arithmetic; rounding, infinities and NaN are outside that model);
every definition is computable and can be evaluated at `α = ℚ`. Then by `F32`, the
IEEE 754 binary32 numbers with rounding to nearest, overflow to an infinity and NaN
(`namespace Binary32` holds the same functions over `F32`); it is evaluated by
`decide` and carries the statements in which overflow, rounding or NaN matter.
Statements about all `float` inputs are proved through the rational value
`F32.toRat` and the monotonicity of rounding (`F32.round_ge`, `F32.round_le`).

`glm` is an external library: `glm::dot`, `glm::min`, `glm::max`, the
matrix-vector product and the component-wise division are written out as GLM
defines them; the square root inside `glm::length` is a parameter `sqrt`.
-/

namespace GlowRenderer

/-- The type `glm::vec3`. -/
structure Vec3 (α : Type) where
  x : α
  y : α
  z : α
deriving DecidableEq, Repr

/-- The type `glm::vec4`. -/
structure Vec4 (α : Type) where
  x : α
  y : α
  z : α
  w : α
deriving DecidableEq, Repr

/-- The type `glm::mat4`, column-major as in GLM: `m c r` is the C++ `m[c][r]`
(column `c`, row `r`). -/
abbrev Mat4 (α : Type) := Fin 4 → Fin 4 → α

section Glm

variable {α : Type} [LinearOrderedField α]

/-- The call `glm::vec3(0.0f)`, also the value-initialised `glm::vec3`. -/
def Vec3.zero : Vec3 α := ⟨0, 0, 0⟩

/-- The call `glm::vec3(plane.x, plane.y, plane.z)`. -/
def Vec4.xyz (v : Vec4 α) : Vec3 α := ⟨v.x, v.y, v.z⟩

/-- The call `glm::vec4(v, w)`. -/
def Vec4.ofVec3 (v : Vec3 α) (w : α) : Vec4 α := ⟨v.x, v.y, v.z, w⟩

/-- The function `glm::dot` on `vec3`. -/
def dot (a b : Vec3 α) : α := a.x * b.x + a.y * b.y + a.z * b.z

/-- The function `glm::length` on `vec3`: the square root of `dot(v, v)`. -/
def length (sqrt : α → α) (v : Vec3 α) : α := sqrt (dot v v)

/-- Scalar `glm::min(x, y)`, which is `(y < x) ? y : x`. -/
def glmMin (x y : α) : α := if y < x then y else x

/-- Scalar `glm::max(x, y)`, which is `(x < y) ? y : x`. -/
def glmMax (x y : α) : α := if x < y then y else x

/-- Component-wise `glm::min` on `vec3`. -/
def Vec3.min (a b : Vec3 α) : Vec3 α := ⟨glmMin a.x b.x, glmMin a.y b.y, glmMin a.z b.z⟩

/-- Component-wise `glm::max` on `vec3`. -/
def Vec3.max (a b : Vec3 α) : Vec3 α := ⟨glmMax a.x b.x, glmMax a.y b.y, glmMax a.z b.z⟩

/-- The operator `vec3 / float`. -/
def Vec3.divScalar (v : Vec3 α) (s : α) : Vec3 α := ⟨v.x / s, v.y / s, v.z / s⟩

/-- The operator `vec4 /= float`. -/
def Vec4.divScalar (v : Vec4 α) (s : α) : Vec4 α := ⟨v.x / s, v.y / s, v.z / s, v.w / s⟩

/-- The operator `vec3 + vec3`. -/
def Vec3.add (a b : Vec3 α) : Vec3 α := ⟨a.x + b.x, a.y + b.y, a.z + b.z⟩

/-- The operator `vec3 - vec3`. -/
def Vec3.sub (a b : Vec3 α) : Vec3 α := ⟨a.x - b.x, a.y - b.y, a.z - b.z⟩

/-- The operator `vec3 * float`. -/
def Vec3.mulScalar (v : Vec3 α) (s : α) : Vec3 α := ⟨v.x * s, v.y * s, v.z * s⟩

/-- The operator `mat4 * vec4`: the sum of the columns scaled by the components of `v`,
associated as GLM does. -/
def Mat4.mulVec (m : Mat4 α) (v : Vec4 α) : Vec4 α :=
  ⟨(m 0 0 * v.x + m 1 0 * v.y) + (m 2 0 * v.z + m 3 0 * v.w),
   (m 0 1 * v.x + m 1 1 * v.y) + (m 2 1 * v.z + m 3 1 * v.w),
   (m 0 2 * v.x + m 1 2 * v.y) + (m 2 2 * v.z + m 3 2 * v.w),
   (m 0 3 * v.x + m 1 3 * v.y) + (m 2 3 * v.z + m 3 3 * v.w)⟩

/-- The expression `glm::dot(glm::vec3(plane.x, plane.y, plane.z), point) + plane.w`,
the signed distance that all the frustum tests compute. -/
def planeDistance (plane : Vec4 α) (point : Vec3 α) : α := dot plane.xyz point + plane.w

end Glm

/-! ## BoundingBox -/

/-- The class `BoundingBox`: `min`, `max` and the `valid` flag. -/
structure BoundingBox (α : Type) where
  min : Vec3 α
  max : Vec3 α
  valid : Bool
deriving DecidableEq, Repr

/-- The class `Frustum`: the `std::array<glm::vec4, 6> planes`, each plane stored
as `(a, b, c, d)`. -/
structure Frustum (α : Type) where
  planes : Fin 6 → Vec4 α

/-- The six-element array with the given entries at the indices 0 to 5. -/
def planeArray {α : Type} (p0 p1 p2 p3 p4 p5 : Vec4 α) : Fin 6 → Vec4 α :=
  fun k =>
    match k.val with
    | 0 => p0
    | 1 => p1
    | 2 => p2
    | 3 => p3
    | 4 => p4
    | _ => p5

namespace BoundingBox

variable {α : Type} [LinearOrderedField α]

/-- The default constructor, as the value-initialisation `BoundingBox()`: zeroed `min` and
`max`, `valid = false`. (The declaration `BoundingBox result;` leaves `min` and `max`
indeterminate; they are never read while `valid` is false, and are modelled as zero.) -/
def default : BoundingBox α := ⟨Vec3.zero, Vec3.zero, false⟩

/-- The constructor `BoundingBox(min, max)`: stores both and sets `valid`. -/
def ofMinMax (min max : Vec3 α) : BoundingBox α := ⟨min, max, true⟩

/-- The static `BoundingBox::fromVertices`. The loop runs over every vertex, the first
included, starting from `min = max = vertices[0]`. -/
def fromVertices (vertices : List (Vec3 α)) : BoundingBox α :=
  match vertices with
  | [] => BoundingBox.default
  | v0 :: _ =>
    let acc := vertices.foldl
      (fun (acc : Vec3 α × Vec3 α) vertex => (Vec3.min acc.1 vertex, Vec3.max acc.2 vertex))
      (v0, v0)
    ofMinMax acc.1 acc.2

/-- The method `BoundingBox::getCorners`. The result is a `std::array<glm::vec3, 8>`: for an
invalid box `return {}` value-initialises it, which gives eight zero vectors. -/
def getCorners (b : BoundingBox α) : List (Vec3 α) :=
  if !b.valid then
    [Vec3.zero, Vec3.zero, Vec3.zero, Vec3.zero, Vec3.zero, Vec3.zero, Vec3.zero, Vec3.zero]
  else
    [⟨b.min.x, b.min.y, b.min.z⟩,
     ⟨b.max.x, b.min.y, b.min.z⟩,
     ⟨b.max.x, b.max.y, b.min.z⟩,
     ⟨b.min.x, b.max.y, b.min.z⟩,
     ⟨b.min.x, b.min.y, b.max.z⟩,
     ⟨b.max.x, b.min.y, b.max.z⟩,
     ⟨b.max.x, b.max.y, b.max.z⟩,
     ⟨b.min.x, b.max.y, b.max.z⟩]

/-- The method `BoundingBox::expand(const glm::vec3& point)`. -/
def expand (b : BoundingBox α) (point : Vec3 α) : BoundingBox α :=
  if !b.valid then
    ⟨point, point, true⟩
  else
    ⟨Vec3.min b.min point, Vec3.max b.max point, b.valid⟩

/-- The overload `BoundingBox::expand(const BoundingBox& other)`. -/
def expandBox (b other : BoundingBox α) : BoundingBox α :=
  if !other.valid then
    b
  else if !b.valid then
    ⟨other.min, other.max, true⟩
  else
    ⟨Vec3.min b.min other.min, Vec3.max b.max other.max, b.valid⟩

/-- The method `BoundingBox::transform`: every corner is multiplied by the matrix, divided
by its `w`, and added to an initially invalid `result` with `expand`. -/
def transform (b : BoundingBox α) (matrix : Mat4 α) : BoundingBox α :=
  if !b.valid then
    BoundingBox.default
  else
    b.getCorners.foldl
      (fun result corner =>
        let transformed := matrix.mulVec (Vec4.ofVec3 corner 1)
        result.expand (transformed.xyz.divScalar transformed.w))
      BoundingBox.default

/-- The method `BoundingBox::intersects`. -/
def intersects (b other : BoundingBox α) : Bool :=
  if !b.valid || !other.valid then
    false
  else
    (decide (b.min.x ≤ other.max.x) && decide (b.max.x ≥ other.min.x)) &&
    (decide (b.min.y ≤ other.max.y) && decide (b.max.y ≥ other.min.y)) &&
    (decide (b.min.z ≤ other.max.z) && decide (b.max.z ≥ other.min.z))

/-- The method `BoundingBox::getCenter`; `0.5f` is the field element `1/2`. -/
def getCenter (b : BoundingBox α) : Vec3 α :=
  if !b.valid then Vec3.zero else (b.min.add b.max).mulScalar (1 / 2)

/-- The method `BoundingBox::getSize`. -/
def getSize (b : BoundingBox α) : Vec3 α :=
  if !b.valid then Vec3.zero else b.max.sub b.min

end BoundingBox

/-! ## Frustum -/

namespace Frustum

variable {α : Type} [LinearOrderedField α]

/-- The enumerator `Frustum::LEFT`. -/
def LEFT : Int := 0
/-- The enumerator `Frustum::RIGHT`. -/
def RIGHT : Int := 1
/-- The enumerator `Frustum::BOTTOM`. -/
def BOTTOM : Int := 2
/-- The enumerator `Frustum::TOP`. -/
def TOP : Int := 3
/-- The enumerator `Frustum::NEAR`. -/
def NEAR : Int := 4
/-- The enumerator `Frustum::FAR`. -/
def FAR : Int := 5

/-- The six planes in the order a range-`for` over `planes` visits them. -/
def planeList (f : Frustum α) : List (Vec4 α) :=
  [f.planes 0, f.planes 1, f.planes 2, f.planes 3, f.planes 4, f.planes 5]

/-- The six plane equations `extractPlanes` writes before normalising, in the order
LEFT, RIGHT, BOTTOM, TOP, NEAR, FAR. -/
def rawPlanes (m : Mat4 α) : Fin 6 → Vec4 α :=
  planeArray
    ⟨m 0 3 + m 0 0, m 1 3 + m 1 0, m 2 3 + m 2 0, m 3 3 + m 3 0⟩
    ⟨m 0 3 - m 0 0, m 1 3 - m 1 0, m 2 3 - m 2 0, m 3 3 - m 3 0⟩
    ⟨m 0 3 + m 0 1, m 1 3 + m 1 1, m 2 3 + m 2 1, m 3 3 + m 3 1⟩
    ⟨m 0 3 - m 0 1, m 1 3 - m 1 1, m 2 3 - m 2 1, m 3 3 - m 3 1⟩
    ⟨m 0 3 + m 0 2, m 1 3 + m 1 2, m 2 3 + m 2 2, m 3 3 + m 3 2⟩
    ⟨m 0 3 - m 0 2, m 1 3 - m 1 2, m 2 3 - m 2 2, m 3 3 - m 3 2⟩

/-- The method `Frustum::normalizePlane`. -/
def normalizePlane (sqrt : α → α) (plane : Vec4 α) : Vec4 α :=
  let length := length sqrt ⟨plane.x, plane.y, plane.z⟩
  if length > 0 then plane.divScalar length else plane

/-- The method `Frustum::extractPlanes`: the six row combinations, each then normalised. -/
def extractPlanes (sqrt : α → α) (viewProjection : Mat4 α) : Frustum α :=
  ⟨fun k => normalizePlane sqrt (rawPlanes viewProjection k)⟩

/-- The loop of `Frustum::isPointInside` over the remaining planes. -/
def isPointInsideLoop (point : Vec3 α) : List (Vec4 α) → Bool
  | [] => true
  | plane :: rest =>
    if planeDistance plane point < 0 then false else isPointInsideLoop point rest

/-- The method `Frustum::isPointInside`. -/
def isPointInside (f : Frustum α) (point : Vec3 α) : Bool :=
  isPointInsideLoop point f.planeList

/-- The first loop of `isBoundingBoxInside`: is some corner inside the frustum. -/
def anyCornerInside (f : Frustum α) : List (Vec3 α) → Bool
  | [] => false
  | corner :: rest => if f.isPointInside corner then true else anyCornerInside f rest

/-- The inner loop of `isBoundingBoxInside`: the final value of `allOutside` for a plane. -/
def allOutside (plane : Vec4 α) : List (Vec3 α) → Bool
  | [] => true
  | corner :: rest => if planeDistance plane corner ≥ 0 then false else allOutside plane rest

/-- The second loop of `isBoundingBoxInside` over the remaining planes. -/
def noPlaneRejects (corners : List (Vec3 α)) : List (Vec4 α) → Bool
  | [] => true
  | plane :: rest => if allOutside plane corners then false else noPlaneRejects corners rest

/-- The method `Frustum::isBoundingBoxInside`. -/
def isBoundingBoxInside (f : Frustum α) (bbox : BoundingBox α) : Bool :=
  let corners := bbox.getCorners
  if anyCornerInside f corners then true else noPlaneRejects corners f.planeList

/-- The loop of `Frustum::isSphereInside` over the remaining planes. -/
def isSphereInsideLoop (center : Vec3 α) (radius : α) : List (Vec4 α) → Bool
  | [] => true
  | plane :: rest =>
    let distance := planeDistance plane center
    if distance < -radius then false else isSphereInsideLoop center radius rest

/-- The method `Frustum::isSphereInside`. -/
def isSphereInside (f : Frustum α) (center : Vec3 α) (radius : α) : Bool :=
  isSphereInsideLoop center radius f.planeList

/-- The method `Frustum::getDistanceToPlane`; the `Plane` argument is the enum's integer
value, so that the range check of the source is kept. -/
def getDistanceToPlane (f : Frustum α) (point : Vec3 α) (plane : Int) : α :=
  if h : plane ≥ 0 ∧ plane < 6 then
    let p := f.planes ⟨plane.toNat, by omega⟩
    planeDistance p point
  else 0

end Frustum

/-! ## Spec-side definitions: the rows of the view-projection matrix -/

section SpecRows

variable {α : Type} [LinearOrderedField α]

/-- The operator `vec4 + vec4`. -/
def Vec4.add (a b : Vec4 α) : Vec4 α := ⟨a.x + b.x, a.y + b.y, a.z + b.z, a.w + b.w⟩

/-- The operator `vec4 - vec4`. -/
def Vec4.sub (a b : Vec4 α) : Vec4 α := ⟨a.x - b.x, a.y - b.y, a.z - b.z, a.w - b.w⟩

/-- The operator `float * vec4`. -/
def Vec4.scale (s : α) (v : Vec4 α) : Vec4 α := ⟨s * v.x, s * v.y, s * v.z, s * v.w⟩

/-- Row `i` of a matrix as the specification reads it: its entry in column `j` is the GLM
element `m[j][i]`. -/
def Mat4.row (m : Mat4 α) (i : Fin 4) : Vec4 α := ⟨m 0 i, m 1 i, m 2 i, m 3 i⟩

/-- The six planes as the specification words them: LEFT = row3 + row0, RIGHT = row3 - row0,
BOTTOM = row3 + row1, TOP = row3 - row1, NEAR = row3 + row2, FAR = row3 - row2. -/
def specPlanes (m : Mat4 α) : Fin 6 → Vec4 α :=
  planeArray
    ((m.row 3).add (m.row 0)) ((m.row 3).sub (m.row 0))
    ((m.row 3).add (m.row 1)) ((m.row 3).sub (m.row 1))
    ((m.row 3).add (m.row 2)) ((m.row 3).sub (m.row 2))

/-- The clip coordinates `M * (p, 1)` of a point. -/
def clipCoords (m : Mat4 α) (p : Vec3 α) : Vec4 α := m.mulVec (Vec4.ofVec3 p 1)

end SpecRows

/-! ## Boxes obtainable through the public interface -/

section Reach

variable {α : Type} [LinearOrderedField α]

/-- The property `min ≤ max` on each of the three axes. -/
def BoundingBox.Ordered (b : BoundingBox α) : Prop :=
  b.min.x ≤ b.max.x ∧ b.min.y ≤ b.max.y ∧ b.min.z ≤ b.max.z

/-- The point `q` lies within `[min, max]` on each of the three axes. -/
def BoundingBox.Contains (b : BoundingBox α) (q : Vec3 α) : Prop :=
  (b.min.x ≤ q.x ∧ q.x ≤ b.max.x) ∧ (b.min.y ≤ q.y ∧ q.y ≤ b.max.y) ∧
  (b.min.z ≤ q.z ∧ q.z ≤ b.max.z)

/-- The boxes that can be obtained through the public interface of `BoundingBox`: the
default constructor, the `(min, max)` constructor with any arguments, `fromVertices`,
`expand(point)`, `expand(box)` and `transform`. -/
inductive BoundingBox.Reachable : BoundingBox α → Prop
  | default : Reachable BoundingBox.default
  | ofMinMax (min max : Vec3 α) : Reachable (BoundingBox.ofMinMax min max)
  | fromVertices (vertices : List (Vec3 α)) : Reachable (BoundingBox.fromVertices vertices)
  | expand (b : BoundingBox α) (point : Vec3 α) : Reachable b → Reachable (b.expand point)
  | expandBox (b other : BoundingBox α) :
      Reachable b → Reachable other → Reachable (b.expandBox other)
  | transform (b : BoundingBox α) (matrix : Mat4 α) :
      Reachable b → Reachable (b.transform matrix)

end Reach

/-! ## GLM matrices used by `main.cpp` -/

section GlmMatrices

variable {α : Type} [LinearOrderedField α]

/-- The call `glm::mat4(1.0f)`: the identity matrix. -/
def Mat4.identity : Mat4 α := fun c r => if c = r then 1 else 0

/-- The operator `mat4 * mat4`: column `c` of the product is the combination of the columns
of `a` with the entries of column `c` of `b`, associated as GLM does. -/
def Mat4.mul (a b : Mat4 α) : Mat4 α :=
  fun c r => ((a 0 r * b c 0 + a 1 r * b c 1) + a 2 r * b c 2) + a 3 r * b c 3

/-- The function `glm::translate(m, v)`: only the last column changes, to
`m[0]*v.x + m[1]*v.y + m[2]*v.z + m[3]`. -/
def translate (m : Mat4 α) (v : Vec3 α) : Mat4 α :=
  fun c r => if c = 3 then ((m 0 r * v.x + m 1 r * v.y) + m 2 r * v.z) + m 3 r else m c r

/-- The function `glm::scale(m, v)`: the first three columns are scaled by the components of
`v`, the last one is kept. -/
def scale (m : Mat4 α) (v : Vec3 α) : Mat4 α :=
  fun c r =>
    if c = 0 then m 0 r * v.x
    else if c = 1 then m 1 r * v.y
    else if c = 2 then m 2 r * v.z
    else m c r

/-- The function `glm::perspective(fovy, aspect, zNear, zFar)` (right-handed, depth in
`[-1, 1]`), with `tan(fovy / 2)` passed as `tanHalfFovy`. All other entries are zero. -/
def perspective (tanHalfFovy aspect zNear zFar : α) : Mat4 α :=
  fun c r =>
    if c = 0 ∧ r = 0 then 1 / (aspect * tanHalfFovy)
    else if c = 1 ∧ r = 1 then 1 / tanHalfFovy
    else if c = 2 ∧ r = 2 then -(zFar + zNear) / (zFar - zNear)
    else if c = 2 ∧ r = 3 then -1
    else if c = 3 ∧ r = 2 then -(2 * zFar * zNear) / (zFar - zNear)
    else 0

end GlmMatrices

/-! ## The visibility filter (`Mesh::isVisibleInFrustum` and the culling loop of `main`) -/

section Visibility

variable {α : Type} [LinearOrderedField α]

/-- The two meshes the frame loop of `main` puts into `visibleMeshes`. -/
inductive MeshId where
  | planeMesh
  | bunnyMesh
deriving DecidableEq, Repr

/-- The per-frame variables the culling code of `main` writes: the two parallel vectors
`modelMatrices` and `visibleMeshes`, and the global `int g_culledObjects`. -/
structure CullState (α : Type) where
  modelMatrices : List (Mat4 α)
  visibleMeshes : List MeshId
  culledObjects : Int

/-- A 32-bit `int` after an arithmetic step, in two's complement. -/
def wrapInt32 (n : Int) : Int := (n + 2147483648) % 4294967296 - 2147483648

/-- The method `Mesh::isVisibleInFrustum`, with the mesh's `boundingBox` as an argument. -/
def isVisibleInFrustum (boundingBox : BoundingBox α) (frustum : Frustum α)
    (modelMatrix : Mat4 α) : Bool :=
  let transformedBox := boundingBox.transform modelMatrix
  frustum.isBoundingBoxInside transformedBox

/-- One iteration of the loop of `main` with culling enabled. -/
def cullStep (frustum : Frustum α) (bunnyBoundingBox : BoundingBox α)
    (s : CullState α) (transform : Mat4 α) : CullState α :=
  let worldBoundingBox := bunnyBoundingBox.transform transform
  if frustum.isBoundingBoxInside worldBoundingBox then
    { s with
      modelMatrices := s.modelMatrices ++ [transform]
      visibleMeshes := s.visibleMeshes ++ [MeshId.bunnyMesh] }
  else
    { s with culledObjects := wrapInt32 (s.culledObjects + 1) }

/-- One iteration of the loop of `main` with culling disabled. -/
def passStep (s : CullState α) (transform : Mat4 α) : CullState α :=
  { s with
    modelMatrices := s.modelMatrices ++ [transform]
    visibleMeshes := s.visibleMeshes ++ [MeshId.bunnyMesh] }

/-- The culling code of one frame of `main`: the plane is always pushed, with the identity
matrix, `g_culledObjects` is reset, and then either loop runs over `bunnyTransforms`. -/
def cullFrame (frustumCullingEnabled : Bool) (frustum : Frustum α)
    (bunnyBoundingBox : BoundingBox α) (bunnyTransforms : List (Mat4 α)) : CullState α :=
  let s0 : CullState α := ⟨[Mat4.identity], [MeshId.planeMesh], 0⟩
  if frustumCullingEnabled then
    bunnyTransforms.foldl (cullStep frustum bunnyBoundingBox) s0
  else
    { bunnyTransforms.foldl passStep s0 with culledObjects := 0 }

/-- The value `g_visibleObjects = (int)visibleMeshes.size()`. -/
def visibleObjects (s : CullState α) : Int := wrapInt32 s.visibleMeshes.length

/-- The vector `bunnyTransforms` built by `main`: for `row` and `col` from 0 to 9, the
identity translated by `(col - 5, 0, row - 5)` and then scaled by 3. -/
def bunnyTransforms : List (Mat4 α) :=
  (List.range 10).flatMap fun row =>
    (List.range 10).map fun col =>
      let x : α := (((col : Int) - 5 : Int) : α) * 1
      let y : α := 0
      let z : α := (((row : Int) - 5 : Int) : α) * 1
      scale (translate Mat4.identity ⟨x, y, z⟩) ⟨3, 3, 3⟩

/-- The unit-size box centred at `c` of the specification's tests. -/
def unitBoxAt (c : Vec3 α) : BoundingBox α :=
  BoundingBox.ofMinMax ⟨c.x - 1 / 2, c.y - 1 / 2, c.z - 1 / 2⟩
    ⟨c.x + 1 / 2, c.y + 1 / 2, c.z + 1 / 2⟩

/-- The 16-scalar constructor `glm::mat4(x0, y0, z0, w0, ..., x3, y3, z3, w3)`, which takes
the four columns in order. -/
def mat4OfColumns (c0 c1 c2 c3 : Vec4 α) : Mat4 α :=
  fun c r =>
    let col := if c = 0 then c0 else if c = 1 then c1 else if c = 2 then c2 else c3
    if r = 0 then col.x else if r = 1 then col.y else if r = 2 then col.z else col.w

/-- The method `Camera::getViewMatrix`, with the camera's `right`, `up`, `front` and
`position` members as arguments. -/
def getViewMatrix (right up front position : Vec3 α) : Mat4 α :=
  mat4OfColumns
    ⟨right.x, up.x, -front.x, 0⟩
    ⟨right.y, up.y, -front.y, 0⟩
    ⟨right.z, up.z, -front.z, 0⟩
    ⟨-dot right position, -dot up position, dot front position, 1⟩

/-- The matrix `viewProjection = projection * camera.getViewMatrix()` of `main` for a
perspective camera at the origin looking down `-Z`: `right = (1,0,0)`, `up = (0,1,0)`,
`front = (0,0,-1)`. -/
def originViewProjection (tanHalfFovy aspect zNear zFar : α) : Mat4 α :=
  (perspective tanHalfFovy aspect zNear zFar).mul
    (getViewMatrix ⟨1, 0, 0⟩ ⟨0, 1, 0⟩ ⟨0, 0, -1⟩ ⟨0, 0, 0⟩)

end Visibility

/-! ## OpenGL state, materials and meshes

OpenGL is an external library. The part of its state that the claims are about is explicit:
the active texture unit, the 2D texture bound on each unit, the bound framebuffer and vertex
array, and the sequence of commands issued. Object names (`GLuint`) are natural numbers. -/

section OpenGL

/-- The OpenGL commands the renderer issues. `drawElements` and `drawArrays` are the
`GL_TRIANGLES` draws, `clear` is `glClear(GL_COLOR_BUFFER_BIT | GL_DEPTH_BUFFER_BIT)`, the
uniform commands carry the program whose location is looked up and the uniform name. -/
inductive GLCommand (α : Type) where
  | bindFramebuffer (name : Nat)
  | viewport (x y width height : Int)
  | clear
  | useProgram (program : Nat)
  | uniform1i (program : Nat) (name : String) (value : Int)
  | uniform3fv (program : Nat) (name : String) (value : Vec3 α)
  | uniformMatrix4fv (program : Nat) (name : String) (value : Mat4 α)
  | activeTexture (unit : Nat)
  | bindTexture (name : Nat)
  | bindVertexArray (name : Nat)
  | drawElements (count : Int)
  | drawArrays (first count : Int)
  | getError
  | deleteFramebuffers (name : Nat)
  | deleteTextures (name : Nat)
  | deleteVertexArrays (name : Nat)
  | deleteBuffers (name : Nat)
  | deleteRenderbuffers (name : Nat)

/-- The OpenGL state: `activeUnit` is the unit `GL_TEXTURE0 + activeUnit` selected by
`glActiveTexture`, `texture2D u` the texture bound to `GL_TEXTURE_2D` on unit `u`,
`commands` the commands issued so far, oldest first. -/
structure GLState (α : Type) where
  activeUnit : Nat
  texture2D : Nat → Nat
  framebuffer : Nat
  vertexArray : Nat
  commands : List (GLCommand α)

variable {α : Type}

/-- A command without an effect on the modelled state, recorded in the command sequence. -/
def GLState.issue (c : GLCommand α) (s : GLState α) : GLState α :=
  { s with commands := s.commands ++ [c] }

/-- The call `glActiveTexture(GL_TEXTURE0 + unit)`. -/
def glActiveTexture (unit : Nat) (s : GLState α) : GLState α :=
  { s with activeUnit := unit, commands := s.commands ++ [GLCommand.activeTexture unit] }

/-- The call `glBindTexture(GL_TEXTURE_2D, name)`: it binds on the active unit. -/
def glBindTexture (name : Nat) (s : GLState α) : GLState α :=
  { s with
    texture2D := Function.update s.texture2D s.activeUnit name
    commands := s.commands ++ [GLCommand.bindTexture name] }

/-- The call `glBindFramebuffer(GL_FRAMEBUFFER, name)`. -/
def glBindFramebuffer (name : Nat) (s : GLState α) : GLState α :=
  { s with framebuffer := name, commands := s.commands ++ [GLCommand.bindFramebuffer name] }

/-- The call `glBindVertexArray(name)`. -/
def glBindVertexArray (name : Nat) (s : GLState α) : GLState α :=
  { s with vertexArray := name, commands := s.commands ++ [GLCommand.bindVertexArray name] }

/-- The class `Shader`, of which the renderer only uses the program `id`. -/
structure Shader where
  id : Nat

/-- The method `Shader::use`. -/
def Shader.use (shader : Shader) (s : GLState α) : GLState α :=
  s.issue (GLCommand.useProgram shader.id)

/-- The method `Shader::setInt`. -/
def Shader.setInt (shader : Shader) (name : String) (value : Int) (s : GLState α) :
    GLState α :=
  s.issue (GLCommand.uniform1i shader.id name value)

/-- The method `Shader::setVec3`. -/
def Shader.setVec3 (shader : Shader) (name : String) (value : Vec3 α) (s : GLState α) :
    GLState α :=
  s.issue (GLCommand.uniform3fv shader.id name value)

/-- The method `Shader::setMat4`. -/
def Shader.setMat4 (shader : Shader) (name : String) (value : Mat4 α) (s : GLState α) :
    GLState α :=
  s.issue (GLCommand.uniformMatrix4fv shader.id name value)

/-- The method `Texture::bind(textureUnit)` of the texture with the given `id`; the unit is
passed as its offset from `GL_TEXTURE0`. -/
def Texture.bind (id : Nat) (textureUnit : Nat) (s : GLState α) : GLState α :=
  glBindTexture id (glActiveTexture textureUnit s)

/-- The method `Texture::unbind`: it binds texture 0 on whatever unit is active. -/
def Texture.unbind (s : GLState α) : GLState α :=
  glBindTexture 0 s

/-- The class `PBRMaterial`: five `unique_ptr<Texture>` (the `id` of the texture, or `none`
for a null pointer) and the five `has` flags. -/
structure PBRMaterial where
  albedoTexture : Option Nat
  normalTexture : Option Nat
  metallicTexture : Option Nat
  roughnessTexture : Option Nat
  aoTexture : Option Nat
  hasAlbedo : Bool
  hasNormal : Bool
  hasMetallic : Bool
  hasRoughness : Bool
  hasAO : Bool

/-- One statement `if (hasX && xTexture) { xTexture->bind(GL_TEXTURE0 + unit); }`. -/
def bindIfPresent (has : Bool) (texture : Option Nat) (unit : Nat) (s : GLState α) :
    GLState α :=
  match has, texture with
  | true, some id => Texture.bind id unit s
  | _, _ => s

/-- One statement `if (hasX && xTexture) { xTexture->unbind(); }`. -/
def unbindIfPresent (has : Bool) (texture : Option Nat) (s : GLState α) : GLState α :=
  match has, texture with
  | true, some _ => Texture.unbind s
  | _, _ => s

/-- The method `PBRMaterial::bindTextures`. -/
def PBRMaterial.bindTextures (m : PBRMaterial) (s : GLState α) : GLState α :=
  let s := bindIfPresent m.hasAlbedo m.albedoTexture 0 s
  let s := bindIfPresent m.hasNormal m.normalTexture 1 s
  let s := bindIfPresent m.hasMetallic m.metallicTexture 2 s
  let s := bindIfPresent m.hasRoughness m.roughnessTexture 3 s
  bindIfPresent m.hasAO m.aoTexture 4 s

/-- The method `PBRMaterial::unbindTextures`. -/
def PBRMaterial.unbindTextures (m : PBRMaterial) (s : GLState α) : GLState α :=
  let s := unbindIfPresent m.hasAlbedo m.albedoTexture s
  let s := unbindIfPresent m.hasNormal m.normalTexture s
  let s := unbindIfPresent m.hasMetallic m.metallicTexture s
  let s := unbindIfPresent m.hasRoughness m.roughnessTexture s
  unbindIfPresent m.hasAO m.aoTexture s

/-- The texture the material binds on the given unit, if it binds one: the condition
`hasX && xTexture` of `bindTextures` for the unit of `X`. -/
def PBRMaterial.textureOnUnit (m : PBRMaterial) (unit : Nat) : Option Nat :=
  if unit = 0 then (if m.hasAlbedo then m.albedoTexture else none)
  else if unit = 1 then (if m.hasNormal then m.normalTexture else none)
  else if unit = 2 then (if m.hasMetallic then m.metallicTexture else none)
  else if unit = 3 then (if m.hasRoughness then m.roughnessTexture else none)
  else if unit = 4 then (if m.hasAO then m.aoTexture else none)
  else none

/-- The first loop of `Mesh::draw`: `textures[i].bind(GL_TEXTURE0 + i)`. -/
def Mesh.bindLoop : List Nat → Nat → GLState α → GLState α
  | [], _, s => s
  | id :: rest, i, s => Mesh.bindLoop rest (i + 1) (Texture.bind id i s)

/-- The last loop of `Mesh::draw`: `textures[i].unbind()`. -/
def Mesh.unbindLoop : List Nat → GLState α → GLState α
  | [], s => s
  | _ :: rest, s => Mesh.unbindLoop rest (Texture.unbind s)

/-- The method `Mesh::draw`, with the members `textures` (their ids), `vao` (its id) and
`indexCount` as arguments. -/
def Mesh.draw (textures : List Nat) (vao : Nat) (indexCount : Int) (s : GLState α) :
    GLState α :=
  let s := Mesh.bindLoop textures 0 s
  let s := glBindVertexArray vao s
  let s := s.issue (GLCommand.drawElements indexCount)
  let s := glBindVertexArray 0 s
  Mesh.unbindLoop textures s

/-- The class `PBRMesh`. Its constructor calls the `Mesh` constructor without textures and
`textures` is private to `Mesh`, so the `textures` vector of every `PBRMesh` is empty. -/
structure PBRMesh where
  vao : Nat
  indexCount : Int
  pbrMaterial : PBRMaterial

/-- The method `PBRMesh::drawPBR`. -/
def PBRMesh.drawPBR (mesh : PBRMesh) (pbrShader : Shader) (s : GLState α) : GLState α :=
  let s := mesh.pbrMaterial.bindTextures s
  let s := pbrShader.setInt "albedoMap" 0 s
  let s := pbrShader.setInt "normalMap" 1 s
  let s := pbrShader.setInt "metallicMap" 2 s
  let s := pbrShader.setInt "roughnessMap" 3 s
  let s := pbrShader.setInt "aoMap" 4 s
  let s := Mesh.draw [] mesh.vao mesh.indexCount s
  mesh.pbrMaterial.unbindTextures s

end OpenGL

/-! ## DeferredRenderer (`src/rendering/DeferredRenderer.cpp`) -/

section Renderer

/-- The class `DeferredRenderer`: the size and the nine OpenGL handles. -/
structure DeferredRenderer where
  width : Int
  height : Int
  gBuffer : Nat
  gPosition : Nat
  gNormal : Nat
  gAlbedo : Nat
  gMetallicRoughness : Nat
  gAO : Nat
  depthBuffer : Nat
  quadVAO : Nat
  quadVBO : Nat
deriving DecidableEq, Repr

/-- The constructor `DeferredRenderer(width, height)`. Its initialiser list zeroes seven
handles and leaves `quadVAO` and `quadVBO` uninitialised: their values are arguments. -/
def DeferredRenderer.construct (width height : Int) (quadVAO quadVBO : Nat) :
    DeferredRenderer :=
  ⟨width, height, 0, 0, 0, 0, 0, 0, 0, quadVAO, quadVBO⟩

/-- What OpenGL answers during one call of `initialize`: for each `glGen*` call the new name,
or `none` when the call fails, and whether the framebuffer is complete. -/
structure InitOracle where
  genFramebuffer : Option Nat
  genPosition : Option Nat
  genNormal : Option Nat
  genAlbedo : Option Nat
  genMetallicRoughness : Option Nat
  genAO : Option Nat
  genRenderbuffer : Option Nat
  complete : Bool
  genVertexArray : Option Nat
  genBuffer : Option Nat

/-- Modelled from the OpenGL specification: a `glGen*` call stores an unused name, which is
never 0, and a failing call leaves the variable as it was. -/
def glGen (old : Nat) (answer : Option Nat) : Nat :=
  match answer with
  | some name => name
  | none => old

/-- The names in the answers are names OpenGL can return: none of them is 0. -/
def InitOracle.WellFormed (o : InitOracle) : Prop :=
  o.genFramebuffer ≠ some 0 ∧ o.genPosition ≠ some 0 ∧ o.genNormal ≠ some 0 ∧
  o.genAlbedo ≠ some 0 ∧ o.genMetallicRoughness ≠ some 0 ∧ o.genAO ≠ some 0 ∧
  o.genRenderbuffer ≠ some 0 ∧ o.genVertexArray ≠ some 0 ∧ o.genBuffer ≠ some 0

/-- The method `DeferredRenderer::createScreenQuad`, as far as the handles go. -/
def DeferredRenderer.createScreenQuad (o : InitOracle) (r : DeferredRenderer) :
    DeferredRenderer :=
  { r with quadVAO := glGen r.quadVAO o.genVertexArray, quadVBO := glGen r.quadVBO o.genBuffer }

/-- The method `DeferredRenderer::initialize`, as far as the nine handles and the result go:
it returns false when `gBuffer` is 0 after `glGenFramebuffers`, and when the framebuffer is
not complete, in which case the quad is not created. -/
def DeferredRenderer.initialize (o : InitOracle) (r : DeferredRenderer) :
    Bool × DeferredRenderer :=
  let r := { r with gBuffer := glGen r.gBuffer o.genFramebuffer }
  if r.gBuffer = 0 then
    (false, r)
  else
    let r := { r with gPosition := glGen r.gPosition o.genPosition }
    let r := { r with gNormal := glGen r.gNormal o.genNormal }
    let r := { r with gAlbedo := glGen r.gAlbedo o.genAlbedo }
    let r := { r with gMetallicRoughness := glGen r.gMetallicRoughness o.genMetallicRoughness }
    let r := { r with gAO := glGen r.gAO o.genAO }
    let r := { r with depthBuffer := glGen r.depthBuffer o.genRenderbuffer }
    if !o.complete then
      (false, r)
    else
      (true, r.createScreenQuad o)

/-- The method `DeferredRenderer::cleanup`: the delete commands it issues, in order, and the
renderer afterwards. -/
def DeferredRenderer.cleanup (r : DeferredRenderer) : List (GLCommand Unit) × DeferredRenderer :=
  let (c1, r) :=
    if r.gBuffer ≠ 0 then
      ([GLCommand.deleteFramebuffers r.gBuffer, GLCommand.deleteTextures r.gPosition,
        GLCommand.deleteTextures r.gNormal, GLCommand.deleteTextures r.gAlbedo,
        GLCommand.deleteTextures r.gMetallicRoughness, GLCommand.deleteTextures r.gAO],
       { r with gBuffer := 0, gPosition := 0, gNormal := 0, gAlbedo := 0,
                gMetallicRoughness := 0, gAO := 0 })
    else ([], r)
  let (c2, r) :=
    if r.quadVAO ≠ 0 then ([GLCommand.deleteVertexArrays r.quadVAO], { r with quadVAO := 0 })
    else ([], r)
  let (c3, r) :=
    if r.quadVBO ≠ 0 then ([GLCommand.deleteBuffers r.quadVBO], { r with quadVBO := 0 })
    else ([], r)
  let (c4, r) :=
    if r.depthBuffer ≠ 0 then
      ([GLCommand.deleteRenderbuffers r.depthBuffer], { r with depthBuffer := 0 })
    else ([], r)
  (c1 ++ c2 ++ c3 ++ c4, r)

/-- The renderers reachable from the constructor by `initialize` calls, each with answers
OpenGL can give, and `cleanup` calls. -/
inductive DeferredRenderer.Reachable : DeferredRenderer → Prop
  | construct (width height : Int) (quadVAO quadVBO : Nat) :
      Reachable (DeferredRenderer.construct width height quadVAO quadVBO)
  | init (o : InitOracle) (r : DeferredRenderer) :
      o.WellFormed → Reachable r → Reachable ( DeferredRenderer.initialize o r).2
  | clean (r : DeferredRenderer) : Reachable r → Reachable r.cleanup.2

/-- All nine handles are 0. -/
def DeferredRenderer.AllZero (r : DeferredRenderer) : Prop :=
  r.gBuffer = 0 ∧ r.gPosition = 0 ∧ r.gNormal = 0 ∧ r.gAlbedo = 0 ∧
  r.gMetallicRoughness = 0 ∧ r.gAO = 0 ∧ r.depthBuffer = 0 ∧ r.quadVAO = 0 ∧ r.quadVBO = 0

/-- The five channel textures are 0 whenever `gBuffer` is 0: what `cleanup` relies on when
it deletes the textures only under `gBuffer != 0`. -/
def DeferredRenderer.TexturesFollowBuffer (r : DeferredRenderer) : Prop :=
  r.gBuffer = 0 →
    r.gPosition = 0 ∧ r.gNormal = 0 ∧ r.gAlbedo = 0 ∧ r.gMetallicRoughness = 0 ∧ r.gAO = 0

variable {α : Type} [LinearOrderedField α]

/-- The method `DeferredRenderer::bindGBuffer`. -/
def DeferredRenderer.bindGBuffer (r : DeferredRenderer) (s : GLState α) : GLState α :=
  let s := glBindFramebuffer r.gBuffer s
  let s := s.issue (GLCommand.viewport 0 0 r.width r.height)
  s.issue GLCommand.clear

/-- The method `DeferredRenderer::unbindGBuffer`. -/
def DeferredRenderer.unbindGBuffer (r : DeferredRenderer) (s : GLState α) : GLState α :=
  let s := glBindFramebuffer 0 s
  s.issue (GLCommand.viewport 0 0 r.width r.height)

/-- The mesh loop of `renderGeometryPass`, from index `i` on: the model matrix is
`modelMatrices[i]` when there is one and the identity otherwise. -/
def geometryLoop (geometryShader : Shader) (modelMatrices : List (Mat4 α)) :
    List PBRMesh → Nat → GLState α → GLState α
  | [], _, s => s
  | mesh :: rest, i, s =>
    let modelMatrix := modelMatrices.getD i Mat4.identity
    let s := geometryShader.setMat4 "model" modelMatrix s
    let s := mesh.drawPBR geometryShader s
    geometryLoop geometryShader modelMatrices rest (i + 1) s

/-- The loop `for (int i = 0; i < 4; i++)` at the end of `renderGeometryPass`, from `i` on
with `n` iterations left. -/
def unbindUnitsLoop : Nat → Nat → GLState α → GLState α
  | 0, _, s => s
  | n + 1, i, s => unbindUnitsLoop n (i + 1) (glBindTexture 0 (glActiveTexture i s))

/-- The method `DeferredRenderer::renderGeometryPass`. -/
def DeferredRenderer.renderGeometryPass (r : DeferredRenderer) (meshes : List PBRMesh)
    (modelMatrices : List (Mat4 α)) (geometryShader : Shader)
    (viewMatrix projectionMatrix : Mat4 α) (s : GLState α) : GLState α :=
  let s := r.bindGBuffer s
  let s := geometryShader.use s
  let s := geometryShader.setMat4 "view" viewMatrix s
  let s := geometryShader.setMat4 "projection" projectionMatrix s
  let s := geometryLoop geometryShader modelMatrices meshes 0 s
  let s := unbindUnitsLoop 4 0 s
  r.unbindGBuffer s

/-- The method `DeferredRenderer::renderLightingPass`. -/
def DeferredRenderer.renderLightingPass (r : DeferredRenderer) (lightingShader : Shader)
    (viewPos : Vec3 α) (s : GLState α) : GLState α :=
  let s := lightingShader.setVec3 "viewPos" viewPos s
  let s := glBindTexture r.gPosition (glActiveTexture 5 s)
  let s := lightingShader.setInt "gPosition" 5 s
  let s := glBindTexture r.gNormal (glActiveTexture 6 s)
  let s := lightingShader.setInt "gNormal" 6 s
  let s := glBindTexture r.gAlbedo (glActiveTexture 7 s)
  let s := lightingShader.setInt "gAlbedo" 7 s
  let s := glBindTexture r.gMetallicRoughness (glActiveTexture 8 s)
  let s := lightingShader.setInt "gMetallicRoughness" 8 s
  let s := glBindTexture r.gAO (glActiveTexture 9 s)
  let s := lightingShader.setInt "gAO" 9 s
  let s := s.issue GLCommand.getError
  let s := glBindVertexArray r.quadVAO s
  let s := s.issue (GLCommand.drawArrays 0 6)
  let s := glBindVertexArray 0 s
  s.issue GLCommand.getError

/-- The array `quadVertices` of `createScreenQuad`: six vertices of four floats each. -/
def quadVertices : List α :=
  [-1, 1, 0, 1,
   -1, -1, 0, 0,
   1, -1, 1, 0,
   -1, 1, 0, 1,
   1, -1, 1, 0,
   1, 1, 1, 1]

/-- Vertex attribute 0 of vertex `i`: two floats at offset 0, stride four floats. -/
def quadPosition (i : Nat) : α × α :=
  ((quadVertices : List α).getD (4 * i) 0, (quadVertices : List α).getD (4 * i + 1) 0)

/-- Vertex attribute 1 of vertex `i`: two floats at offset two floats, stride four floats. -/
def quadTexCoord (i : Nat) : α × α :=
  ((quadVertices : List α).getD (4 * i + 2) 0, (quadVertices : List α).getD (4 * i + 3) 0)

/-- The sampler-like `int` uniform a command sets, if it is a `glUniform1i`. -/
def GLCommand.intUniform : GLCommand α → Option (String × Int)
  | GLCommand.uniform1i _ name value => some (name, value)
  | _ => none

/-- The commands issued between the states `s` and `t`, `t` being reached from `s`. -/
def issuedBetween (s t : GLState α) : List (GLCommand α) :=
  t.commands.drop s.commands.length

/-- Is the command a draw call. -/
def GLCommand.isDraw : GLCommand α → Bool
  | GLCommand.drawElements _ => true
  | GLCommand.drawArrays _ _ => true
  | _ => false

end Renderer

/-! ## The one-stage box test of the specification -/

section OneStage

variable {α : Type} [LinearOrderedField α]

/-- The one-stage box test, written from the words of the specification and not from the
source: the box passes when there is no plane for which all corners have negative signed
distance. -/
def Frustum.oneStageTest (f : Frustum α) (bbox : BoundingBox α) : Bool :=
  !(f.planeList.any fun plane =>
      bbox.getCorners.all fun corner => decide (planeDistance plane corner < 0))

end OneStage

/-! ## Binary32 arithmetic -/

/-- A value of the C++ type `float` (IEEE 754 binary32): a finite number
`(-1)^neg * m * 2^e`, an infinity, or a NaN. Arithmetic results are kept in the form
`m < 2^24`, `-149 ≤ e ≤ 104`, with `2^23 ≤ m` unless `e = -149`, and zero as `m = 0`, `e = 0`. -/
inductive F32 where
  | fin (neg : Bool) (m : Nat) (e : Int)
  | inf (neg : Bool)
  | nan
deriving DecidableEq, Repr

namespace F32

/-- The number of binary digits of `n`, by halving at most `fuel` times. -/
def bitLength : Nat → Nat → Nat
  | 0, _ => 0
  | fuel + 1, n => if n = 0 then 0 else bitLength fuel (n / 2) + 1

/-- The last step of rounding: a carry out of the 24-bit significand, overflow to an
infinity, and the form of zero. -/
def pack (neg : Bool) (m : Nat) (e : Int) : F32 :=
  if m = 0 then fin neg 0 0
  else if m = 2 ^ 24 then (if e + 1 > 104 then inf neg else fin neg (2 ^ 23) (e + 1))
  else if e > 104 then inf neg
  else fin neg m e

/-- Rounding to nearest, ties to even: the binary32 value nearest to `m * 2^e`, or, when
`sticky` is set, to a number strictly between `m * 2^e` and `(m + 1) * 2^e`; in that case
`m` must have at least 26 binary digits. -/
def round (neg : Bool) (m : Nat) (e : Int) (sticky : Bool) : F32 :=
  if m = 0 then fin neg 0 0
  else
    let q : Int := max (e + (bitLength m m : Int) - 1 - 23) (-149)
    if q ≤ e then pack neg (m * 2 ^ (e - q).toNat) q
    else
      let shift := (q - e).toNat
      let quot := m / 2 ^ shift
      let rem := m % 2 ^ shift
      let half := 2 ^ (shift - 1)
      let up := decide (half < rem) || (decide (rem = half) && (sticky || decide (quot % 2 = 1)))
      pack neg (if up then quot + 1 else quot) q

/-- The binary32 value nearest to the integer multiple `n * 2^e` of a power of two. -/
def scaled (n : Int) (e : Int) : F32 := round (decide (n < 0)) n.natAbs e false

/-- The binary32 value nearest to an integer; an integer literal such as `3.0f`. -/
def ofInt (n : Int) : F32 := scaled n 0

/-- The integer `(-1)^neg * m`. -/
def signed (neg : Bool) (m : Nat) : Int := if neg then -(m : Int) else (m : Int)

/-- The unary minus. -/
def neg : F32 → F32
  | fin s m e => fin (!s) m e
  | inf s => inf (!s)
  | nan => nan

/-- The operator `+` on `float`. -/
def add : F32 → F32 → F32
  | nan, _ => nan
  | _, nan => nan
  | inf a, inf b => if a = b then inf a else nan
  | inf a, fin _ _ _ => inf a
  | fin _ _ _, inf b => inf b
  | fin s1 m1 e1, fin s2 m2 e2 =>
    let e := min e1 e2
    let s := signed s1 (m1 * 2 ^ (e1 - e).toNat) + signed s2 (m2 * 2 ^ (e2 - e).toNat)
    if s = 0 then fin (s1 && s2) 0 0
    else round (decide (s < 0)) s.natAbs e false

/-- The operator `-` on `float`. -/
def sub (a b : F32) : F32 := add a (neg b)

/-- The operator `*` on `float`. -/
def mul : F32 → F32 → F32
  | nan, _ => nan
  | _, nan => nan
  | inf a, inf b => inf (xor a b)
  | inf a, fin s m _ => if m = 0 then nan else inf (xor a s)
  | fin s m _, inf b => if m = 0 then nan else inf (xor s b)
  | fin s1 m1 e1, fin s2 m2 e2 =>
    if m1 = 0 ∨ m2 = 0 then fin (xor s1 s2) 0 0
    else round (xor s1 s2) (m1 * m2) (e1 + e2) false

/-- The operator `/` on `float`. The quotient of the significands is taken with 64 extra
binary digits, the remainder only says whether the quotient is exact. -/
def div : F32 → F32 → F32
  | nan, _ => nan
  | _, nan => nan
  | inf _, inf _ => nan
  | inf a, fin s _ _ => inf (xor a s)
  | fin s _ _, inf b => fin (xor s b) 0 0
  | fin s1 m1 e1, fin s2 m2 e2 =>
    if m2 = 0 then (if m1 = 0 then nan else inf (xor s1 s2))
    else if m1 = 0 then fin (xor s1 s2) 0 0
    else round (xor s1 s2) (m1 * 2 ^ 64 / m2) (e1 - e2 - 64)
      (decide (m1 * 2 ^ 64 % m2 ≠ 0))

/-- The integer square root, digit by digit from bit `k - 1` down. -/
def isqrtLoop : Nat → Nat → Nat → Nat
  | 0, _, r => r
  | k + 1, n, r => isqrtLoop k n (if (r + 2 ^ k) * (r + 2 ^ k) ≤ n then r + 2 ^ k else r)

/-- The integer square root: the largest `r` with `r * r ≤ n`. -/
def isqrt (n : Nat) : Nat := isqrtLoop (bitLength n n / 2 + 1) n 0

/-- The function `sqrt` on `float` (correctly rounded). -/
def sqrt : F32 → F32
  | nan => nan
  | inf s => if s then nan else inf false
  | fin s m e =>
    if m = 0 then fin s 0 0
    else if s then nan
    else
      let k : Nat := if (e - 64) % 2 = 0 then 64 else 65
      let r := isqrt (m * 2 ^ k)
      round false r ((e - (k : Int)) / 2) (decide (r * r ≠ m * 2 ^ k))

/-- The operator `<` on `float`: false when an operand is NaN. -/
def lt : F32 → F32 → Bool
  | nan, _ => false
  | _, nan => false
  | inf a, inf b => a && !b
  | inf a, fin _ _ _ => a
  | fin _ _ _, inf b => !b
  | fin s1 m1 e1, fin s2 m2 e2 =>
    decide (signed s1 (m1 * 2 ^ (e1 - min e1 e2).toNat) <
      signed s2 (m2 * 2 ^ (e2 - min e1 e2).toNat))

/-- The operator `<=` on `float`: false when an operand is NaN. -/
def le : F32 → F32 → Bool
  | nan, _ => false
  | _, nan => false
  | inf a, inf b => a || !b
  | inf a, fin _ _ _ => a
  | fin _ _ _, inf b => !b
  | fin s1 m1 e1, fin s2 m2 e2 =>
    decide (signed s1 (m1 * 2 ^ (e1 - min e1 e2).toNat) ≤
      signed s2 (m2 * 2 ^ (e2 - min e1 e2).toNat))

/-- The operator `>` on `float`. -/
def gt (a b : F32) : Bool := lt b a

/-- The operator `>=` on `float`. -/
def ge (a b : F32) : Bool := le b a

/-- The rational value of a finite `float`; 0 for the infinities and NaN. -/
def toRat : F32 → ℚ
  | fin s m e => (signed s m : ℚ) * (2 : ℚ) ^ e
  | _ => 0

end F32


/-! ## The frustum and box code over binary32

The same functions as above, with every `float` operation of the source carried out in
binary32: rounding to nearest, overflow to an infinity, NaN, and comparisons that are false
on NaN. -/

namespace Binary32

/-- The function `glm::dot` on `vec3`: the products are summed from the left. -/
def dot (a b : Vec3 F32) : F32 :=
  F32.add (F32.add (F32.mul a.x b.x) (F32.mul a.y b.y)) (F32.mul a.z b.z)

/-- The function `glm::length` on `vec3`. -/
def length (v : Vec3 F32) : F32 := F32.sqrt (dot v v)

/-- The function `glm::min` on scalars: `(y < x) ? y : x`. -/
def glmMin (x y : F32) : F32 := if F32.lt y x then y else x

/-- The function `glm::max` on scalars: `(x < y) ? y : x`. -/
def glmMax (x y : F32) : F32 := if F32.lt x y then y else x

/-- The operator `mat4 * vec4`, associated as GLM does. -/
def mulVec (m : Mat4 F32) (v : Vec4 F32) : Vec4 F32 :=
  ⟨F32.add (F32.add (F32.mul (m 0 0) v.x) (F32.mul (m 1 0) v.y))
      (F32.add (F32.mul (m 2 0) v.z) (F32.mul (m 3 0) v.w)),
   F32.add (F32.add (F32.mul (m 0 1) v.x) (F32.mul (m 1 1) v.y))
      (F32.add (F32.mul (m 2 1) v.z) (F32.mul (m 3 1) v.w)),
   F32.add (F32.add (F32.mul (m 0 2) v.x) (F32.mul (m 1 2) v.y))
      (F32.add (F32.mul (m 2 2) v.z) (F32.mul (m 3 2) v.w)),
   F32.add (F32.add (F32.mul (m 0 3) v.x) (F32.mul (m 1 3) v.y))
      (F32.add (F32.mul (m 2 3) v.z) (F32.mul (m 3 3) v.w))⟩

/-- The operator `mat4 * mat4`, associated as GLM does. -/
def matMul (a b : Mat4 F32) : Mat4 F32 :=
  fun c r => F32.add (F32.add (F32.add (F32.mul (a 0 r) (b c 0)) (F32.mul (a 1 r) (b c 1)))
    (F32.mul (a 2 r) (b c 2))) (F32.mul (a 3 r) (b c 3))

/-- The call `glm::mat4(1.0f)`. -/
def identity : Mat4 F32 := fun c r => if c = r then F32.ofInt 1 else F32.ofInt 0

/-- The function `glm::perspective`, with the `float` value of `tan(fovy / 2)` passed as
`tanHalfFovy`. -/
def perspective (tanHalfFovy aspect zNear zFar : F32) : Mat4 F32 :=
  fun c r =>
    if c = 0 ∧ r = 0 then F32.div (F32.ofInt 1) (F32.mul aspect tanHalfFovy)
    else if c = 1 ∧ r = 1 then F32.div (F32.ofInt 1) tanHalfFovy
    else if c = 2 ∧ r = 2 then F32.div (F32.neg (F32.add zFar zNear)) (F32.sub zFar zNear)
    else if c = 2 ∧ r = 3 then F32.neg (F32.ofInt 1)
    else if c = 3 ∧ r = 2 then
      F32.div (F32.neg (F32.mul (F32.mul (F32.ofInt 2) zFar) zNear)) (F32.sub zFar zNear)
    else F32.ofInt 0

/-- The expression `glm::dot(glm::vec3(plane), point) + plane.w`. -/
def planeDistance (plane : Vec4 F32) (point : Vec3 F32) : F32 :=
  F32.add (dot ⟨plane.x, plane.y, plane.z⟩ point) plane.w

/-- The six plane equations `extractPlanes` writes before normalising. -/
def rawPlanes (m : Mat4 F32) : Fin 6 → Vec4 F32 :=
  planeArray
    ⟨F32.add (m 0 3) (m 0 0), F32.add (m 1 3) (m 1 0), F32.add (m 2 3) (m 2 0),
      F32.add (m 3 3) (m 3 0)⟩
    ⟨F32.sub (m 0 3) (m 0 0), F32.sub (m 1 3) (m 1 0), F32.sub (m 2 3) (m 2 0),
      F32.sub (m 3 3) (m 3 0)⟩
    ⟨F32.add (m 0 3) (m 0 1), F32.add (m 1 3) (m 1 1), F32.add (m 2 3) (m 2 1),
      F32.add (m 3 3) (m 3 1)⟩
    ⟨F32.sub (m 0 3) (m 0 1), F32.sub (m 1 3) (m 1 1), F32.sub (m 2 3) (m 2 1),
      F32.sub (m 3 3) (m 3 1)⟩
    ⟨F32.add (m 0 3) (m 0 2), F32.add (m 1 3) (m 1 2), F32.add (m 2 3) (m 2 2),
      F32.add (m 3 3) (m 3 2)⟩
    ⟨F32.sub (m 0 3) (m 0 2), F32.sub (m 1 3) (m 1 2), F32.sub (m 2 3) (m 2 2),
      F32.sub (m 3 3) (m 3 2)⟩

/-- The method `Frustum::normalizePlane`. -/
def normalizePlane (plane : Vec4 F32) : Vec4 F32 :=
  let length := length ⟨plane.x, plane.y, plane.z⟩
  if F32.gt length (F32.ofInt 0) then
    ⟨F32.div plane.x length, F32.div plane.y length, F32.div plane.z length,
      F32.div plane.w length⟩
  else plane

/-- The method `Frustum::extractPlanes`. -/
def extractPlanes (viewProjection : Mat4 F32) : Frustum F32 :=
  ⟨fun k => normalizePlane (rawPlanes viewProjection k)⟩

/-- The six planes in the order a range-`for` over `planes` visits them. -/
def planeList (f : Frustum F32) : List (Vec4 F32) :=
  [f.planes 0, f.planes 1, f.planes 2, f.planes 3, f.planes 4, f.planes 5]

/-- The loop of `Frustum::isPointInside` over the remaining planes. -/
def isPointInsideLoop (point : Vec3 F32) : List (Vec4 F32) → Bool
  | [] => true
  | plane :: rest =>
    if F32.lt (planeDistance plane point) (F32.ofInt 0) then false
    else isPointInsideLoop point rest

/-- The method `Frustum::isPointInside`. -/
def isPointInside (f : Frustum F32) (point : Vec3 F32) : Bool :=
  isPointInsideLoop point (planeList f)

/-- The first loop of `isBoundingBoxInside`. -/
def anyCornerInside (f : Frustum F32) : List (Vec3 F32) → Bool
  | [] => false
  | corner :: rest => if isPointInside f corner then true else anyCornerInside f rest

/-- The inner loop of `isBoundingBoxInside`. -/
def allOutside (plane : Vec4 F32) : List (Vec3 F32) → Bool
  | [] => true
  | corner :: rest =>
    if F32.ge (planeDistance plane corner) (F32.ofInt 0) then false else allOutside plane rest

/-- The second loop of `isBoundingBoxInside`. -/
def noPlaneRejects (corners : List (Vec3 F32)) : List (Vec4 F32) → Bool
  | [] => true
  | plane :: rest => if allOutside plane corners then false else noPlaneRejects corners rest

/-- The method `BoundingBox::getCorners`. -/
def getCorners (b : BoundingBox F32) : List (Vec3 F32) :=
  if !b.valid then List.replicate 8 ⟨F32.ofInt 0, F32.ofInt 0, F32.ofInt 0⟩
  else
    [⟨b.min.x, b.min.y, b.min.z⟩,
     ⟨b.max.x, b.min.y, b.min.z⟩,
     ⟨b.max.x, b.max.y, b.min.z⟩,
     ⟨b.min.x, b.max.y, b.min.z⟩,
     ⟨b.min.x, b.min.y, b.max.z⟩,
     ⟨b.max.x, b.min.y, b.max.z⟩,
     ⟨b.max.x, b.max.y, b.max.z⟩,
     ⟨b.min.x, b.max.y, b.max.z⟩]

/-- The method `Frustum::isBoundingBoxInside`. -/
def isBoundingBoxInside (f : Frustum F32) (bbox : BoundingBox F32) : Bool :=
  let corners := getCorners bbox
  if anyCornerInside f corners then true else noPlaneRejects corners (planeList f)

/-- The loop of `Frustum::isSphereInside` over the remaining planes. -/
def isSphereInsideLoop (center : Vec3 F32) (radius : F32) : List (Vec4 F32) → Bool
  | [] => true
  | plane :: rest =>
    if F32.lt (planeDistance plane center) (F32.neg radius) then false
    else isSphereInsideLoop center radius rest

/-- The method `Frustum::isSphereInside`. -/
def isSphereInside (f : Frustum F32) (center : Vec3 F32) (radius : F32) : Bool :=
  isSphereInsideLoop center radius (planeList f)

/-- The static `BoundingBox::fromVertices`. -/
def fromVertices (vertices : List (Vec3 F32)) : BoundingBox F32 :=
  match vertices with
  | [] => ⟨⟨F32.ofInt 0, F32.ofInt 0, F32.ofInt 0⟩, ⟨F32.ofInt 0, F32.ofInt 0, F32.ofInt 0⟩,
      false⟩
  | v0 :: _ =>
    let acc := vertices.foldl
      (fun (acc : Vec3 F32 × Vec3 F32) vertex =>
        ((⟨glmMin acc.1.x vertex.x, glmMin acc.1.y vertex.y, glmMin acc.1.z vertex.z⟩ :
            Vec3 F32),
          (⟨glmMax acc.2.x vertex.x, glmMax acc.2.y vertex.y, glmMax acc.2.z vertex.z⟩ :
            Vec3 F32)))
      (v0, v0)
    ⟨acc.1, acc.2, true⟩

/-- The method `BoundingBox::getCenter`: `(min + max) * 0.5f`. -/
def getCenter (b : BoundingBox F32) : Vec3 F32 :=
  if !b.valid then ⟨F32.ofInt 0, F32.ofInt 0, F32.ofInt 0⟩
  else
    ⟨F32.mul (F32.add b.min.x b.max.x) (F32.scaled 1 (-1)),
      F32.mul (F32.add b.min.y b.max.y) (F32.scaled 1 (-1)),
      F32.mul (F32.add b.min.z b.max.z) (F32.scaled 1 (-1))⟩

/-- The method `BoundingBox::getSize`: `max - min`. -/
def getSize (b : BoundingBox F32) : Vec3 F32 :=
  if !b.valid then ⟨F32.ofInt 0, F32.ofInt 0, F32.ofInt 0⟩
  else ⟨F32.sub b.max.x b.min.x, F32.sub b.max.y b.min.y, F32.sub b.max.z b.min.z⟩

/-- The method `BoundingBox::expand(const glm::vec3& point)`. -/
def expand (b : BoundingBox F32) (point : Vec3 F32) : BoundingBox F32 :=
  if !b.valid then ⟨point, point, true⟩
  else
    ⟨⟨glmMin b.min.x point.x, glmMin b.min.y point.y, glmMin b.min.z point.z⟩,
      ⟨glmMax b.max.x point.x, glmMax b.max.y point.y, glmMax b.max.z point.z⟩, b.valid⟩

/-- The method `BoundingBox::transform`: every corner is multiplied by the matrix, divided
by its `w`, and added to an initially invalid `result` with `expand`. -/
def transform (b : BoundingBox F32) (matrix : Mat4 F32) : BoundingBox F32 :=
  if !b.valid then
    ⟨⟨F32.ofInt 0, F32.ofInt 0, F32.ofInt 0⟩, ⟨F32.ofInt 0, F32.ofInt 0, F32.ofInt 0⟩, false⟩
  else
    (getCorners b).foldl
      (fun result corner =>
        let transformed := mulVec matrix ⟨corner.x, corner.y, corner.z, F32.ofInt 1⟩
        expand result ⟨F32.div transformed.x transformed.w, F32.div transformed.y transformed.w,
          F32.div transformed.z transformed.w⟩)
      ⟨⟨F32.ofInt 0, F32.ofInt 0, F32.ofInt 0⟩, ⟨F32.ofInt 0, F32.ofInt 0, F32.ofInt 0⟩, false⟩

/-- The unit-size box centred at `c` of the specification's tests: `c - 0.5f` to
`c + 0.5f`. -/
def unitBoxAt (c : Vec3 F32) : BoundingBox F32 :=
  ⟨⟨F32.sub c.x (F32.scaled 1 (-1)), F32.sub c.y (F32.scaled 1 (-1)),
      F32.sub c.z (F32.scaled 1 (-1))⟩,
    ⟨F32.add c.x (F32.scaled 1 (-1)), F32.add c.y (F32.scaled 1 (-1)),
      F32.add c.z (F32.scaled 1 (-1))⟩, true⟩

end Binary32

/-! ## The public interface of `BoundingBox` over binary32 -/

/-- The test `!std::isnan(x)`. -/
def F32.isNumber : F32 → Bool
  | F32.nan => false
  | _ => true

/-- The test `std::isfinite(x)`. -/
def F32.isFinite : F32 → Bool
  | F32.fin _ _ _ => true
  | _ => false

/-- The test `x == 0.0f`. -/
def F32.isZero : F32 → Bool
  | F32.fin _ m _ => decide (m = 0)
  | _ => false

namespace Binary32

/-- The default constructor, as the value-initialisation `BoundingBox()`: zeroed `min` and
`max`, `valid = false`. -/
def default : BoundingBox F32 :=
  ⟨⟨F32.ofInt 0, F32.ofInt 0, F32.ofInt 0⟩, ⟨F32.ofInt 0, F32.ofInt 0, F32.ofInt 0⟩, false⟩

/-- The constructor `BoundingBox(min, max)`: stores both arguments and sets `valid`. -/
def ofMinMax (min max : Vec3 F32) : BoundingBox F32 := ⟨min, max, true⟩

/-- The method `BoundingBox::expand(const BoundingBox& other)`. -/
def expandBox (b other : BoundingBox F32) : BoundingBox F32 :=
  if !other.valid then b
  else if !b.valid then ⟨other.min, other.max, true⟩
  else
    ⟨⟨glmMin b.min.x other.min.x, glmMin b.min.y other.min.y, glmMin b.min.z other.min.z⟩,
      ⟨glmMax b.max.x other.max.x, glmMax b.max.y other.max.y, glmMax b.max.z other.max.z⟩,
      b.valid⟩

/-- No coordinate of the vector is a NaN. -/
def isNumber3 (v : Vec3 F32) : Bool := v.x.isNumber && v.y.isNumber && v.z.isNumber

/-- Every coordinate of the vector is finite. -/
def isFinite3 (v : Vec3 F32) : Bool := v.x.isFinite && v.y.isFinite && v.z.isFinite

/-- Every coefficient of the plane is finite. -/
def isFinite4 (v : Vec4 F32) : Bool :=
  v.x.isFinite && v.y.isFinite && v.z.isFinite && v.w.isFinite

/-- The property `min <= max` on each of the three axes, with the `float` comparison. -/
def Ordered (b : BoundingBox F32) : Prop :=
  F32.le b.min.x b.max.x = true ∧ F32.le b.min.y b.max.y = true ∧
  F32.le b.min.z b.max.z = true

/-- The clip coordinates `matrix * vec4(corner, 1.0f)` are finite and `w` is not zero. -/
def divisible (matrix : Mat4 F32) (corner : Vec3 F32) : Bool :=
  isFinite4 (mulVec matrix ⟨corner.x, corner.y, corner.z, F32.ofInt 1⟩) &&
  !(mulVec matrix ⟨corner.x, corner.y, corner.z, F32.ofInt 1⟩).w.isZero

/-- The binary32 boxes obtained through the public interface of `BoundingBox` with the
`(min, max)` constructor called on arguments with `min <= max` on each axis, no NaN among
the points passed to `fromVertices` and `expand`, and `transform` called with a matrix under
which every corner of the box has finite clip coordinates and `w != 0`. -/
inductive ReachableOrdered : BoundingBox F32 → Prop
  | default : ReachableOrdered Binary32.default
  | ofMinMax (min max : Vec3 F32) :
      F32.le min.x max.x = true → F32.le min.y max.y = true → F32.le min.z max.z = true →
      ReachableOrdered (Binary32.ofMinMax min max)
  | fromVertices (vertices : List (Vec3 F32)) :
      (∀ v ∈ vertices, isNumber3 v = true) → ReachableOrdered (Binary32.fromVertices vertices)
  | expand (b : BoundingBox F32) (point : Vec3 F32) :
      isNumber3 point = true → ReachableOrdered b → ReachableOrdered (Binary32.expand b point)
  | expandBox (b other : BoundingBox F32) :
      ReachableOrdered b → ReachableOrdered other →
      ReachableOrdered (Binary32.expandBox b other)
  | transform (b : BoundingBox F32) (matrix : Mat4 F32) :
      (∀ c ∈ getCorners b, divisible matrix c = true) →
      ReachableOrdered b → ReachableOrdered (Binary32.transform b matrix)

end Binary32

/-! ## Bounds on binary32 values -/

/-- A finite binary32 number with exponent at most `emax`: `m < 2^24` and
`-149 ≤ e ≤ emax`. With `emax = 104` these are all finite `float` values, with `emax = 103`
those of magnitude below `2^127`. -/
def F32.isFloat (emax : Int) : F32 → Bool
  | F32.fin _ m e => decide (m < 2 ^ 24) && decide (-149 ≤ e) && decide (e ≤ emax)
  | _ => false

/-- Every coordinate of the vector is a finite binary32 number with exponent at most
`emax`. -/
def Binary32.isFloat3 (emax : Int) (v : Vec3 F32) : Bool :=
  v.x.isFloat emax && v.y.isFloat emax && v.z.isFloat emax

/-- The value is `+inf` or a finite number that is at least `q`. -/
def F32.atLeast (q : ℚ) : F32 → Prop
  | F32.fin s m e => q ≤ F32.toRat (F32.fin s m e)
  | F32.inf s => s = false
  | F32.nan => False

/-- The value is `-inf` or a finite number that is at most `q`. -/
def F32.atMost (q : ℚ) : F32 → Prop
  | F32.fin s m e => F32.toRat (F32.fin s m e) ≤ q
  | F32.inf s => s = true
  | F32.nan => False

/-! ## Rounding tolerances -/

section Tolerance

variable {α : Type} [LinearOrderedField α]

/-- The sum of the magnitudes of the four terms of the clip coordinate `r` of `M * (p, 1)`:
the scale against which a rounding error of that coordinate is measured. -/
def absCoord (m : Mat4 α) (p : Vec3 α) (r : Fin 4) : α :=
  |m 0 r * p.x| + |m 1 r * p.y| + |m 2 r * p.z| + |m 3 r|

/-- A `float` of ordinary size: zero, or of magnitude between `2^-30` and `2^30`. -/
def Moderate (x : α) : Prop := x = 0 ∨ (1 / 2 ^ 30 ≤ |x| ∧ |x| ≤ 2 ^ 30)

/-- The sum of the magnitudes of the four terms of the signed distance of `v` to a plane: the
scale against which a rounding error of that distance is measured. -/
def planeAbs (plane : Vec4 α) (v : Vec3 α) : α :=
  |plane.x * v.x| + |plane.y * v.y| + |plane.z * v.z| + |plane.w|

end Tolerance

/-! ## Concrete inputs -/

/-- The frustum of the cube `[-1, 1]^3`: the planes `extractPlanes` yields for the identity
matrix, written out. Used as a concrete input. -/
def unitFrustum : Frustum ℚ :=
  ⟨planeArray ⟨1, 0, 0, 1⟩ ⟨-1, 0, 0, 1⟩ ⟨0, 1, 0, 1⟩ ⟨0, -1, 0, 1⟩ ⟨0, 0, 1, 1⟩ ⟨0, 0, -1, 1⟩⟩

/-- The unit cube `[0, 1]^3` as a valid box. Used as a concrete input. -/
def sampleBox : BoundingBox ℚ := BoundingBox.ofMinMax ⟨0, 0, 0⟩ ⟨1, 1, 1⟩

/-- A model matrix built the way `main` builds them: translation by `(1, 0, -2)`, then
scale by 3. Used as a concrete input. -/
def sampleTransform : Mat4 ℚ := scale (translate Mat4.identity ⟨1, 0, -2⟩) ⟨3, 3, 3⟩

/-- The valid box that `BoundingBox((1,0,0), (0,0,0))` constructs, with `min.x > max.x`.
Used as a concrete input. -/
def swappedBox : BoundingBox ℚ := BoundingBox.ofMinMax ⟨1, 0, 0⟩ ⟨0, 0, 0⟩

/-- The identity matrix with `m[0][0] = 2^e`, in binary32. Used as a concrete input. -/
def scaleX32 (e : Int) : Mat4 F32 :=
  fun c r => if c = r then (if c = 0 then F32.scaled 1 e else F32.ofInt 1) else F32.ofInt 0

/-- The binary32 matrix with the columns `(3,0,0,0)`, `(4,0,0,0)`, `(0,0,0,0)`, `(2,0,0,1)`:
its LEFT row combination is `(3, 4, 0, 3)`. Used as a concrete input. -/
def slantMatrix : Mat4 F32 :=
  fun c r =>
    if r = 0 then
      (if c = 0 then F32.ofInt 3 else if c = 1 then F32.ofInt 4
        else if c = 2 then F32.ofInt 0 else F32.ofInt 2)
    else if c = 3 ∧ r = 3 then F32.ofInt 1
    else F32.ofInt 0

/-- The binary32 matrix with the columns `(1,0,0,0)`, `(2,0,0,0)`, `(2,0,0,0)`,
`(-0.25,0,0,1)`: its LEFT row combination is `(1, 2, 2, 0.75)`. Used as a concrete input. -/
def thirdsMatrix : Mat4 F32 :=
  fun c r =>
    if r = 0 then
      (if c = 0 then F32.ofInt 1 else if c = 1 then F32.ofInt 2
        else if c = 2 then F32.ofInt 2 else F32.scaled (-1) (-2))
    else if c = 3 ∧ r = 3 then F32.ofInt 1
    else F32.ofInt 0

/-- The binary32 matrix that is the identity except for the last row `(0, 0, -1, 0)`, so
that `w = -z`. Used as a concrete input. -/
def projectiveMatrix : Mat4 F32 :=
  fun c r =>
    if r = 3 then (if c = 2 then F32.ofInt (-1) else F32.ofInt 0)
    else if c = r then F32.ofInt 1
    else F32.ofInt 0

/-- The binary32 frustum of a perspective projection with the identity view matrix:
`extractPlanes(perspective(...) * mat4(1.0f))`. Used as a concrete input. -/
def originFrustum32 (tanHalfFovy aspect zNear zFar : F32) : Frustum F32 :=
  Binary32.extractPlanes
    (Binary32.matMul (Binary32.perspective tanHalfFovy aspect zNear zFar) Binary32.identity)

/-- The binary32 frustum of the projection of `main`,
`glm::perspective(glm::radians(45.0f), 800.0f / 600.0f, 0.1f, 100.0f)`, with the identity
view matrix; `tan(fovy / 2)` is the `float` 0.41421357. Used as a concrete input. -/
def mainFrustum32 : Frustum F32 :=
  originFrustum32 (F32.scaled 13898701 (-25)) (F32.div (F32.ofInt 800) (F32.ofInt 600))
    (F32.scaled 13421773 (-27)) (F32.ofInt 100)

/-! ## Auxiliary facts about the loops -/

section Lemmas

set_option linter.unusedSectionVars false

variable {α : Type} [LinearOrderedField α]

@[simp] lemma planeArray_zero (p0 p1 p2 p3 p4 p5 : Vec4 α) :
    planeArray p0 p1 p2 p3 p4 p5 0 = p0 := rfl

@[simp] lemma planeArray_one (p0 p1 p2 p3 p4 p5 : Vec4 α) :
    planeArray p0 p1 p2 p3 p4 p5 1 = p1 := rfl

@[simp] lemma planeArray_two (p0 p1 p2 p3 p4 p5 : Vec4 α) :
    planeArray p0 p1 p2 p3 p4 p5 2 = p2 := rfl

@[simp] lemma planeArray_three (p0 p1 p2 p3 p4 p5 : Vec4 α) :
    planeArray p0 p1 p2 p3 p4 p5 3 = p3 := rfl

@[simp] lemma planeArray_four (p0 p1 p2 p3 p4 p5 : Vec4 α) :
    planeArray p0 p1 p2 p3 p4 p5 4 = p4 := rfl

@[simp] lemma planeArray_five (p0 p1 p2 p3 p4 p5 : Vec4 α) :
    planeArray p0 p1 p2 p3 p4 p5 5 = p5 := rfl

lemma forall_fin_six (P : Fin 6 → Prop) :
    (∀ k : Fin 6, P k) ↔ P 0 ∧ P 1 ∧ P 2 ∧ P 3 ∧ P 4 ∧ P 5 := by
  constructor
  · intro h
    exact ⟨h 0, h 1, h 2, h 3, h 4, h 5⟩
  · rintro ⟨h0, h1, h2, h3, h4, h5⟩ k
    fin_cases k
    exacts [h0, h1, h2, h3, h4, h5]

lemma glmMin_eq_min (x y : α) : glmMin x y = min x y := by
  unfold glmMin
  split_ifs with h
  · exact (min_eq_right h.le).symm
  · exact (min_eq_left (not_lt.mp h)).symm

lemma glmMax_eq_max (x y : α) : glmMax x y = max x y := by
  unfold glmMax
  split_ifs with h
  · exact (max_eq_right h.le).symm
  · exact (max_eq_left (not_lt.mp h)).symm

lemma Frustum.mem_planeList (f : Frustum α) (plane : Vec4 α) :
    plane ∈ f.planeList ↔ ∃ k : Fin 6, f.planes k = plane := by
  constructor
  · intro h
    simp only [Frustum.planeList, List.mem_cons, List.mem_singleton, List.not_mem_nil,
      or_false] at h
    rcases h with h | h | h | h | h | h
    exacts [⟨0, h.symm⟩, ⟨1, h.symm⟩, ⟨2, h.symm⟩, ⟨3, h.symm⟩, ⟨4, h.symm⟩, ⟨5, h.symm⟩]
  · rintro ⟨k, rfl⟩
    fin_cases k <;> simp [Frustum.planeList]

lemma Frustum.forall_planeList (f : Frustum α) (P : Vec4 α → Prop) :
    (∀ plane ∈ f.planeList, P plane) ↔ ∀ k : Fin 6, P (f.planes k) := by
  constructor
  · intro h k
    exact h _ ((f.mem_planeList _).mpr ⟨k, rfl⟩)
  · intro h plane hp
    obtain ⟨k, rfl⟩ := (f.mem_planeList _).mp hp
    exact h k

lemma Frustum.isPointInsideLoop_iff (point : Vec3 α) (l : List (Vec4 α)) :
    Frustum.isPointInsideLoop point l = true ↔ ∀ plane ∈ l, 0 ≤ planeDistance plane point := by
  induction l with
  | nil => simp [Frustum.isPointInsideLoop]
  | cons plane rest ih =>
    unfold Frustum.isPointInsideLoop
    split_ifs with h
    · simp only [Bool.false_eq_true, List.mem_cons, forall_eq_or_imp, false_iff, not_and]
      intro h0
      exact absurd h0 (not_le.mpr h)
    · simp only [List.mem_cons, forall_eq_or_imp, ih, not_lt.mp h, true_and]

lemma Frustum.isSphereInsideLoop_iff (center : Vec3 α) (radius : α) (l : List (Vec4 α)) :
    Frustum.isSphereInsideLoop center radius l = true ↔
      ∀ plane ∈ l, -radius ≤ planeDistance plane center := by
  induction l with
  | nil => simp [Frustum.isSphereInsideLoop]
  | cons plane rest ih =>
    unfold Frustum.isSphereInsideLoop
    simp only
    split_ifs with h
    · simp only [Bool.false_eq_true, List.mem_cons, forall_eq_or_imp, false_iff, not_and]
      intro h0
      exact absurd h0 (not_le.mpr h)
    · simp only [List.mem_cons, forall_eq_or_imp, ih, not_lt.mp h, true_and]

lemma Frustum.anyCornerInside_iff (f : Frustum α) (l : List (Vec3 α)) :
    Frustum.anyCornerInside f l = true ↔ ∃ corner ∈ l, f.isPointInside corner = true := by
  induction l with
  | nil => simp [Frustum.anyCornerInside]
  | cons corner rest ih =>
    unfold Frustum.anyCornerInside
    split_ifs with h
    · simp [h]
    · simp [h, ih]

lemma Frustum.allOutside_iff (plane : Vec4 α) (l : List (Vec3 α)) :
    Frustum.allOutside plane l = true ↔ ∀ corner ∈ l, planeDistance plane corner < 0 := by
  induction l with
  | nil => simp [Frustum.allOutside]
  | cons corner rest ih =>
    unfold Frustum.allOutside
    split_ifs with h
    · simp only [Bool.false_eq_true, List.mem_cons, forall_eq_or_imp, false_iff, not_and]
      intro h0
      exact absurd h0 (not_lt.mpr h)
    · simp only [List.mem_cons, forall_eq_or_imp, ih, not_le.mp h, true_and]

lemma Frustum.noPlaneRejects_iff (corners : List (Vec3 α)) (l : List (Vec4 α)) :
    Frustum.noPlaneRejects corners l = true ↔
      ∀ plane ∈ l, ¬ ∀ corner ∈ corners, planeDistance plane corner < 0 := by
  induction l with
  | nil => simp [Frustum.noPlaneRejects]
  | cons plane rest ih =>
    unfold Frustum.noPlaneRejects
    split_ifs with h
    · simp only [Bool.false_eq_true, List.mem_cons, forall_eq_or_imp, false_iff, not_and]
      intro h0
      exact absurd ((Frustum.allOutside_iff plane corners).mp h) h0
    · rw [Frustum.allOutside_iff] at h
      simp only [List.mem_cons, forall_eq_or_imp, ih, h, not_false_eq_true, true_and]

lemma Frustum.isPointInside_iff (f : Frustum α) (point : Vec3 α) :
    f.isPointInside point = true ↔ ∀ k : Fin 6, 0 ≤ planeDistance (f.planes k) point := by
  unfold Frustum.isPointInside
  rw [Frustum.isPointInsideLoop_iff, Frustum.forall_planeList]

lemma Frustum.isBoundingBoxInside_iff (f : Frustum α) (bbox : BoundingBox α) :
    f.isBoundingBoxInside bbox = true ↔
      (∃ corner ∈ bbox.getCorners, f.isPointInside corner = true) ∨
      ∀ k : Fin 6, ¬ ∀ corner ∈ bbox.getCorners, planeDistance (f.planes k) corner < 0 := by
  unfold Frustum.isBoundingBoxInside
  simp only
  split_ifs with h
  · simp only [true_iff]
    exact Or.inl ((Frustum.anyCornerInside_iff f _).mp h)
  · rw [Frustum.noPlaneRejects_iff, Frustum.forall_planeList]
    rw [Frustum.anyCornerInside_iff] at h
    simp only [h, false_or]

lemma Frustum.getDistanceToPlane_fin (f : Frustum α) (point : Vec3 α) (k : Fin 6) :
    f.getDistanceToPlane point (k.val : Int) = planeDistance (f.planes k) point := by
  unfold Frustum.getDistanceToPlane
  have hk : ((k.val : Int) ≥ 0 ∧ (k.val : Int) < 6) := ⟨by omega, by omega⟩
  rw [dif_pos hk]
  simp

lemma mul_le_mul_pick (a lo hi x : α) (h1 : lo ≤ x) (h2 : x ≤ hi) :
    a * x ≤ a * (if 0 ≤ a then hi else lo) := by
  split_ifs with h
  · exact mul_le_mul_of_nonneg_left h2 h
  · exact mul_le_mul_of_nonpos_left h1 (not_le.mp h).le

lemma BoundingBox.pick_mem_getCorners (b : BoundingBox α) (hv : b.valid = true)
    (sx sy sz : Prop) [Decidable sx] [Decidable sy] [Decidable sz] :
    (⟨if sx then b.max.x else b.min.x, if sy then b.max.y else b.min.y,
      if sz then b.max.z else b.min.z⟩ : Vec3 α) ∈ b.getCorners := by
  unfold BoundingBox.getCorners
  rw [hv]
  by_cases hx : sx <;> by_cases hy : sy <;> by_cases hz : sz <;> simp [hx, hy, hz]

/-- For every plane, some corner of a valid, ordered box is at least as far on the positive
side as any given point of the box. -/
lemma BoundingBox.exists_corner_ge (b : BoundingBox α) (hv : b.valid = true)
    (plane : Vec4 α) (p : Vec3 α)
    (hx : b.min.x ≤ p.x ∧ p.x ≤ b.max.x) (hy : b.min.y ≤ p.y ∧ p.y ≤ b.max.y)
    (hz : b.min.z ≤ p.z ∧ p.z ≤ b.max.z) :
    ∃ corner ∈ b.getCorners, planeDistance plane p ≤ planeDistance plane corner := by
  refine ⟨_, b.pick_mem_getCorners hv (0 ≤ plane.x) (0 ≤ plane.y) (0 ≤ plane.z), ?_⟩
  have h1 := mul_le_mul_pick plane.x _ _ _ hx.1 hx.2
  have h2 := mul_le_mul_pick plane.y _ _ _ hy.1 hy.2
  have h3 := mul_le_mul_pick plane.z _ _ _ hz.1 hz.2
  simp only [planeDistance, dot, Vec4.xyz]
  linarith

lemma Frustum.rawPlanes_eq_specPlanes (m : Mat4 α) (k : Fin 6) :
    Frustum.rawPlanes m k = specPlanes m k := by
  fin_cases k <;> rfl

/-- The method `normalizePlane` multiplies all four coefficients by one positive factor. -/
lemma Frustum.normalizePlane_eq_scale (sqrt : α → α) (plane : Vec4 α) :
    ∃ s : α, 0 < s ∧ Frustum.normalizePlane sqrt plane = Vec4.scale s plane := by
  unfold Frustum.normalizePlane
  simp only
  split_ifs with h
  · refine ⟨(length sqrt ⟨plane.x, plane.y, plane.z⟩)⁻¹, inv_pos.mpr h, ?_⟩
    simp only [Vec4.divScalar, Vec4.scale, div_eq_inv_mul]
  · exact ⟨1, one_pos, by simp [Vec4.scale]⟩

lemma planeDistance_scale (s : α) (plane : Vec4 α) (p : Vec3 α) :
    planeDistance (Vec4.scale s plane) p = s * planeDistance plane p := by
  simp only [planeDistance, dot, Vec4.xyz, Vec4.scale]
  ring

/-- Normalising a plane never changes the sign of a signed distance. -/
lemma Frustum.planeDistance_normalizePlane_nonneg (sqrt : α → α) (plane : Vec4 α)
    (p : Vec3 α) :
    0 ≤ planeDistance (Frustum.normalizePlane sqrt plane) p ↔ 0 ≤ planeDistance plane p := by
  obtain ⟨s, hs, he⟩ := Frustum.normalizePlane_eq_scale sqrt plane
  rw [he, planeDistance_scale]
  exact mul_nonneg_iff_of_pos_left hs

/-- What the loop of `fromVertices` computes along one axis `g`: lower and upper bounds of
the start values and of every vertex, each attained. -/
lemma foldl_minmax_spec (g : Vec3 α → α)
    (hmin : ∀ a b, g (Vec3.min a b) = min (g a) (g b))
    (hmax : ∀ a b, g (Vec3.max a b) = max (g a) (g b))
    (l : List (Vec3 α)) : ∀ init : Vec3 α × Vec3 α,
    (g (l.foldl (fun (acc : Vec3 α × Vec3 α) vertex =>
          (Vec3.min acc.1 vertex, Vec3.max acc.2 vertex)) init).1 ≤ g init.1 ∧
      (∀ v ∈ l, g (l.foldl (fun (acc : Vec3 α × Vec3 α) vertex =>
          (Vec3.min acc.1 vertex, Vec3.max acc.2 vertex)) init).1 ≤ g v) ∧
      (g (l.foldl (fun (acc : Vec3 α × Vec3 α) vertex =>
          (Vec3.min acc.1 vertex, Vec3.max acc.2 vertex)) init).1 = g init.1 ∨
        ∃ v ∈ l, g v = g (l.foldl (fun (acc : Vec3 α × Vec3 α) vertex =>
          (Vec3.min acc.1 vertex, Vec3.max acc.2 vertex)) init).1)) ∧
    (g init.2 ≤ g (l.foldl (fun (acc : Vec3 α × Vec3 α) vertex =>
          (Vec3.min acc.1 vertex, Vec3.max acc.2 vertex)) init).2 ∧
      (∀ v ∈ l, g v ≤ g (l.foldl (fun (acc : Vec3 α × Vec3 α) vertex =>
          (Vec3.min acc.1 vertex, Vec3.max acc.2 vertex)) init).2) ∧
      (g (l.foldl (fun (acc : Vec3 α × Vec3 α) vertex =>
          (Vec3.min acc.1 vertex, Vec3.max acc.2 vertex)) init).2 = g init.2 ∨
        ∃ v ∈ l, g v = g (l.foldl (fun (acc : Vec3 α × Vec3 α) vertex =>
          (Vec3.min acc.1 vertex, Vec3.max acc.2 vertex)) init).2)) := by
  induction l with
  | nil => intro init; simp
  | cons a t ih =>
    intro init
    simp only [List.foldl_cons, List.mem_cons, forall_eq_or_imp, exists_eq_or_imp]
    obtain ⟨⟨h1, h2, h3⟩, ⟨h4, h5, h6⟩⟩ := ih (Vec3.min init.1 a, Vec3.max init.2 a)
    simp only [hmin, hmax] at h1 h3 h4 h6
    refine ⟨⟨h1.trans (min_le_left _ _), ⟨h1.trans (min_le_right _ _), h2⟩, ?_⟩,
      ⟨(le_max_left _ _).trans h4, ⟨(le_max_right _ _).trans h4, h5⟩, ?_⟩⟩
    · rcases h3 with h3 | ⟨v, hv, hv2⟩
      · rcases min_choice (g init.1) (g a) with hc | hc
        · exact Or.inl (h3.trans hc)
        · exact Or.inr (Or.inl (h3.trans hc).symm)
      · exact Or.inr (Or.inr ⟨v, hv, hv2⟩)
    · rcases h6 with h6 | ⟨v, hv, hv2⟩
      · rcases max_choice (g init.2) (g a) with hc | hc
        · exact Or.inl (h6.trans hc)
        · exact Or.inr (Or.inl (h6.trans hc).symm)
      · exact Or.inr (Or.inr ⟨v, hv, hv2⟩)

/-- Along one axis `g`, `fromVertices` of a non-empty list yields the minimum and the
maximum of the list. -/
lemma fromVertices_axis (g : Vec3 α → α)
    (hmin : ∀ a b, g (Vec3.min a b) = min (g a) (g b))
    (hmax : ∀ a b, g (Vec3.max a b) = max (g a) (g b))
    (vs : List (Vec3 α)) (hne : vs ≠ []) :
    ((∀ v ∈ vs, g (BoundingBox.fromVertices vs).min ≤ g v) ∧
      ∃ v ∈ vs, g v = g (BoundingBox.fromVertices vs).min) ∧
    ((∀ v ∈ vs, g v ≤ g (BoundingBox.fromVertices vs).max) ∧
      ∃ v ∈ vs, g v = g (BoundingBox.fromVertices vs).max) := by
  cases vs with
  | nil => exact absurd rfl hne
  | cons v0 t =>
    obtain ⟨⟨_, h2, h3⟩, ⟨_, h5, h6⟩⟩ :=
      foldl_minmax_spec g hmin hmax (v0 :: t) (v0, v0)
    simp only [BoundingBox.fromVertices, BoundingBox.ofMinMax]
    refine ⟨⟨h2, ?_⟩, ⟨h5, ?_⟩⟩
    · rcases h3 with h3 | h3
      · exact ⟨v0, List.mem_cons_self _ _, h3.symm⟩
      · exact h3
    · rcases h6 with h6 | h6
      · exact ⟨v0, List.mem_cons_self _ _, h6.symm⟩
      · exact h6

lemma BoundingBox.fromVertices_valid (vs : List (Vec3 α)) (hne : vs ≠ []) :
    (BoundingBox.fromVertices vs).valid = true := by
  cases vs with
  | nil => exact absurd rfl hne
  | cons v0 t => rfl

lemma vec3_min_x (a b : Vec3 α) : (Vec3.min a b).x = min a.x b.x := glmMin_eq_min _ _
lemma vec3_min_y (a b : Vec3 α) : (Vec3.min a b).y = min a.y b.y := glmMin_eq_min _ _
lemma vec3_min_z (a b : Vec3 α) : (Vec3.min a b).z = min a.z b.z := glmMin_eq_min _ _
lemma vec3_max_x (a b : Vec3 α) : (Vec3.max a b).x = max a.x b.x := glmMax_eq_max _ _
lemma vec3_max_y (a b : Vec3 α) : (Vec3.max a b).y = max a.y b.y := glmMax_eq_max _ _
lemma vec3_max_z (a b : Vec3 α) : (Vec3.max a b).z = max a.z b.z := glmMax_eq_max _ _

lemma glmMin_le_left (x y : α) : glmMin x y ≤ x := by
  rw [glmMin_eq_min]; exact min_le_left _ _

lemma glmMin_le_right (x y : α) : glmMin x y ≤ y := by
  rw [glmMin_eq_min]; exact min_le_right _ _

lemma le_glmMax_left (x y : α) : x ≤ glmMax x y := by
  rw [glmMax_eq_max]; exact le_max_left _ _

lemma le_glmMax_right (x y : α) : y ≤ glmMax x y := by
  rw [glmMax_eq_max]; exact le_max_right _ _

/-- After `expand(point)` the box is valid and ordered, whatever the point, provided the
receiver was ordered if it was valid. -/
lemma expand_valid_ordered (b : BoundingBox α) (point : Vec3 α)
    (h : b.valid = true → b.Ordered) :
    (b.expand point).valid = true ∧ (b.expand point).Ordered := by
  unfold BoundingBox.expand
  cases hv : b.valid with
  | false => exact ⟨rfl, le_refl _, le_refl _, le_refl _⟩
  | true =>
    obtain ⟨hx, hy, hz⟩ := h hv
    refine ⟨rfl, ?_, ?_, ?_⟩
    · exact (glmMin_le_left _ _).trans (hx.trans (le_glmMax_left _ _))
    · exact (glmMin_le_left _ _).trans (hy.trans (le_glmMax_left _ _))
    · exact (glmMin_le_left _ _).trans (hz.trans (le_glmMax_left _ _))

lemma expandBox_ordered (b other : BoundingBox α)
    (hb : b.valid = true → b.Ordered) (ho : other.valid = true → other.Ordered) :
    (b.expandBox other).valid = true → (b.expandBox other).Ordered := by
  unfold BoundingBox.expandBox
  cases hvo : other.valid with
  | false => exact hb
  | true =>
    cases hv : b.valid with
    | false => exact fun _ => ho hvo
    | true =>
      intro _
      obtain ⟨hx, hy, hz⟩ := hb hv
      refine ⟨?_, ?_, ?_⟩
      · exact (glmMin_le_left _ _).trans (hx.trans (le_glmMax_left _ _))
      · exact (glmMin_le_left _ _).trans (hy.trans (le_glmMax_left _ _))
      · exact (glmMin_le_left _ _).trans (hz.trans (le_glmMax_left _ _))

lemma foldl_expand_ordered (g : Vec3 α → Vec3 α) (l : List (Vec3 α)) :
    ∀ b : BoundingBox α, (b.valid = true → b.Ordered) →
      (l.foldl (fun result corner => result.expand (g corner)) b).valid = true →
      (l.foldl (fun result corner => result.expand (g corner)) b).Ordered := by
  induction l with
  | nil => intro b h; exact h
  | cons a t ih =>
    intro b h
    rw [List.foldl_cons]
    exact ih _ (fun _ => (expand_valid_ordered b (g a) h).2)

lemma transform_ordered (b : BoundingBox α) (matrix : Mat4 α) :
    (b.transform matrix).valid = true → (b.transform matrix).Ordered := by
  unfold BoundingBox.transform
  cases hv : b.valid with
  | true =>
    exact foldl_expand_ordered
      (fun corner => (matrix.mulVec (Vec4.ofVec3 corner 1)).xyz.divScalar
        (matrix.mulVec (Vec4.ofVec3 corner 1)).w)
      b.getCorners BoundingBox.default (fun h => absurd h (by simp [BoundingBox.default]))
  | false =>
    intro h
    exact absurd h (by simp [BoundingBox.default])

lemma fromVertices_ordered (vs : List (Vec3 α)) :
    (BoundingBox.fromVertices vs).valid = true → (BoundingBox.fromVertices vs).Ordered := by
  cases vs with
  | nil =>
    intro h
    exact absurd h (by simp [BoundingBox.fromVertices, BoundingBox.default])
  | cons v0 t =>
    intro _
    have hne : v0 :: t ≠ [] := List.cons_ne_nil _ _
    have hm : v0 ∈ v0 :: t := List.mem_cons_self _ _
    obtain ⟨⟨x1, _⟩, ⟨x3, _⟩⟩ := fromVertices_axis Vec3.x vec3_min_x vec3_max_x _ hne
    obtain ⟨⟨y1, _⟩, ⟨y3, _⟩⟩ := fromVertices_axis Vec3.y vec3_min_y vec3_max_y _ hne
    obtain ⟨⟨z1, _⟩, ⟨z3, _⟩⟩ := fromVertices_axis Vec3.z vec3_min_z vec3_max_z _ hne
    exact ⟨(x1 v0 hm).trans (x3 v0 hm), (y1 v0 hm).trans (y3 v0 hm),
      (z1 v0 hm).trans (z3 v0 hm)⟩

lemma expand_valid (b : BoundingBox α) (point : Vec3 α) : (b.expand point).valid = true := by
  unfold BoundingBox.expand
  cases b.valid <;> rfl

lemma expand_contains_self (b : BoundingBox α) (point : Vec3 α) :
    (b.expand point).Contains point := by
  unfold BoundingBox.expand BoundingBox.Contains
  cases b.valid with
  | false => simp
  | true =>
    exact ⟨⟨glmMin_le_right _ _, le_glmMax_right _ _⟩, ⟨glmMin_le_right _ _, le_glmMax_right _ _⟩,
      ⟨glmMin_le_right _ _, le_glmMax_right _ _⟩⟩

lemma expand_contains_of_contains (b : BoundingBox α) (point q : Vec3 α)
    (hv : b.valid = true) (h : b.Contains q) : (b.expand point).Contains q := by
  obtain ⟨⟨x1, x2⟩, ⟨y1, y2⟩, ⟨z1, z2⟩⟩ := h
  unfold BoundingBox.expand BoundingBox.Contains
  rw [hv]
  exact ⟨⟨(glmMin_le_left _ _).trans x1, x2.trans (le_glmMax_left _ _)⟩,
    ⟨(glmMin_le_left _ _).trans y1, y2.trans (le_glmMax_left _ _)⟩,
    ⟨(glmMin_le_left _ _).trans z1, z2.trans (le_glmMax_left _ _)⟩⟩

/-- A run of `expand` calls keeps what a valid box contained and adds every point of the
run; after a non-empty run the box is valid. -/
lemma foldl_expand_contains (g : Vec3 α → Vec3 α) (l : List (Vec3 α)) :
    ∀ b : BoundingBox α,
      (∀ q, b.valid = true → b.Contains q →
        (l.foldl (fun result corner => result.expand (g corner)) b).Contains q) ∧
      (∀ c ∈ l, (l.foldl (fun result corner => result.expand (g corner)) b).Contains (g c)) ∧
      (l ≠ [] → (l.foldl (fun result corner => result.expand (g corner)) b).valid = true) ∧
      (b.valid = true →
        (l.foldl (fun result corner => result.expand (g corner)) b).valid = true) := by
  induction l with
  | nil =>
    intro b
    exact ⟨fun q _ h => h, fun c hc => absurd hc (List.not_mem_nil c),
      fun h => absurd rfl h, fun h => h⟩
  | cons a t ih =>
    intro b
    obtain ⟨h1, h2, _, h4⟩ := ih (b.expand (g a))
    have hva : (b.expand (g a)).valid = true := expand_valid b (g a)
    simp only [List.foldl_cons]
    refine ⟨fun q hv hq => h1 q hva (expand_contains_of_contains b (g a) q hv hq), ?_,
      fun _ => h4 hva, fun _ => h4 hva⟩
    intro c hc
    rcases List.mem_cons.mp hc with rfl | hc
    · exact h1 _ hva (expand_contains_self b (g c))
    · exact h2 c hc

/-- After `transform` of a valid box the result is valid and contains the image of every
corner. -/
lemma transform_contains_corner (b : BoundingBox α) (matrix : Mat4 α) (hv : b.valid = true) :
    (b.transform matrix).valid = true ∧
    ∀ c ∈ b.getCorners, (b.transform matrix).Contains
      ((matrix.mulVec (Vec4.ofVec3 c 1)).xyz.divScalar (matrix.mulVec (Vec4.ofVec3 c 1)).w) := by
  have hne : b.getCorners ≠ [] := by
    unfold BoundingBox.getCorners
    rw [hv]
    simp
  obtain ⟨_, h2, h3, _⟩ := foldl_expand_contains
    (fun corner => (matrix.mulVec (Vec4.ofVec3 corner 1)).xyz.divScalar
      (matrix.mulVec (Vec4.ofVec3 corner 1)).w) b.getCorners BoundingBox.default
  unfold BoundingBox.transform
  rw [hv]
  exact ⟨h3 hne, h2⟩

/-- Along any affine function, a point of a valid box lies between two corners. -/
lemma between_corners (b : BoundingBox α) (hv : b.valid = true) (plane : Vec4 α) (p : Vec3 α)
    (hp : b.Contains p) :
    ∃ c1 ∈ b.getCorners, ∃ c2 ∈ b.getCorners,
      planeDistance plane c1 ≤ planeDistance plane p ∧
      planeDistance plane p ≤ planeDistance plane c2 := by
  obtain ⟨c2, hc2, h2⟩ := b.exists_corner_ge hv plane p hp.1 hp.2.1 hp.2.2
  obtain ⟨c1, hc1, h1⟩ := b.exists_corner_ge hv (Vec4.scale (-1) plane) p hp.1 hp.2.1 hp.2.2
  rw [planeDistance_scale, planeDistance_scale] at h1
  exact ⟨c1, hc1, c2, hc2, by linarith, h2⟩

/-- For an affine matrix the image of a point, after the division by `w = 1`, has the three
affine row functions as coordinates. -/
lemma affine_image (matrix : Mat4 α)
    (haff : matrix 0 3 = 0 ∧ matrix 1 3 = 0 ∧ matrix 2 3 = 0 ∧ matrix 3 3 = 1) (q : Vec3 α) :
    (matrix.mulVec (Vec4.ofVec3 q 1)).w = 1 ∧
    (matrix.mulVec (Vec4.ofVec3 q 1)).xyz.divScalar (matrix.mulVec (Vec4.ofVec3 q 1)).w =
      ⟨planeDistance (matrix.row 0) q, planeDistance (matrix.row 1) q,
        planeDistance (matrix.row 2) q⟩ ∧
    (matrix.mulVec (Vec4.ofVec3 q 1)).xyz =
      ⟨planeDistance (matrix.row 0) q, planeDistance (matrix.row 1) q,
        planeDistance (matrix.row 2) q⟩ := by
  obtain ⟨h0, h1, h2, h3⟩ := haff
  have hw : (matrix.mulVec (Vec4.ofVec3 q 1)).w = 1 := by
    simp only [Mat4.mulVec, Vec4.ofVec3, h0, h1, h2, h3]
    ring
  have hxyz : (matrix.mulVec (Vec4.ofVec3 q 1)).xyz =
      ⟨planeDistance (matrix.row 0) q, planeDistance (matrix.row 1) q,
        planeDistance (matrix.row 2) q⟩ := by
    simp only [Mat4.mulVec, Vec4.ofVec3, Vec4.xyz, planeDistance, dot, Mat4.row, Vec3.mk.injEq]
    refine ⟨?_, ?_, ?_⟩ <;> ring
  refine ⟨hw, ?_, hxyz⟩
  rw [hw, hxyz]
  simp [Vec3.divScalar]

lemma wrapInt32_of_range (n : Int) (h0 : -2147483648 ≤ n) (h1 : n < 2147483648) :
    wrapInt32 n = n := by
  unfold wrapInt32
  omega

lemma length_filter_add_length_filter_not {β : Type} (q : β → Bool) (l : List β) :
    (l.filter q).length + (l.filter (fun x => !q x)).length = l.length := by
  induction l with
  | nil => rfl
  | cons a t ih =>
    cases h : q a <;> simp [List.filter_cons, h] <;> omega

/-- The loop of `main` with culling enabled, from any start state: the passing matrices are
appended in order with one `bunnyMesh` each, and the counter advances by the number of
failing ones as long as it stays in the range of `int`. -/
lemma foldl_cullStep (frustum : Frustum α) (box : BoundingBox α) (l : List (Mat4 α)) :
    ∀ s : CullState α,
      (l.foldl (cullStep frustum box) s).modelMatrices =
        s.modelMatrices ++ l.filter (fun T => frustum.isBoundingBoxInside (box.transform T)) ∧
      (l.foldl (cullStep frustum box) s).visibleMeshes =
        s.visibleMeshes ++ List.replicate
          (l.filter (fun T => frustum.isBoundingBoxInside (box.transform T))).length
          MeshId.bunnyMesh ∧
      (0 ≤ s.culledObjects → s.culledObjects + l.length < 2147483648 →
        (l.foldl (cullStep frustum box) s).culledObjects =
          s.culledObjects +
            (l.filter (fun T => !frustum.isBoundingBoxInside (box.transform T))).length) := by
  induction l with
  | nil => intro s; simp
  | cons a t ih =>
    intro s
    obtain ⟨h1, h2, h3⟩ := ih (cullStep frustum box s a)
    simp only [List.foldl_cons]
    cases hvis : frustum.isBoundingBoxInside (box.transform a) with
    | true =>
      have hs : cullStep frustum box s a =
          { s with
            modelMatrices := s.modelMatrices ++ [a]
            visibleMeshes := s.visibleMeshes ++ [MeshId.bunnyMesh] } := by
        simp [cullStep, hvis]
      rw [hs] at h1 h2 h3
      dsimp only at h1 h2 h3
      refine ⟨?_, ?_, ?_⟩
      · rw [hs, h1]
        simp [List.filter_cons, hvis]
      · rw [hs, h2]
        simp [List.filter_cons, hvis, List.replicate_succ]
      · intro h0 hlt
        simp only [List.length_cons, Nat.cast_add, Nat.cast_one] at hlt
        rw [hs, h3 h0 (by omega)]
        simp [List.filter_cons, hvis]
    | false =>
      have hs : cullStep frustum box s a =
          { s with culledObjects := wrapInt32 (s.culledObjects + 1) } := by
        simp [cullStep, hvis]
      rw [hs] at h1 h2 h3
      dsimp only at h1 h2 h3
      refine ⟨?_, ?_, ?_⟩
      · rw [hs, h1]
        simp [List.filter_cons, hvis]
      · rw [hs, h2]
        simp [List.filter_cons, hvis]
      · intro h0 hlt
        simp only [List.length_cons, Nat.cast_add, Nat.cast_one] at hlt
        have hw : wrapInt32 (s.culledObjects + 1) = s.culledObjects + 1 :=
          wrapInt32_of_range _ (by omega) (by omega)
        rw [hs]
        simp only [hw] at h3 ⊢
        rw [h3 (by omega) (by omega)]
        simp [List.filter_cons, hvis]
        omega

lemma foldl_passStep (l : List (Mat4 α)) :
    ∀ s : CullState α,
      (l.foldl passStep s).modelMatrices = s.modelMatrices ++ l ∧
      (l.foldl passStep s).visibleMeshes =
        s.visibleMeshes ++ List.replicate l.length MeshId.bunnyMesh := by
  induction l with
  | nil => intro s; simp
  | cons a t ih =>
    intro s
    obtain ⟨h1, h2⟩ := ih (passStep s a)
    simp only [List.foldl_cons]
    rw [h1, h2]
    simp [passStep, List.replicate_succ]

lemma bunnyTransforms_length : (bunnyTransforms : List (Mat4 α)).length = 100 := by
  simp [bunnyTransforms, List.range_succ]

/-- The view matrix of a camera at the origin looking down `-Z` is the identity. -/
lemma getViewMatrix_origin :
    getViewMatrix (⟨1, 0, 0⟩ : Vec3 α) ⟨0, 1, 0⟩ ⟨0, 0, -1⟩ ⟨0, 0, 0⟩ = Mat4.identity := by
  funext c r
  fin_cases c <;> fin_cases r <;> simp [getViewMatrix, mat4OfColumns, Mat4.identity, dot]

lemma originViewProjection_eq (t a n f : α) :
    originViewProjection t a n f = perspective t a n f := by
  unfold originViewProjection
  rw [getViewMatrix_origin]
  funext c r
  fin_cases c <;> simp [Mat4.mul, Mat4.identity]

/-- The signed distances of a point to the six raw planes of a perspective matrix. -/
lemma perspective_rawPlanes_distance (t a n f : α) (p : Vec3 α) :
    planeDistance (Frustum.rawPlanes (perspective t a n f) 0) p = 1 / (a * t) * p.x - p.z ∧
    planeDistance (Frustum.rawPlanes (perspective t a n f) 1) p = -(1 / (a * t)) * p.x - p.z ∧
    planeDistance (Frustum.rawPlanes (perspective t a n f) 2) p = 1 / t * p.y - p.z ∧
    planeDistance (Frustum.rawPlanes (perspective t a n f) 3) p = -(1 / t) * p.y - p.z ∧
    planeDistance (Frustum.rawPlanes (perspective t a n f) 4) p =
      (-1 + -(f + n) / (f - n)) * p.z + -(2 * f * n) / (f - n) ∧
    planeDistance (Frustum.rawPlanes (perspective t a n f) 5) p =
      (-1 - -(f + n) / (f - n)) * p.z - -(2 * f * n) / (f - n) := by
  refine ⟨?_, ?_, ?_, ?_, ?_, ?_⟩ <;>
    simp [Frustum.rawPlanes, perspective, planeDistance, dot, Vec4.xyz] <;> ring

lemma Frustum.extractPlanes_distance_nonneg (sqrt : α → α) (m : Mat4 α) (k : Fin 6)
    (p : Vec3 α) :
    0 ≤ planeDistance ((Frustum.extractPlanes sqrt m).planes k) p ↔
      0 ≤ planeDistance (Frustum.rawPlanes m k) p :=
  Frustum.planeDistance_normalizePlane_nonneg sqrt (Frustum.rawPlanes m k) p

/-- The near and far distances of a point at depth `d` on the view axis, in closed form. -/
lemma perspective_near_far (n f d : α) (hnf : n < f) :
    (-1 + -(f + n) / (f - n)) * (-d) + -(2 * f * n) / (f - n) = 2 * f * (d - n) / (f - n) ∧
    (-1 - -(f + n) / (f - n)) * (-d) - -(2 * f * n) / (f - n) = 2 * n * (f - d) / (f - n) := by
  have h : f - n ≠ 0 := (sub_pos.mpr hnf).ne'
  constructor <;> field_simp <;> ring

/-- A point on the view axis at a depth between near and far is inside the frustum. -/
lemma target_isPointInside (sqrt : α → α) (t a n f d : α) (hn : 0 < n) (hnf : n < f)
    (hd1 : n ≤ d) (hd2 : d ≤ f) :
    (Frustum.extractPlanes sqrt (originViewProjection t a n f)).isPointInside ⟨0, 0, -d⟩
      = true := by
  rw [Frustum.isPointInside_iff, originViewProjection_eq]
  simp only [Frustum.extractPlanes_distance_nonneg]
  obtain ⟨h0, h1, h2, h3, h4, h5⟩ := perspective_rawPlanes_distance t a n f ⟨0, 0, -d⟩
  obtain ⟨e4, e5⟩ := perspective_near_far n f d hnf
  have hfn : 0 < f - n := sub_pos.mpr hnf
  have hd : 0 ≤ d := hn.le.trans hd1
  rw [forall_fin_six, h0, h1, h2, h3, h4, h5]
  simp only [e4, e5, mul_zero, zero_sub, neg_neg]
  refine ⟨hd, hd, hd, hd, ?_, ?_⟩
  · exact div_nonneg (mul_nonneg (mul_nonneg zero_le_two (hn.trans hnf).le)
      (sub_nonneg.mpr hd1)) hfn.le
  · exact div_nonneg (mul_nonneg (mul_nonneg zero_le_two hn.le) (sub_nonneg.mpr hd2)) hfn.le

/-- A point behind the camera is outside the frustum. -/
lemma behind_not_isPointInside (sqrt : α → α) (t a n f d : α) (hd : 0 < d) :
    (Frustum.extractPlanes sqrt (originViewProjection t a n f)).isPointInside ⟨0, 0, d⟩
      = false := by
  rw [← Bool.not_eq_true, Frustum.isPointInside_iff, originViewProjection_eq]
  simp only [Frustum.extractPlanes_distance_nonneg]
  intro h
  have h0 := h 0
  rw [(perspective_rawPlanes_distance t a n f ⟨0, 0, d⟩).1] at h0
  simp only [mul_zero, zero_sub] at h0
  linarith

lemma Frustum.extractPlanes_distance_neg (sqrt : α → α) (m : Mat4 α) (k : Fin 6)
    (p : Vec3 α) :
    planeDistance ((Frustum.extractPlanes sqrt m).planes k) p < 0 ↔
      planeDistance (Frustum.rawPlanes m k) p < 0 := by
  rw [← not_le, ← not_le, Frustum.extractPlanes_distance_nonneg]

/-- A plane with all corners on its negative side makes `isBoundingBoxInside` false. -/
lemma Frustum.isBoundingBoxInside_eq_false_of_plane (f : Frustum α) (b : BoundingBox α)
    (k : Fin 6) (h : ∀ corner ∈ b.getCorners, planeDistance (f.planes k) corner < 0) :
    f.isBoundingBoxInside b = false := by
  rw [← Bool.not_eq_true, Frustum.isBoundingBoxInside_iff]
  rintro (⟨corner, hc, hin⟩ | hall)
  · exact absurd ((f.isPointInside_iff corner).mp hin k) (not_le.mpr (h corner hc))
  · exact hall k h

/-- A valid box containing a point that is inside the frustum passes `isBoundingBoxInside`. -/
lemma Frustum.isBoundingBoxInside_of_contains (f : Frustum α) (b : BoundingBox α)
    (hv : b.valid = true) (p : Vec3 α) (hc : b.Contains p) (hp : f.isPointInside p = true) :
    f.isBoundingBoxInside b = true := by
  rw [Frustum.isBoundingBoxInside_iff]
  right
  intro k hall
  obtain ⟨corner, hcm, hge⟩ := b.exists_corner_ge hv (f.planes k) p hc.1 hc.2.1 hc.2.2
  exact absurd (hall corner hcm) (not_lt.mpr (((f.isPointInside_iff p).mp hp k).trans hge))

lemma unitBoxAt_corner_z (c corner : Vec3 α) (h : corner ∈ (unitBoxAt c).getCorners) :
    corner.z = c.z - 1 / 2 ∨ corner.z = c.z + 1 / 2 := by
  simp only [unitBoxAt, BoundingBox.getCorners, BoundingBox.ofMinMax, Bool.not_true,
    Bool.false_eq_true, if_false, List.mem_cons, List.mem_singleton, List.not_mem_nil,
    or_false] at h
  rcases h with h | h | h | h | h | h | h | h <;> simp [h]

lemma unitBoxAt_contains_centre (c : Vec3 α) : (unitBoxAt c).Contains c := by
  simp only [unitBoxAt, BoundingBox.Contains, BoundingBox.ofMinMax]
  refine ⟨⟨?_, ?_⟩, ⟨?_, ?_⟩, ⟨?_, ?_⟩⟩ <;> linarith [one_half_pos (α := α)]

/-- Every corner of the unit-size box centred at distance `10 * far` on the view axis is on
the negative side of the FAR plane, provided `far > 1/18`. -/
lemma far_box_corners_rejected (sqrt : α → α) (t a n f : α) (hn : 0 < n) (hnf : n < f)
    (hf : 1 / 18 < f) :
    ∀ corner ∈ (unitBoxAt (⟨0, 0, -(10 * f)⟩ : Vec3 α)).getCorners,
      planeDistance ((Frustum.extractPlanes sqrt (originViewProjection t a n f)).planes 5)
        corner < 0 := by
  intro corner hc
  rw [Frustum.extractPlanes_distance_neg, originViewProjection_eq,
    (perspective_rawPlanes_distance t a n f corner).2.2.2.2.2]
  have e := (perspective_near_far n f (-corner.z) hnf).2
  rw [neg_neg] at e
  rw [e]
  have hfn : 0 < f - n := sub_pos.mpr hnf
  have hz : f - -corner.z < 0 := by
    rcases unitBoxAt_corner_z _ corner hc with h | h <;> rw [h] <;> simp only <;> linarith
  exact div_neg_of_neg_of_pos (mul_neg_of_pos_of_neg (mul_pos two_pos hn) hz) hfn

/-- The renderer after `cleanup`: `gBuffer`, `depthBuffer`, `quadVAO` and `quadVBO` are 0,
the five textures are 0 if `gBuffer` was not 0 and are kept otherwise. -/
lemma cleanup_snd (r : DeferredRenderer) :
    r.cleanup.2 =
      { r with
        gBuffer := 0
        gPosition := if r.gBuffer ≠ 0 then 0 else r.gPosition
        gNormal := if r.gBuffer ≠ 0 then 0 else r.gNormal
        gAlbedo := if r.gBuffer ≠ 0 then 0 else r.gAlbedo
        gMetallicRoughness := if r.gBuffer ≠ 0 then 0 else r.gMetallicRoughness
        gAO := if r.gBuffer ≠ 0 then 0 else r.gAO
        depthBuffer := 0
        quadVAO := 0
        quadVBO := 0 } := by
  obtain ⟨w, h, b, t1, t2, t3, t4, t5, d, va, vb⟩ := r
  unfold DeferredRenderer.cleanup
  by_cases h1 : b = 0 <;> by_cases h2 : va = 0 <;> by_cases h3 : vb = 0 <;>
    by_cases h4 : d = 0 <;> simp [h1, h2, h3, h4]

/-- A `cleanup` of a renderer whose `gBuffer`, `depthBuffer`, `quadVAO` and `quadVBO` are 0
issues no command and changes nothing. -/
lemma cleanup_of_zero (r : DeferredRenderer) (h1 : r.gBuffer = 0) (h2 : r.quadVAO = 0)
    (h3 : r.quadVBO = 0) (h4 : r.depthBuffer = 0) : r.cleanup = ([], r) := by
  obtain ⟨w, h, b, t1, t2, t3, t4, t5, d, va, vb⟩ := r
  simp only at h1 h2 h3 h4
  subst h1 h2 h3 h4
  simp [DeferredRenderer.cleanup]

lemma cleanup_cleanup (r : DeferredRenderer) : r.cleanup.2.cleanup = ([], r.cleanup.2) := by
  apply cleanup_of_zero <;> rw [cleanup_snd]

lemma cleanup_allZero (r : DeferredRenderer) (h : r.TexturesFollowBuffer) :
    r.cleanup.2.AllZero := by
  rw [cleanup_snd]
  unfold DeferredRenderer.AllZero
  by_cases hb : r.gBuffer = 0
  · obtain ⟨h1, h2, h3, h4, h5⟩ := h hb
    simp [hb, h1, h2, h3, h4, h5]
  · simp [hb]

lemma glGen_ne_zero (old : Nat) (answer : Option Nat) (h : answer ≠ some 0)
    (h0 : glGen old answer = 0) : old = 0 ∧ answer = none := by
  cases answer with
  | none => exact ⟨h0, rfl⟩
  | some n =>
    simp only [glGen] at h0
    subst h0
    exact absurd rfl h

lemma initialize_texturesFollowBuffer (o : InitOracle) (r : DeferredRenderer)
    (ho : o.WellFormed) (h : r.TexturesFollowBuffer) :
    ( DeferredRenderer.initialize o r).2.TexturesFollowBuffer := by
  unfold DeferredRenderer.initialize
  simp only
  by_cases hb : glGen r.gBuffer o.genFramebuffer = 0
  · rw [if_pos hb]
    intro _
    exact h (glGen_ne_zero _ _ ho.1 hb).1
  · rw [if_neg hb]
    intro h0
    exfalso
    apply hb
    cases hc : o.complete <;> simp [hc, DeferredRenderer.createScreenQuad] at h0 <;> exact h0

lemma reachable_texturesFollowBuffer (r : DeferredRenderer) (hr : r.Reachable) :
    r.TexturesFollowBuffer := by
  induction hr with
  | construct width height quadVAO quadVBO =>
    intro _
    exact ⟨rfl, rfl, rfl, rfl, rfl⟩
  | init o r ho _ ih => exact initialize_texturesFollowBuffer o r ho ih
  | clean r _ ih =>
    have := cleanup_allZero r ih
    intro _
    exact ⟨this.2.1, this.2.2.1, this.2.2.2.1, this.2.2.2.2.1, this.2.2.2.2.2.1⟩

section GLLemmas

variable {β : Type}

lemma bindIfPresent_eq (has : Bool) (texture : Option Nat) (unit : Nat) (s : GLState β) :
    bindIfPresent has texture unit s =
      match (if has then texture else none) with
      | some id => Texture.bind id unit s
      | none => s := by
  cases has <;> cases texture <;> rfl

lemma unbindIfPresent_eq (has : Bool) (texture : Option Nat) (s : GLState β) :
    unbindIfPresent has texture s =
      match (if has then texture else none) with
      | some _ => Texture.unbind s
      | none => s := by
  cases has <;> cases texture <;> rfl

lemma bindIfPresent_framebuffer (has : Bool) (texture : Option Nat) (unit : Nat)
    (s : GLState β) : (bindIfPresent has texture unit s).framebuffer = s.framebuffer := by
  cases has <;> cases texture <;> rfl

lemma bindIfPresent_activeUnit (has : Bool) (texture : Option Nat) (unit : Nat)
    (s : GLState β) :
    (bindIfPresent has texture unit s).activeUnit =
      if (has && texture.isSome) = true then unit else s.activeUnit := by
  cases has <;> cases texture <;> rfl

lemma bindIfPresent_texture2D (has : Bool) (texture : Option Nat) (unit : Nat)
    (s : GLState β) (v : Nat) :
    (bindIfPresent has texture unit s).texture2D v =
      if (has && texture.isSome) = true ∧ v = unit then texture.getD 0 else s.texture2D v := by
  cases has <;> cases texture <;>
    simp [bindIfPresent, Texture.bind, glBindTexture, glActiveTexture, Function.update]

lemma unbindIfPresent_framebuffer (has : Bool) (texture : Option Nat) (s : GLState β) :
    (unbindIfPresent has texture s).framebuffer = s.framebuffer := by
  cases has <;> cases texture <;> rfl

lemma unbindIfPresent_activeUnit (has : Bool) (texture : Option Nat) (s : GLState β) :
    (unbindIfPresent has texture s).activeUnit = s.activeUnit := by
  cases has <;> cases texture <;> rfl

lemma unbindIfPresent_texture2D (has : Bool) (texture : Option Nat) (s : GLState β)
    (v : Nat) :
    (unbindIfPresent has texture s).texture2D v =
      if (has && texture.isSome) = true ∧ v = s.activeUnit then 0 else s.texture2D v := by
  cases has <;> cases texture <;>
    simp [unbindIfPresent, Texture.unbind, glBindTexture, Function.update]

lemma setInt_framebuffer (shader : Shader) (name : String) (value : Int) (s : GLState β) :
    (shader.setInt name value s).framebuffer = s.framebuffer := rfl

lemma setInt_activeUnit (shader : Shader) (name : String) (value : Int) (s : GLState β) :
    (shader.setInt name value s).activeUnit = s.activeUnit := rfl

lemma setInt_texture2D (shader : Shader) (name : String) (value : Int) (s : GLState β) :
    (shader.setInt name value s).texture2D = s.texture2D := rfl

lemma draw_nil_framebuffer (vao : Nat) (n : Int) (s : GLState β) :
    (Mesh.draw [] vao n s).framebuffer = s.framebuffer := rfl

lemma draw_nil_activeUnit (vao : Nat) (n : Int) (s : GLState β) :
    (Mesh.draw [] vao n s).activeUnit = s.activeUnit := rfl

lemma draw_nil_texture2D (vao : Nat) (n : Int) (s : GLState β) :
    (Mesh.draw [] vao n s).texture2D = s.texture2D := rfl

lemma unbindTextures_core (m : PBRMaterial) (t : GLState β) :
    (m.unbindTextures t).activeUnit = t.activeUnit ∧
    (m.unbindTextures t).framebuffer = t.framebuffer ∧
    ∀ v, (m.unbindTextures t).texture2D v =
      if ((m.hasAlbedo && m.albedoTexture.isSome) || (m.hasNormal && m.normalTexture.isSome) ||
          (m.hasMetallic && m.metallicTexture.isSome) ||
          (m.hasRoughness && m.roughnessTexture.isSome) ||
          (m.hasAO && m.aoTexture.isSome)) = true ∧ v = t.activeUnit then 0
      else t.texture2D v := by
  obtain ⟨a, b, c, d, e, ha, hb, hc, hd, he⟩ := m
  refine ⟨?_, ?_, ?_⟩
  · simp only [PBRMaterial.unbindTextures, unbindIfPresent_activeUnit]
  · simp only [PBRMaterial.unbindTextures, unbindIfPresent_framebuffer]
  · intro v
    simp only [PBRMaterial.unbindTextures, unbindIfPresent_texture2D, unbindIfPresent_activeUnit]
    generalize (ha && a.isSome) = q0
    generalize (hb && b.isSome) = q1
    generalize (hc && c.isSome) = q2
    generalize (hd && d.isSome) = q3
    generalize (he && e.isSome) = q4
    by_cases hv : v = t.activeUnit
    · cases q0 <;> cases q1 <;> cases q2 <;> cases q3 <;> cases q4 <;> simp [hv]
    · simp [hv]

lemma bindTextures_core (m : PBRMaterial) (s : GLState β) :
    (m.bindTextures s).framebuffer = s.framebuffer ∧
    (m.bindTextures s).activeUnit =
      (if (m.hasAO && m.aoTexture.isSome) = true then 4
        else if (m.hasRoughness && m.roughnessTexture.isSome) = true then 3
        else if (m.hasMetallic && m.metallicTexture.isSome) = true then 2
        else if (m.hasNormal && m.normalTexture.isSome) = true then 1
        else if (m.hasAlbedo && m.albedoTexture.isSome) = true then 0
        else s.activeUnit) ∧
    ∀ v, (m.bindTextures s).texture2D v =
      (if (m.hasAO && m.aoTexture.isSome) = true ∧ v = 4 then m.aoTexture.getD 0
        else if (m.hasRoughness && m.roughnessTexture.isSome) = true ∧ v = 3 then
          m.roughnessTexture.getD 0
        else if (m.hasMetallic && m.metallicTexture.isSome) = true ∧ v = 2 then
          m.metallicTexture.getD 0
        else if (m.hasNormal && m.normalTexture.isSome) = true ∧ v = 1 then
          m.normalTexture.getD 0
        else if (m.hasAlbedo && m.albedoTexture.isSome) = true ∧ v = 0 then
          m.albedoTexture.getD 0
        else s.texture2D v) := by
  obtain ⟨a, b, c, d, e, ha, hb, hc, hd, he⟩ := m
  refine ⟨?_, ?_, ?_⟩
  · simp only [PBRMaterial.bindTextures, bindIfPresent_framebuffer]
  · simp only [PBRMaterial.bindTextures, bindIfPresent_activeUnit]
  · intro v
    simp only [PBRMaterial.bindTextures, bindIfPresent_texture2D]

/-- The state after `drawPBR` is the state after `bindTextures` with texture 0 bound on the
active unit if the material has any texture. -/
lemma drawPBR_core (mesh : PBRMesh) (shader : Shader) (s : GLState β) :
    (mesh.drawPBR shader s).framebuffer = s.framebuffer ∧
    ∀ v, (mesh.drawPBR shader s).texture2D v =
      if ((mesh.pbrMaterial.hasAlbedo && mesh.pbrMaterial.albedoTexture.isSome) ||
          (mesh.pbrMaterial.hasNormal && mesh.pbrMaterial.normalTexture.isSome) ||
          (mesh.pbrMaterial.hasMetallic && mesh.pbrMaterial.metallicTexture.isSome) ||
          (mesh.pbrMaterial.hasRoughness && mesh.pbrMaterial.roughnessTexture.isSome) ||
          (mesh.pbrMaterial.hasAO && mesh.pbrMaterial.aoTexture.isSome)) = true ∧
          v = (mesh.pbrMaterial.bindTextures s).activeUnit then 0
      else (mesh.pbrMaterial.bindTextures s).texture2D v := by
  obtain ⟨u1, u2, u3⟩ := unbindTextures_core mesh.pbrMaterial
    (Mesh.draw [] mesh.vao mesh.indexCount (shader.setInt "aoMap" 4
      (shader.setInt "roughnessMap" 3 (shader.setInt "metallicMap" 2
        (shader.setInt "normalMap" 1 (shader.setInt "albedoMap" 0
          (mesh.pbrMaterial.bindTextures s)))))))
  rw [draw_nil_framebuffer, setInt_framebuffer, setInt_framebuffer, setInt_framebuffer,
    setInt_framebuffer, setInt_framebuffer] at u2
  have hA : (Mesh.draw [] mesh.vao mesh.indexCount (shader.setInt "aoMap" 4
      (shader.setInt "roughnessMap" 3 (shader.setInt "metallicMap" 2
        (shader.setInt "normalMap" 1 (shader.setInt "albedoMap" 0
          (mesh.pbrMaterial.bindTextures s))))))).activeUnit =
      (mesh.pbrMaterial.bindTextures s).activeUnit := by
    rw [draw_nil_activeUnit, setInt_activeUnit, setInt_activeUnit, setInt_activeUnit,
      setInt_activeUnit, setInt_activeUnit]
  have hT : (Mesh.draw [] mesh.vao mesh.indexCount (shader.setInt "aoMap" 4
      (shader.setInt "roughnessMap" 3 (shader.setInt "metallicMap" 2
        (shader.setInt "normalMap" 1 (shader.setInt "albedoMap" 0
          (mesh.pbrMaterial.bindTextures s))))))).texture2D =
      (mesh.pbrMaterial.bindTextures s).texture2D := by
    rw [draw_nil_texture2D, setInt_texture2D, setInt_texture2D, setInt_texture2D,
      setInt_texture2D, setInt_texture2D]
  refine ⟨u2.trans (bindTextures_core mesh.pbrMaterial s).1, fun v => ?_⟩
  have := u3 v
  rw [hA, hT] at this
  exact this

/-- What `drawPBR` does to the texture units and the framebuffer: units above 4 and the
framebuffer are untouched, and unit 4 ends unbound when the material binds a texture on it
and is untouched otherwise. -/
lemma drawPBR_state (mesh : PBRMesh) (shader : Shader) (s : GLState β) :
    (mesh.drawPBR shader s).framebuffer = s.framebuffer ∧
    (∀ u, 4 < u → (mesh.drawPBR shader s).texture2D u = s.texture2D u) ∧
    (mesh.drawPBR shader s).texture2D 4 =
      if (mesh.pbrMaterial.textureOnUnit 4).isSome then 0 else s.texture2D 4 := by
  obtain ⟨c1, c2⟩ := drawPBR_core mesh shader s
  obtain ⟨_, b2, b3⟩ := bindTextures_core mesh.pbrMaterial s
  have hsome : (mesh.pbrMaterial.textureOnUnit 4).isSome =
      (mesh.pbrMaterial.hasAO && mesh.pbrMaterial.aoTexture.isSome) := by
    simp only [PBRMaterial.textureOnUnit]
    cases mesh.pbrMaterial.hasAO <;> simp
  refine ⟨c1, ?_, ?_⟩
  · intro u hu
    have h0 : u ≠ 0 := by omega
    have h1 : u ≠ 1 := by omega
    have h2 : u ≠ 2 := by omega
    have h3 : u ≠ 3 := by omega
    have h4 : u ≠ 4 := by omega
    rw [c2 u, b2, b3 u]
    generalize (mesh.pbrMaterial.hasAlbedo && mesh.pbrMaterial.albedoTexture.isSome) = q0
    generalize (mesh.pbrMaterial.hasNormal && mesh.pbrMaterial.normalTexture.isSome) = q1
    generalize (mesh.pbrMaterial.hasMetallic && mesh.pbrMaterial.metallicTexture.isSome) = q2
    generalize (mesh.pbrMaterial.hasRoughness && mesh.pbrMaterial.roughnessTexture.isSome) = q3
    generalize (mesh.pbrMaterial.hasAO && mesh.pbrMaterial.aoTexture.isSome) = q4
    cases q0 <;> cases q1 <;> cases q2 <;> cases q3 <;> cases q4 <;>
      simp [h0, h1, h2, h3, h4]
  · rw [c2 4, b2, b3 4, hsome]
    generalize (mesh.pbrMaterial.hasAlbedo && mesh.pbrMaterial.albedoTexture.isSome) = q0
    generalize (mesh.pbrMaterial.hasNormal && mesh.pbrMaterial.normalTexture.isSome) = q1
    generalize (mesh.pbrMaterial.hasMetallic && mesh.pbrMaterial.metallicTexture.isSome) = q2
    generalize (mesh.pbrMaterial.hasRoughness && mesh.pbrMaterial.roughnessTexture.isSome) = q3
    generalize (mesh.pbrMaterial.hasAO && mesh.pbrMaterial.aoTexture.isSome) = q4
    cases q0 <;> cases q1 <;> cases q2 <;> cases q3 <;> cases q4 <;> simp

lemma textureOnUnit_isSome_le (m : PBRMaterial) (u : Nat)
    (h : (m.textureOnUnit u).isSome = true) : u ≤ 4 := by
  by_contra hu
  have h0 : u ≠ 0 := by omega
  have h1 : u ≠ 1 := by omega
  have h2 : u ≠ 2 := by omega
  have h3 : u ≠ 3 := by omega
  have h4 : u ≠ 4 := by omega
  simp [PBRMaterial.textureOnUnit, h0, h1, h2, h3, h4] at h

end GLLemmas

/-- The mesh loop of the geometry pass keeps the framebuffer and the units above 4, and
leaves unit 4 unbound if some mesh binds a texture on it or it was unbound before. -/
lemma geometryLoop_state (shader : Shader) (modelMatrices : List (Mat4 α))
    (meshes : List PBRMesh) :
    ∀ (i : Nat) (s : GLState α),
      (geometryLoop shader modelMatrices meshes i s).framebuffer = s.framebuffer ∧
      (∀ u, 4 < u →
        (geometryLoop shader modelMatrices meshes i s).texture2D u = s.texture2D u) ∧
      (((∃ mesh ∈ meshes, (mesh.pbrMaterial.textureOnUnit 4).isSome = true) ∨
          s.texture2D 4 = 0) →
        (geometryLoop shader modelMatrices meshes i s).texture2D 4 = 0) := by
  induction meshes with
  | nil =>
    intro i s
    refine ⟨rfl, fun _ _ => rfl, ?_⟩
    rintro (⟨mesh, hm, _⟩ | h)
    · exact absurd hm (List.not_mem_nil mesh)
    · exact h
  | cons mesh rest ih =>
    intro i s
    obtain ⟨h1, h2, h3⟩ := ih (i + 1)
      (mesh.drawPBR shader (shader.setMat4 "model" (modelMatrices.getD i Mat4.identity) s))
    obtain ⟨d1, d2, d3⟩ := drawPBR_state mesh shader
      (shader.setMat4 "model" (modelMatrices.getD i Mat4.identity) s)
    simp only [geometryLoop]
    refine ⟨h1.trans d1, fun u hu => (h2 u hu).trans (d2 u hu), ?_⟩
    intro h
    by_cases hr : ∃ m ∈ rest, (m.pbrMaterial.textureOnUnit 4).isSome = true
    · exact h3 (Or.inl hr)
    · apply h3
      right
      rw [d3]
      split_ifs with hm
      · rfl
      · rcases h with ⟨m, hmem, hsome⟩ | h0
        · rcases List.mem_cons.mp hmem with rfl | hmem
          · exact absurd hsome hm
          · exact absurd ⟨m, hmem, hsome⟩ hr
        · exact h0

/-- The final loop of the geometry pass unbinds exactly the units 0 to 3. -/
lemma unbindUnitsLoop_state (s : GLState α) :
    (unbindUnitsLoop 4 0 s).framebuffer = s.framebuffer ∧
    (∀ u, (unbindUnitsLoop 4 0 s).texture2D u = if u < 4 then 0 else s.texture2D u) := by
  refine ⟨rfl, fun u => ?_⟩
  simp only [unbindUnitsLoop, glBindTexture, glActiveTexture, Function.update]
  by_cases hu : u < 4
  · interval_cases u <;> simp
  · have h0 : u ≠ 0 := by omega
    have h1 : u ≠ 1 := by omega
    have h2 : u ≠ 2 := by omega
    have h3 : u ≠ 3 := by omega
    simp [hu, h0, h1, h2, h3]

lemma renderLightingPass_texture2D {β : Type} (r : DeferredRenderer) (lightingShader : Shader)
    (viewPos : Vec3 β) (s : GLState β) :
    (r.renderLightingPass lightingShader viewPos s).texture2D =
      Function.update (Function.update (Function.update (Function.update
        (Function.update s.texture2D 5 r.gPosition) 6 r.gNormal) 7 r.gAlbedo)
        8 r.gMetallicRoughness) 9 r.gAO := rfl

lemma renderLightingPass_units {β : Type} (r : DeferredRenderer) (lightingShader : Shader)
    (viewPos : Vec3 β) (s : GLState β) :
    (r.renderLightingPass lightingShader viewPos s).texture2D 5 = r.gPosition ∧
      (r.renderLightingPass lightingShader viewPos s).texture2D 6 = r.gNormal ∧
      (r.renderLightingPass lightingShader viewPos s).texture2D 7 = r.gAlbedo ∧
      (r.renderLightingPass lightingShader viewPos s).texture2D 8 = r.gMetallicRoughness ∧
      (r.renderLightingPass lightingShader viewPos s).texture2D 9 = r.gAO := by
  rw [renderLightingPass_texture2D]
  refine ⟨?_, ?_, ?_, ?_, ?_⟩ <;> simp [Function.update]

lemma renderLightingPass_intUniforms {β : Type} (r : DeferredRenderer)
    (lightingShader : Shader) (viewPos : Vec3 β) (s : GLState β) :
    (issuedBetween s (r.renderLightingPass lightingShader viewPos s)).filterMap
        GLCommand.intUniform =
      [("gPosition", 5), ("gNormal", 6), ("gAlbedo", 7), ("gMetallicRoughness", 8),
        ("gAO", 9)] := by
  simp [issuedBetween, DeferredRenderer.renderLightingPass, glBindTexture, glActiveTexture,
    glBindVertexArray, GLState.issue, Shader.setInt, Shader.setVec3, GLCommand.intUniform]

lemma textureOnUnit_gbuffer_units (u : Nat) (hu : u ∈ [5, 6, 7, 8, 9]) (m : PBRMaterial) :
    m.textureOnUnit u = none := by
  simp only [List.mem_cons, List.mem_singleton, List.not_mem_nil, or_false] at hu
  rcases hu with rfl | rfl | rfl | rfl | rfl <;> rfl

lemma drawPBR_gbuffer_units {β : Type} (u : Nat) (hu : u ∈ [5, 6, 7, 8, 9]) (mesh : PBRMesh)
    (shader : Shader) (t : GLState β) :
    (mesh.drawPBR shader t).texture2D u = t.texture2D u := by
  apply (drawPBR_state mesh shader t).2.1
  simp only [List.mem_cons, List.mem_singleton, List.not_mem_nil, or_false] at hu
  omega

/-- The one-stage test is true iff no plane has all corners on its negative side. -/
lemma Frustum.oneStageTest_iff (f : Frustum α) (bbox : BoundingBox α) :
    f.oneStageTest bbox = true ↔
      ∀ k : Fin 6, ¬ ∀ corner ∈ bbox.getCorners, planeDistance (f.planes k) corner < 0 := by
  unfold Frustum.oneStageTest
  rw [Bool.not_eq_true', ← Bool.not_eq_true, List.any_eq_true,
    ← Frustum.forall_planeList f
      (fun plane => ¬ ∀ corner ∈ bbox.getCorners, planeDistance plane corner < 0)]
  simp only [List.all_eq_true, decide_eq_true_eq, not_exists, not_and]

/-- A corner inside the frustum is on the negative side of no plane. -/
lemma Frustum.isBoundingBoxInside_iff_no_plane (f : Frustum α) (bbox : BoundingBox α) :
    f.isBoundingBoxInside bbox = true ↔
      ∀ k : Fin 6, ¬ ∀ corner ∈ bbox.getCorners, planeDistance (f.planes k) corner < 0 := by
  rw [Frustum.isBoundingBoxInside_iff]
  constructor
  · rintro (⟨corner, hc, hin⟩ | h)
    · intro k hall
      exact absurd ((f.isPointInside_iff corner).mp hin k) (not_le.mpr (hall corner hc))
    · exact h
  · exact fun h => Or.inr h

/-- The corners of an invalid box. -/
lemma BoundingBox.getCorners_invalid (b : BoundingBox α) (hv : b.valid = false) :
    b.getCorners = List.replicate 8 Vec3.zero := by
  unfold BoundingBox.getCorners
  rw [hv]
  rfl

/-- The method `transform` on an invalid box returns the default box. -/
lemma BoundingBox.transform_invalid (b : BoundingBox α) (matrix : Mat4 α)
    (hv : b.valid = false) : b.transform matrix = BoundingBox.default := by
  unfold BoundingBox.transform
  rw [hv]
  rfl

/-- The box test on an invalid box is the point test on the origin. -/
lemma Frustum.isBoundingBoxInside_invalid (f : Frustum α) (b : BoundingBox α)
    (hv : b.valid = false) : f.isBoundingBoxInside b = f.isPointInside Vec3.zero := by
  rw [Bool.eq_iff_iff, Frustum.isBoundingBoxInside_iff_no_plane, Frustum.isPointInside_iff,
    BoundingBox.getCorners_invalid b hv]
  constructor
  · intro h k
    by_contra hk
    exact h k (fun corner hc => by
      rw [List.eq_of_mem_replicate hc]
      exact not_le.mp hk)
  · intro h k hall
    exact absurd (h k) (not_le.mpr (hall Vec3.zero (by simp)))

/-- The squared length of the normal of a normalised plane is at most 1, for a square root
on the non-negative elements. -/
lemma Frustum.normalizePlane_normal_le_one (sqrt : α → α)
    (hsqrt : ∀ x : α, 0 ≤ x → 0 ≤ sqrt x ∧ sqrt x * sqrt x = x) (plane : Vec4 α) :
    dot (Frustum.normalizePlane sqrt plane).xyz (Frustum.normalizePlane sqrt plane).xyz ≤ 1 := by
  have hdot : 0 ≤ dot (⟨plane.x, plane.y, plane.z⟩ : Vec3 α) ⟨plane.x, plane.y, plane.z⟩ := by
    simp only [dot]
    nlinarith [mul_self_nonneg plane.x, mul_self_nonneg plane.y, mul_self_nonneg plane.z]
  obtain ⟨hL0, hLL⟩ := hsqrt _ hdot
  unfold Frustum.normalizePlane
  simp only
  split_ifs with h
  · have hne : length sqrt (⟨plane.x, plane.y, plane.z⟩ : Vec3 α) ≠ 0 := ne_of_gt h
    have hLL2 : length sqrt (⟨plane.x, plane.y, plane.z⟩ : Vec3 α) *
        length sqrt (⟨plane.x, plane.y, plane.z⟩ : Vec3 α) =
        plane.x * plane.x + plane.y * plane.y + plane.z * plane.z := by
      simp only [dot] at hLL
      simp only [length, dot]
      exact hLL
    simp only [Vec4.divScalar, Vec4.xyz, dot]
    rw [div_mul_div_comm, div_mul_div_comm, div_mul_div_comm, ← add_div, ← add_div, ← hLL2,
      div_self (mul_ne_zero hne hne)]
  · have hL : length sqrt (⟨plane.x, plane.y, plane.z⟩ : Vec3 α) = 0 :=
      le_antisymm (not_lt.mp h) hL0
    have h0 : dot plane.xyz plane.xyz = 0 := by
      have e : sqrt (dot (⟨plane.x, plane.y, plane.z⟩ : Vec3 α) ⟨plane.x, plane.y, plane.z⟩)
          = 0 := hL
      rw [e, mul_zero] at hLL
      exact hLL.symm
    rw [h0]
    exact zero_le_one

/-- The Cauchy-Schwarz bound in the form the sphere test needs. -/
lemma dot_le_radius (n d : Vec3 α) (r : α) (hr : 0 ≤ r) (hn : dot n n ≤ 1)
    (hd : dot d d ≤ r * r) : dot n d ≤ r := by
  by_contra hlt
  have hlt2 : r < dot n d := not_le.mp hlt
  have hcs : dot n d * dot n d ≤ dot n n * dot d d := by
    simp only [dot]
    nlinarith [mul_self_nonneg (n.x * d.y - n.y * d.x), mul_self_nonneg (n.x * d.z - n.z * d.x),
      mul_self_nonneg (n.y * d.z - n.z * d.y)]
  have hdd : 0 ≤ dot d d := by
    simp only [dot]
    nlinarith [mul_self_nonneg d.x, mul_self_nonneg d.y, mul_self_nonneg d.z]
  have h1 : dot n n * dot d d ≤ r * r :=
    (mul_le_mul_of_nonneg_right hn hdd).trans ((one_mul (dot d d)).le.trans hd)
  have h2 : r * r < dot n d * dot n d := by nlinarith
  linarith

/-- The sphere test of an extracted frustum accepts every sphere that reaches a point inside
the frustum. -/
lemma Frustum.isSphereInside_of_point (sqrt : α → α)
    (hsqrt : ∀ x : α, 0 ≤ x → 0 ≤ sqrt x ∧ sqrt x * sqrt x = x)
    (m : Mat4 α) (c q : Vec3 α) (r : α) (hr : 0 ≤ r) (hq : length sqrt (q.sub c) ≤ r)
    (hin : (Frustum.extractPlanes sqrt m).isPointInside q = true) :
    (Frustum.extractPlanes sqrt m).isSphereInside c r = true := by
  unfold Frustum.isSphereInside
  rw [Frustum.isSphereInsideLoop_iff, Frustum.forall_planeList]
  rw [Frustum.isPointInside_iff] at hin
  intro k
  have hk := hin k
  have hn := Frustum.normalizePlane_normal_le_one sqrt hsqrt (Frustum.rawPlanes m k)
  have hdd0 : 0 ≤ dot (q.sub c) (q.sub c) := by
    simp only [dot]
    nlinarith [mul_self_nonneg (q.sub c).x, mul_self_nonneg (q.sub c).y,
      mul_self_nonneg (q.sub c).z]
  obtain ⟨hs0, hss⟩ := hsqrt _ hdd0
  have hdd : dot (q.sub c) (q.sub c) ≤ r * r := by
    rw [← hss]
    exact mul_le_mul hq hq hs0 hr
  have hle := dot_le_radius _ _ r hr hn hdd
  have e : planeDistance ((Frustum.extractPlanes sqrt m).planes k) c =
      planeDistance ((Frustum.extractPlanes sqrt m).planes k) q -
        dot ((Frustum.extractPlanes sqrt m).planes k).xyz (q.sub c) := by
    simp only [planeDistance, dot, Vec3.sub]
    ring
  rw [e]
  have hle2 : dot ((Frustum.extractPlanes sqrt m).planes k).xyz (q.sub c) ≤ r := hle
  linarith

/-- With radius 0 the sphere test is the point test. -/
lemma Frustum.isSphereInside_zero (f : Frustum α) (c : Vec3 α) :
    f.isSphereInside c 0 = f.isPointInside c := by
  rw [Bool.eq_iff_iff]
  unfold Frustum.isSphereInside
  rw [Frustum.isSphereInsideLoop_iff, Frustum.forall_planeList, Frustum.isPointInside_iff,
    neg_zero]

/-- A filter whose test is constant keeps the whole list or nothing. -/
lemma filter_const {β : Type} (v : Bool) (l : List β) :
    l.filter (fun _ => v) = if v then l else [] := by
  cases v <;> simp

/-- The corners of a valid box lie in every box that contains its `min` and its `max`. -/
lemma corners_within (outer b : BoundingBox α) (hv : b.valid = true)
    (hmin : outer.Contains b.min) (hmax : outer.Contains b.max) :
    ∀ q ∈ b.getCorners, outer.Contains q := by
  intro q hq
  unfold BoundingBox.getCorners at hq
  rw [hv] at hq
  simp only [Bool.not_true, Bool.false_eq_true, if_false, List.mem_cons, List.mem_singleton,
    List.not_mem_nil, or_false] at hq
  obtain ⟨⟨a1, a2⟩, ⟨a3, a4⟩, ⟨a5, a6⟩⟩ := hmin
  obtain ⟨⟨b1, b2⟩, ⟨b3, b4⟩, ⟨b5, b6⟩⟩ := hmax
  rcases hq with rfl | rfl | rfl | rfl | rfl | rfl | rfl | rfl <;>
    exact ⟨⟨by assumption, by assumption⟩, ⟨by assumption, by assumption⟩,
      ⟨by assumption, by assumption⟩⟩

/-- The method `expand(point)` stays within a box that contains the receiver and the point. -/
lemma expand_within (outer b : BoundingBox α) (p : Vec3 α)
    (hb : b.valid = true → outer.Contains b.min ∧ outer.Contains b.max)
    (hp : outer.Contains p) :
    outer.Contains (b.expand p).min ∧ outer.Contains (b.expand p).max := by
  unfold BoundingBox.expand
  cases hv : b.valid with
  | false => exact ⟨hp, hp⟩
  | true =>
    obtain ⟨⟨⟨a1, a2⟩, ⟨a3, a4⟩, ⟨a5, a6⟩⟩, ⟨⟨b1, b2⟩, ⟨b3, b4⟩, ⟨b5, b6⟩⟩⟩ := hb hv
    obtain ⟨⟨p1, p2⟩, ⟨p3, p4⟩, ⟨p5, p6⟩⟩ := hp
    simp only [Bool.not_true, Bool.false_eq_true, if_false, BoundingBox.Contains, vec3_min_x,
      vec3_min_y, vec3_min_z, vec3_max_x, vec3_max_y, vec3_max_z, le_min_iff, min_le_iff,
      le_max_iff, max_le_iff]
    exact ⟨⟨⟨⟨a1, p1⟩, Or.inl a2⟩, ⟨⟨a3, p3⟩, Or.inl a4⟩, ⟨⟨a5, p5⟩, Or.inl a6⟩⟩,
      ⟨⟨Or.inl b1, ⟨b2, p2⟩⟩, ⟨Or.inl b3, ⟨b4, p4⟩⟩, ⟨Or.inl b5, ⟨b6, p6⟩⟩⟩⟩

lemma foldl_expand_within (outer : BoundingBox α) (g : Vec3 α → Vec3 α) (l : List (Vec3 α)) :
    ∀ b : BoundingBox α,
      (b.valid = true → outer.Contains b.min ∧ outer.Contains b.max) →
      (∀ c ∈ l, outer.Contains (g c)) →
      ((l.foldl (fun result corner => result.expand (g corner)) b).valid = true →
        outer.Contains (l.foldl (fun result corner => result.expand (g corner)) b).min ∧
        outer.Contains (l.foldl (fun result corner => result.expand (g corner)) b).max) := by
  induction l with
  | nil => exact fun b hb _ => hb
  | cons a t ih =>
    intro b hb hl
    simp only [List.foldl_cons]
    exact ih (b.expand (g a))
      (fun _ => expand_within outer b (g a) hb (hl a (List.mem_cons_self a t)))
      (fun c hc => hl c (List.mem_cons_of_mem a hc))

/-- The corners of a transformed box lie in every box that contains the images of the
corners of the original. -/
lemma transform_corners_within (outer b : BoundingBox α) (matrix : Mat4 α)
    (hv : b.valid = true)
    (h : ∀ c ∈ b.getCorners, outer.Contains
      ((matrix.mulVec (Vec4.ofVec3 c 1)).xyz.divScalar (matrix.mulVec (Vec4.ofVec3 c 1)).w)) :
    ∀ p ∈ (b.transform matrix).getCorners, outer.Contains p := by
  have hvt := (transform_contains_corner b matrix hv).1
  have hw : outer.Contains (b.transform matrix).min ∧ outer.Contains (b.transform matrix).max := by
    have key := foldl_expand_within outer
      (fun corner => (matrix.mulVec (Vec4.ofVec3 corner 1)).xyz.divScalar
        (matrix.mulVec (Vec4.ofVec3 corner 1)).w) b.getCorners BoundingBox.default
      (fun hd => absurd hd (by simp [BoundingBox.default])) h
    unfold BoundingBox.transform at hvt ⊢
    rw [hv] at hvt ⊢
    exact key hvt
  exact corners_within outer _ hvt hw.1 hw.2

/-- The image of a point under a model matrix of `main`: scale by 3, then translate. -/
lemma grid_image (x0 y0 z0 : α) (q : Vec3 α) :
    ((scale (translate Mat4.identity ⟨x0, y0, z0⟩) ⟨3, 3, 3⟩).mulVec
        (Vec4.ofVec3 q 1)).xyz.divScalar
      ((scale (translate Mat4.identity ⟨x0, y0, z0⟩) ⟨3, 3, 3⟩).mulVec (Vec4.ofVec3 q 1)).w =
      ⟨3 * q.x + x0, 3 * q.y + y0, 3 * q.z + z0⟩ := by
  simp [Mat4.mulVec, scale, translate, Mat4.identity, Vec4.ofVec3, Vec4.xyz, Vec3.divScalar]

/-- The signed distance to the raw LEFT plane for a camera at `(0, 2, 5)` with right vector
`(1, 0, 0)` and a front vector in the YZ plane. -/
lemma camera_left_distance (t a n f fy fz : α) (up p : Vec3 α) :
    planeDistance (Frustum.rawPlanes ((perspective t a n f).mul
      (getViewMatrix ⟨1, 0, 0⟩ up ⟨0, fy, fz⟩ ⟨0, 2, 5⟩)) 0) p =
      1 / (a * t) * p.x + fy * (p.y - 2) + fz * (p.z - 5) := by
  simp [Frustum.rawPlanes, perspective, Mat4.mul, getViewMatrix, mat4OfColumns, planeDistance,
    dot, Vec4.xyz]
  ring

/-- The Cauchy-Schwarz inequality in the plane. -/
lemma cauchy_schwarz_plane (a b u v : α) :
    (a * u + b * v) * (a * u + b * v) ≤ (a * a + b * b) * (u * u + v * v) := by
  have h := mul_self_nonneg (a * v - b * u)
  have e : (a * a + b * b) * (u * u + v * v) - (a * u + b * v) * (a * u + b * v) =
      (a * v - b * u) * (a * v - b * u) := by ring
  linarith

lemma mul_self_le_of_bounds (u c : α) (h1 : -c ≤ u) (h2 : u ≤ c) : u * u ≤ c * c := by
  have h := mul_nonneg (sub_nonneg.mpr h1) (sub_nonneg.mpr h2)
  have e : (u - -c) * (c - u) = c * c - u * u := by ring
  rw [e] at h
  linarith

/-- The arithmetic behind the rejection by the LEFT plane. -/
lemma left_distance_neg (A x u v fy fz : α) (hA : 12 / 7 ≤ A) (hx : x ≤ -(7 / 2))
    (hu1 : -(7 / 2) ≤ u) (hu2 : u ≤ 7 / 2) (hv1 : -(9 / 2) ≤ v) (hv2 : v ≤ 9 / 2)
    (hf : fy * fy + fz * fz ≤ 1) :
    A * x + fy * u + fz * v < 0 := by
  have hA0 : (0 : α) ≤ A := le_trans (by norm_num) hA
  have h1 : A * x ≤ -6 := by
    have h := mul_le_mul_of_nonneg_left hx hA0
    have h' : A * -(7 / 2) ≤ 12 / 7 * -(7 / 2) :=
      mul_le_mul_of_nonpos_right hA (by norm_num)
    have e : (12 / 7 : α) * -(7 / 2) = -6 := by norm_num
    linarith
  have huu : u * u ≤ 7 / 2 * (7 / 2) := mul_self_le_of_bounds u (7 / 2) hu1 hu2
  have hvv : v * v ≤ 9 / 2 * (9 / 2) := mul_self_le_of_bounds v (9 / 2) hv1 hv2
  have hsum : u * u + v * v ≤ 65 / 2 := by
    have e : (7 / 2 : α) * (7 / 2) + 9 / 2 * (9 / 2) = 65 / 2 := by norm_num
    linarith
  have hb : (fy * fy + fz * fz) * (u * u + v * v) ≤ 1 * (65 / 2) :=
    mul_le_mul hf hsum (add_nonneg (mul_self_nonneg _) (mul_self_nonneg _)) zero_le_one
  have hs2 : (fy * u + fz * v) * (fy * u + fz * v) ≤ 65 / 2 :=
    (cauchy_schwarz_plane fy fz u v).trans (hb.trans (one_mul (65 / 2 : α)).le)
  have h2 : fy * u + fz * v < 6 := by
    by_contra h
    have h6 : 6 ≤ fy * u + fz * v := not_lt.mp h
    have h36 : (6 : α) * 6 ≤ (fy * u + fz * v) * (fy * u + fz * v) :=
      mul_le_mul h6 h6 (by norm_num) (le_trans (by norm_num) h6)
    have e : (6 : α) * 6 = 36 := by norm_num
    generalize (fy * u + fz * v) * (fy * u + fz * v) = s at hs2 h36
    linarith
  have e3 : A * x + fy * u + fz * v = A * x + (fy * u + fz * v) := add_assoc _ _ _
  rw [e3]
  generalize fy * u + fz * v = s at h2
  generalize A * x = w at h1
  linarith

/-- An instance of the grid of `main` in column 0 and one of the rows 7 to 9 (translation
`(-5, 0, z0)` with `2 ≤ z0 ≤ 4`) fails the box test: its world box is on the negative side
of the LEFT plane. -/
lemma grid_instance_rejected (sqrt : α → α) (up : Vec3 α) (fy fz t z0 : α) (ht : 0 < t)
    (ht2 : t ≤ 7 / 16) (hf : fy * fy + fz * fz ≤ 1) (hz1 : 2 ≤ z0) (hz2 : z0 ≤ 4)
    (b : BoundingBox α) (hv : b.valid = true)
    (hmin : (unitBoxAt (⟨0, 0, 0⟩ : Vec3 α)).Contains b.min)
    (hmax : (unitBoxAt (⟨0, 0, 0⟩ : Vec3 α)).Contains b.max) :
    (Frustum.extractPlanes sqrt ((perspective t (800 / 600) (1 / 10) 100).mul
      (getViewMatrix ⟨1, 0, 0⟩ up ⟨0, fy, fz⟩ ⟨0, 2, 5⟩))).isBoundingBoxInside
        (b.transform (scale (translate Mat4.identity ⟨-5, 0, z0⟩) ⟨3, 3, 3⟩)) = false := by
  apply Frustum.isBoundingBoxInside_eq_false_of_plane _ _ 0
  intro corner hc
  rw [Frustum.extractPlanes_distance_neg, camera_left_distance]
  have hw := transform_corners_within
    (BoundingBox.ofMinMax ⟨-(13 / 2), -(3 / 2), z0 - 3 / 2⟩ ⟨-(7 / 2), 3 / 2, z0 + 3 / 2⟩)
    b (scale (translate Mat4.identity ⟨-5, 0, z0⟩) ⟨3, 3, 3⟩) hv (by
      intro c hcm
      rw [grid_image]
      obtain ⟨⟨c1, c2⟩, ⟨c3, c4⟩, ⟨c5, c6⟩⟩ := corners_within _ b hv hmin hmax c hcm
      simp only [unitBoxAt, BoundingBox.ofMinMax] at c1 c2 c3 c4 c5 c6
      simp only [BoundingBox.Contains, BoundingBox.ofMinMax]
      refine ⟨⟨?_, ?_⟩, ⟨?_, ?_⟩, ⟨?_, ?_⟩⟩ <;> linarith) corner hc
  obtain ⟨⟨_, w2⟩, ⟨w3, w4⟩, ⟨w5, w6⟩⟩ := hw
  simp only [BoundingBox.ofMinMax] at w2 w3 w4 w5 w6
  have hat : (800 / 600 : α) * t ≤ 7 / 12 := by linarith
  have hpos : (0 : α) < 800 / 600 * t := by positivity
  have hA : (12 / 7 : α) ≤ 1 / (800 / 600 * t) := by
    rw [le_div_iff₀ hpos]
    linarith
  exact left_distance_neg _ _ _ _ fy fz hA w2 (by linarith) (by linarith) (by linarith)
    (by linarith) hf

/-- The model matrices of column 0 of the grid loop of `main` are in `bunnyTransforms`. -/
lemma mem_bunnyTransforms (row : ℕ) (hr : row < 10) :
    scale (translate Mat4.identity
      ⟨(((0 : Int) - 5 : Int) : α) * 1, 0, (((row : Int) - 5 : Int) : α) * 1⟩) ⟨3, 3, 3⟩ ∈
      (bunnyTransforms : List (Mat4 α)) := by
  unfold bunnyTransforms
  exact List.mem_flatMap.mpr ⟨row, List.mem_range.mpr hr,
    List.mem_map.mpr ⟨0, by decide, rfl⟩⟩

/-- The translation along Z can be read back from a model matrix of the grid. -/
lemma grid_transform_entry (x0 y0 z0 : α) :
    scale (translate Mat4.identity ⟨x0, y0, z0⟩) ⟨3, 3, 3⟩ 3 2 = z0 := by
  simp [scale, translate, Mat4.identity]

/-- Elements that fail a filter are missing from its result. -/
lemma filter_length_add_le {β : Type} (p : β → Bool) (l bad : List β) (hnd : bad.Nodup)
    (hbad : ∀ x ∈ bad, x ∈ l ∧ p x = false) :
    (l.filter p).length + bad.length ≤ l.length := by
  have hsub : bad ⊆ l.filter (fun x => !p x) := fun x hx =>
    List.mem_filter.mpr ⟨(hbad x hx).1, by simp [(hbad x hx).2]⟩
  have h1 := (List.subperm_of_subset hnd hsub).length_le
  have h2 := length_filter_add_length_filter_not p l
  omega

/-- With the camera of `main` at `(0, 2, 5)`, at most 97 of the 100 instances of the grid
pass the box test. -/
lemma grid_filter_length (sqrt : α → α) (up : Vec3 α) (fy fz t : α) (ht : 0 < t)
    (ht2 : t ≤ 7 / 16) (hf : fy * fy + fz * fz ≤ 1)
    (b : BoundingBox α) (hv : b.valid = true)
    (hmin : (unitBoxAt (⟨0, 0, 0⟩ : Vec3 α)).Contains b.min)
    (hmax : (unitBoxAt (⟨0, 0, 0⟩ : Vec3 α)).Contains b.max) :
    ((bunnyTransforms : List (Mat4 α)).filter (fun T =>
      (Frustum.extractPlanes sqrt ((perspective t (800 / 600) (1 / 10) 100).mul
        (getViewMatrix ⟨1, 0, 0⟩ up ⟨0, fy, fz⟩ ⟨0, 2, 5⟩))).isBoundingBoxInside
          (b.transform T))).length ≤ 97 := by
  have e : ∀ row : ℕ, scale (translate Mat4.identity
      ⟨(((0 : Int) - 5 : Int) : α) * 1, 0, (((row : Int) - 5 : Int) : α) * 1⟩) ⟨3, 3, 3⟩ =
      scale (translate Mat4.identity ⟨-5, 0, (row : α) - 5⟩) ⟨3, 3, 3⟩ := by
    intro row
    simp
  have hm : ∀ row : ℕ, row < 10 →
      scale (translate Mat4.identity ⟨-5, 0, (row : α) - 5⟩) ⟨3, 3, 3⟩ ∈
        (bunnyTransforms : List (Mat4 α)) := by
    intro row hr
    rw [← e row]
    exact mem_bunnyTransforms row hr
  have hne : ∀ r s : α, r ≠ s →
      scale (translate Mat4.identity ⟨-5, 0, r⟩) ⟨3, 3, 3⟩ ≠
        scale (translate Mat4.identity (⟨-5, 0, s⟩ : Vec3 α)) ⟨3, 3, 3⟩ := by
    intro r s hrs heq
    apply hrs
    have := congrFun (congrFun heq 3) 2
    rwa [grid_transform_entry, grid_transform_entry] at this
  have key := filter_length_add_le
    (fun T => (Frustum.extractPlanes sqrt ((perspective t (800 / 600) (1 / 10) 100).mul
        (getViewMatrix ⟨1, 0, 0⟩ up ⟨0, fy, fz⟩ ⟨0, 2, 5⟩))).isBoundingBoxInside
          (b.transform T))
    (bunnyTransforms : List (Mat4 α))
    [scale (translate Mat4.identity ⟨-5, 0, ((7 : ℕ) : α) - 5⟩) ⟨3, 3, 3⟩,
      scale (translate Mat4.identity ⟨-5, 0, ((8 : ℕ) : α) - 5⟩) ⟨3, 3, 3⟩,
      scale (translate Mat4.identity ⟨-5, 0, ((9 : ℕ) : α) - 5⟩) ⟨3, 3, 3⟩]
    (by
      simp only [List.nodup_cons, List.mem_cons, List.mem_singleton, List.not_mem_nil,
        List.nodup_nil, not_or, not_false_eq_true, and_true]
      refine ⟨⟨hne _ _ ?_, hne _ _ ?_⟩, hne _ _ ?_⟩ <;> norm_num)
    (by
      intro x hx
      simp only [List.mem_cons, List.mem_singleton, List.not_mem_nil, or_false] at hx
      rcases hx with rfl | rfl | rfl
      · exact ⟨hm 7 (by decide), grid_instance_rejected sqrt up fy fz t _ ht ht2 hf
          (by norm_num) (by norm_num) b hv hmin hmax⟩
      · exact ⟨hm 8 (by decide), grid_instance_rejected sqrt up fy fz t _ ht ht2 hf
          (by norm_num) (by norm_num) b hv hmin hmax⟩
      · exact ⟨hm 9 (by decide), grid_instance_rejected sqrt up fy fz t _ ht ht2 hf
          (by norm_num) (by norm_num) b hv hmin hmax⟩)
  rw [bunnyTransforms_length] at key
  simp only [List.length_cons, List.length_nil] at key
  omega

/-- In exact arithmetic a point is inside the extracted frustum iff its clip coordinates
satisfy `-w ≤ x ≤ w`, `-w ≤ y ≤ w` and `-w ≤ z ≤ w`. -/
lemma extractPlanes_inside_iff_clip (sqrt : α → α) (m : Mat4 α) (p : Vec3 α) :
    (Frustum.extractPlanes sqrt m).isPointInside p = true ↔
      (-(clipCoords m p).w ≤ (clipCoords m p).x ∧ (clipCoords m p).x ≤ (clipCoords m p).w) ∧
      (-(clipCoords m p).w ≤ (clipCoords m p).y ∧ (clipCoords m p).y ≤ (clipCoords m p).w) ∧
      (-(clipCoords m p).w ≤ (clipCoords m p).z ∧ (clipCoords m p).z ≤ (clipCoords m p).w) := by
  rw [Frustum.isPointInside_iff]
  simp only [Frustum.extractPlanes, Frustum.planeDistance_normalizePlane_nonneg]
  rw [forall_fin_six]
  simp only [Frustum.rawPlanes, planeArray_zero, planeArray_one, planeArray_two,
    planeArray_three, planeArray_four, planeArray_five, planeDistance, dot, Vec4.xyz,
    clipCoords, Mat4.mulVec, Vec4.ofVec3]
  constructor
  · rintro ⟨h0, h1, h2, h3, h4, h5⟩
    refine ⟨⟨?_, ?_⟩, ⟨?_, ?_⟩, ⟨?_, ?_⟩⟩ <;> linarith
  · rintro ⟨⟨h0, h1⟩, ⟨h2, h3⟩, ⟨h4, h5⟩⟩
    refine ⟨?_, ?_, ?_, ?_, ?_, ?_⟩ <;> linarith

lemma absCoord_nonneg (m : Mat4 α) (p : Vec3 α) (r : Fin 4) : 0 ≤ absCoord m p r := by
  unfold absCoord
  positivity

/-- The tolerance of the clip-space test is not negative. -/
lemma clip_tolerance_nonneg (m : Mat4 α) (p : Vec3 α) (r : Fin 4) :
    0 ≤ (1 / 65536) * (absCoord m p 3 + absCoord m p r) :=
  mul_nonneg (by norm_num) (add_nonneg (absCoord_nonneg m p 3) (absCoord_nonneg m p r))

/-- The branches of `normalizePlane`, with the computed length of the normal. -/
lemma normalizePlane_branches (sqrt : α → α) (plane : Vec4 α) :
    (0 < length sqrt plane.xyz →
      Frustum.normalizePlane sqrt plane = plane.divScalar (length sqrt plane.xyz)) ∧
    (¬ 0 < length sqrt plane.xyz → Frustum.normalizePlane sqrt plane = plane) := by
  have hst : Frustum.normalizePlane sqrt plane =
      if length sqrt plane.xyz > 0 then plane.divScalar (length sqrt plane.xyz)
      else plane := rfl
  exact ⟨fun h => by rw [hst, if_pos h], fun h => by rw [hst, if_neg h]⟩

/-- With an exact square root, a plane that was divided by the length of its normal has a
normal of length 1. -/
lemma normalizePlane_unit (sqrt : α → α)
    (hsqrt : ∀ x : α, 0 ≤ x → 0 ≤ sqrt x ∧ sqrt x * sqrt x = x) (plane : Vec4 α)
    (hne : length sqrt plane.xyz ≠ 0) :
    (Frustum.normalizePlane sqrt plane).x ^ 2 + (Frustum.normalizePlane sqrt plane).y ^ 2
      + (Frustum.normalizePlane sqrt plane).z ^ 2 = 1 := by
  have hdot : 0 ≤ dot plane.xyz plane.xyz := by
    simp only [dot]
    nlinarith [mul_self_nonneg plane.xyz.x, mul_self_nonneg plane.xyz.y,
      mul_self_nonneg plane.xyz.z]
  obtain ⟨hL0, hLL⟩ := hsqrt _ hdot
  have hpos : 0 < length sqrt plane.xyz := lt_of_le_of_ne hL0 (Ne.symm hne)
  rw [(normalizePlane_branches sqrt plane).1 hpos]
  simp only [Vec4.divScalar]
  have hLL2 : length sqrt plane.xyz ^ 2 = plane.x ^ 2 + plane.y ^ 2 + plane.z ^ 2 := by
    have := hLL
    simp only [dot, Vec4.xyz] at this
    simp only [length, dot, Vec4.xyz]
    rw [sq, this]
    ring
  rw [div_pow, div_pow, div_pow, ← add_div, ← add_div, ← hLL2]
  exact div_self (pow_ne_zero 2 hne)

/-- A sphere whose centre is inside the frustum passes the sphere test. -/
lemma Frustum.isSphereInside_of_centre (f : Frustum α) (c : Vec3 α) (r : α) (hr : 0 ≤ r)
    (h : f.isPointInside c = true) : f.isSphereInside c r = true := by
  unfold Frustum.isSphereInside
  rw [Frustum.isSphereInsideLoop_iff, Frustum.forall_planeList]
  rw [Frustum.isPointInside_iff] at h
  intro k
  linarith [h k]

/-- The sphere test is monotone in the radius. -/
lemma Frustum.isSphereInside_mono (f : Frustum α) (c : Vec3 α) (r r' : α) (hr : r ≤ r')
    (h : f.isSphereInside c r = true) : f.isSphereInside c r' = true := by
  unfold Frustum.isSphereInside at h ⊢
  rw [Frustum.isSphereInsideLoop_iff, Frustum.forall_planeList] at h ⊢
  intro k
  linarith [h k]

/-- With a square root accurate to a relative `2^-22` in the square (as the correctly
rounded binary32 square root is), a plane that was divided by the computed length of its
normal has a normal of squared length within `2^-20` of 1. -/
lemma normalizePlane_near_unit (sqrt : α → α)
    (hsqrt : ∀ x : α, 0 ≤ x → 0 ≤ sqrt x ∧ |sqrt x * sqrt x - x| ≤ x / 2 ^ 22)
    (plane : Vec4 α) (hne : length sqrt plane.xyz ≠ 0) :
    |(Frustum.normalizePlane sqrt plane).x ^ 2 + (Frustum.normalizePlane sqrt plane).y ^ 2
      + (Frustum.normalizePlane sqrt plane).z ^ 2 - 1| ≤ 1 / 2 ^ 20 := by
  have hdot : 0 ≤ dot plane.xyz plane.xyz := by
    simp only [dot]
    nlinarith [mul_self_nonneg plane.xyz.x, mul_self_nonneg plane.xyz.y,
      mul_self_nonneg plane.xyz.z]
  obtain ⟨hL0, hLL⟩ := hsqrt _ hdot
  have hpos : 0 < length sqrt plane.xyz := lt_of_le_of_ne hL0 (Ne.symm hne)
  rw [(normalizePlane_branches sqrt plane).1 hpos]
  simp only [Vec4.divScalar]
  have hS : plane.x ^ 2 + plane.y ^ 2 + plane.z ^ 2 = dot plane.xyz plane.xyz := by
    simp only [dot, Vec4.xyz]
    ring
  rw [div_pow, div_pow, div_pow, ← add_div, ← add_div, hS]
  have hLdef : length sqrt plane.xyz = sqrt (dot plane.xyz plane.xyz) := rfl
  rw [hLdef] at hpos ⊢
  generalize dot plane.xyz plane.xyz = S at hdot hLL hpos ⊢
  generalize sqrt S = L at hLL hpos ⊢
  have hL2 : 0 < L ^ 2 := by positivity
  obtain ⟨h1, h2⟩ := abs_le.mp hLL
  rw [abs_le]
  constructor
  · rw [le_sub_iff_add_le, le_div_iff₀ hL2]
    nlinarith
  · rw [sub_le_iff_le_add, div_le_iff₀ hL2]
    nlinarith

lemma F32.signed_mul (s : Bool) (m k : Nat) :
    F32.signed s (m * k) = F32.signed s m * (k : Int) := by
  cases s <;> simp [F32.signed]

/-- The aligned integer of a finite `float`, scaled back, is its rational value. -/
lemma F32.toRat_aligned (s : Bool) (m : Nat) (e1 e : Int) (h : e ≤ e1) :
    ((F32.signed s (m * 2 ^ (e1 - e).toNat) : Int) : ℚ) * (2 : ℚ) ^ e =
      F32.toRat (F32.fin s m e1) := by
  rw [F32.signed_mul]
  have h2 : ((2 : ℚ) ^ (e1 - e).toNat) * (2 : ℚ) ^ e = (2 : ℚ) ^ e1 := by
    rw [← zpow_natCast, ← zpow_add₀ (by norm_num : (2 : ℚ) ≠ 0),
      Int.toNat_of_nonneg (by omega)]
    congr 1
    omega
  simp only [F32.toRat]
  push_cast
  rw [mul_assoc, h2]

lemma F32.le_fin_iff (s1 : Bool) (m1 : Nat) (e1 : Int) (s2 : Bool) (m2 : Nat) (e2 : Int) :
    F32.le (F32.fin s1 m1 e1) (F32.fin s2 m2 e2) = true ↔
      F32.toRat (F32.fin s1 m1 e1) ≤ F32.toRat (F32.fin s2 m2 e2) := by
  simp only [F32.le, decide_eq_true_eq]
  rw [← F32.toRat_aligned s1 m1 e1 (min e1 e2) (min_le_left _ _),
    ← F32.toRat_aligned s2 m2 e2 (min e1 e2) (min_le_right _ _),
    mul_le_mul_right (by positivity : (0 : ℚ) < 2 ^ min e1 e2)]
  exact Int.cast_le.symm

lemma F32.lt_fin_iff (s1 : Bool) (m1 : Nat) (e1 : Int) (s2 : Bool) (m2 : Nat) (e2 : Int) :
    F32.lt (F32.fin s1 m1 e1) (F32.fin s2 m2 e2) = true ↔
      F32.toRat (F32.fin s1 m1 e1) < F32.toRat (F32.fin s2 m2 e2) := by
  simp only [F32.lt, decide_eq_true_eq]
  rw [← F32.toRat_aligned s1 m1 e1 (min e1 e2) (min_le_left _ _),
    ← F32.toRat_aligned s2 m2 e2 (min e1 e2) (min_le_right _ _),
    mul_lt_mul_right (by positivity : (0 : ℚ) < 2 ^ min e1 e2)]
  exact Int.cast_lt.symm

/-- The comparison `x <= x` holds for every `float` but NaN. -/
lemma F32.le_self (a : F32) (h : a.isNumber = true) : F32.le a a = true := by
  cases a with
  | nan => simp [F32.isNumber] at h
  | inf s => cases s <;> rfl
  | fin s m e => exact (F32.le_fin_iff _ _ _ _ _ _).mpr (le_refl _)

lemma F32.lt_imp_le (a b : F32) (h : F32.lt a b = true) : F32.le a b = true := by
  cases a with
  | nan => simp [F32.lt] at h
  | inf s =>
    cases b with
    | nan => simp [F32.lt] at h
    | inf t => cases s <;> cases t <;> simp_all [F32.lt, F32.le]
    | fin t m e => simpa [F32.lt, F32.le] using h
  | fin s m e =>
    cases b with
    | nan => simp [F32.lt] at h
    | inf t => simpa [F32.lt, F32.le] using h
    | fin t m2 e2 =>
      exact (F32.le_fin_iff _ _ _ _ _ _).mpr ((F32.lt_fin_iff _ _ _ _ _ _).mp h).le

lemma F32.le_transitive (a b c : F32) (h1 : F32.le a b = true) (h2 : F32.le b c = true) :
    F32.le a c = true := by
  cases a with
  | nan => simp [F32.le] at h1
  | inf s =>
    cases b with
    | nan => simp [F32.le] at h1
    | inf t =>
      cases c with
      | nan => simp [F32.le] at h2
      | inf u => cases s <;> cases t <;> cases u <;> simp_all [F32.le]
      | fin u m e => cases s <;> cases t <;> simp_all [F32.le]
    | fin t m e =>
      cases c with
      | nan => simp [F32.le] at h2
      | inf u => cases s <;> cases u <;> simp_all [F32.le]
      | fin u m2 e2 => simpa [F32.le] using h1
  | fin s m e =>
    cases b with
    | nan => simp [F32.le] at h1
    | inf t =>
      cases c with
      | nan => simp [F32.le] at h2
      | inf u => cases t <;> cases u <;> simp_all [F32.le]
      | fin u m2 e2 => cases t <;> simp_all [F32.le]
    | fin t m2 e2 =>
      cases c with
      | nan => simp [F32.le] at h2
      | inf u => simpa [F32.le] using h2
      | fin u m3 e3 =>
        exact (F32.le_fin_iff _ _ _ _ _ _).mpr
          (((F32.le_fin_iff _ _ _ _ _ _).mp h1).trans ((F32.le_fin_iff _ _ _ _ _ _).mp h2))

lemma F32.isNumber_of_le (a b : F32) (h : F32.le a b = true) :
    a.isNumber = true ∧ b.isNumber = true := by
  cases a <;> cases b <;> simp_all [F32.le, F32.isNumber]

/-- After `min = glm::min(min, p)` and `max = glm::max(max, p)` with `p` not a NaN,
`min <= max` still holds. -/
lemma Binary32.glmMin_le_glmMax (lo hi p : F32) (h : F32.le lo hi = true)
    (hp : p.isNumber = true) : F32.le (Binary32.glmMin lo p) (Binary32.glmMax hi p) = true := by
  unfold Binary32.glmMin Binary32.glmMax
  cases h1 : F32.lt p lo with
  | true =>
    cases h2 : F32.lt hi p with
    | true => simpa using F32.le_self p hp
    | false => simpa using F32.le_transitive _ _ _ (F32.lt_imp_le _ _ h1) h
  | false =>
    cases h2 : F32.lt hi p with
    | true => simpa using F32.le_transitive _ _ _ h (F32.lt_imp_le _ _ h2)
    | false => simpa using h

/-- The same for `expand(other)`, with `other.min <= other.max`. -/
lemma Binary32.glmMin_le_glmMax_box (lo hi lo2 hi2 : F32) (h : F32.le lo hi = true)
    (h' : F32.le lo2 hi2 = true) :
    F32.le (Binary32.glmMin lo lo2) (Binary32.glmMax hi hi2) = true := by
  unfold Binary32.glmMin Binary32.glmMax
  cases h1 : F32.lt lo2 lo with
  | true =>
    cases h2 : F32.lt hi hi2 with
    | true => simpa using h'
    | false => simpa using F32.le_transitive _ _ _ (F32.lt_imp_le _ _ h1) h
  | false =>
    cases h2 : F32.lt hi hi2 with
    | true => simpa using F32.le_transitive _ _ _ h (F32.lt_imp_le _ _ h2)
    | false => simpa using h

lemma Binary32.isNumber3_iff (v : Vec3 F32) :
    Binary32.isNumber3 v = true ↔
      v.x.isNumber = true ∧ v.y.isNumber = true ∧ v.z.isNumber = true := by
  simp [Binary32.isNumber3, and_assoc]

lemma Binary32.expand_minLeMax (b : BoundingBox F32) (p : Vec3 F32)
    (hb : b.valid = true → Binary32.Ordered b) (hp : Binary32.isNumber3 p = true) :
    (Binary32.expand b p).valid = true ∧ Binary32.Ordered (Binary32.expand b p) := by
  obtain ⟨px, py, pz⟩ := (Binary32.isNumber3_iff p).mp hp
  unfold Binary32.expand
  cases hv : b.valid with
  | false => exact ⟨rfl, F32.le_self _ px, F32.le_self _ py, F32.le_self _ pz⟩
  | true =>
    obtain ⟨hx, hy, hz⟩ := hb hv
    exact ⟨rfl, Binary32.glmMin_le_glmMax _ _ _ hx px, Binary32.glmMin_le_glmMax _ _ _ hy py,
      Binary32.glmMin_le_glmMax _ _ _ hz pz⟩

lemma Binary32.foldl_expand_minLeMax {β : Type} (g : β → Vec3 F32) (l : List β)
    (hg : ∀ c ∈ l, Binary32.isNumber3 (g c) = true) (b : BoundingBox F32)
    (hb : b.valid = true → Binary32.Ordered b) :
    (l.foldl (fun result c => Binary32.expand result (g c)) b).valid = true →
      Binary32.Ordered (l.foldl (fun result c => Binary32.expand result (g c)) b) := by
  induction l generalizing b with
  | nil => exact hb
  | cons c rest ih =>
    simp only [List.foldl_cons]
    exact ih (fun d hd => hg d (List.mem_cons_of_mem _ hd)) _
      (fun _ => (Binary32.expand_minLeMax b (g c) hb (hg c (List.mem_cons_self _ _))).2)

lemma Binary32.fromVertices_fold_minLeMax (l : List (Vec3 F32))
    (hl : ∀ v ∈ l, Binary32.isNumber3 v = true) (acc : Vec3 F32 × Vec3 F32)
    (h : Binary32.Ordered ⟨acc.1, acc.2, true⟩) :
    Binary32.Ordered
      ⟨(l.foldl
        (fun (acc : Vec3 F32 × Vec3 F32) vertex =>
          ((⟨Binary32.glmMin acc.1.x vertex.x, Binary32.glmMin acc.1.y vertex.y,
              Binary32.glmMin acc.1.z vertex.z⟩ : Vec3 F32),
            (⟨Binary32.glmMax acc.2.x vertex.x, Binary32.glmMax acc.2.y vertex.y,
              Binary32.glmMax acc.2.z vertex.z⟩ : Vec3 F32))) acc).1,
       (l.foldl
        (fun (acc : Vec3 F32 × Vec3 F32) vertex =>
          ((⟨Binary32.glmMin acc.1.x vertex.x, Binary32.glmMin acc.1.y vertex.y,
              Binary32.glmMin acc.1.z vertex.z⟩ : Vec3 F32),
            (⟨Binary32.glmMax acc.2.x vertex.x, Binary32.glmMax acc.2.y vertex.y,
              Binary32.glmMax acc.2.z vertex.z⟩ : Vec3 F32))) acc).2, true⟩ := by
  induction l generalizing acc with
  | nil => exact h
  | cons v rest ih =>
    simp only [List.foldl_cons]
    obtain ⟨vx, vy, vz⟩ := (Binary32.isNumber3_iff v).mp (hl v (List.mem_cons_self _ _))
    obtain ⟨hx, hy, hz⟩ := h
    exact ih (fun d hd => hl d (List.mem_cons_of_mem _ hd)) _
      ⟨Binary32.glmMin_le_glmMax _ _ _ hx vx, Binary32.glmMin_le_glmMax _ _ _ hy vy,
        Binary32.glmMin_le_glmMax _ _ _ hz vz⟩

lemma Binary32.fromVertices_minLeMax (l : List (Vec3 F32))
    (hl : ∀ v ∈ l, Binary32.isNumber3 v = true)
    (hv : (Binary32.fromVertices l).valid = true) :
    Binary32.Ordered (Binary32.fromVertices l) := by
  cases l with
  | nil => simp [Binary32.fromVertices] at hv
  | cons v0 t =>
    obtain ⟨vx, vy, vz⟩ := (Binary32.isNumber3_iff v0).mp (hl v0 (List.mem_cons_self _ _))
    exact Binary32.fromVertices_fold_minLeMax (v0 :: t) hl (v0, v0)
      ⟨F32.le_self _ vx, F32.le_self _ vy, F32.le_self _ vz⟩

lemma Binary32.expandBox_minLeMax (b other : BoundingBox F32)
    (hb : b.valid = true → Binary32.Ordered b) (ho : other.valid = true → Binary32.Ordered other)
    (hv : (Binary32.expandBox b other).valid = true) :
    Binary32.Ordered (Binary32.expandBox b other) := by
  unfold Binary32.expandBox at hv ⊢
  cases hov : other.valid with
  | false =>
    simp only [hov, Bool.not_false, if_true] at hv ⊢
    exact hb hv
  | true =>
    obtain ⟨ox, oy, oz⟩ := ho hov
    cases hbv : b.valid with
    | false =>
      simp only [Bool.not_true, Bool.not_false, if_true]
      exact ⟨ox, oy, oz⟩
    | true =>
      obtain ⟨hx, hy, hz⟩ := hb hbv
      simp only [Bool.not_true]
      exact ⟨Binary32.glmMin_le_glmMax_box _ _ _ _ hx ox,
        Binary32.glmMin_le_glmMax_box _ _ _ _ hy oy, Binary32.glmMin_le_glmMax_box _ _ _ _ hz oz⟩

lemma F32.pack_isNumber (s : Bool) (m : Nat) (e : Int) : (F32.pack s m e).isNumber = true := by
  unfold F32.pack
  split_ifs <;> rfl

lemma F32.round_isNumber (s : Bool) (m : Nat) (e : Int) (st : Bool) :
    (F32.round s m e st).isNumber = true := by
  simp only [F32.round]
  split_ifs <;> first | rfl | exact F32.pack_isNumber _ _ _

/-- A finite `float` divided by a finite `float` other than zero is not a NaN. -/
lemma F32.div_isNumber (a b : F32) (ha : a.isFinite = true) (hb : b.isFinite = true)
    (hz : b.isZero = false) : (F32.div a b).isNumber = true := by
  cases a with
  | nan => simp [F32.isFinite] at ha
  | inf s => simp [F32.isFinite] at ha
  | fin s1 m1 e1 =>
    cases b with
    | nan => simp [F32.isFinite] at hb
    | inf s => simp [F32.isFinite] at hb
    | fin s2 m2 e2 =>
      have hm : m2 ≠ 0 := by simpa [F32.isZero] using hz
      unfold F32.div
      simp only [hm, if_false]
      split_ifs
      · rfl
      · exact F32.round_isNumber _ _ _ _

lemma Binary32.transform_eq_foldl (b : BoundingBox F32) (matrix : Mat4 F32) :
    Binary32.transform b matrix =
      if !b.valid then Binary32.default
      else (Binary32.getCorners b).foldl
        (fun result corner => Binary32.expand result
          (⟨F32.div (Binary32.mulVec matrix ⟨corner.x, corner.y, corner.z, F32.ofInt 1⟩).x
              (Binary32.mulVec matrix ⟨corner.x, corner.y, corner.z, F32.ofInt 1⟩).w,
            F32.div (Binary32.mulVec matrix ⟨corner.x, corner.y, corner.z, F32.ofInt 1⟩).y
              (Binary32.mulVec matrix ⟨corner.x, corner.y, corner.z, F32.ofInt 1⟩).w,
            F32.div (Binary32.mulVec matrix ⟨corner.x, corner.y, corner.z, F32.ofInt 1⟩).z
              (Binary32.mulVec matrix ⟨corner.x, corner.y, corner.z, F32.ofInt 1⟩).w⟩ :
            Vec3 F32))
        Binary32.default := rfl

lemma Binary32.transform_minLeMax (b : BoundingBox F32) (matrix : Mat4 F32)
    (hd : ∀ c ∈ Binary32.getCorners b, Binary32.divisible matrix c = true)
    (hv : (Binary32.transform b matrix).valid = true) :
    Binary32.Ordered (Binary32.transform b matrix) := by
  rw [Binary32.transform_eq_foldl] at hv ⊢
  cases hbv : b.valid with
  | false =>
    simp only [hbv, Bool.not_false, if_true] at hv
    exact absurd hv (by simp [Binary32.default])
  | true =>
    simp only [hbv, Bool.not_true, Bool.false_eq_true, if_false] at hv ⊢
    refine Binary32.foldl_expand_minLeMax _ _ (fun c hc => ?_) _ (fun h => ?_) hv
    · have h := hd c hc
      simp only [Binary32.divisible, Binary32.isFinite4, Bool.and_eq_true,
        Bool.not_eq_true'] at h
      obtain ⟨⟨⟨⟨fx, fy⟩, fz⟩, fw⟩, nz⟩ := h
      exact (Binary32.isNumber3_iff _).mpr ⟨F32.div_isNumber _ _ fx fw nz,
        F32.div_isNumber _ _ fy fw nz, F32.div_isNumber _ _ fz fw nz⟩
    · exact absurd h (by simp [Binary32.default])

/-- Every valid box of the restricted interface has `min <= max` on each axis. -/
lemma Binary32.reachable_minLeMax (b : BoundingBox F32) (hr : Binary32.ReachableOrdered b) :
    b.valid = true → Binary32.Ordered b := by
  induction hr with
  | default => intro hv; simp [Binary32.default] at hv
  | ofMinMax min max hx hy hz => exact fun _ => ⟨hx, hy, hz⟩
  | fromVertices vertices hn => exact Binary32.fromVertices_minLeMax vertices hn
  | expand b point hp _ ih => exact fun _ => (Binary32.expand_minLeMax b point ih hp).2
  | expandBox b other _ _ ihb iho => exact Binary32.expandBox_minLeMax b other ihb iho
  | transform b matrix hd _ _ => exact Binary32.transform_minLeMax b matrix hd

lemma F32.ofInt_zero : F32.ofInt 0 = F32.fin false 0 0 := by decide

lemma F32.signed_nonneg_iff (s : Bool) (n : Nat) :
    0 ≤ F32.signed s n ↔ (s = false ∨ n = 0) := by
  cases s <;> simp [F32.signed]

lemma F32.signed_nonpos_iff (s : Bool) (n : Nat) :
    F32.signed s n ≤ 0 ↔ (s = true ∨ n = 0) := by
  cases s <;> simp [F32.signed]

/-- Comparing with `-0.0f` is comparing with `0.0f`. -/
lemma F32.lt_neg_zero (d : F32) :
    F32.lt d (F32.neg (F32.ofInt 0)) = F32.lt d (F32.ofInt 0) := by
  rw [F32.ofInt_zero]
  cases d <;> simp [F32.lt, F32.neg, F32.signed]

/-- A distance that is not below zero is not below `-r` for `r >= 0`, NaN and the infinities
included. -/
lemma F32.not_lt_neg_of_nonneg (d r : F32) (hr : F32.le (F32.ofInt 0) r = true)
    (hd : F32.lt d (F32.ofInt 0) = false) : F32.lt d (F32.neg r) = false := by
  rw [F32.ofInt_zero] at hr hd
  cases d with
  | nan => cases r <;> simp [F32.lt, F32.neg]
  | inf a =>
    cases r with
    | nan => simp [F32.le] at hr
    | inf b =>
      simp only [F32.lt] at hd
      simp [F32.lt, F32.neg, hd]
    | fin s2 m2 e2 =>
      simp only [F32.lt] at hd
      simp [F32.lt, F32.neg, hd]
  | fin s1 m1 e1 =>
    cases r with
    | nan => simp [F32.le] at hr
    | inf b =>
      simp only [F32.le, Bool.not_eq_true'] at hr
      simp [F32.lt, F32.neg, hr]
    | fin s2 m2 e2 =>
      simp only [F32.le, F32.lt, decide_eq_true_eq, decide_eq_false_iff_not, not_lt,
        zero_mul] at hr hd
      simp only [F32.lt, F32.neg, decide_eq_false_iff_not, not_lt]
      have h0 : F32.signed false 0 = 0 := rfl
      rw [h0] at hr hd
      have h1 : s1 = false ∨ m1 = 0 := by
        rcases (F32.signed_nonneg_iff _ _).mp hd with h | h
        · exact Or.inl h
        · exact Or.inr (by simpa using h)
      have h2 : s2 = false ∨ m2 = 0 := by
        rcases (F32.signed_nonneg_iff _ _).mp hr with h | h
        · exact Or.inl h
        · exact Or.inr (by simpa using h)
      refine le_trans ((F32.signed_nonpos_iff _ _).mpr ?_) ((F32.signed_nonneg_iff _ _).mpr ?_)
      · rcases h2 with h | h
        · exact Or.inl (by simp [h])
        · exact Or.inr (by simp [h])
      · rcases h1 with h | h
        · exact Or.inl h
        · exact Or.inr (by simp [h])

lemma F32.toRat_neg_fin (s : Bool) (m : Nat) (e : Int) :
    F32.toRat (F32.fin (!s) m e) = -F32.toRat (F32.fin s m e) := by
  cases s <;> simp [F32.toRat, F32.signed]

/-- The sphere test of one plane is monotone in the radius. -/
lemma F32.not_lt_neg_mono (d r r' : F32) (hr : F32.le r r' = true)
    (hd : F32.lt d (F32.neg r) = false) : F32.lt d (F32.neg r') = false := by
  cases d with
  | nan => cases r' <;> rfl
  | inf a =>
    cases r with
    | nan => simp [F32.le] at hr
    | inf b =>
      cases r' with
      | nan => simp [F32.le] at hr
      | inf c => cases a <;> cases b <;> cases c <;> simp_all [F32.lt, F32.le, F32.neg]
      | fin s m e => cases a <;> cases b <;> simp_all [F32.lt, F32.le, F32.neg]
    | fin s m e =>
      cases r' with
      | nan => simp [F32.le] at hr
      | inf c => cases a <;> cases c <;> simp_all [F32.lt, F32.le, F32.neg]
      | fin s2 m2 e2 => cases a <;> simp_all [F32.lt, F32.le, F32.neg]
  | fin s1 m1 e1 =>
    cases r with
    | nan => simp [F32.le] at hr
    | inf b =>
      cases r' with
      | nan => simp [F32.le] at hr
      | inf c => cases b <;> cases c <;> simp_all [F32.lt, F32.le, F32.neg]
      | fin s m e => cases b <;> simp_all [F32.lt, F32.le, F32.neg]
    | fin s m e =>
      cases r' with
      | nan => simp [F32.le] at hr
      | inf c => cases c <;> simp_all [F32.lt, F32.le, F32.neg]
      | fin s2 m2 e2 =>
        have h1 := (F32.le_fin_iff _ _ _ _ _ _).mp hr
        have h2 : ¬ F32.toRat (F32.fin s1 m1 e1) < F32.toRat (F32.fin (!s) m e) := by
          intro h
          have := (F32.lt_fin_iff s1 m1 e1 (!s) m e).mpr h
          simp only [F32.neg] at hd
          rw [hd] at this
          exact Bool.false_ne_true this
        rw [F32.toRat_neg_fin] at h2
        simp only [F32.neg]
        rw [Bool.eq_false_iff]
        intro h
        have h3 := (F32.lt_fin_iff s1 m1 e1 (!s2) m2 e2).mp h
        rw [F32.toRat_neg_fin] at h3
        linarith

lemma Binary32.isSphereInsideLoop_zero (c : Vec3 F32) (ps : List (Vec4 F32)) :
    Binary32.isSphereInsideLoop c (F32.ofInt 0) ps = Binary32.isPointInsideLoop c ps := by
  induction ps with
  | nil => rfl
  | cons p rest ih =>
    simp only [Binary32.isSphereInsideLoop, Binary32.isPointInsideLoop, F32.lt_neg_zero, ih]

lemma Binary32.isSphereInsideLoop_of_centre (c : Vec3 F32) (r : F32)
    (hr : F32.le (F32.ofInt 0) r = true) (ps : List (Vec4 F32))
    (h : Binary32.isPointInsideLoop c ps = true) :
    Binary32.isSphereInsideLoop c r ps = true := by
  induction ps with
  | nil => rfl
  | cons p rest ih =>
    simp only [Binary32.isPointInsideLoop] at h
    simp only [Binary32.isSphereInsideLoop]
    cases hd : F32.lt (Binary32.planeDistance p c) (F32.ofInt 0) with
    | true => simp [hd] at h
    | false =>
      rw [hd] at h
      rw [F32.not_lt_neg_of_nonneg _ _ hr hd]
      simpa using ih (by simpa using h)

lemma Binary32.isSphereInsideLoop_mono (c : Vec3 F32) (r r' : F32)
    (hr : F32.le r r' = true) (ps : List (Vec4 F32))
    (h : Binary32.isSphereInsideLoop c r ps = true) :
    Binary32.isSphereInsideLoop c r' ps = true := by
  induction ps with
  | nil => rfl
  | cons p rest ih =>
    simp only [Binary32.isSphereInsideLoop] at h ⊢
    cases hd : F32.lt (Binary32.planeDistance p c) (F32.neg r) with
    | true => simp [hd] at h
    | false =>
      rw [hd] at h
      rw [F32.not_lt_neg_mono _ _ _ hr hd]
      simpa using ih (by simpa using h)

lemma F32.pack_cases (s : Bool) (m : Nat) (e : Int) :
    (∃ m' e', F32.pack s m e = F32.fin s m' e') ∨ F32.pack s m e = F32.inf s := by
  unfold F32.pack
  split_ifs
  · exact Or.inl ⟨_, _, rfl⟩
  · exact Or.inr rfl
  · exact Or.inl ⟨_, _, rfl⟩
  · exact Or.inr rfl
  · exact Or.inl ⟨_, _, rfl⟩

/-- Rounding keeps the sign: the result is a finite number or an infinity of that sign. -/
lemma F32.round_cases (s : Bool) (m : Nat) (e : Int) (st : Bool) :
    (∃ m' e', F32.round s m e st = F32.fin s m' e') ∨ F32.round s m e st = F32.inf s := by
  simp only [F32.round]
  split_ifs <;> first | exact Or.inl ⟨_, _, rfl⟩ | exact F32.pack_cases _ _ _

lemma F32.zero_le_fin_false (m : Nat) (e : Int) :
    F32.le (F32.fin false 0 0) (F32.fin false m e) = true := by
  simp only [F32.le, F32.signed, decide_eq_true_eq, zero_mul, Bool.false_eq_true, if_false,
    Nat.cast_zero]
  exact Int.natCast_nonneg _

lemma F32.fin_true_le_zero (m : Nat) (e : Int) :
    F32.le (F32.fin true m e) (F32.fin false 0 0) = true := by
  simp only [F32.le, F32.signed, decide_eq_true_eq, zero_mul]
  simp only [Bool.false_eq_true, if_false, if_true, Nat.cast_zero, Left.neg_nonpos_iff]
  exact_mod_cast Nat.zero_le _

lemma F32.zero_le_round (m : Nat) (e : Int) (st : Bool) :
    F32.le (F32.fin false 0 0) (F32.round false m e st) = true := by
  rcases F32.round_cases false m e st with ⟨m', e', h⟩ | h
  · rw [h]
    exact F32.zero_le_fin_false _ _
  · rw [h]
    rfl

lemma F32.round_le_zero (m : Nat) (e : Int) (st : Bool) :
    F32.le (F32.round true m e st) (F32.fin false 0 0) = true := by
  rcases F32.round_cases true m e st with ⟨m', e', h⟩ | h
  · rw [h]
    exact F32.fin_true_le_zero _ _
  · rw [h]
    rfl

lemma F32.zero_le_zero (s : Bool) : F32.le (F32.fin false 0 0) (F32.fin s 0 0) = true := by
  cases s <;> decide

lemma F32.zero_ge_zero (s : Bool) : F32.le (F32.fin s 0 0) (F32.fin false 0 0) = true := by
  cases s <;> decide

/-- Dividing a finite `float` by a positive length keeps its sign; the quotient may be
zero. -/
lemma F32.div_sign (c len : F32) (hc : c.isFinite = true)
    (hlen : F32.gt len (F32.ofInt 0) = true) :
    (F32.le (F32.ofInt 0) c = true → F32.le (F32.ofInt 0) (F32.div c len) = true) ∧
    (F32.le c (F32.ofInt 0) = true → F32.le (F32.div c len) (F32.ofInt 0) = true) := by
  rw [F32.ofInt_zero] at *
  cases c with
  | nan => simp [F32.isFinite] at hc
  | inf s => simp [F32.isFinite] at hc
  | fin s1 m1 e1 =>
    cases len with
    | nan => simp [F32.gt, F32.lt] at hlen
    | inf b =>
      have hb : b = false := by simpa [F32.gt, F32.lt] using hlen
      subst hb
      simp only [F32.div, Bool.xor_false]
      exact ⟨fun _ => F32.zero_le_zero _, fun _ => F32.zero_ge_zero _⟩
    | fin s2 m2 e2 =>
      have hpos : 0 < F32.signed s2 (m2 * 2 ^ (e2 - min 0 e2).toNat) := by
        simpa [F32.gt, F32.lt, F32.signed] using hlen
      have hs2 : s2 = false := by
        cases s2 with
        | false => rfl
        | true =>
          exfalso
          simp only [F32.signed, if_true] at hpos
          have : (0 : Int) ≤ ((m2 * 2 ^ (e2 - min 0 e2).toNat : Nat) : Int) := Int.natCast_nonneg _
          omega
      have hm2 : m2 ≠ 0 := by
        rintro rfl
        simp [F32.signed] at hpos
      subst hs2
      simp only [F32.div, hm2, if_false, Bool.xor_false]
      by_cases hm1 : m1 = 0
      · simp only [hm1, if_true]
        exact ⟨fun _ => F32.zero_le_zero _, fun _ => F32.zero_ge_zero _⟩
      · simp only [hm1, if_false]
        constructor
        · intro h
          have hs1 : s1 = false := by
            cases s1 with
            | false => rfl
            | true =>
              exfalso
              simp only [F32.le, F32.signed, decide_eq_true_eq, zero_mul, if_true,
                Bool.false_eq_true, if_false, Nat.cast_zero] at h
              have h3 : 0 < m1 * 2 ^ (e1 - min 0 e1).toNat :=
                Nat.mul_pos (Nat.pos_of_ne_zero hm1) (by positivity)
              have h4 : (0 : Int) < ((m1 * 2 ^ (e1 - min 0 e1).toNat : Nat) : Int) := by
                exact_mod_cast h3
              omega
          subst hs1
          exact F32.zero_le_round _ _ _
        · intro h
          have hs1 : s1 = true := by
            cases s1 with
            | true => rfl
            | false =>
              exfalso
              simp only [F32.le, F32.signed, decide_eq_true_eq, zero_mul,
                Bool.false_eq_true, if_false, Nat.cast_zero] at h
              have h3 : 0 < m1 * 2 ^ (e1 - min e1 0).toNat :=
                Nat.mul_pos (Nat.pos_of_ne_zero hm1) (by positivity)
              have h4 : (0 : Int) < ((m1 * 2 ^ (e1 - min e1 0).toNat : Nat) : Int) := by
                exact_mod_cast h3
              omega
          subst hs1
          exact F32.round_le_zero _ _ _

/-- The method `normalizePlane` on a plane with finite coefficients never changes the sign
of a coefficient. -/
lemma Binary32.normalizePlane_sign (plane : Vec4 F32)
    (hf : Binary32.isFinite4 plane = true) :
    ((F32.le (F32.ofInt 0) plane.x = true →
        F32.le (F32.ofInt 0) (Binary32.normalizePlane plane).x = true) ∧
      (F32.le plane.x (F32.ofInt 0) = true →
        F32.le (Binary32.normalizePlane plane).x (F32.ofInt 0) = true)) ∧
    ((F32.le (F32.ofInt 0) plane.y = true →
        F32.le (F32.ofInt 0) (Binary32.normalizePlane plane).y = true) ∧
      (F32.le plane.y (F32.ofInt 0) = true →
        F32.le (Binary32.normalizePlane plane).y (F32.ofInt 0) = true)) ∧
    ((F32.le (F32.ofInt 0) plane.z = true →
        F32.le (F32.ofInt 0) (Binary32.normalizePlane plane).z = true) ∧
      (F32.le plane.z (F32.ofInt 0) = true →
        F32.le (Binary32.normalizePlane plane).z (F32.ofInt 0) = true)) ∧
    ((F32.le (F32.ofInt 0) plane.w = true →
        F32.le (F32.ofInt 0) (Binary32.normalizePlane plane).w = true) ∧
      (F32.le plane.w (F32.ofInt 0) = true →
        F32.le (Binary32.normalizePlane plane).w (F32.ofInt 0) = true)) := by
  simp only [Binary32.isFinite4, Bool.and_eq_true] at hf
  obtain ⟨⟨⟨fx, fy⟩, fz⟩, fw⟩ := hf
  simp only [Binary32.normalizePlane]
  split_ifs with h
  · exact ⟨F32.div_sign _ _ fx h, F32.div_sign _ _ fy h, F32.div_sign _ _ fz h,
      F32.div_sign _ _ fw h⟩
  · exact ⟨⟨id, id⟩, ⟨id, id⟩, ⟨id, id⟩, ⟨id, id⟩⟩

lemma F32.signed_not (s : Bool) (n : Nat) : F32.signed (!s) n = -F32.signed s n := by
  cases s <;> simp [F32.signed]

/-- For finite `a <= b` the difference `b - a` is not negative (it may be `+inf`). -/
lemma F32.sub_nonneg_of_le (a b : F32) (ha : a.isFinite = true) (hb : b.isFinite = true)
    (h : F32.le a b = true) : F32.le (F32.ofInt 0) (F32.sub b a) = true := by
  rw [F32.ofInt_zero]
  cases a with
  | nan => simp [F32.isFinite] at ha
  | inf s => simp [F32.isFinite] at ha
  | fin s1 m1 e1 =>
    cases b with
    | nan => simp [F32.isFinite] at hb
    | inf s => simp [F32.isFinite] at hb
    | fin s2 m2 e2 =>
      simp only [F32.le, decide_eq_true_eq] at h
      simp only [F32.sub, F32.neg, F32.add, F32.signed_not]
      rw [min_comm e2 e1]
      split_ifs with h0
      · exact F32.zero_le_zero _
      · have hlt : ¬ (F32.signed s2 (m2 * 2 ^ (e2 - min e1 e2).toNat)
            + -F32.signed s1 (m1 * 2 ^ (e1 - min e1 e2).toNat) < 0) := by omega
        rw [decide_eq_false hlt]
        exact F32.zero_le_round _ _ _

lemma Binary32.glmMin_isFinite (a b : F32) (ha : a.isFinite = true) (hb : b.isFinite = true) :
    (Binary32.glmMin a b).isFinite = true := by
  unfold Binary32.glmMin
  split_ifs <;> assumption

lemma Binary32.glmMax_isFinite (a b : F32) (ha : a.isFinite = true) (hb : b.isFinite = true) :
    (Binary32.glmMax a b).isFinite = true := by
  unfold Binary32.glmMax
  split_ifs <;> assumption

lemma F32.isNumber_of_isFinite (a : F32) (h : a.isFinite = true) : a.isNumber = true := by
  cases a <;> simp_all [F32.isFinite, F32.isNumber]

lemma Binary32.isFinite3_iff (v : Vec3 F32) :
    Binary32.isFinite3 v = true ↔
      v.x.isFinite = true ∧ v.y.isFinite = true ∧ v.z.isFinite = true := by
  simp [Binary32.isFinite3, and_assoc]

lemma Binary32.fromVertices_fold_finite (l : List (Vec3 F32))
    (hl : ∀ v ∈ l, Binary32.isFinite3 v = true) (acc : Vec3 F32 × Vec3 F32)
    (h : Binary32.isFinite3 acc.1 = true ∧ Binary32.isFinite3 acc.2 = true) :
    Binary32.isFinite3 (l.foldl
        (fun (acc : Vec3 F32 × Vec3 F32) vertex =>
          ((⟨Binary32.glmMin acc.1.x vertex.x, Binary32.glmMin acc.1.y vertex.y,
              Binary32.glmMin acc.1.z vertex.z⟩ : Vec3 F32),
            (⟨Binary32.glmMax acc.2.x vertex.x, Binary32.glmMax acc.2.y vertex.y,
              Binary32.glmMax acc.2.z vertex.z⟩ : Vec3 F32))) acc).1 = true ∧
    Binary32.isFinite3 (l.foldl
        (fun (acc : Vec3 F32 × Vec3 F32) vertex =>
          ((⟨Binary32.glmMin acc.1.x vertex.x, Binary32.glmMin acc.1.y vertex.y,
              Binary32.glmMin acc.1.z vertex.z⟩ : Vec3 F32),
            (⟨Binary32.glmMax acc.2.x vertex.x, Binary32.glmMax acc.2.y vertex.y,
              Binary32.glmMax acc.2.z vertex.z⟩ : Vec3 F32))) acc).2 = true := by
  induction l generalizing acc with
  | nil => exact h
  | cons v rest ih =>
    simp only [List.foldl_cons]
    obtain ⟨vx, vy, vz⟩ := (Binary32.isFinite3_iff v).mp (hl v (List.mem_cons_self _ _))
    obtain ⟨ax, ay, az⟩ := (Binary32.isFinite3_iff _).mp h.1
    obtain ⟨bx, by', bz⟩ := (Binary32.isFinite3_iff _).mp h.2
    exact ih (fun d hd => hl d (List.mem_cons_of_mem _ hd)) _
      ⟨(Binary32.isFinite3_iff _).mpr ⟨Binary32.glmMin_isFinite _ _ ax vx,
          Binary32.glmMin_isFinite _ _ ay vy, Binary32.glmMin_isFinite _ _ az vz⟩,
        (Binary32.isFinite3_iff _).mpr ⟨Binary32.glmMax_isFinite _ _ bx vx,
          Binary32.glmMax_isFinite _ _ by' vy, Binary32.glmMax_isFinite _ _ bz vz⟩⟩

/-- In binary32, for finite points, `getSize()` of `fromVertices(points)` is not negative on
any axis. -/
lemma Binary32.getSize_fromVertices_nonneg (l : List (Vec3 F32))
    (hl : ∀ v ∈ l, Binary32.isFinite3 v = true) :
    F32.le (F32.ofInt 0) (Binary32.getSize (Binary32.fromVertices l)).x = true ∧
    F32.le (F32.ofInt 0) (Binary32.getSize (Binary32.fromVertices l)).y = true ∧
    F32.le (F32.ofInt 0) (Binary32.getSize (Binary32.fromVertices l)).z = true := by
  cases l with
  | nil => exact ⟨by decide, by decide, by decide⟩
  | cons v0 t =>
    have hn : ∀ v ∈ v0 :: t, Binary32.isNumber3 v = true := fun v hv => by
      obtain ⟨a, b, c⟩ := (Binary32.isFinite3_iff v).mp (hl v hv)
      exact (Binary32.isNumber3_iff v).mpr ⟨F32.isNumber_of_isFinite _ a,
        F32.isNumber_of_isFinite _ b, F32.isNumber_of_isFinite _ c⟩
    obtain ⟨ox, oy, oz⟩ := Binary32.fromVertices_minLeMax (v0 :: t) hn rfl
    have h0 := (Binary32.isFinite3_iff v0).mp (hl v0 (List.mem_cons_self _ _))
    obtain ⟨f1, f2⟩ := Binary32.fromVertices_fold_finite (v0 :: t) hl (v0, v0)
      ⟨hl v0 (List.mem_cons_self _ _), hl v0 (List.mem_cons_self _ _)⟩
    obtain ⟨ax, ay, az⟩ := (Binary32.isFinite3_iff _).mp f1
    obtain ⟨bx, by', bz⟩ := (Binary32.isFinite3_iff _).mp f2
    exact ⟨F32.sub_nonneg_of_le _ _ ax bx ox, F32.sub_nonneg_of_le _ _ ay by' oy,
      F32.sub_nonneg_of_le _ _ az bz oz⟩

lemma planeAbs_nonneg (plane : Vec4 α) (v : Vec3 α) : 0 ≤ planeAbs plane v := by
  unfold planeAbs
  positivity

lemma dot_self_nonneg (v : Vec3 α) : 0 ≤ dot v v := by
  simp only [dot]
  nlinarith [mul_self_nonneg v.x, mul_self_nonneg v.y, mul_self_nonneg v.z]

/-- With a square root accurate to a relative `2^-22` in the square, the squared length of
the normal of a normalised plane is at most `1 / (1 - 2^-22)`. -/
lemma Frustum.normalizePlane_normal_le (sqrt : α → α)
    (hsqrt : ∀ x : α, 0 ≤ x → 0 ≤ sqrt x ∧ |sqrt x * sqrt x - x| ≤ x / 2 ^ 22)
    (plane : Vec4 α) :
    dot (Frustum.normalizePlane sqrt plane).xyz (Frustum.normalizePlane sqrt plane).xyz
      * (1 - 1 / 2 ^ 22) ≤ 1 := by
  have hdot := dot_self_nonneg plane.xyz
  obtain ⟨hL0, hLL⟩ := hsqrt _ hdot
  obtain ⟨h1, h2⟩ := abs_le.mp hLL
  have hLdef : length sqrt plane.xyz = sqrt (dot plane.xyz plane.xyz) := rfl
  by_cases h : 0 < length sqrt plane.xyz
  · rw [(normalizePlane_branches sqrt plane).1 h]
    have e : dot (plane.divScalar (length sqrt plane.xyz)).xyz
        (plane.divScalar (length sqrt plane.xyz)).xyz =
        dot plane.xyz plane.xyz / (length sqrt plane.xyz * length sqrt plane.xyz) := by
      simp only [Vec4.divScalar, Vec4.xyz, dot]
      rw [div_mul_div_comm, div_mul_div_comm, div_mul_div_comm, ← add_div, ← add_div]
    rw [e, div_mul_eq_mul_div, div_le_one (mul_pos h h), hLdef]
    linarith
  · rw [(normalizePlane_branches sqrt plane).2 h]
    have hz : sqrt (dot plane.xyz plane.xyz) = 0 := by
      rw [hLdef] at h
      exact le_antisymm (not_lt.mp h) hL0
    rw [hz, mul_zero] at h1 h2
    linarith

/-- The Cauchy-Schwarz bound from a bound on the product of the squared lengths. -/
lemma dot_le_of_product_le (n d : Vec3 α) (R : α) (hR : 0 ≤ R)
    (h : dot n n * dot d d ≤ R * R) : dot n d ≤ R := by
  by_contra hlt
  have hlt2 : R < dot n d := not_le.mp hlt
  have hcs : dot n d * dot n d ≤ dot n n * dot d d := by
    simp only [dot]
    nlinarith [mul_self_nonneg (n.x * d.y - n.y * d.x), mul_self_nonneg (n.x * d.z - n.z * d.x),
      mul_self_nonneg (n.y * d.z - n.z * d.y)]
  have h2 : R * R < dot n d * dot n d := by nlinarith
  linarith

/-- With a square root accurate to a relative `2^-22` in the square and the other operations
exact, the sphere test of an extracted frustum accepts every sphere that reaches a point
inside the frustum once its radius is enlarged by the relative `2^-16`. -/
lemma Frustum.isSphereInside_of_point_enlarged (sqrt : α → α)
    (hsqrt : ∀ x : α, 0 ≤ x → 0 ≤ sqrt x ∧ |sqrt x * sqrt x - x| ≤ x / 2 ^ 22)
    (m : Mat4 α) (c q : Vec3 α) (r r' : α) (hr : 0 ≤ r) (hq : length sqrt (q.sub c) ≤ r)
    (hin : (Frustum.extractPlanes sqrt m).isPointInside q = true)
    (hr' : ∀ k : Fin 6, (1 + 1 / 65536) * r
      + (1 / 65536) * (planeAbs ((Frustum.extractPlanes sqrt m).planes k) q
        + planeAbs ((Frustum.extractPlanes sqrt m).planes k) c) ≤ r') :
    (Frustum.extractPlanes sqrt m).isSphereInside c r' = true := by
  unfold Frustum.isSphereInside
  rw [Frustum.isSphereInsideLoop_iff, Frustum.forall_planeList]
  rw [Frustum.isPointInside_iff] at hin
  intro k
  have hk := hin k
  have hn : dot ((Frustum.extractPlanes sqrt m).planes k).xyz
      ((Frustum.extractPlanes sqrt m).planes k).xyz * (1 - 1 / 2 ^ 22) ≤ 1 :=
    Frustum.normalizePlane_normal_le sqrt hsqrt (Frustum.rawPlanes m k)
  have hnn := dot_self_nonneg ((Frustum.extractPlanes sqrt m).planes k).xyz
  have hdd0 := dot_self_nonneg (q.sub c)
  obtain ⟨hs0, hss⟩ := hsqrt _ hdd0
  obtain ⟨hs1, hs2⟩ := abs_le.mp hss
  have hLr : sqrt (dot (q.sub c) (q.sub c)) * sqrt (dot (q.sub c) (q.sub c)) ≤ r * r :=
    mul_le_mul hq hq hs0 hr
  have hdd : dot (q.sub c) (q.sub c) * (1 - 1 / 2 ^ 22) ≤ r * r := by linarith
  have hR : 0 ≤ (1 + 1 / 65536) * r := mul_nonneg (by norm_num) hr
  have hprod : dot ((Frustum.extractPlanes sqrt m).planes k).xyz
      ((Frustum.extractPlanes sqrt m).planes k).xyz * dot (q.sub c) (q.sub c) ≤
      ((1 + 1 / 65536) * r) * ((1 + 1 / 65536) * r) := by
    generalize dot ((Frustum.extractPlanes sqrt m).planes k).xyz
      ((Frustum.extractPlanes sqrt m).planes k).xyz = N at hn hnn
    generalize dot (q.sub c) (q.sub c) = D at hdd hdd0
    have hc : (0 : α) ≤ 1 - 1 / 2 ^ 22 := by norm_num
    have h1 : (N * (1 - 1 / 2 ^ 22)) * (D * (1 - 1 / 2 ^ 22)) ≤ 1 * (r * r) :=
      mul_le_mul hn hdd (mul_nonneg hdd0 hc) zero_le_one
    have hrr : 0 ≤ r * r := mul_nonneg hr hr
    have hND : 0 ≤ N * D := mul_nonneg hnn hdd0
    have h2 : N * D * ((1 - 1 / 2 ^ 22) * (1 - 1 / 2 ^ 22)) ≤ r * r := by
      calc N * D * ((1 - 1 / 2 ^ 22) * (1 - 1 / 2 ^ 22))
          = (N * (1 - 1 / 2 ^ 22)) * (D * (1 - 1 / 2 ^ 22)) := by ring
        _ ≤ 1 * (r * r) := h1
        _ = r * r := one_mul _
    have h3 : r * r ≤ ((1 + 1 / 65536) * r) * ((1 + 1 / 65536) * r)
        * ((1 - 1 / 2 ^ 22) * (1 - 1 / 2 ^ 22)) := by
      have e : ((1 + 1 / 65536) * r) * ((1 + 1 / 65536) * r)
          * ((1 - 1 / 2 ^ 22) * (1 - 1 / 2 ^ 22)) =
          (r * r) * (((1 + 1 / 65536) * (1 - 1 / 2 ^ 22)) * ((1 + 1 / 65536) * (1 - 1 / 2 ^ 22))) := by
        ring
      rw [e]
      have hk1 : (1 : α) ≤ ((1 + 1 / 65536) * (1 - 1 / 2 ^ 22)) * ((1 + 1 / 65536) * (1 - 1 / 2 ^ 22)) := by
        norm_num
      calc r * r = (r * r) * 1 := (mul_one _).symm
        _ ≤ _ := mul_le_mul_of_nonneg_left hk1 hrr
    have hpos : (0 : α) < (1 - 1 / 2 ^ 22) * (1 - 1 / 2 ^ 22) := by norm_num
    exact le_of_mul_le_mul_right (h2.trans h3) hpos
  have hle := dot_le_of_product_le _ _ _ hR hprod
  have e : planeDistance ((Frustum.extractPlanes sqrt m).planes k) c =
      planeDistance ((Frustum.extractPlanes sqrt m).planes k) q -
        dot ((Frustum.extractPlanes sqrt m).planes k).xyz (q.sub c) := by
    simp only [planeDistance, dot, Vec3.sub]
    ring
  rw [e]
  have t1 := planeAbs_nonneg ((Frustum.extractPlanes sqrt m).planes k) q
  have t2 := planeAbs_nonneg ((Frustum.extractPlanes sqrt m).planes k) c
  have t3 : 0 ≤ (1 / 65536 : α) * (planeAbs ((Frustum.extractPlanes sqrt m).planes k) q
      + planeAbs ((Frustum.extractPlanes sqrt m).planes k) c) :=
    mul_nonneg (by norm_num) (add_nonneg t1 t2)
  have := hr' k
  linarith

/-! ### Rounding in binary32 keeps a value between binary32 bounds -/

lemma F32.bitLength_zero (fuel : Nat) : F32.bitLength fuel 0 = 0 := by
  cases fuel <;> simp [F32.bitLength]

lemma F32.bitLength_bounds (fuel n : Nat) (hn : n ≤ fuel) (h0 : 0 < n) :
    2 ^ (F32.bitLength fuel n - 1) ≤ n ∧ n < 2 ^ F32.bitLength fuel n := by
  induction fuel generalizing n with
  | zero => omega
  | succ fuel ih =>
    have hne : n ≠ 0 := by omega
    simp only [F32.bitLength, hne, if_false, Nat.add_sub_cancel]
    by_cases h1 : n / 2 = 0
    · have hn1 : n = 1 := by omega
      rw [h1, F32.bitLength_zero]
      subst hn1
      norm_num
    · have hpos : 0 < n / 2 := Nat.pos_of_ne_zero h1
      obtain ⟨ih1, ih2⟩ := ih (n / 2) (by omega) hpos
      have hk : 1 ≤ F32.bitLength fuel (n / 2) := by
        by_contra hlt
        have : F32.bitLength fuel (n / 2) = 0 := by omega
        rw [this] at ih2
        simp at ih2
        omega
      constructor
      · have e : 2 ^ F32.bitLength fuel (n / 2) = 2 * 2 ^ (F32.bitLength fuel (n / 2) - 1) := by
          conv_lhs => rw [← Nat.sub_add_cancel hk]
          rw [pow_succ]
          ring
        rw [e]
        omega
      · rw [pow_succ]
        omega

/-- For `m > 0` the number of binary digits `L` of `m` satisfies `2^(L-1) ≤ m < 2^L`. -/
lemma F32.bitLength_spec (m : Nat) (hm : 0 < m) :
    2 ^ (F32.bitLength m m - 1) ≤ m ∧ m < 2 ^ F32.bitLength m m :=
  F32.bitLength_bounds m m le_rfl hm

/-- The last step of rounding keeps the value, unless it overflows. -/
lemma F32.pack_value (s : Bool) (m : Nat) (e : Int) :
    F32.pack s m e = F32.inf s ∨
    ∃ m' e', F32.pack s m e = F32.fin s m' e' ∧ (m' : ℚ) * 2 ^ e' = (m : ℚ) * 2 ^ e := by
  unfold F32.pack
  split_ifs with h1 h2 h3 h4
  · exact Or.inr ⟨0, 0, rfl, by simp [h1]⟩
  · exact Or.inl rfl
  · refine Or.inr ⟨2 ^ 23, e + 1, rfl, ?_⟩
    rw [h2, zpow_add₀ (by norm_num : (2 : ℚ) ≠ 0)]
    push_cast
    ring
  · exact Or.inl rfl
  · exact Or.inr ⟨m, e, rfl, rfl⟩

/-- When the last step of rounding overflows, the value is at least `2^128`. -/
lemma F32.pack_inf (s : Bool) (m : Nat) (e : Int) (h : F32.pack s m e = F32.inf s) :
    (m = 2 ^ 24 ∧ 104 ≤ e) ∨ (m ≠ 0 ∧ 104 < e) := by
  unfold F32.pack at h
  split_ifs at h with h1 h2 h3 h4
  · exact Or.inl ⟨h2, by omega⟩
  · exact Or.inr ⟨h1, by omega⟩

/-- The exponent `round` chooses for `m * 2^e`. -/
lemma F32.round_form (s : Bool) (m : Nat) (e : Int) (hm : m ≠ 0) :
    (max (e + (F32.bitLength m m : Int) - 1 - 23) (-149) ≤ e ∧
      F32.round s m e false =
        F32.pack s (m * 2 ^ (e - max (e + (F32.bitLength m m : Int) - 1 - 23) (-149)).toNat)
          (max (e + (F32.bitLength m m : Int) - 1 - 23) (-149))) ∨
    (e < max (e + (F32.bitLength m m : Int) - 1 - 23) (-149) ∧
      (F32.round s m e false =
          F32.pack s (m / 2 ^ (max (e + (F32.bitLength m m : Int) - 1 - 23) (-149) - e).toNat)
            (max (e + (F32.bitLength m m : Int) - 1 - 23) (-149)) ∨
        (m % 2 ^ (max (e + (F32.bitLength m m : Int) - 1 - 23) (-149) - e).toNat ≠ 0 ∧
          F32.round s m e false =
            F32.pack s
              (m / 2 ^ (max (e + (F32.bitLength m m : Int) - 1 - 23) (-149) - e).toNat + 1)
              (max (e + (F32.bitLength m m : Int) - 1 - 23) (-149))))) := by
  simp only [F32.round, hm, if_false]
  by_cases hq : max (e + (F32.bitLength m m : Int) - 1 - 23) (-149) ≤ e
  · left
    exact ⟨hq, by rw [if_pos hq]⟩
  · right
    refine ⟨not_le.mp hq, ?_⟩
    rw [if_neg hq]
    split_ifs with hup
    · right
      refine ⟨?_, rfl⟩
      intro h0
      rw [h0] at hup
      have hp : 0 < 2 ^ ((max (e + (F32.bitLength m m : Int) - 1 - 23) (-149) - e).toNat - 1) :=
        by positivity
      simp only [Bool.or_eq_true, decide_eq_true_eq, Bool.and_eq_true, Bool.false_or] at hup
      rcases hup with h | ⟨h, _⟩
      · omega
      · omega
    · left
      rfl

/-- The powers of two of a shift: `2^sh * 2^e = 2^q` for `sh = q - e ≥ 0`. -/
lemma zpow_shift (e q : Int) (h : e ≤ q) :
    ((2 : ℚ) ^ (q - e).toNat) * 2 ^ e = 2 ^ q := by
  rw [← zpow_natCast, ← zpow_add₀ (by norm_num : (2 : ℚ) ≠ 0), Int.toNat_of_nonneg (by omega)]
  congr 1
  omega

/-- When `round` shifts to the right and the result is not subnormal, the quotient has 24
binary digits. -/
lemma F32.quot_ge (m : Nat) (e q : Int) (hm : m ≠ 0)
    (hq : q = max (e + (F32.bitLength m m : Int) - 1 - 23) (-149)) (heq : e < q)
    (hsub : -149 < q) : 2 ^ 23 ≤ m / 2 ^ (q - e).toNat := by
  obtain ⟨hb1, _⟩ := F32.bitLength_spec m (Nat.pos_of_ne_zero hm)
  have hq2 : q = e + (F32.bitLength m m : Int) - 1 - 23 := by
    rcases max_cases (e + (F32.bitLength m m : Int) - 1 - 23) (-149) with ⟨h1, _⟩ | ⟨h1, _⟩
    · rw [hq, h1]
    · rw [hq, h1] at hsub
      omega
  have hsh : (q - e).toNat = F32.bitLength m m - 24 := by omega
  have hL : 25 ≤ F32.bitLength m m := by omega
  rw [hsh, Nat.le_div_iff_mul_le (by positivity), ← pow_add]
  have e1 : 23 + (F32.bitLength m m - 24) = F32.bitLength m m - 1 := by omega
  rw [e1]
  exact hb1

/-- A representable magnitude below `m * 2^e` is at most the truncation that `round`
computes. -/
lemma F32.trunc_ge (m : Nat) (e q : Int) (mw : Nat) (ew : Int) (hm : m ≠ 0)
    (hq : q = max (e + (F32.bitLength m m : Int) - 1 - 23) (-149)) (heq : e < q)
    (hmw : mw < 2 ^ 24) (hew : -149 ≤ ew) (h : (mw : ℚ) * 2 ^ ew ≤ (m : ℚ) * 2 ^ e) :
    (mw : ℚ) * 2 ^ ew ≤ ((m / 2 ^ (q - e).toNat : Nat) : ℚ) * 2 ^ q := by
  have hpe : (0 : ℚ) < 2 ^ e := by positivity
  have hpq : (0 : ℚ) < 2 ^ q := by positivity
  by_cases hc : q ≤ ew
  · have hw : (mw : ℚ) * 2 ^ ew = ((mw * 2 ^ (ew - q).toNat : Nat) : ℚ) * 2 ^ q := by
      push_cast
      rw [mul_assoc, zpow_shift q ew hc]
    rw [hw] at h ⊢
    have h2 : ((mw * 2 ^ (ew - q).toNat : Nat) : ℚ) * ((2 : ℚ) ^ (q - e).toNat) ≤ (m : ℚ) := by
      have h3 : ((mw * 2 ^ (ew - q).toNat : Nat) : ℚ) * ((2 : ℚ) ^ (q - e).toNat) * 2 ^ e
          ≤ (m : ℚ) * 2 ^ e := by
        rw [mul_assoc, zpow_shift e q heq.le]
        exact h
      exact le_of_mul_le_mul_right h3 hpe
    have h4 : mw * 2 ^ (ew - q).toNat * 2 ^ (q - e).toNat ≤ m := by exact_mod_cast h2
    have h5 : mw * 2 ^ (ew - q).toNat ≤ m / 2 ^ (q - e).toNat :=
      (Nat.le_div_iff_mul_le (by positivity)).mpr h4
    exact mul_le_mul_of_nonneg_right (by exact_mod_cast h5) hpq.le
  · have hlt : ew < q := not_le.mp hc
    have hquot := F32.quot_ge m e q hm hq heq (by omega)
    have h1 : (mw : ℚ) * 2 ^ ew ≤ (2 : ℚ) ^ 24 * 2 ^ (q - 1) := by
      have a1 : (mw : ℚ) ≤ (2 : ℚ) ^ 24 := by exact_mod_cast hmw.le
      have a2 : (2 : ℚ) ^ ew ≤ 2 ^ (q - 1) := zpow_le_zpow_right₀ (by norm_num) (by omega)
      exact mul_le_mul a1 a2 (by positivity) (by positivity)
    have h2 : (2 : ℚ) ^ 24 * 2 ^ (q - 1) = (2 : ℚ) ^ 23 * 2 ^ q := by
      rw [zpow_sub₀ (by norm_num : (2 : ℚ) ≠ 0)]
      norm_num
      ring
    have h3 : ((2 : ℚ) ^ 23) ≤ ((m / 2 ^ (q - e).toNat : Nat) : ℚ) := by exact_mod_cast hquot
    calc (mw : ℚ) * 2 ^ ew ≤ (2 : ℚ) ^ 24 * 2 ^ (q - 1) := h1
      _ = (2 : ℚ) ^ 23 * 2 ^ q := h2
      _ ≤ ((m / 2 ^ (q - e).toNat : Nat) : ℚ) * 2 ^ q := mul_le_mul_of_nonneg_right h3 hpq.le

/-- The value `m * 2^e` lies between the truncation and the next multiple of `2^q`. -/
lemma F32.trunc_bounds (m : Nat) (e q : Int) (heq : e < q) :
    ((m / 2 ^ (q - e).toNat : Nat) : ℚ) * 2 ^ q ≤ (m : ℚ) * 2 ^ e ∧
    (m % 2 ^ (q - e).toNat ≠ 0 →
      ((m / 2 ^ (q - e).toNat : Nat) : ℚ) * 2 ^ q < (m : ℚ) * 2 ^ e) := by
  have hpe : (0 : ℚ) < 2 ^ e := by positivity
  have hdm := Nat.div_add_mod m (2 ^ (q - e).toNat)
  have e1 : ((m / 2 ^ (q - e).toNat : Nat) : ℚ) * 2 ^ q =
      ((m / 2 ^ (q - e).toNat * 2 ^ (q - e).toNat : Nat) : ℚ) * 2 ^ e := by
    push_cast
    rw [mul_assoc, zpow_shift e q heq.le]
  rw [e1]
  constructor
  · exact mul_le_mul_of_nonneg_right (by exact_mod_cast Nat.div_mul_le_self m _) hpe.le
  · intro hr
    have : m / 2 ^ (q - e).toNat * 2 ^ (q - e).toNat < m := by
      have hpos : 0 < m % 2 ^ (q - e).toNat := Nat.pos_of_ne_zero hr
      nlinarith [hdm]
    exact mul_lt_mul_of_pos_right (by exact_mod_cast this) hpe

/-- A representable magnitude above an inexact `m * 2^e` is at least the next multiple of
`2^q` above the truncation. -/
lemma F32.ceil_le (m : Nat) (e q : Int) (mw : Nat) (ew : Int) (hm : m ≠ 0)
    (hq : q = max (e + (F32.bitLength m m : Int) - 1 - 23) (-149)) (heq : e < q)
    (hmw : mw < 2 ^ 24) (hew : -149 ≤ ew) (h : (m : ℚ) * 2 ^ e ≤ (mw : ℚ) * 2 ^ ew)
    (hr : m % 2 ^ (q - e).toNat ≠ 0) :
    ((m / 2 ^ (q - e).toNat + 1 : Nat) : ℚ) * 2 ^ q ≤ (mw : ℚ) * 2 ^ ew := by
  have hpe : (0 : ℚ) < 2 ^ e := by positivity
  have hpq : (0 : ℚ) < 2 ^ q := by positivity
  obtain ⟨hb1, hb2⟩ := F32.trunc_bounds m e q heq
  have hb3 := hb2 hr
  by_cases hc : q ≤ ew
  · have hw : (mw : ℚ) * 2 ^ ew = ((mw * 2 ^ (ew - q).toNat : Nat) : ℚ) * 2 ^ q := by
      push_cast
      rw [mul_assoc, zpow_shift q ew hc]
    rw [hw] at h ⊢
    have h2 : ((m / 2 ^ (q - e).toNat : Nat) : ℚ) < ((mw * 2 ^ (ew - q).toNat : Nat) : ℚ) :=
      lt_of_mul_lt_mul_right (lt_of_lt_of_le hb3 h) hpq.le
    have h3 : m / 2 ^ (q - e).toNat < mw * 2 ^ (ew - q).toNat := by exact_mod_cast h2
    have h4 : m / 2 ^ (q - e).toNat + 1 ≤ mw * 2 ^ (ew - q).toNat := h3
    exact mul_le_mul_of_nonneg_right (by exact_mod_cast h4) hpq.le
  · exfalso
    have hlt : ew < q := not_le.mp hc
    have hquot := F32.quot_ge m e q hm hq heq (by omega)
    have h1 : (mw : ℚ) * 2 ^ ew < (2 : ℚ) ^ 24 * 2 ^ (q - 1) := by
      have a1 : (mw : ℚ) < (2 : ℚ) ^ 24 := by exact_mod_cast hmw
      have a2 : (2 : ℚ) ^ ew ≤ 2 ^ (q - 1) := zpow_le_zpow_right₀ (by norm_num) (by omega)
      exact mul_lt_mul a1 a2 (by positivity) (by positivity)
    have h2 : (2 : ℚ) ^ 24 * 2 ^ (q - 1) = (2 : ℚ) ^ 23 * 2 ^ q := by
      rw [zpow_sub₀ (by norm_num : (2 : ℚ) ≠ 0)]
      norm_num
      ring
    have h3 : ((2 : ℚ) ^ 23) ≤ ((m / 2 ^ (q - e).toNat : Nat) : ℚ) := by exact_mod_cast hquot
    have h4 : (2 : ℚ) ^ 23 * 2 ^ q ≤ ((m / 2 ^ (q - e).toNat : Nat) : ℚ) * 2 ^ q :=
      mul_le_mul_of_nonneg_right h3 hpq.le
    linarith

/-- Rounding is monotone from below: a representable magnitude that is at most `m * 2^e` is
at most the rounded value (or the rounding overflows). -/
lemma F32.round_lower (s : Bool) (m : Nat) (e : Int) (mw : Nat) (ew : Int)
    (hmw : mw < 2 ^ 24) (hew : -149 ≤ ew) (h : (mw : ℚ) * 2 ^ ew ≤ (m : ℚ) * 2 ^ e) :
    F32.round s m e false = F32.inf s ∨
    ∃ m' e', F32.round s m e false = F32.fin s m' e' ∧
      (mw : ℚ) * 2 ^ ew ≤ (m' : ℚ) * 2 ^ e' := by
  by_cases hm : m = 0
  · right
    refine ⟨0, 0, by simp [F32.round, hm], ?_⟩
    rw [hm] at h
    simpa using h
  · rcases F32.round_form s m e hm with ⟨hqe, hr⟩ | ⟨hqe, hr | ⟨_, hr⟩⟩
    · rcases F32.pack_value s
          (m * 2 ^ (e - max (e + (F32.bitLength m m : Int) - 1 - 23) (-149)).toNat)
          (max (e + (F32.bitLength m m : Int) - 1 - 23) (-149)) with hp | ⟨m', e', hp, hv⟩
      · exact Or.inl (hr.trans hp)
      · refine Or.inr ⟨m', e', hr.trans hp, ?_⟩
        rw [hv]
        push_cast
        rw [mul_assoc, zpow_shift _ e hqe]
        exact h
    · have ht := F32.trunc_ge m e _ mw ew hm rfl hqe hmw hew h
      rcases F32.pack_value s
          (m / 2 ^ (max (e + (F32.bitLength m m : Int) - 1 - 23) (-149) - e).toNat)
          (max (e + (F32.bitLength m m : Int) - 1 - 23) (-149)) with hp | ⟨m', e', hp, hv⟩
      · exact Or.inl (hr.trans hp)
      · exact Or.inr ⟨m', e', hr.trans hp, by rw [hv]; exact ht⟩
    · have ht := F32.trunc_ge m e _ mw ew hm rfl hqe hmw hew h
      rcases F32.pack_value s
          (m / 2 ^ (max (e + (F32.bitLength m m : Int) - 1 - 23) (-149) - e).toNat + 1)
          (max (e + (F32.bitLength m m : Int) - 1 - 23) (-149)) with hp | ⟨m', e', hp, hv⟩
      · exact Or.inl (hr.trans hp)
      · refine Or.inr ⟨m', e', hr.trans hp, ?_⟩
        rw [hv]
        refine ht.trans (mul_le_mul_of_nonneg_right ?_ (by positivity))
        push_cast
        linarith

/-- A value of at least `2^128` exceeds every representable magnitude. -/
lemma F32.representable_lt (mw : Nat) (ew : Int) (hmw : mw < 2 ^ 24) (hew : ew ≤ 104) :
    (mw : ℚ) * 2 ^ ew < (2 : ℚ) ^ 24 * 2 ^ (104 : Int) := by
  have a1 : (mw : ℚ) < (2 : ℚ) ^ 24 := by exact_mod_cast hmw
  have a2 : (2 : ℚ) ^ ew ≤ 2 ^ (104 : Int) := zpow_le_zpow_right₀ (by norm_num) hew
  exact mul_lt_mul a1 a2 (by positivity) (by positivity)

/-- If the last step of rounding `M * 2^q` overflows, with `M` of 24 binary digits when the
result is not subnormal, then `M * 2^q` is at least `2^128`. -/
lemma F32.pack_inf_value (s : Bool) (M : Nat) (q : Int)
    (hM : -149 < q → 2 ^ 23 ≤ M) (h : F32.pack s M q = F32.inf s) :
    (2 : ℚ) ^ 24 * 2 ^ (104 : Int) ≤ (M : ℚ) * 2 ^ q := by
  rcases F32.pack_inf s M q h with ⟨h1, h2⟩ | ⟨_, h2⟩
  · rw [h1]
    push_cast
    exact mul_le_mul_of_nonneg_left (zpow_le_zpow_right₀ (by norm_num) h2) (by positivity)
  · have h3 : (2 : ℚ) ^ 23 ≤ (M : ℚ) := by exact_mod_cast hM (by omega)
    have h4 : (2 : ℚ) ^ (105 : Int) ≤ 2 ^ q := zpow_le_zpow_right₀ (by norm_num) (by omega)
    calc (2 : ℚ) ^ 24 * 2 ^ (104 : Int) = (2 : ℚ) ^ 23 * 2 ^ (105 : Int) := by norm_num
      _ ≤ (M : ℚ) * 2 ^ q := mul_le_mul h3 h4 (by positivity) (by positivity)

/-- In the exact case of `round`, the shifted significand has 24 binary digits when the
result is not subnormal. -/
lemma F32.shifted_ge (m : Nat) (e q : Int) (hm : m ≠ 0)
    (hq : q = max (e + (F32.bitLength m m : Int) - 1 - 23) (-149)) (hqe : q ≤ e)
    (hsub : -149 < q) : 2 ^ 23 ≤ m * 2 ^ (e - q).toNat := by
  obtain ⟨hb1, _⟩ := F32.bitLength_spec m (Nat.pos_of_ne_zero hm)
  have hL : 1 ≤ F32.bitLength m m := by
    by_contra hlt
    have h0 : F32.bitLength m m = 0 := by omega
    have := (F32.bitLength_spec m (Nat.pos_of_ne_zero hm)).2
    rw [h0] at this
    omega
  have hq2 : q = e + (F32.bitLength m m : Int) - 1 - 23 := by
    rcases max_cases (e + (F32.bitLength m m : Int) - 1 - 23) (-149) with ⟨h1, _⟩ | ⟨h1, _⟩
    · rw [hq, h1]
    · rw [hq, h1] at hsub
      omega
  have hsh : (e - q).toNat = 24 - F32.bitLength m m := by omega
  have hL2 : F32.bitLength m m ≤ 24 := by omega
  rw [hsh]
  calc 2 ^ 23 = 2 ^ (F32.bitLength m m - 1) * 2 ^ (24 - F32.bitLength m m) := by
        rw [← pow_add]
        congr 1
        omega
    _ ≤ m * 2 ^ (24 - F32.bitLength m m) := Nat.mul_le_mul_right _ hb1

/-- Rounding is monotone from above: a representable magnitude that is at least `m * 2^e`
is at least the rounded value, which is finite. -/
lemma F32.round_upper (s : Bool) (m : Nat) (e : Int) (mw : Nat) (ew : Int)
    (hmw : mw < 2 ^ 24) (hew : -149 ≤ ew) (hew2 : ew ≤ 104)
    (h : (m : ℚ) * 2 ^ e ≤ (mw : ℚ) * 2 ^ ew) :
    ∃ m' e', F32.round s m e false = F32.fin s m' e' ∧
      (m' : ℚ) * 2 ^ e' ≤ (mw : ℚ) * 2 ^ ew := by
  have hrep := F32.representable_lt mw ew hmw hew2
  by_cases hm : m = 0
  · refine ⟨0, 0, by simp [F32.round, hm], ?_⟩
    simp only [Nat.cast_zero, zero_mul]
    positivity
  · rcases F32.round_form s m e hm with ⟨hqe, hr⟩ | ⟨hqe, hr | ⟨hrem, hr⟩⟩
    · have hval : ((m * 2 ^ (e - max (e + (F32.bitLength m m : Int) - 1 - 23)
          (-149)).toNat : Nat) : ℚ) * 2 ^ (max (e + (F32.bitLength m m : Int) - 1 - 23) (-149))
          = (m : ℚ) * 2 ^ e := by
        push_cast
        rw [mul_assoc, zpow_shift _ e hqe]
      rcases F32.pack_value s
          (m * 2 ^ (e - max (e + (F32.bitLength m m : Int) - 1 - 23) (-149)).toNat)
          (max (e + (F32.bitLength m m : Int) - 1 - 23) (-149)) with hp | ⟨m', e', hp, hv⟩
      · exfalso
        have := F32.pack_inf_value s _ _
          (fun hs => F32.shifted_ge m e _ hm rfl hqe hs) hp
        rw [hval] at this
        linarith
      · exact ⟨m', e', hr.trans hp, by rw [hv, hval]; exact h⟩
    · obtain ⟨hb1, _⟩ := F32.trunc_bounds m e _ hqe
      rcases F32.pack_value s
          (m / 2 ^ (max (e + (F32.bitLength m m : Int) - 1 - 23) (-149) - e).toNat)
          (max (e + (F32.bitLength m m : Int) - 1 - 23) (-149)) with hp | ⟨m', e', hp, hv⟩
      · exfalso
        have := F32.pack_inf_value s _ _
          (fun hs => F32.quot_ge m e _ hm rfl hqe hs) hp
        linarith
      · exact ⟨m', e', hr.trans hp, by rw [hv]; exact hb1.trans h⟩
    · have hc := F32.ceil_le m e _ mw ew hm rfl hqe hmw hew h hrem
      rcases F32.pack_value s
          (m / 2 ^ (max (e + (F32.bitLength m m : Int) - 1 - 23) (-149) - e).toNat + 1)
          (max (e + (F32.bitLength m m : Int) - 1 - 23) (-149)) with hp | ⟨m', e', hp, hv⟩
      · exfalso
        have := F32.pack_inf_value s _ _
          (fun hs => (F32.quot_ge m e _ hm rfl hqe hs).trans (Nat.le_succ _)) hp
        linarith
      · exact ⟨m', e', hr.trans hp, by rw [hv]; exact hc⟩

lemma F32.toRat_fin_false (m : Nat) (e : Int) :
    F32.toRat (F32.fin false m e) = (m : ℚ) * 2 ^ e := by
  simp [F32.toRat, F32.signed]

lemma F32.toRat_fin_true (m : Nat) (e : Int) :
    F32.toRat (F32.fin true m e) = -((m : ℚ) * 2 ^ e) := by
  simp [F32.toRat, F32.signed]

/-- Rounding is monotone from below, with signs: a binary32 number that is at most the exact
value is at most the rounded value, which may be `+inf`. -/
lemma F32.round_ge (sg : Bool) (m : Nat) (e : Int) (sw : Bool) (mw : Nat) (ew : Int)
    (hmw : mw < 2 ^ 24) (hew : -149 ≤ ew) (hew2 : ew ≤ 104)
    (h : F32.toRat (F32.fin sw mw ew) ≤ F32.toRat (F32.fin sg m e)) :
    F32.round sg m e false = F32.inf false ∨
    ∃ m' e', F32.round sg m e false = F32.fin sg m' e' ∧
      F32.toRat (F32.fin sw mw ew) ≤ F32.toRat (F32.fin sg m' e') := by
  have hw0 : (0 : ℚ) ≤ (mw : ℚ) * 2 ^ ew := by positivity
  have hx0 : (0 : ℚ) ≤ (m : ℚ) * 2 ^ e := by positivity
  cases sg with
  | false =>
    cases sw with
    | false =>
      rw [F32.toRat_fin_false, F32.toRat_fin_false] at h
      rcases F32.round_lower false m e mw ew hmw hew h with hi | ⟨m', e', hr, hv⟩
      · exact Or.inl hi
      · exact Or.inr ⟨m', e', hr, by rw [F32.toRat_fin_false, F32.toRat_fin_false]; exact hv⟩
    | true =>
      rcases F32.round_cases false m e false with ⟨m', e', hr⟩ | hi
      · refine Or.inr ⟨m', e', hr, ?_⟩
        rw [F32.toRat_fin_true, F32.toRat_fin_false]
        have : (0 : ℚ) ≤ (m' : ℚ) * 2 ^ e' := by positivity
        linarith
      · exact Or.inl hi
  | true =>
    right
    cases sw with
    | true =>
      rw [F32.toRat_fin_true, F32.toRat_fin_true] at h
      obtain ⟨m', e', hr, hv⟩ := F32.round_upper true m e mw ew hmw hew hew2 (by linarith)
      exact ⟨m', e', hr, by rw [F32.toRat_fin_true, F32.toRat_fin_true]; linarith⟩
    | false =>
      rw [F32.toRat_fin_false, F32.toRat_fin_true] at h
      obtain ⟨m', e', hr, hv⟩ := F32.round_upper true m e 0 0 (by norm_num) (by norm_num)
        (by norm_num) (by simp only [Nat.cast_zero, zero_mul]; linarith)
      refine ⟨m', e', hr, ?_⟩
      rw [F32.toRat_fin_false, F32.toRat_fin_true]
      simp only [Nat.cast_zero, zero_mul] at hv
      have : (0 : ℚ) ≤ (m' : ℚ) * 2 ^ e' := by positivity
      linarith

/-- Rounding is monotone from above, with signs: a binary32 number that is at least the
exact value is at least the rounded value, which may be `-inf`. -/
lemma F32.round_le (sg : Bool) (m : Nat) (e : Int) (sw : Bool) (mw : Nat) (ew : Int)
    (hmw : mw < 2 ^ 24) (hew : -149 ≤ ew) (hew2 : ew ≤ 104)
    (h : F32.toRat (F32.fin sg m e) ≤ F32.toRat (F32.fin sw mw ew)) :
    F32.round sg m e false = F32.inf true ∨
    ∃ m' e', F32.round sg m e false = F32.fin sg m' e' ∧
      F32.toRat (F32.fin sg m' e') ≤ F32.toRat (F32.fin sw mw ew) := by
  have hw0 : (0 : ℚ) ≤ (mw : ℚ) * 2 ^ ew := by positivity
  have hx0 : (0 : ℚ) ≤ (m : ℚ) * 2 ^ e := by positivity
  cases sg with
  | true =>
    cases sw with
    | true =>
      rw [F32.toRat_fin_true, F32.toRat_fin_true] at h
      rcases F32.round_lower true m e mw ew hmw hew (by linarith) with hi | ⟨m', e', hr, hv⟩
      · exact Or.inl hi
      · exact Or.inr ⟨m', e', hr, by rw [F32.toRat_fin_true, F32.toRat_fin_true]; linarith⟩
    | false =>
      rcases F32.round_cases true m e false with ⟨m', e', hr⟩ | hi
      · refine Or.inr ⟨m', e', hr, ?_⟩
        rw [F32.toRat_fin_true, F32.toRat_fin_false]
        have : (0 : ℚ) ≤ (m' : ℚ) * 2 ^ e' := by positivity
        linarith
      · exact Or.inl hi
  | false =>
    right
    cases sw with
    | false =>
      rw [F32.toRat_fin_false, F32.toRat_fin_false] at h
      obtain ⟨m', e', hr, hv⟩ := F32.round_upper false m e mw ew hmw hew hew2 h
      exact ⟨m', e', hr, by rw [F32.toRat_fin_false, F32.toRat_fin_false]; exact hv⟩
    | true =>
      rw [F32.toRat_fin_false, F32.toRat_fin_true] at h
      obtain ⟨m', e', hr, hv⟩ := F32.round_upper false m e 0 0 (by norm_num) (by norm_num)
        (by norm_num) (by simp only [Nat.cast_zero, zero_mul]; linarith)
      refine ⟨m', e', hr, ?_⟩
      rw [F32.toRat_fin_false, F32.toRat_fin_true]
      simp only [Nat.cast_zero, zero_mul] at hv
      have : (0 : ℚ) ≤ (m' : ℚ) * 2 ^ e' := by positivity
      linarith

/-- Rounding a value that lies between two binary32 numbers gives a finite result between
them. -/
lemma F32.round_between (sg : Bool) (m : Nat) (e : Int) (s1 : Bool) (m1 : Nat) (e1 : Int)
    (s2 : Bool) (m2 : Nat) (e2 : Int)
    (h1 : m1 < 2 ^ 24 ∧ -149 ≤ e1 ∧ e1 ≤ 104) (h2 : m2 < 2 ^ 24 ∧ -149 ≤ e2 ∧ e2 ≤ 104)
    (hlo : F32.toRat (F32.fin s1 m1 e1) ≤ F32.toRat (F32.fin sg m e))
    (hhi : F32.toRat (F32.fin sg m e) ≤ F32.toRat (F32.fin s2 m2 e2)) :
    ∃ m' e', F32.round sg m e false = F32.fin sg m' e' ∧
      F32.toRat (F32.fin s1 m1 e1) ≤ F32.toRat (F32.fin sg m' e') ∧
      F32.toRat (F32.fin sg m' e') ≤ F32.toRat (F32.fin s2 m2 e2) := by
  rcases F32.round_ge sg m e s1 m1 e1 h1.1 h1.2.1 h1.2.2 hlo with hi | ⟨m', e', hr, hv⟩
  · rcases F32.round_le sg m e s2 m2 e2 h2.1 h2.2.1 h2.2.2 hhi with hj | ⟨m'', e'', hr', _⟩
    · rw [hi] at hj
      exact absurd hj (by simp)
    · rw [hi] at hr'
      exact absurd hr' (by simp)
  · rcases F32.round_le sg m e s2 m2 e2 h2.1 h2.2.1 h2.2.2 hhi with hj | ⟨m'', e'', hr', hv'⟩
    · rw [hr] at hj
      exact absurd hj (by simp)
    · rw [hr] at hr'
      have e1' : m' = m'' := by injection hr'
      have e2' : e' = e'' := by injection hr'
      subst e1' e2'
      exact ⟨m', e', hr, hv, hv'⟩

lemma F32.isFloat_iff (emax : Int) (s : Bool) (m : Nat) (e : Int) :
    (F32.fin s m e).isFloat emax = true ↔ m < 2 ^ 24 ∧ -149 ≤ e ∧ e ≤ emax := by
  simp [F32.isFloat, and_assoc]

lemma F32.signed_natAbs (S : Int) : F32.signed (decide (S < 0)) S.natAbs = S := by
  unfold F32.signed
  by_cases h : S < 0
  · simp only [h, decide_True, if_true]
    omega
  · simp only [h, decide_False, Bool.false_eq_true, if_false]
    omega

lemma F32.signed_xor (s1 s2 : Bool) (m1 m2 : Nat) :
    F32.signed (xor s1 s2) (m1 * m2) = F32.signed s1 m1 * F32.signed s2 m2 := by
  cases s1 <;> cases s2 <;> simp [F32.signed]

/-- The exact sum of two finite `float` values, as the aligned integer that `add` rounds. -/
lemma F32.toRat_add (s1 : Bool) (m1 : Nat) (e1 : Int) (s2 : Bool) (m2 : Nat) (e2 : Int) :
    F32.toRat (F32.fin
        (decide (F32.signed s1 (m1 * 2 ^ (e1 - min e1 e2).toNat)
          + F32.signed s2 (m2 * 2 ^ (e2 - min e1 e2).toNat) < 0))
        (F32.signed s1 (m1 * 2 ^ (e1 - min e1 e2).toNat)
          + F32.signed s2 (m2 * 2 ^ (e2 - min e1 e2).toNat)).natAbs (min e1 e2)) =
      F32.toRat (F32.fin s1 m1 e1) + F32.toRat (F32.fin s2 m2 e2) := by
  rw [← F32.toRat_aligned s1 m1 e1 (min e1 e2) (min_le_left _ _),
    ← F32.toRat_aligned s2 m2 e2 (min e1 e2) (min_le_right _ _), ← add_mul]
  simp only [F32.toRat]
  rw [F32.signed_natAbs]
  push_cast
  rfl

/-- The exact product of two finite `float` values, as the integer that `mul` rounds. -/
lemma F32.toRat_mul (s1 : Bool) (m1 : Nat) (e1 : Int) (s2 : Bool) (m2 : Nat) (e2 : Int) :
    F32.toRat (F32.fin (xor s1 s2) (m1 * m2) (e1 + e2)) =
      F32.toRat (F32.fin s1 m1 e1) * F32.toRat (F32.fin s2 m2 e2) := by
  simp only [F32.toRat]
  rw [F32.signed_xor, zpow_add₀ (by norm_num : (2 : ℚ) ≠ 0)]
  push_cast
  ring

/-- The sum of two finite `float` values whose exact sum lies between two binary32 numbers
is finite and lies between them. -/
lemma F32.add_between (s1 : Bool) (m1 : Nat) (e1 : Int) (s2 : Bool) (m2 : Nat) (e2 : Int)
    (sl : Bool) (ml : Nat) (el : Int) (sh : Bool) (mh : Nat) (eh : Int)
    (hl : ml < 2 ^ 24 ∧ -149 ≤ el ∧ el ≤ 104) (hh : mh < 2 ^ 24 ∧ -149 ≤ eh ∧ eh ≤ 104)
    (hlo : F32.toRat (F32.fin sl ml el) ≤
      F32.toRat (F32.fin s1 m1 e1) + F32.toRat (F32.fin s2 m2 e2))
    (hhi : F32.toRat (F32.fin s1 m1 e1) + F32.toRat (F32.fin s2 m2 e2) ≤
      F32.toRat (F32.fin sh mh eh)) :
    ∃ s m e, F32.add (F32.fin s1 m1 e1) (F32.fin s2 m2 e2) = F32.fin s m e ∧
      F32.toRat (F32.fin sl ml el) ≤ F32.toRat (F32.fin s m e) ∧
      F32.toRat (F32.fin s m e) ≤ F32.toRat (F32.fin sh mh eh) := by
  have hsum := F32.toRat_add s1 m1 e1 s2 m2 e2
  simp only [F32.add]
  split_ifs with h0
  · refine ⟨s1 && s2, 0, 0, rfl, ?_, ?_⟩
    · rw [h0] at hsum
      have hz : F32.toRat (F32.fin (s1 && s2) 0 0) = 0 := by simp [F32.toRat, F32.signed]
      have hz2 : F32.toRat (F32.fin (decide ((0 : Int) < 0)) (0 : Int).natAbs (min e1 e2)) = 0 := by
        simp [F32.toRat, F32.signed]
      rw [hz]
      rw [hz2] at hsum
      linarith
    · rw [h0] at hsum
      have hz : F32.toRat (F32.fin (s1 && s2) 0 0) = 0 := by simp [F32.toRat, F32.signed]
      have hz2 : F32.toRat (F32.fin (decide ((0 : Int) < 0)) (0 : Int).natAbs (min e1 e2)) = 0 := by
        simp [F32.toRat, F32.signed]
      rw [hz]
      rw [hz2] at hsum
      linarith
  · obtain ⟨m', e', hr, hv1, hv2⟩ := F32.round_between _ _ _ sl ml el sh mh eh hl hh
      (by rw [hsum]; exact hlo) (by rw [hsum]; exact hhi)
    exact ⟨_, m', e', hr, hv1, hv2⟩

/-- The product of two finite `float` values whose exact product lies between two binary32
numbers is finite and lies between them. -/
lemma F32.mul_between (s1 : Bool) (m1 : Nat) (e1 : Int) (s2 : Bool) (m2 : Nat) (e2 : Int)
    (sl : Bool) (ml : Nat) (el : Int) (sh : Bool) (mh : Nat) (eh : Int)
    (hl : ml < 2 ^ 24 ∧ -149 ≤ el ∧ el ≤ 104) (hh : mh < 2 ^ 24 ∧ -149 ≤ eh ∧ eh ≤ 104)
    (hlo : F32.toRat (F32.fin sl ml el) ≤
      F32.toRat (F32.fin s1 m1 e1) * F32.toRat (F32.fin s2 m2 e2))
    (hhi : F32.toRat (F32.fin s1 m1 e1) * F32.toRat (F32.fin s2 m2 e2) ≤
      F32.toRat (F32.fin sh mh eh)) :
    ∃ s m e, F32.mul (F32.fin s1 m1 e1) (F32.fin s2 m2 e2) = F32.fin s m e ∧
      F32.toRat (F32.fin sl ml el) ≤ F32.toRat (F32.fin s m e) ∧
      F32.toRat (F32.fin s m e) ≤ F32.toRat (F32.fin sh mh eh) := by
  have hprod := F32.toRat_mul s1 m1 e1 s2 m2 e2
  simp only [F32.mul]
  split_ifs with h0
  · refine ⟨xor s1 s2, 0, 0, rfl, ?_, ?_⟩
    · have hz : F32.toRat (F32.fin (xor s1 s2) 0 0) = 0 := by simp [F32.toRat, F32.signed]
      have hp0 : F32.toRat (F32.fin s1 m1 e1) * F32.toRat (F32.fin s2 m2 e2) = 0 := by
        rcases h0 with h | h <;> simp [F32.toRat, F32.signed, h]
      rw [hz]
      linarith
    · have hz : F32.toRat (F32.fin (xor s1 s2) 0 0) = 0 := by simp [F32.toRat, F32.signed]
      have hp0 : F32.toRat (F32.fin s1 m1 e1) * F32.toRat (F32.fin s2 m2 e2) = 0 := by
        rcases h0 with h | h <;> simp [F32.toRat, F32.signed, h]
      rw [hz]
      linarith
  · obtain ⟨m', e', hr, hv1, hv2⟩ := F32.round_between _ _ _ sl ml el sh mh eh hl hh
      (by rw [hprod]; exact hlo) (by rw [hprod]; exact hhi)
    exact ⟨_, m', e', hr, hv1, hv2⟩

lemma F32.half_eq : F32.scaled 1 (-1) = F32.fin false 8388608 (-24) := by rfl

/-- The midpoint `(a + b) * 0.5f` of two `float` values `a <= b` of magnitude below `2^127`
lies between them. -/
lemma F32.midpoint_between (a b : F32) (ha : a.isFloat 103 = true) (hb : b.isFloat 103 = true)
    (hab : F32.le a b = true) :
    F32.le a (F32.mul (F32.add a b) (F32.scaled 1 (-1))) = true ∧
    F32.le (F32.mul (F32.add a b) (F32.scaled 1 (-1))) b = true := by
  cases a with
  | nan => simp [F32.isFloat] at ha
  | inf s => simp [F32.isFloat] at ha
  | fin s1 m1 e1 =>
    cases b with
    | nan => simp [F32.isFloat] at hb
    | inf s => simp [F32.isFloat] at hb
    | fin s2 m2 e2 =>
      obtain ⟨ha1, ha2, ha3⟩ := (F32.isFloat_iff 103 s1 m1 e1).mp ha
      obtain ⟨hb1, hb2, hb3⟩ := (F32.isFloat_iff 103 s2 m2 e2).mp hb
      have hle := (F32.le_fin_iff _ _ _ _ _ _).mp hab
      have h2a : F32.toRat (F32.fin s1 m1 (e1 + 1)) = 2 * F32.toRat (F32.fin s1 m1 e1) := by
        simp only [F32.toRat]
        rw [zpow_add₀ (by norm_num : (2 : ℚ) ≠ 0)]
        ring
      have h2b : F32.toRat (F32.fin s2 m2 (e2 + 1)) = 2 * F32.toRat (F32.fin s2 m2 e2) := by
        simp only [F32.toRat]
        rw [zpow_add₀ (by norm_num : (2 : ℚ) ≠ 0)]
        ring
      obtain ⟨s, m, e, hr, hv1, hv2⟩ := F32.add_between s1 m1 e1 s2 m2 e2
        s1 m1 (e1 + 1) s2 m2 (e2 + 1) ⟨ha1, by omega, by omega⟩ ⟨hb1, by omega, by omega⟩
        (by rw [h2a]; linarith) (by rw [h2b]; linarith)
      have hhalf : F32.toRat (F32.fin false 8388608 (-24)) = 1 / 2 := by
        simp only [F32.toRat, F32.signed]
        norm_num
      obtain ⟨s', m', e', hr', hw1, hw2⟩ := F32.mul_between s m e false 8388608 (-24)
        s1 m1 e1 s2 m2 e2 ⟨ha1, ha2, by omega⟩ ⟨hb1, hb2, by omega⟩
        (by rw [hhalf]; rw [h2a] at hv1; linarith) (by rw [hhalf]; rw [h2b] at hv2; linarith)
      rw [hr, F32.half_eq, hr']
      exact ⟨(F32.le_fin_iff _ _ _ _ _ _).mpr hw1, (F32.le_fin_iff _ _ _ _ _ _).mpr hw2⟩

lemma F32.isNumber_of_isFloat (emax : Int) (a : F32) (h : a.isFloat emax = true) :
    a.isNumber = true := by
  cases a <;> simp_all [F32.isFloat, F32.isNumber]

lemma Binary32.glmMin_isFloat (emax : Int) (a b : F32) (ha : a.isFloat emax = true)
    (hb : b.isFloat emax = true) : (Binary32.glmMin a b).isFloat emax = true := by
  unfold Binary32.glmMin
  split_ifs <;> assumption

lemma Binary32.glmMax_isFloat (emax : Int) (a b : F32) (ha : a.isFloat emax = true)
    (hb : b.isFloat emax = true) : (Binary32.glmMax a b).isFloat emax = true := by
  unfold Binary32.glmMax
  split_ifs <;> assumption

lemma Binary32.isFloat3_iff (emax : Int) (v : Vec3 F32) :
    Binary32.isFloat3 emax v = true ↔
      v.x.isFloat emax = true ∧ v.y.isFloat emax = true ∧ v.z.isFloat emax = true := by
  simp [Binary32.isFloat3, and_assoc]

lemma Binary32.fromVertices_fold_isFloat (emax : Int) (l : List (Vec3 F32))
    (hl : ∀ v ∈ l, Binary32.isFloat3 emax v = true) (acc : Vec3 F32 × Vec3 F32)
    (h : Binary32.isFloat3 emax acc.1 = true ∧ Binary32.isFloat3 emax acc.2 = true) :
    Binary32.isFloat3 emax (l.foldl
        (fun (acc : Vec3 F32 × Vec3 F32) vertex =>
          ((⟨Binary32.glmMin acc.1.x vertex.x, Binary32.glmMin acc.1.y vertex.y,
              Binary32.glmMin acc.1.z vertex.z⟩ : Vec3 F32),
            (⟨Binary32.glmMax acc.2.x vertex.x, Binary32.glmMax acc.2.y vertex.y,
              Binary32.glmMax acc.2.z vertex.z⟩ : Vec3 F32))) acc).1 = true ∧
    Binary32.isFloat3 emax (l.foldl
        (fun (acc : Vec3 F32 × Vec3 F32) vertex =>
          ((⟨Binary32.glmMin acc.1.x vertex.x, Binary32.glmMin acc.1.y vertex.y,
              Binary32.glmMin acc.1.z vertex.z⟩ : Vec3 F32),
            (⟨Binary32.glmMax acc.2.x vertex.x, Binary32.glmMax acc.2.y vertex.y,
              Binary32.glmMax acc.2.z vertex.z⟩ : Vec3 F32))) acc).2 = true := by
  induction l generalizing acc with
  | nil => exact h
  | cons v rest ih =>
    simp only [List.foldl_cons]
    obtain ⟨vx, vy, vz⟩ := (Binary32.isFloat3_iff emax v).mp (hl v (List.mem_cons_self _ _))
    obtain ⟨ax, ay, az⟩ := (Binary32.isFloat3_iff emax _).mp h.1
    obtain ⟨bx, bby, bz⟩ := (Binary32.isFloat3_iff emax _).mp h.2
    exact ih (fun d hd => hl d (List.mem_cons_of_mem _ hd)) _
      ⟨(Binary32.isFloat3_iff emax _).mpr ⟨Binary32.glmMin_isFloat emax _ _ ax vx,
          Binary32.glmMin_isFloat emax _ _ ay vy, Binary32.glmMin_isFloat emax _ _ az vz⟩,
        (Binary32.isFloat3_iff emax _).mpr ⟨Binary32.glmMax_isFloat emax _ _ bx vx,
          Binary32.glmMax_isFloat emax _ _ bby vy, Binary32.glmMax_isFloat emax _ _ bz vz⟩⟩

/-- In binary32, for points of magnitude below `2^127`, `getCenter()` of
`fromVertices(points)` lies between `min` and `max` on every axis. -/
lemma Binary32.getCenter_fromVertices_between (l : List (Vec3 F32))
    (hl : ∀ v ∈ l, Binary32.isFloat3 103 v = true)
    (hv : (Binary32.fromVertices l).valid = true) :
    (F32.le (Binary32.fromVertices l).min.x (Binary32.getCenter (Binary32.fromVertices l)).x
        = true ∧
      F32.le (Binary32.getCenter (Binary32.fromVertices l)).x (Binary32.fromVertices l).max.x
        = true) ∧
    (F32.le (Binary32.fromVertices l).min.y (Binary32.getCenter (Binary32.fromVertices l)).y
        = true ∧
      F32.le (Binary32.getCenter (Binary32.fromVertices l)).y (Binary32.fromVertices l).max.y
        = true) ∧
    (F32.le (Binary32.fromVertices l).min.z (Binary32.getCenter (Binary32.fromVertices l)).z
        = true ∧
      F32.le (Binary32.getCenter (Binary32.fromVertices l)).z (Binary32.fromVertices l).max.z
        = true) := by
  cases l with
  | nil => simp [Binary32.fromVertices] at hv
  | cons v0 t =>
    have hn : ∀ v ∈ v0 :: t, Binary32.isNumber3 v = true := fun v hv' => by
      obtain ⟨a, b, c⟩ := (Binary32.isFloat3_iff 103 v).mp (hl v hv')
      exact (Binary32.isNumber3_iff v).mpr ⟨F32.isNumber_of_isFloat _ _ a,
        F32.isNumber_of_isFloat _ _ b, F32.isNumber_of_isFloat _ _ c⟩
    obtain ⟨ox, oy, oz⟩ := Binary32.fromVertices_minLeMax (v0 :: t) hn rfl
    obtain ⟨f1, f2⟩ := Binary32.fromVertices_fold_isFloat 103 (v0 :: t) hl (v0, v0)
      ⟨hl v0 (List.mem_cons_self _ _), hl v0 (List.mem_cons_self _ _)⟩
    obtain ⟨ax, ay, az⟩ := (Binary32.isFloat3_iff 103 _).mp f1
    obtain ⟨bx, bby, bz⟩ := (Binary32.isFloat3_iff 103 _).mp f2
    exact ⟨F32.midpoint_between _ _ ax bx ox, F32.midpoint_between _ _ ay bby oy,
      F32.midpoint_between _ _ az bz oz⟩

lemma F32.isFinite_of_isFloat (emax : Int) (a : F32) (h : a.isFloat emax = true) :
    a.isFinite = true := by
  cases a <;> simp_all [F32.isFloat, F32.isFinite]

lemma Binary32.isFinite3_of_isFloat3 (emax : Int) (v : Vec3 F32)
    (h : Binary32.isFloat3 emax v = true) : Binary32.isFinite3 v = true := by
  obtain ⟨a, b, c⟩ := (Binary32.isFloat3_iff emax v).mp h
  exact (Binary32.isFinite3_iff v).mpr ⟨F32.isFinite_of_isFloat _ _ a,
    F32.isFinite_of_isFloat _ _ b, F32.isFinite_of_isFloat _ _ c⟩


/-- In binary32, for every list of points of magnitude below `2^127`, `getCenter()` of
`fromVertices(points)` lies between `min` and `max` on every axis; for the empty list all three
are the zero vector. -/
lemma Binary32.getCenter_fromVertices_within (l : List (Vec3 F32))
    (hl : ∀ v ∈ l, Binary32.isFloat3 103 v = true) :
    (F32.le (Binary32.fromVertices l).min.x (Binary32.getCenter (Binary32.fromVertices l)).x
        = true ∧
      F32.le (Binary32.getCenter (Binary32.fromVertices l)).x (Binary32.fromVertices l).max.x
        = true) ∧
    (F32.le (Binary32.fromVertices l).min.y (Binary32.getCenter (Binary32.fromVertices l)).y
        = true ∧
      F32.le (Binary32.getCenter (Binary32.fromVertices l)).y (Binary32.fromVertices l).max.y
        = true) ∧
    (F32.le (Binary32.fromVertices l).min.z (Binary32.getCenter (Binary32.fromVertices l)).z
        = true ∧
      F32.le (Binary32.getCenter (Binary32.fromVertices l)).z (Binary32.fromVertices l).max.z
        = true) := by
  cases l with
  | nil => decide
  | cons v0 t => exact Binary32.getCenter_fromVertices_between (v0 :: t) hl rfl

lemma F32.toRat_zero (s : Bool) (e : Int) : F32.toRat (F32.fin s 0 e) = 0 := by
  simp [F32.toRat, F32.signed]

/-- The sum of two finite `float` values whose exact sum is at least a binary32 number is
at least that number; it may be `+inf`. -/
lemma F32.add_ge (s1 : Bool) (m1 : Nat) (e1 : Int) (s2 : Bool) (m2 : Nat) (e2 : Int)
    (sl : Bool) (ml : Nat) (el : Int) (hl : ml < 2 ^ 24 ∧ -149 ≤ el ∧ el ≤ 104)
    (hlo : F32.toRat (F32.fin sl ml el) ≤
      F32.toRat (F32.fin s1 m1 e1) + F32.toRat (F32.fin s2 m2 e2)) :
    F32.add (F32.fin s1 m1 e1) (F32.fin s2 m2 e2) = F32.inf false ∨
    ∃ s m e, F32.add (F32.fin s1 m1 e1) (F32.fin s2 m2 e2) = F32.fin s m e ∧
      F32.toRat (F32.fin sl ml el) ≤ F32.toRat (F32.fin s m e) := by
  have hsum := F32.toRat_add s1 m1 e1 s2 m2 e2
  simp only [F32.add]
  split_ifs with h0
  · refine Or.inr ⟨s1 && s2, 0, 0, rfl, ?_⟩
    rw [h0] at hsum
    rw [F32.toRat_zero]
    have hz2 : F32.toRat (F32.fin (decide ((0 : Int) < 0)) (0 : Int).natAbs (min e1 e2)) = 0 := by
      simp [F32.toRat, F32.signed]
    rw [hz2] at hsum
    linarith
  · rcases F32.round_ge _ _ _ sl ml el hl.1 hl.2.1 hl.2.2 (by rw [hsum]; exact hlo) with
      hi | ⟨m', e', hr, hv⟩
    · exact Or.inl hi
    · exact Or.inr ⟨_, m', e', hr, hv⟩

/-- The sum of two finite `float` values whose exact sum is at most a binary32 number is at
most that number; it may be `-inf`. -/
lemma F32.add_le (s1 : Bool) (m1 : Nat) (e1 : Int) (s2 : Bool) (m2 : Nat) (e2 : Int)
    (sh : Bool) (mh : Nat) (eh : Int) (hh : mh < 2 ^ 24 ∧ -149 ≤ eh ∧ eh ≤ 104)
    (hhi : F32.toRat (F32.fin s1 m1 e1) + F32.toRat (F32.fin s2 m2 e2) ≤
      F32.toRat (F32.fin sh mh eh)) :
    F32.add (F32.fin s1 m1 e1) (F32.fin s2 m2 e2) = F32.inf true ∨
    ∃ s m e, F32.add (F32.fin s1 m1 e1) (F32.fin s2 m2 e2) = F32.fin s m e ∧
      F32.toRat (F32.fin s m e) ≤ F32.toRat (F32.fin sh mh eh) := by
  have hsum := F32.toRat_add s1 m1 e1 s2 m2 e2
  simp only [F32.add]
  split_ifs with h0
  · refine Or.inr ⟨s1 && s2, 0, 0, rfl, ?_⟩
    rw [h0] at hsum
    rw [F32.toRat_zero]
    have hz2 : F32.toRat (F32.fin (decide ((0 : Int) < 0)) (0 : Int).natAbs (min e1 e2)) = 0 := by
      simp [F32.toRat, F32.signed]
    rw [hz2] at hsum
    linarith
  · rcases F32.round_le _ _ _ sh mh eh hh.1 hh.2.1 hh.2.2 (by rw [hsum]; exact hhi) with
      hi | ⟨m', e', hr, hv⟩
    · exact Or.inl hi
    · exact Or.inr ⟨_, m', e', hr, hv⟩

/-- The product of two finite `float` values whose exact product is at least a binary32
number is at least that number; it may be `+inf`. -/
lemma F32.mul_ge (s1 : Bool) (m1 : Nat) (e1 : Int) (s2 : Bool) (m2 : Nat) (e2 : Int)
    (sl : Bool) (ml : Nat) (el : Int) (hl : ml < 2 ^ 24 ∧ -149 ≤ el ∧ el ≤ 104)
    (hlo : F32.toRat (F32.fin sl ml el) ≤
      F32.toRat (F32.fin s1 m1 e1) * F32.toRat (F32.fin s2 m2 e2)) :
    F32.mul (F32.fin s1 m1 e1) (F32.fin s2 m2 e2) = F32.inf false ∨
    ∃ s m e, F32.mul (F32.fin s1 m1 e1) (F32.fin s2 m2 e2) = F32.fin s m e ∧
      F32.toRat (F32.fin sl ml el) ≤ F32.toRat (F32.fin s m e) := by
  have hprod := F32.toRat_mul s1 m1 e1 s2 m2 e2
  simp only [F32.mul]
  split_ifs with h0
  · refine Or.inr ⟨xor s1 s2, 0, 0, rfl, ?_⟩
    have hp0 : F32.toRat (F32.fin s1 m1 e1) * F32.toRat (F32.fin s2 m2 e2) = 0 := by
      rcases h0 with h | h <;> simp [F32.toRat, F32.signed, h]
    rw [F32.toRat_zero]
    linarith
  · rcases F32.round_ge _ _ _ sl ml el hl.1 hl.2.1 hl.2.2 (by rw [hprod]; exact hlo) with
      hi | ⟨m', e', hr, hv⟩
    · exact Or.inl hi
    · exact Or.inr ⟨_, m', e', hr, hv⟩

/-- The product of two finite `float` values whose exact product is at most a binary32
number is at most that number; it may be `-inf`. -/
lemma F32.mul_le (s1 : Bool) (m1 : Nat) (e1 : Int) (s2 : Bool) (m2 : Nat) (e2 : Int)
    (sh : Bool) (mh : Nat) (eh : Int) (hh : mh < 2 ^ 24 ∧ -149 ≤ eh ∧ eh ≤ 104)
    (hhi : F32.toRat (F32.fin s1 m1 e1) * F32.toRat (F32.fin s2 m2 e2) ≤
      F32.toRat (F32.fin sh mh eh)) :
    F32.mul (F32.fin s1 m1 e1) (F32.fin s2 m2 e2) = F32.inf true ∨
    ∃ s m e, F32.mul (F32.fin s1 m1 e1) (F32.fin s2 m2 e2) = F32.fin s m e ∧
      F32.toRat (F32.fin s m e) ≤ F32.toRat (F32.fin sh mh eh) := by
  have hprod := F32.toRat_mul s1 m1 e1 s2 m2 e2
  simp only [F32.mul]
  split_ifs with h0
  · refine Or.inr ⟨xor s1 s2, 0, 0, rfl, ?_⟩
    have hp0 : F32.toRat (F32.fin s1 m1 e1) * F32.toRat (F32.fin s2 m2 e2) = 0 := by
      rcases h0 with h | h <;> simp [F32.toRat, F32.signed, h]
    rw [F32.toRat_zero]
    linarith
  · rcases F32.round_le _ _ _ sh mh eh hh.1 hh.2.1 hh.2.2 (by rw [hprod]; exact hhi) with
      hi | ⟨m', e', hr, hv⟩
    · exact Or.inl hi
    · exact Or.inr ⟨_, m', e', hr, hv⟩

lemma F32.atLeast_of_isFinite (a : F32) (ha : a.isFinite = true) :
    F32.atLeast (F32.toRat a) a := by
  cases a with
  | nan => simp [F32.isFinite] at ha
  | inf s => simp [F32.isFinite] at ha
  | fin s m e => exact le_refl _

lemma F32.atMost_of_isFinite (a : F32) (ha : a.isFinite = true) :
    F32.atMost (F32.toRat a) a := by
  cases a with
  | nan => simp [F32.isFinite] at ha
  | inf s => simp [F32.isFinite] at ha
  | fin s m e => exact le_refl _

/-- A sum of two values bounded below is bounded below by any binary32 number that is at
most the sum of the bounds. -/
lemma F32.atLeast_add (a b lo : F32) (qa qb : ℚ) (hlo : lo.isFloat 104 = true)
    (ha : F32.atLeast qa a) (hb : F32.atLeast qb b) (h : F32.toRat lo ≤ qa + qb) :
    F32.atLeast (F32.toRat lo) (F32.add a b) := by
  cases lo with
  | nan => simp [F32.isFloat] at hlo
  | inf s => simp [F32.isFloat] at hlo
  | fin sl ml el =>
    have hl := (F32.isFloat_iff 104 sl ml el).mp hlo
    cases a with
    | nan => exact ha.elim
    | inf sa =>
      cases b with
      | nan => exact hb.elim
      | inf sb =>
        have h1 : sa = false := ha
        have h2 : sb = false := hb
        subst h1 h2
        simp [F32.add, F32.atLeast]
      | fin s2 m2 e2 =>
        have h1 : sa = false := ha
        subst h1
        simp [F32.add, F32.atLeast]
    | fin s1 m1 e1 =>
      cases b with
      | nan => exact hb.elim
      | inf sb =>
        have h2 : sb = false := hb
        subst h2
        simp [F32.add, F32.atLeast]
      | fin s2 m2 e2 =>
        have ha1 : qa ≤ F32.toRat (F32.fin s1 m1 e1) := ha
        have hb1 : qb ≤ F32.toRat (F32.fin s2 m2 e2) := hb
        rcases F32.add_ge s1 m1 e1 s2 m2 e2 sl ml el hl (by linarith) with
          hi | ⟨s, m, e, hr, hv⟩
        · rw [hi]
          rfl
        · rw [hr]
          exact hv

/-- A sum of two values bounded above is bounded above by any binary32 number that is at
least the sum of the bounds. -/
lemma F32.atMost_add (a b hi : F32) (qa qb : ℚ) (hhi : hi.isFloat 104 = true)
    (ha : F32.atMost qa a) (hb : F32.atMost qb b) (h : qa + qb ≤ F32.toRat hi) :
    F32.atMost (F32.toRat hi) (F32.add a b) := by
  cases hi with
  | nan => simp [F32.isFloat] at hhi
  | inf s => simp [F32.isFloat] at hhi
  | fin sh mh eh =>
    have hh := (F32.isFloat_iff 104 sh mh eh).mp hhi
    cases a with
    | nan => exact ha.elim
    | inf sa =>
      cases b with
      | nan => exact hb.elim
      | inf sb =>
        have h1 : sa = true := ha
        have h2 : sb = true := hb
        subst h1 h2
        simp [F32.add, F32.atMost]
      | fin s2 m2 e2 =>
        have h1 : sa = true := ha
        subst h1
        simp [F32.add, F32.atMost]
    | fin s1 m1 e1 =>
      cases b with
      | nan => exact hb.elim
      | inf sb =>
        have h2 : sb = true := hb
        subst h2
        simp [F32.add, F32.atMost]
      | fin s2 m2 e2 =>
        have ha1 : F32.toRat (F32.fin s1 m1 e1) ≤ qa := ha
        have hb1 : F32.toRat (F32.fin s2 m2 e2) ≤ qb := hb
        rcases F32.add_le s1 m1 e1 s2 m2 e2 sh mh eh hh (by linarith) with
          hi | ⟨s, m, e, hr, hv⟩
        · rw [hi]
          rfl
        · rw [hr]
          exact hv

/-- A product of two finite values is bounded below by any binary32 number that is at most
the exact product. -/
lemma F32.atLeast_mul (a b lo : F32) (hlo : lo.isFloat 104 = true)
    (ha : a.isFinite = true) (hb : b.isFinite = true)
    (h : F32.toRat lo ≤ F32.toRat a * F32.toRat b) :
    F32.atLeast (F32.toRat lo) (F32.mul a b) := by
  cases lo with
  | nan => simp [F32.isFloat] at hlo
  | inf s => simp [F32.isFloat] at hlo
  | fin sl ml el =>
    have hl := (F32.isFloat_iff 104 sl ml el).mp hlo
    cases a with
    | nan => simp [F32.isFinite] at ha
    | inf sa => simp [F32.isFinite] at ha
    | fin s1 m1 e1 =>
      cases b with
      | nan => simp [F32.isFinite] at hb
      | inf sb => simp [F32.isFinite] at hb
      | fin s2 m2 e2 =>
        rcases F32.mul_ge s1 m1 e1 s2 m2 e2 sl ml el hl h with hi | ⟨s, m, e, hr, hv⟩
        · rw [hi]
          rfl
        · rw [hr]
          exact hv

/-- A product of two finite values is bounded above by any binary32 number that is at least
the exact product. -/
lemma F32.atMost_mul (a b hi : F32) (hhi : hi.isFloat 104 = true)
    (ha : a.isFinite = true) (hb : b.isFinite = true)
    (h : F32.toRat a * F32.toRat b ≤ F32.toRat hi) :
    F32.atMost (F32.toRat hi) (F32.mul a b) := by
  cases hi with
  | nan => simp [F32.isFloat] at hhi
  | inf s => simp [F32.isFloat] at hhi
  | fin sh mh eh =>
    have hh := (F32.isFloat_iff 104 sh mh eh).mp hhi
    cases a with
    | nan => simp [F32.isFinite] at ha
    | inf sa => simp [F32.isFinite] at ha
    | fin s1 m1 e1 =>
      cases b with
      | nan => simp [F32.isFinite] at hb
      | inf sb => simp [F32.isFinite] at hb
      | fin s2 m2 e2 =>
        rcases F32.mul_le s1 m1 e1 s2 m2 e2 sh mh eh hh h with hi | ⟨s, m, e, hr, hv⟩
        · rw [hi]
          rfl
        · rw [hr]
          exact hv

/-- A value that is at least a non-negative number is not `< 0` and is `>= 0`. -/
lemma F32.nonneg_of_atLeast (v : F32) (q : ℚ) (hq : 0 ≤ q) (h : F32.atLeast q v) :
    F32.lt v (F32.ofInt 0) = false ∧ F32.ge v (F32.ofInt 0) = true := by
  rw [F32.ofInt_zero]
  cases v with
  | nan => exact h.elim
  | inf s =>
    have h1 : s = false := h
    subst h1
    simp [F32.lt, F32.ge, F32.le]
  | fin s m e =>
    have h1 : q ≤ F32.toRat (F32.fin s m e) := h
    constructor
    · rw [Bool.eq_false_iff]
      intro hlt
      have := (F32.lt_fin_iff _ _ _ _ _ _).mp hlt
      rw [F32.toRat_zero] at this
      linarith
    · refine (F32.le_fin_iff _ _ _ _ _ _).mpr ?_
      rw [F32.toRat_zero]
      linarith

/-- A value that is at most a negative number is `< 0` and is not `>= 0`. -/
lemma F32.neg_of_atMost (v : F32) (q : ℚ) (hq : q < 0) (h : F32.atMost q v) :
    F32.lt v (F32.ofInt 0) = true ∧ F32.ge v (F32.ofInt 0) = false := by
  rw [F32.ofInt_zero]
  cases v with
  | nan => exact h.elim
  | inf s =>
    have h1 : s = true := h
    subst h1
    simp [F32.lt, F32.ge, F32.le]
  | fin s m e =>
    have h1 : F32.toRat (F32.fin s m e) ≤ q := h
    constructor
    · refine (F32.lt_fin_iff _ _ _ _ _ _).mpr ?_
      rw [F32.toRat_zero]
      linarith
    · rw [Bool.eq_false_iff]
      intro hle
      have := (F32.le_fin_iff _ _ _ _ _ _).mp hle
      rw [F32.toRat_zero] at this
      linarith

lemma Binary32.isFinite4_iff (v : Vec4 F32) :
    Binary32.isFinite4 v = true ↔
      v.x.isFinite = true ∧ v.y.isFinite = true ∧ v.z.isFinite = true ∧
        v.w.isFinite = true := by
  simp [Binary32.isFinite4, and_assoc]

/-- A lower bound of the computed signed distance from lower bounds of the three exact
products: `l1 ≤ a * x`, `l2 ≤ b * y`, `l3 ≤ c * z`, `l12 ≤ l1 + l2`, `l123 ≤ l12 + l3` and
`l ≤ l123 + d`, all bounds binary32 numbers. -/
lemma Binary32.planeDistance_atLeast (plane : Vec4 F32) (p : Vec3 F32)
    (l1 l2 l3 l12 l123 l : F32)
    (hplane : Binary32.isFinite4 plane = true) (hp : Binary32.isFinite3 p = true)
    (hl1 : l1.isFloat 104 = true) (hl2 : l2.isFloat 104 = true) (hl3 : l3.isFloat 104 = true)
    (hl12 : l12.isFloat 104 = true) (hl123 : l123.isFloat 104 = true)
    (hl : l.isFloat 104 = true)
    (h1 : F32.toRat l1 ≤ F32.toRat plane.x * F32.toRat p.x)
    (h2 : F32.toRat l2 ≤ F32.toRat plane.y * F32.toRat p.y)
    (h3 : F32.toRat l3 ≤ F32.toRat plane.z * F32.toRat p.z)
    (h12 : F32.toRat l12 ≤ F32.toRat l1 + F32.toRat l2)
    (h123 : F32.toRat l123 ≤ F32.toRat l12 + F32.toRat l3)
    (h : F32.toRat l ≤ F32.toRat l123 + F32.toRat plane.w) :
    F32.atLeast (F32.toRat l) (Binary32.planeDistance plane p) := by
  obtain ⟨hx, hy, hz, hw⟩ := (Binary32.isFinite4_iff plane).mp hplane
  obtain ⟨hpx, hpy, hpz⟩ := (Binary32.isFinite3_iff p).mp hp
  exact F32.atLeast_add _ _ l _ _ hl
    (F32.atLeast_add _ _ l123 _ _ hl123
      (F32.atLeast_add _ _ l12 _ _ hl12 (F32.atLeast_mul _ _ l1 hl1 hx hpx h1)
        (F32.atLeast_mul _ _ l2 hl2 hy hpy h2) h12)
      (F32.atLeast_mul _ _ l3 hl3 hz hpz h3) h123)
    (F32.atLeast_of_isFinite _ hw) h

/-- An upper bound of the computed signed distance from upper bounds of the three exact
products. -/
lemma Binary32.planeDistance_atMost (plane : Vec4 F32) (p : Vec3 F32)
    (u1 u2 u3 u12 u123 u : F32)
    (hplane : Binary32.isFinite4 plane = true) (hp : Binary32.isFinite3 p = true)
    (hu1 : u1.isFloat 104 = true) (hu2 : u2.isFloat 104 = true) (hu3 : u3.isFloat 104 = true)
    (hu12 : u12.isFloat 104 = true) (hu123 : u123.isFloat 104 = true)
    (hu : u.isFloat 104 = true)
    (h1 : F32.toRat plane.x * F32.toRat p.x ≤ F32.toRat u1)
    (h2 : F32.toRat plane.y * F32.toRat p.y ≤ F32.toRat u2)
    (h3 : F32.toRat plane.z * F32.toRat p.z ≤ F32.toRat u3)
    (h12 : F32.toRat u1 + F32.toRat u2 ≤ F32.toRat u12)
    (h123 : F32.toRat u12 + F32.toRat u3 ≤ F32.toRat u123)
    (h : F32.toRat u123 + F32.toRat plane.w ≤ F32.toRat u) :
    F32.atMost (F32.toRat u) (Binary32.planeDistance plane p) := by
  obtain ⟨hx, hy, hz, hw⟩ := (Binary32.isFinite4_iff plane).mp hplane
  obtain ⟨hpx, hpy, hpz⟩ := (Binary32.isFinite3_iff p).mp hp
  exact F32.atMost_add _ _ u _ _ hu
    (F32.atMost_add _ _ u123 _ _ hu123
      (F32.atMost_add _ _ u12 _ _ hu12 (F32.atMost_mul _ _ u1 hu1 hx hpx h1)
        (F32.atMost_mul _ _ u2 hu2 hy hpy h2) h12)
      (F32.atMost_mul _ _ u3 hu3 hz hpz h3) h123)
    (F32.atMost_of_isFinite _ hw) h

/-- The loop of `isPointInside` accepts a point that no plane of the list rejects. -/
lemma Binary32.isPointInsideLoop_of_forall (p : Vec3 F32) (l : List (Vec4 F32))
    (h : ∀ plane ∈ l, F32.lt (Binary32.planeDistance plane p) (F32.ofInt 0) = false) :
    Binary32.isPointInsideLoop p l = true := by
  induction l with
  | nil => rfl
  | cons a t ih =>
    simp only [Binary32.isPointInsideLoop, h a (List.mem_cons_self _ _), Bool.false_eq_true,
      if_false]
    exact ih (fun plane hm => h plane (List.mem_cons_of_mem _ hm))

/-- The loop of `isPointInside` rejects a point that some plane of the list rejects. -/
lemma Binary32.isPointInsideLoop_of_mem (p : Vec3 F32) (l : List (Vec4 F32)) (plane : Vec4 F32)
    (hm : plane ∈ l) (h : F32.lt (Binary32.planeDistance plane p) (F32.ofInt 0) = true) :
    Binary32.isPointInsideLoop p l = false := by
  induction l with
  | nil => simp at hm
  | cons a t ih =>
    simp only [Binary32.isPointInsideLoop]
    rcases List.mem_cons.mp hm with rfl | hm'
    · simp only [h, if_true]
    · split_ifs
      · rfl
      · exact ih hm'

lemma F32.toRat_ofInt_zero : F32.toRat (F32.ofInt 0) = 0 := by
  rw [F32.ofInt_zero, F32.toRat_zero]

lemma F32.isFloat_zero : (F32.fin false 0 0).isFloat 104 = true := by decide

/-- The lower bound of the signed distance when the `x` and `y` products vanish. -/
lemma Binary32.planeDistance_atLeast_depth (plane : Vec4 F32) (p : Vec3 F32) (l3 l : F32)
    (hplane : Binary32.isFinite4 plane = true) (hp : Binary32.isFinite3 p = true)
    (hl3 : l3.isFloat 104 = true) (hl : l.isFloat 104 = true)
    (hx : F32.toRat plane.x * F32.toRat p.x = 0) (hy : F32.toRat plane.y * F32.toRat p.y = 0)
    (h3 : F32.toRat l3 ≤ F32.toRat plane.z * F32.toRat p.z)
    (h : F32.toRat l ≤ F32.toRat l3 + F32.toRat plane.w) :
    F32.atLeast (F32.toRat l) (Binary32.planeDistance plane p) :=
  Binary32.planeDistance_atLeast plane p (F32.fin false 0 0) (F32.fin false 0 0) l3
    (F32.fin false 0 0) l3 l hplane hp F32.isFloat_zero F32.isFloat_zero hl3 F32.isFloat_zero
    hl3 hl (by rw [hx, F32.toRat_zero]) (by rw [hy, F32.toRat_zero]) h3
    (by rw [F32.toRat_zero]; norm_num) (by rw [F32.toRat_zero]; linarith) h

/-- The upper bound of the signed distance when the `x` and `y` products vanish. -/
lemma Binary32.planeDistance_atMost_depth (plane : Vec4 F32) (p : Vec3 F32) (u3 u : F32)
    (hplane : Binary32.isFinite4 plane = true) (hp : Binary32.isFinite3 p = true)
    (hu3 : u3.isFloat 104 = true) (hu : u.isFloat 104 = true)
    (hx : F32.toRat plane.x * F32.toRat p.x = 0) (hy : F32.toRat plane.y * F32.toRat p.y = 0)
    (h3 : F32.toRat plane.z * F32.toRat p.z ≤ F32.toRat u3)
    (h : F32.toRat u3 + F32.toRat plane.w ≤ F32.toRat u) :
    F32.atMost (F32.toRat u) (Binary32.planeDistance plane p) :=
  Binary32.planeDistance_atMost plane p (F32.fin false 0 0) (F32.fin false 0 0) u3
    (F32.fin false 0 0) u3 u hplane hp F32.isFloat_zero F32.isFloat_zero hu3 F32.isFloat_zero
    hu3 hu (by rw [hx, F32.toRat_zero]) (by rw [hy, F32.toRat_zero]) h3
    (by rw [F32.toRat_zero]; norm_num) (by rw [F32.toRat_zero]; linarith) h

set_option maxRecDepth 1000000

/-- The six planes that `extractPlanes` stores for the projection of `main`. -/
lemma mainFrustum32_planeList :
    Binary32.planeList mainFrustum32 =
      [⟨F32.fin false 14686272 (-24), F32.fin false 0 0, F32.fin true 16222008 (-25),
          F32.fin false 0 0⟩,
        ⟨F32.fin true 14686272 (-24), F32.fin false 0 0, F32.fin true 16222008 (-25),
          F32.fin false 0 0⟩,
        ⟨F32.fin false 0 0, F32.fin false 15500126 (-24), F32.fin true 12840726 (-25),
          F32.fin false 0 0⟩,
        ⟨F32.fin false 0 0, F32.fin true 15500126 (-24), F32.fin true 12840726 (-25),
          F32.fin false 0 0⟩,
        ⟨F32.fin false 0 0, F32.fin false 0 0, F32.fin true 8388608 (-23),
          F32.fin true 13421773 (-27)⟩,
        ⟨F32.fin false 0 0, F32.fin false 0 0, F32.fin false 8388608 (-23),
          F32.fin false 13107208 (-17)⟩] := by
  decide

lemma F32.near_eq : F32.scaled 13421773 (-27) = F32.fin false 13421773 (-27) := by decide

lemma F32.far_eq : F32.ofInt 100 = F32.fin false 13107200 (-17) := by decide

/-- In binary32, on the frustum of the projection of `main`, every point `(0, 0, -d)` with
`0.1f <= d <= 100.0f` is inside. -/
lemma mainFrustum32_axis_inside (d : F32)
    (hn : F32.le (F32.scaled 13421773 (-27)) d = true)
    (hf : F32.le d (F32.ofInt 100) = true) :
    Binary32.isPointInside mainFrustum32 ⟨F32.ofInt 0, F32.ofInt 0, F32.neg d⟩ = true := by
  rw [F32.near_eq] at hn
  rw [F32.far_eq] at hf
  cases d with
  | nan => simp [F32.le] at hn
  | inf s => cases s <;> simp [F32.le] at hn hf
  | fin s m e =>
    have hn1 := (F32.le_fin_iff _ _ _ _ _ _).mp hn
    have hf1 := (F32.le_fin_iff _ _ _ _ _ _).mp hf
    have hneg : F32.toRat (F32.fin (!s) m e) = -F32.toRat (F32.fin s m e) :=
      F32.toRat_neg_fin s m e
    have hnv : F32.toRat (F32.fin false 13421773 (-27)) = 13421773 / 134217728 := by
      simp only [F32.toRat, F32.signed]
      norm_num
    have hfv : F32.toRat (F32.fin false 13107200 (-17)) = 100 := by
      simp only [F32.toRat, F32.signed]
      norm_num
    rw [hnv] at hn1
    rw [hfv] at hf1
    have hz0 := F32.toRat_ofInt_zero
    have hfp : Binary32.isFinite3 ⟨F32.ofInt 0, F32.ofInt 0, F32.fin (!s) m e⟩ = true := by
      rw [F32.ofInt_zero]
      rfl
    simp only [F32.neg, Binary32.isPointInside]
    rw [mainFrustum32_planeList]
    refine Binary32.isPointInsideLoop_of_forall _ _ (fun plane hm => ?_)
    simp only [List.mem_cons, List.mem_singleton, List.not_mem_nil, or_false] at hm
    have hside1 : F32.toRat (F32.fin true 16222008 (-25)) = -(16222008 / 33554432) := by
      simp only [F32.toRat, F32.signed]
      norm_num
    have hside2 : F32.toRat (F32.fin true 12840726 (-25)) = -(12840726 / 33554432) := by
      simp only [F32.toRat, F32.signed]
      norm_num
    have hnz : F32.toRat (F32.fin true 8388608 (-23)) = -1 := by
      simp only [F32.toRat, F32.signed]
      norm_num
    have hfz : F32.toRat (F32.fin false 8388608 (-23)) = 1 := by
      simp only [F32.toRat, F32.signed]
      norm_num
    have hnw : F32.toRat (F32.fin true 13421773 (-27)) = -(13421773 / 134217728) := by
      simp only [F32.toRat, F32.signed]
      norm_num
    have hfw : F32.toRat (F32.fin false 13107208 (-17)) = 13107208 / 131072 := by
      simp only [F32.toRat, F32.signed]
      norm_num
    have hm100 : F32.toRat (F32.fin true 13107200 (-17)) = -100 := by
      simp only [F32.toRat, F32.signed]
      norm_num
    rcases hm with rfl | rfl | rfl | rfl | rfl | rfl
    · exact (F32.nonneg_of_atLeast _ _ (le_of_eq (F32.toRat_zero false 0).symm)
        (Binary32.planeDistance_atLeast_depth _ _ (F32.fin false 0 0) (F32.fin false 0 0)
          (by rfl) hfp F32.isFloat_zero F32.isFloat_zero
          (by show _ * F32.toRat (F32.ofInt 0) = 0; rw [hz0, mul_zero])
          (by show _ * F32.toRat (F32.ofInt 0) = 0; rw [hz0, mul_zero])
          (by
            show F32.toRat (F32.fin false 0 0) ≤
              F32.toRat (F32.fin true 16222008 (-25)) * F32.toRat (F32.fin (!s) m e)
            rw [F32.toRat_zero, hside1, hneg]
            linarith)
          (by
            show F32.toRat (F32.fin false 0 0) ≤
              F32.toRat (F32.fin false 0 0) + F32.toRat (F32.fin false 0 0)
            rw [F32.toRat_zero]
            norm_num))).1
    · exact (F32.nonneg_of_atLeast _ _ (le_of_eq (F32.toRat_zero false 0).symm)
        (Binary32.planeDistance_atLeast_depth _ _ (F32.fin false 0 0) (F32.fin false 0 0)
          (by rfl) hfp F32.isFloat_zero F32.isFloat_zero
          (by show _ * F32.toRat (F32.ofInt 0) = 0; rw [hz0, mul_zero])
          (by show _ * F32.toRat (F32.ofInt 0) = 0; rw [hz0, mul_zero])
          (by
            show F32.toRat (F32.fin false 0 0) ≤
              F32.toRat (F32.fin true 16222008 (-25)) * F32.toRat (F32.fin (!s) m e)
            rw [F32.toRat_zero, hside1, hneg]
            linarith)
          (by
            show F32.toRat (F32.fin false 0 0) ≤
              F32.toRat (F32.fin false 0 0) + F32.toRat (F32.fin false 0 0)
            rw [F32.toRat_zero]
            norm_num))).1
    · exact (F32.nonneg_of_atLeast _ _ (le_of_eq (F32.toRat_zero false 0).symm)
        (Binary32.planeDistance_atLeast_depth _ _ (F32.fin false 0 0) (F32.fin false 0 0)
          (by rfl) hfp F32.isFloat_zero F32.isFloat_zero
          (by show _ * F32.toRat (F32.ofInt 0) = 0; rw [hz0, mul_zero])
          (by show _ * F32.toRat (F32.ofInt 0) = 0; rw [hz0, mul_zero])
          (by
            show F32.toRat (F32.fin false 0 0) ≤
              F32.toRat (F32.fin true 12840726 (-25)) * F32.toRat (F32.fin (!s) m e)
            rw [F32.toRat_zero, hside2, hneg]
            linarith)
          (by
            show F32.toRat (F32.fin false 0 0) ≤
              F32.toRat (F32.fin false 0 0) + F32.toRat (F32.fin false 0 0)
            rw [F32.toRat_zero]
            norm_num))).1
    · exact (F32.nonneg_of_atLeast _ _ (le_of_eq (F32.toRat_zero false 0).symm)
        (Binary32.planeDistance_atLeast_depth _ _ (F32.fin false 0 0) (F32.fin false 0 0)
          (by rfl) hfp F32.isFloat_zero F32.isFloat_zero
          (by show _ * F32.toRat (F32.ofInt 0) = 0; rw [hz0, mul_zero])
          (by show _ * F32.toRat (F32.ofInt 0) = 0; rw [hz0, mul_zero])
          (by
            show F32.toRat (F32.fin false 0 0) ≤
              F32.toRat (F32.fin true 12840726 (-25)) * F32.toRat (F32.fin (!s) m e)
            rw [F32.toRat_zero, hside2, hneg]
            linarith)
          (by
            show F32.toRat (F32.fin false 0 0) ≤
              F32.toRat (F32.fin false 0 0) + F32.toRat (F32.fin false 0 0)
            rw [F32.toRat_zero]
            norm_num))).1
    · exact (F32.nonneg_of_atLeast _ _ (le_of_eq (F32.toRat_zero false 0).symm)
        (Binary32.planeDistance_atLeast_depth _ _ (F32.fin false 13421773 (-27))
          (F32.fin false 0 0) (by rfl) hfp (by decide) F32.isFloat_zero
          (by show _ * F32.toRat (F32.ofInt 0) = 0; rw [hz0, mul_zero])
          (by show _ * F32.toRat (F32.ofInt 0) = 0; rw [hz0, mul_zero])
          (by
            show F32.toRat (F32.fin false 13421773 (-27)) ≤
              F32.toRat (F32.fin true 8388608 (-23)) * F32.toRat (F32.fin (!s) m e)
            rw [hnv, hnz, hneg]
            linarith)
          (by
            show F32.toRat (F32.fin false 0 0) ≤
              F32.toRat (F32.fin false 13421773 (-27)) + F32.toRat (F32.fin true 13421773 (-27))
            rw [F32.toRat_zero, hnv, hnw]
            norm_num))).1
    · exact (F32.nonneg_of_atLeast _ _ (le_of_eq (F32.toRat_zero false 0).symm)
        (Binary32.planeDistance_atLeast_depth _ _ (F32.fin true 13107200 (-17))
          (F32.fin false 0 0) (by rfl) hfp (by decide) F32.isFloat_zero
          (by show _ * F32.toRat (F32.ofInt 0) = 0; rw [hz0, mul_zero])
          (by show _ * F32.toRat (F32.ofInt 0) = 0; rw [hz0, mul_zero])
          (by
            show F32.toRat (F32.fin true 13107200 (-17)) ≤
              F32.toRat (F32.fin false 8388608 (-23)) * F32.toRat (F32.fin (!s) m e)
            rw [hm100, hfz, hneg]
            linarith)
          (by
            show F32.toRat (F32.fin false 0 0) ≤
              F32.toRat (F32.fin true 13107200 (-17)) + F32.toRat (F32.fin false 13107208 (-17))
            rw [F32.toRat_zero, hm100, hfw]
            norm_num))).1

/-- In binary32, on the frustum of the projection of `main`, no point `(0, 0, d)` with
`d > 0` is inside: the NEAR plane rejects it. -/
lemma mainFrustum32_behind_outside (d : F32) (hd : F32.lt (F32.ofInt 0) d = true) :
    Binary32.isPointInside mainFrustum32 ⟨F32.ofInt 0, F32.ofInt 0, d⟩ = false := by
  rw [F32.ofInt_zero] at hd
  cases d with
  | nan => simp [F32.lt] at hd
  | inf s =>
    cases s with
    | true => simp [F32.lt] at hd
    | false => decide
  | fin s m e =>
    have hd1 := (F32.lt_fin_iff _ _ _ _ _ _).mp hd
    rw [F32.toRat_zero] at hd1
    have hz0 := F32.toRat_ofInt_zero
    have hfp : Binary32.isFinite3 ⟨F32.ofInt 0, F32.ofInt 0, F32.fin s m e⟩ = true := by
      rw [F32.ofInt_zero]
      rfl
    have hnz : F32.toRat (F32.fin true 8388608 (-23)) = -1 := by
      simp only [F32.toRat, F32.signed]
      norm_num
    have hnw : F32.toRat (F32.fin true 13421773 (-27)) = -(13421773 / 134217728) := by
      simp only [F32.toRat, F32.signed]
      norm_num
    simp only [Binary32.isPointInside]
    rw [mainFrustum32_planeList]
    refine Binary32.isPointInsideLoop_of_mem _ _
      ⟨F32.fin false 0 0, F32.fin false 0 0, F32.fin true 8388608 (-23),
        F32.fin true 13421773 (-27)⟩ (by simp) ?_
    exact (F32.neg_of_atMost _ (F32.toRat (F32.fin true 13421773 (-27)))
      (by rw [hnw]; norm_num)
      (Binary32.planeDistance_atMost_depth _ _ (F32.fin false 0 0)
        (F32.fin true 13421773 (-27)) (by rfl) hfp F32.isFloat_zero (by decide)
        (by show _ * F32.toRat (F32.ofInt 0) = 0; rw [hz0, mul_zero])
        (by show _ * F32.toRat (F32.ofInt 0) = 0; rw [hz0, mul_zero])
        (by
          show F32.toRat (F32.fin true 8388608 (-23)) * F32.toRat (F32.fin s m e) ≤
            F32.toRat (F32.fin false 0 0)
          rw [F32.toRat_zero, hnz]
          linarith)
        (by
          show F32.toRat (F32.fin false 0 0) + F32.toRat (F32.fin true 13421773 (-27)) ≤
            F32.toRat (F32.fin true 13421773 (-27))
          rw [F32.toRat_zero]
          linarith))).1

lemma F32.toRat_le_of_le (a b : F32) (ha : a.isFinite = true) (hb : b.isFinite = true)
    (h : F32.le a b = true) : F32.toRat a ≤ F32.toRat b := by
  cases a with
  | nan => simp [F32.isFinite] at ha
  | inf s => simp [F32.isFinite] at ha
  | fin s1 m1 e1 =>
    cases b with
    | nan => simp [F32.isFinite] at hb
    | inf s => simp [F32.isFinite] at hb
    | fin s2 m2 e2 => exact (F32.le_fin_iff _ _ _ _ _ _).mp h

/-- The first loop of `isBoundingBoxInside` finds no corner when every corner is outside. -/
lemma Binary32.anyCornerInside_of_forall_outside (f : Frustum F32) (l : List (Vec3 F32))
    (h : ∀ c ∈ l, Binary32.isPointInside f c = false) :
    Binary32.anyCornerInside f l = false := by
  induction l with
  | nil => rfl
  | cons a t ih =>
    simp only [Binary32.anyCornerInside, h a (List.mem_cons_self _ _), Bool.false_eq_true,
      if_false]
    exact ih (fun c hm => h c (List.mem_cons_of_mem _ hm))

/-- The inner loop of `isBoundingBoxInside` leaves `allOutside` set when no corner has a
distance `>= 0`. -/
lemma Binary32.allOutside_of_forall_behind (plane : Vec4 F32) (l : List (Vec3 F32))
    (h : ∀ c ∈ l, F32.ge (Binary32.planeDistance plane c) (F32.ofInt 0) = false) :
    Binary32.allOutside plane l = true := by
  induction l with
  | nil => rfl
  | cons a t ih =>
    simp only [Binary32.allOutside, h a (List.mem_cons_self _ _), Bool.false_eq_true,
      if_false]
    exact ih (fun c hm => h c (List.mem_cons_of_mem _ hm))

/-- The inner loop of `isBoundingBoxInside` clears `allOutside` when some corner has a
distance `>= 0`. -/
lemma Binary32.allOutside_of_corner_in_front (plane : Vec4 F32) (l : List (Vec3 F32))
    (c : Vec3 F32) (hm : c ∈ l)
    (h : F32.ge (Binary32.planeDistance plane c) (F32.ofInt 0) = true) :
    Binary32.allOutside plane l = false := by
  induction l with
  | nil => simp at hm
  | cons a t ih =>
    simp only [Binary32.allOutside]
    rcases List.mem_cons.mp hm with rfl | hm'
    · simp only [h, if_true]
    · split_ifs
      · rfl
      · exact ih hm'

/-- The second loop of `isBoundingBoxInside` returns false when some plane has all corners
outside. -/
lemma Binary32.noPlaneRejects_of_rejecting_plane (corners : List (Vec3 F32))
    (l : List (Vec4 F32)) (plane : Vec4 F32) (hm : plane ∈ l)
    (h : Binary32.allOutside plane corners = true) :
    Binary32.noPlaneRejects corners l = false := by
  induction l with
  | nil => simp at hm
  | cons a t ih =>
    simp only [Binary32.noPlaneRejects]
    rcases List.mem_cons.mp hm with rfl | hm'
    · simp only [h, if_true]
    · split_ifs
      · rfl
      · exact ih hm'

/-- The second loop of `isBoundingBoxInside` returns true when no plane has all corners
outside. -/
lemma Binary32.noPlaneRejects_of_forall_plane (corners : List (Vec3 F32))
    (l : List (Vec4 F32)) (h : ∀ plane ∈ l, Binary32.allOutside plane corners = false) :
    Binary32.noPlaneRejects corners l = true := by
  induction l with
  | nil => rfl
  | cons a t ih =>
    simp only [Binary32.noPlaneRejects, h a (List.mem_cons_self _ _), Bool.false_eq_true,
      if_false]
    exact ih (fun c hm => h c (List.mem_cons_of_mem _ hm))

lemma F32.beyond_far_eq : F32.scaled (-13107209) (-17) = F32.fin true 13107209 (-17) := by
  decide

/-- In binary32 the FAR plane of the projection of `main` rejects every finite point with
`z <= -100.00007f`, the first `float` beyond the stored plane constant. -/
lemma mainFrustum32_far_rejects (c : Vec3 F32) (hc : Binary32.isFinite3 c = true)
    (hz : F32.le c.z (F32.scaled (-13107209) (-17)) = true) :
    F32.lt (Binary32.planeDistance
        ⟨F32.fin false 0 0, F32.fin false 0 0, F32.fin false 8388608 (-23),
          F32.fin false 13107208 (-17)⟩ c) (F32.ofInt 0) = true ∧
    F32.ge (Binary32.planeDistance
        ⟨F32.fin false 0 0, F32.fin false 0 0, F32.fin false 8388608 (-23),
          F32.fin false 13107208 (-17)⟩ c) (F32.ofInt 0) = false := by
  rw [F32.beyond_far_eq] at hz
  obtain ⟨_, _, hcz⟩ := (Binary32.isFinite3_iff c).mp hc
  have hz1 := F32.toRat_le_of_le _ _ hcz (by rfl) hz
  have hfz : F32.toRat (F32.fin false 8388608 (-23)) = 1 := by
    simp only [F32.toRat, F32.signed]
    norm_num
  have hfw : F32.toRat (F32.fin false 13107208 (-17)) = 13107208 / 131072 := by
    simp only [F32.toRat, F32.signed]
    norm_num
  have hbv : F32.toRat (F32.fin true 13107209 (-17)) = -(13107209 / 131072) := by
    simp only [F32.toRat, F32.signed]
    norm_num
  have hu : F32.toRat (F32.fin true 1 (-17)) = -(1 / 131072) := by
    simp only [F32.toRat, F32.signed]
    norm_num
  exact F32.neg_of_atMost _ (F32.toRat (F32.fin true 1 (-17))) (by rw [hu]; norm_num)
    (Binary32.planeDistance_atMost_depth _ c (F32.fin true 13107209 (-17))
      (F32.fin true 1 (-17)) (by rfl) hc (by decide) (by decide)
      (by show F32.toRat (F32.fin false 0 0) * _ = 0; rw [F32.toRat_zero, zero_mul])
      (by show F32.toRat (F32.fin false 0 0) * _ = 0; rw [F32.toRat_zero, zero_mul])
      (by
        show F32.toRat (F32.fin false 8388608 (-23)) * F32.toRat c.z ≤
          F32.toRat (F32.fin true 13107209 (-17))
        rw [hfz, one_mul]
        exact hz1)
      (by
        show F32.toRat (F32.fin true 13107209 (-17)) + F32.toRat (F32.fin false 13107208 (-17))
          ≤ F32.toRat (F32.fin true 1 (-17))
        rw [hbv, hfw, hu]
        norm_num))

/-- In binary32, on the frustum of the projection of `main`, every valid box with finite
corners that lies at `z <= -100.00007f` is culled. -/
lemma mainFrustum32_far_box_culled (b : BoundingBox F32) (hv : b.valid = true)
    (hmin : Binary32.isFinite3 b.min = true) (hmax : Binary32.isFinite3 b.max = true)
    (hz1 : F32.le b.min.z (F32.scaled (-13107209) (-17)) = true)
    (hz2 : F32.le b.max.z (F32.scaled (-13107209) (-17)) = true) :
    Binary32.isBoundingBoxInside mainFrustum32 b = false := by
  obtain ⟨h1x, h1y, h1z⟩ := (Binary32.isFinite3_iff _).mp hmin
  obtain ⟨h2x, h2y, h2z⟩ := (Binary32.isFinite3_iff _).mp hmax
  have hcorner : ∀ c ∈ Binary32.getCorners b,
      F32.lt (Binary32.planeDistance
        ⟨F32.fin false 0 0, F32.fin false 0 0, F32.fin false 8388608 (-23),
          F32.fin false 13107208 (-17)⟩ c) (F32.ofInt 0) = true ∧
      F32.ge (Binary32.planeDistance
        ⟨F32.fin false 0 0, F32.fin false 0 0, F32.fin false 8388608 (-23),
          F32.fin false 13107208 (-17)⟩ c) (F32.ofInt 0) = false := by
    intro c hc
    simp only [Binary32.getCorners, hv, Bool.not_true, Bool.false_eq_true, if_false,
      List.mem_cons, List.mem_singleton, List.not_mem_nil, or_false] at hc
    rcases hc with rfl | rfl | rfl | rfl | rfl | rfl | rfl | rfl
    · exact mainFrustum32_far_rejects _ ((Binary32.isFinite3_iff _).mpr ⟨h1x, h1y, h1z⟩) hz1
    · exact mainFrustum32_far_rejects _ ((Binary32.isFinite3_iff _).mpr ⟨h2x, h1y, h1z⟩) hz1
    · exact mainFrustum32_far_rejects _ ((Binary32.isFinite3_iff _).mpr ⟨h2x, h2y, h1z⟩) hz1
    · exact mainFrustum32_far_rejects _ ((Binary32.isFinite3_iff _).mpr ⟨h1x, h2y, h1z⟩) hz1
    · exact mainFrustum32_far_rejects _ ((Binary32.isFinite3_iff _).mpr ⟨h1x, h1y, h2z⟩) hz2
    · exact mainFrustum32_far_rejects _ ((Binary32.isFinite3_iff _).mpr ⟨h2x, h1y, h2z⟩) hz2
    · exact mainFrustum32_far_rejects _ ((Binary32.isFinite3_iff _).mpr ⟨h2x, h2y, h2z⟩) hz2
    · exact mainFrustum32_far_rejects _ ((Binary32.isFinite3_iff _).mpr ⟨h1x, h2y, h2z⟩) hz2
  have hany : Binary32.anyCornerInside mainFrustum32 (Binary32.getCorners b) = false := by
    refine Binary32.anyCornerInside_of_forall_outside _ _ (fun c hc => ?_)
    simp only [Binary32.isPointInside]
    rw [mainFrustum32_planeList]
    exact Binary32.isPointInsideLoop_of_mem _ _ _ (by simp) (hcorner c hc).1
  have hrej : Binary32.noPlaneRejects (Binary32.getCorners b)
      (Binary32.planeList mainFrustum32) = false := by
    rw [mainFrustum32_planeList]
    exact Binary32.noPlaneRejects_of_rejecting_plane _ _ _ (by simp)
      (Binary32.allOutside_of_forall_behind _ _ (fun c hc => (hcorner c hc).2))
  simp only [Binary32.isBoundingBoxInside, hany, hrej, Bool.false_eq_true, if_false]

/-- A signed distance whose three exact products and constant are all non-negative is
computed as non-negative. -/
lemma Binary32.planeDistance_nonneg_of_terms (plane : Vec4 F32) (c : Vec3 F32)
    (hplane : Binary32.isFinite4 plane = true) (hc : Binary32.isFinite3 c = true)
    (h1 : 0 ≤ F32.toRat plane.x * F32.toRat c.x) (h2 : 0 ≤ F32.toRat plane.y * F32.toRat c.y)
    (h3 : 0 ≤ F32.toRat plane.z * F32.toRat c.z) (hw : 0 ≤ F32.toRat plane.w) :
    F32.lt (Binary32.planeDistance plane c) (F32.ofInt 0) = false ∧
    F32.ge (Binary32.planeDistance plane c) (F32.ofInt 0) = true := by
  have hz := F32.toRat_zero false 0
  exact F32.nonneg_of_atLeast _ _ (le_of_eq hz.symm)
    (Binary32.planeDistance_atLeast plane c (F32.fin false 0 0) (F32.fin false 0 0)
      (F32.fin false 0 0) (F32.fin false 0 0) (F32.fin false 0 0) (F32.fin false 0 0)
      hplane hc F32.isFloat_zero F32.isFloat_zero F32.isFloat_zero
      F32.isFloat_zero F32.isFloat_zero F32.isFloat_zero
      (by rw [hz]; exact h1) (by rw [hz]; exact h2) (by rw [hz]; exact h3)
      (by rw [hz]; norm_num) (by rw [hz]; norm_num) (by rw [hz]; linarith))

lemma F32.toRat_pos_half : F32.toRat (F32.fin false 8388608 (-24)) = 1 / 2 := by
  simp only [F32.toRat, F32.signed]
  norm_num

lemma F32.toRat_neg_half : F32.toRat (F32.fin true 8388608 (-24)) = -(1 / 2) := by
  simp only [F32.toRat, F32.signed]
  norm_num

/-- The LEFT plane of the projection of `main` and a corner with `x = 0.5`, `z <= 0`. -/
lemma mainFrustum32_left_corner (y : F32) (s1 : Bool) (m1 : Nat) (e1 : Int)
    (hy : y.isFinite = true) (hz : F32.toRat (F32.fin s1 m1 e1) ≤ 0) :
    F32.ge (Binary32.planeDistance
      ⟨F32.fin false 14686272 (-24), F32.fin false 0 0, F32.fin true 16222008 (-25),
        F32.fin false 0 0⟩
      ⟨F32.fin false 8388608 (-24), y, F32.fin s1 m1 e1⟩) (F32.ofInt 0) = true := by
  have hc : F32.toRat (F32.fin true 16222008 (-25)) = -(16222008 / 33554432) := by
    simp only [F32.toRat, F32.signed]
    norm_num
  have ha : F32.toRat (F32.fin false 14686272 (-24)) = 14686272 / 16777216 := by
    simp only [F32.toRat, F32.signed]
    norm_num
  refine (Binary32.planeDistance_nonneg_of_terms _ _ (by rfl)
    ((Binary32.isFinite3_iff _).mpr ⟨by rfl, hy, by rfl⟩) ?_ ?_ ?_ ?_).2
  · show 0 ≤ F32.toRat (F32.fin false 14686272 (-24)) * F32.toRat (F32.fin false 8388608 (-24))
    rw [ha, F32.toRat_pos_half]
    norm_num
  · show 0 ≤ F32.toRat (F32.fin false 0 0) * F32.toRat y
    rw [F32.toRat_zero, zero_mul]
  · show 0 ≤ F32.toRat (F32.fin true 16222008 (-25)) * F32.toRat (F32.fin s1 m1 e1)
    rw [hc]
    nlinarith
  · show 0 ≤ F32.toRat (F32.fin false 0 0)
    rw [F32.toRat_zero]

/-- The RIGHT plane of the projection of `main` and a corner with `x = -0.5`, `z <= 0`. -/
lemma mainFrustum32_right_corner (y : F32) (s1 : Bool) (m1 : Nat) (e1 : Int)
    (hy : y.isFinite = true) (hz : F32.toRat (F32.fin s1 m1 e1) ≤ 0) :
    F32.ge (Binary32.planeDistance
      ⟨F32.fin true 14686272 (-24), F32.fin false 0 0, F32.fin true 16222008 (-25),
        F32.fin false 0 0⟩
      ⟨F32.fin true 8388608 (-24), y, F32.fin s1 m1 e1⟩) (F32.ofInt 0) = true := by
  have hc : F32.toRat (F32.fin true 16222008 (-25)) = -(16222008 / 33554432) := by
    simp only [F32.toRat, F32.signed]
    norm_num
  have ha : F32.toRat (F32.fin true 14686272 (-24)) = -(14686272 / 16777216) := by
    simp only [F32.toRat, F32.signed]
    norm_num
  refine (Binary32.planeDistance_nonneg_of_terms _ _ (by rfl)
    ((Binary32.isFinite3_iff _).mpr ⟨by rfl, hy, by rfl⟩) ?_ ?_ ?_ ?_).2
  · show 0 ≤ F32.toRat (F32.fin true 14686272 (-24)) * F32.toRat (F32.fin true 8388608 (-24))
    rw [ha, F32.toRat_neg_half]
    norm_num
  · show 0 ≤ F32.toRat (F32.fin false 0 0) * F32.toRat y
    rw [F32.toRat_zero, zero_mul]
  · show 0 ≤ F32.toRat (F32.fin true 16222008 (-25)) * F32.toRat (F32.fin s1 m1 e1)
    rw [hc]
    nlinarith
  · show 0 ≤ F32.toRat (F32.fin false 0 0)
    rw [F32.toRat_zero]

/-- The BOTTOM plane of the projection of `main` and a corner with `y = 0.5`, `z <= 0`. -/
lemma mainFrustum32_bottom_corner (x : F32) (s1 : Bool) (m1 : Nat) (e1 : Int)
    (hx : x.isFinite = true) (hz : F32.toRat (F32.fin s1 m1 e1) ≤ 0) :
    F32.ge (Binary32.planeDistance
      ⟨F32.fin false 0 0, F32.fin false 15500126 (-24), F32.fin true 12840726 (-25),
        F32.fin false 0 0⟩
      ⟨x, F32.fin false 8388608 (-24), F32.fin s1 m1 e1⟩) (F32.ofInt 0) = true := by
  have hc : F32.toRat (F32.fin true 12840726 (-25)) = -(12840726 / 33554432) := by
    simp only [F32.toRat, F32.signed]
    norm_num
  have ha : F32.toRat (F32.fin false 15500126 (-24)) = 15500126 / 16777216 := by
    simp only [F32.toRat, F32.signed]
    norm_num
  refine (Binary32.planeDistance_nonneg_of_terms _ _ (by rfl)
    ((Binary32.isFinite3_iff _).mpr ⟨hx, by rfl, by rfl⟩) ?_ ?_ ?_ ?_).2
  · show 0 ≤ F32.toRat (F32.fin false 0 0) * F32.toRat x
    rw [F32.toRat_zero, zero_mul]
  · show 0 ≤ F32.toRat (F32.fin false 15500126 (-24)) * F32.toRat (F32.fin false 8388608 (-24))
    rw [ha, F32.toRat_pos_half]
    norm_num
  · show 0 ≤ F32.toRat (F32.fin true 12840726 (-25)) * F32.toRat (F32.fin s1 m1 e1)
    rw [hc]
    nlinarith
  · show 0 ≤ F32.toRat (F32.fin false 0 0)
    rw [F32.toRat_zero]

/-- The TOP plane of the projection of `main` and a corner with `y = -0.5`, `z <= 0`. -/
lemma mainFrustum32_top_corner (x : F32) (s1 : Bool) (m1 : Nat) (e1 : Int)
    (hx : x.isFinite = true) (hz : F32.toRat (F32.fin s1 m1 e1) ≤ 0) :
    F32.ge (Binary32.planeDistance
      ⟨F32.fin false 0 0, F32.fin true 15500126 (-24), F32.fin true 12840726 (-25),
        F32.fin false 0 0⟩
      ⟨x, F32.fin true 8388608 (-24), F32.fin s1 m1 e1⟩) (F32.ofInt 0) = true := by
  have hc : F32.toRat (F32.fin true 12840726 (-25)) = -(12840726 / 33554432) := by
    simp only [F32.toRat, F32.signed]
    norm_num
  have ha : F32.toRat (F32.fin true 15500126 (-24)) = -(15500126 / 16777216) := by
    simp only [F32.toRat, F32.signed]
    norm_num
  refine (Binary32.planeDistance_nonneg_of_terms _ _ (by rfl)
    ((Binary32.isFinite3_iff _).mpr ⟨hx, by rfl, by rfl⟩) ?_ ?_ ?_ ?_).2
  · show 0 ≤ F32.toRat (F32.fin false 0 0) * F32.toRat x
    rw [F32.toRat_zero, zero_mul]
  · show 0 ≤ F32.toRat (F32.fin true 15500126 (-24)) * F32.toRat (F32.fin true 8388608 (-24))
    rw [ha, F32.toRat_neg_half]
    norm_num
  · show 0 ≤ F32.toRat (F32.fin true 12840726 (-25)) * F32.toRat (F32.fin s1 m1 e1)
    rw [hc]
    nlinarith
  · show 0 ≤ F32.toRat (F32.fin false 0 0)
    rw [F32.toRat_zero]

/-- The NEAR plane of the projection of `main` and a finite point at depth `z <= -0.5`. -/
lemma mainFrustum32_near_corner (c : Vec3 F32) (hc : Binary32.isFinite3 c = true)
    (hz : F32.toRat c.z ≤ -(1 / 2)) :
    F32.ge (Binary32.planeDistance
      ⟨F32.fin false 0 0, F32.fin false 0 0, F32.fin true 8388608 (-23),
        F32.fin true 13421773 (-27)⟩ c) (F32.ofInt 0) = true := by
  have hnz : F32.toRat (F32.fin true 8388608 (-23)) = -1 := by
    simp only [F32.toRat, F32.signed]
    norm_num
  have hnw : F32.toRat (F32.fin true 13421773 (-27)) = -(13421773 / 134217728) := by
    simp only [F32.toRat, F32.signed]
    norm_num
  have hz0 := F32.toRat_zero false 0
  exact (F32.nonneg_of_atLeast _ _ (le_of_eq hz0.symm)
    (Binary32.planeDistance_atLeast_depth _ c (F32.fin false 8388608 (-24))
      (F32.fin false 0 0) (by rfl) hc (by decide) F32.isFloat_zero
      (by show F32.toRat (F32.fin false 0 0) * _ = 0; rw [hz0, zero_mul])
      (by show F32.toRat (F32.fin false 0 0) * _ = 0; rw [hz0, zero_mul])
      (by
        show F32.toRat (F32.fin false 8388608 (-24)) ≤
          F32.toRat (F32.fin true 8388608 (-23)) * F32.toRat c.z
        rw [F32.toRat_pos_half, hnz]
        linarith)
      (by
        show F32.toRat (F32.fin false 0 0) ≤
          F32.toRat (F32.fin false 8388608 (-24)) + F32.toRat (F32.fin true 13421773 (-27))
        rw [hz0, F32.toRat_pos_half, hnw]
        norm_num))).2

/-- The FAR plane of the projection of `main` and a finite point at depth `z >= -99.5`. -/
lemma mainFrustum32_far_corner (c : Vec3 F32) (hc : Binary32.isFinite3 c = true)
    (hz : -(199 / 2) ≤ F32.toRat c.z) :
    F32.ge (Binary32.planeDistance
      ⟨F32.fin false 0 0, F32.fin false 0 0, F32.fin false 8388608 (-23),
        F32.fin false 13107208 (-17)⟩ c) (F32.ofInt 0) = true := by
  have hfz : F32.toRat (F32.fin false 8388608 (-23)) = 1 := by
    simp only [F32.toRat, F32.signed]
    norm_num
  have hfw : F32.toRat (F32.fin false 13107208 (-17)) = 13107208 / 131072 := by
    simp only [F32.toRat, F32.signed]
    norm_num
  have hlo2 : F32.toRat (F32.fin true 13041664 (-17)) = -(199 / 2) := by
    simp only [F32.toRat, F32.signed]
    norm_num
  have hz0 := F32.toRat_zero false 0
  exact (F32.nonneg_of_atLeast _ _ (le_of_eq hz0.symm)
    (Binary32.planeDistance_atLeast_depth _ c (F32.fin true 13041664 (-17))
      (F32.fin false 0 0) (by rfl) hc (by decide) F32.isFloat_zero
      (by show F32.toRat (F32.fin false 0 0) * _ = 0; rw [hz0, zero_mul])
      (by show F32.toRat (F32.fin false 0 0) * _ = 0; rw [hz0, zero_mul])
      (by
        show F32.toRat (F32.fin true 13041664 (-17)) ≤
          F32.toRat (F32.fin false 8388608 (-23)) * F32.toRat c.z
        rw [hlo2, hfz]
        linarith)
      (by
        show F32.toRat (F32.fin false 0 0) ≤
          F32.toRat (F32.fin true 13041664 (-17)) + F32.toRat (F32.fin false 13107208 (-17))
        rw [hz0, hlo2, hfw]
        norm_num))).2

/-- The unit-size box centred at `(0, 0, -d)`, `0.1f <= d <= 100.0f`, in binary32: its
corners have `x, y = ±0.5`, and depths `-100.5 <= min.z <= -0.5` and
`-99.5 <= max.z <= 0.5`. -/
lemma Binary32.unitBoxAt_axis (s : Bool) (m : Nat) (e : Int)
    (hn : 0 ≤ F32.toRat (F32.fin s m e)) (hf : F32.toRat (F32.fin s m e) ≤ 100) :
    ∃ s1 m1 e1 s2 m2 e2,
      Binary32.unitBoxAt ⟨F32.ofInt 0, F32.ofInt 0, F32.neg (F32.fin s m e)⟩ =
        ⟨⟨F32.fin true 8388608 (-24), F32.fin true 8388608 (-24), F32.fin s1 m1 e1⟩,
          ⟨F32.fin false 8388608 (-24), F32.fin false 8388608 (-24), F32.fin s2 m2 e2⟩,
          true⟩ ∧
      F32.toRat (F32.fin s1 m1 e1) ≤ -(1 / 2) ∧ -(199 / 2) ≤ F32.toRat (F32.fin s2 m2 e2) := by
  have hneg : F32.toRat (F32.fin (!s) m e) = -F32.toRat (F32.fin s m e) :=
    F32.toRat_neg_fin s m e
  have hlo1 : F32.toRat (F32.fin true 13172736 (-17)) = -(201 / 2) := by
    simp only [F32.toRat, F32.signed]
    norm_num
  have hlo2 : F32.toRat (F32.fin true 13041664 (-17)) = -(199 / 2) := by
    simp only [F32.toRat, F32.signed]
    norm_num
  obtain ⟨s1, m1, e1, hzmin, _, hzmin2⟩ := F32.add_between (!s) m e true 8388608 (-24)
    true 13172736 (-17) true 8388608 (-24) (by norm_num) (by norm_num)
    (by rw [hlo1, hneg, F32.toRat_neg_half]; linarith)
    (by rw [hneg, F32.toRat_neg_half]; linarith)
  obtain ⟨s2, m2, e2, hzmax, hzmax1, _⟩ := F32.add_between (!s) m e false 8388608 (-24)
    true 13041664 (-17) false 8388608 (-24) (by norm_num) (by norm_num)
    (by rw [hlo2, hneg, F32.toRat_pos_half]; linarith)
    (by rw [hneg, F32.toRat_pos_half]; linarith)
  rw [F32.toRat_neg_half] at hzmin2
  rw [hlo2] at hzmax1
  have hA : F32.add (F32.fin false 0 0) (F32.fin true 8388608 (-24)) =
      F32.fin true 8388608 (-24) := by decide
  have hB : F32.add (F32.fin false 0 0) (F32.fin false 8388608 (-24)) =
      F32.fin false 8388608 (-24) := by decide
  refine ⟨s1, m1, e1, s2, m2, e2, ?_, hzmin2, hzmax1⟩
  simp only [Binary32.unitBoxAt, F32.sub, F32.half_eq, F32.neg, F32.ofInt_zero, hA, hB,
    Bool.not_false, hzmin, hzmax]

/-- In binary32, on the frustum of the projection of `main`, the unit-size box centred at
`(0, 0, -d)` with `0.1f <= d <= 100.0f` is reported visible: no plane has all eight corners
behind it. -/
lemma mainFrustum32_target_box_visible (d : F32)
    (hn : F32.le (F32.scaled 13421773 (-27)) d = true)
    (hf : F32.le d (F32.ofInt 100) = true) :
    Binary32.isBoundingBoxInside mainFrustum32
      (Binary32.unitBoxAt ⟨F32.ofInt 0, F32.ofInt 0, F32.neg d⟩) = true := by
  rw [F32.near_eq] at hn
  rw [F32.far_eq] at hf
  cases d with
  | nan => simp [F32.le] at hn
  | inf s => cases s <;> simp [F32.le] at hn hf
  | fin s m e =>
    have hn1 := (F32.le_fin_iff _ _ _ _ _ _).mp hn
    have hf1 := (F32.le_fin_iff _ _ _ _ _ _).mp hf
    have hnv : F32.toRat (F32.fin false 13421773 (-27)) = 13421773 / 134217728 := by
      simp only [F32.toRat, F32.signed]
      norm_num
    have hfv : F32.toRat (F32.fin false 13107200 (-17)) = 100 := by
      simp only [F32.toRat, F32.signed]
      norm_num
    rw [hnv] at hn1
    rw [hfv] at hf1
    obtain ⟨s1, m1, e1, s2, m2, e2, hbox, hz1, hz2⟩ :=
      Binary32.unitBoxAt_axis s m e (by linarith) hf1
    rw [hbox]
    have hnoplane : Binary32.noPlaneRejects
        (Binary32.getCorners
          ⟨⟨F32.fin true 8388608 (-24), F32.fin true 8388608 (-24), F32.fin s1 m1 e1⟩,
            ⟨F32.fin false 8388608 (-24), F32.fin false 8388608 (-24), F32.fin s2 m2 e2⟩,
            true⟩)
        (Binary32.planeList mainFrustum32) = true := by
      rw [mainFrustum32_planeList]
      refine Binary32.noPlaneRejects_of_forall_plane _ _ (fun plane hm => ?_)
      simp only [List.mem_cons, List.mem_singleton, List.not_mem_nil, or_false] at hm
      rcases hm with rfl | rfl | rfl | rfl | rfl | rfl
      · exact Binary32.allOutside_of_corner_in_front _ _
          ⟨F32.fin false 8388608 (-24), F32.fin true 8388608 (-24), F32.fin s1 m1 e1⟩
          (by simp [Binary32.getCorners])
          (mainFrustum32_left_corner _ s1 m1 e1 (by rfl) (by linarith))
      · exact Binary32.allOutside_of_corner_in_front _ _
          ⟨F32.fin true 8388608 (-24), F32.fin true 8388608 (-24), F32.fin s1 m1 e1⟩
          (by simp [Binary32.getCorners])
          (mainFrustum32_right_corner _ s1 m1 e1 (by rfl) (by linarith))
      · exact Binary32.allOutside_of_corner_in_front _ _
          ⟨F32.fin true 8388608 (-24), F32.fin false 8388608 (-24), F32.fin s1 m1 e1⟩
          (by simp [Binary32.getCorners])
          (mainFrustum32_bottom_corner _ s1 m1 e1 (by rfl) (by linarith))
      · exact Binary32.allOutside_of_corner_in_front _ _
          ⟨F32.fin true 8388608 (-24), F32.fin true 8388608 (-24), F32.fin s1 m1 e1⟩
          (by simp [Binary32.getCorners])
          (mainFrustum32_top_corner _ s1 m1 e1 (by rfl) (by linarith))
      · exact Binary32.allOutside_of_corner_in_front _ _
          ⟨F32.fin true 8388608 (-24), F32.fin true 8388608 (-24), F32.fin s1 m1 e1⟩
          (by simp [Binary32.getCorners])
          (mainFrustum32_near_corner _ (by rfl) hz1)
      · exact Binary32.allOutside_of_corner_in_front _ _
          ⟨F32.fin true 8388608 (-24), F32.fin true 8388608 (-24), F32.fin s2 m2 e2⟩
          (by simp [Binary32.getCorners])
          (mainFrustum32_far_corner _ (by rfl) hz2)
    simp only [Binary32.isBoundingBoxInside, hnoplane, ite_self]

end Lemmas

/-! ## The claims -/

section Claims

variable {α : Type} [LinearOrderedField α]

set_option maxRecDepth 1000000

/-- C1: `Frustum::isBoundingBoxInside` has no false negative. For any six planes and any
valid box with `min ≤ max` on each axis, if some point `p` of the box (component-wise
`min ≤ p ≤ max`) satisfies `isPointInside`, then `isBoundingBoxInside` returns true. -/
theorem C1_isBoundingBoxInside_no_false_negative (f : Frustum α) (b : BoundingBox α)
    (hv : b.valid = true)
    (_hmx : b.min.x ≤ b.max.x) (_hmy : b.min.y ≤ b.max.y) (_hmz : b.min.z ≤ b.max.z)
    (p : Vec3 α)
    (hx : b.min.x ≤ p.x ∧ p.x ≤ b.max.x) (hy : b.min.y ≤ p.y ∧ p.y ≤ b.max.y)
    (hz : b.min.z ≤ p.z ∧ p.z ≤ b.max.z)
    (hp : f.isPointInside p = true) :
    f.isBoundingBoxInside b = true := by
  rw [Frustum.isBoundingBoxInside_iff]
  right
  intro k hall
  obtain ⟨corner, hc, hge⟩ := b.exists_corner_ge hv (f.planes k) p hx hy hz
  have h0 := (f.isPointInside_iff p).mp hp k
  exact absurd (hall corner hc) (not_lt.mpr (h0.trans hge))

/-- C1 at a concrete input: the box `[-2, 2]^3` around the cube frustum `[-1, 1]^3`. No
corner of the box is inside, the origin is, and the box is reported visible. -/
theorem C1_witness :
    unitFrustum.anyCornerInside
        (BoundingBox.ofMinMax (⟨-2, -2, -2⟩ : Vec3 ℚ) ⟨2, 2, 2⟩).getCorners = false ∧
    unitFrustum.isPointInside ⟨0, 0, 0⟩ = true ∧
    unitFrustum.isBoundingBoxInside (BoundingBox.ofMinMax ⟨-2, -2, -2⟩ ⟨2, 2, 2⟩) = true :=
  ⟨by
      norm_num [Frustum.anyCornerInside, Frustum.isPointInside, Frustum.isPointInsideLoop,
        Frustum.planeList, unitFrustum, BoundingBox.getCorners, BoundingBox.ofMinMax,
        planeDistance, dot, Vec4.xyz],
    by
      norm_num [Frustum.isPointInside, Frustum.isPointInsideLoop, Frustum.planeList,
        unitFrustum, planeDistance, dot, Vec4.xyz],
    C1_isBoundingBoxInside_no_false_negative unitFrustum
      (BoundingBox.ofMinMax ⟨-2, -2, -2⟩ ⟨2, 2, 2⟩) rfl (by decide) (by decide) (by decide)
      ⟨0, 0, 0⟩ (by decide) (by decide) (by decide)
      (by
        norm_num [Frustum.isPointInside, Frustum.isPointInsideLoop, Frustum.planeList,
          unitFrustum, planeDistance, dot, Vec4.xyz])⟩

/-- C2, as stated, fails in binary32: for the identity matrix with `m[0][0] = 2^70` the LEFT
row combination is `(2^70, 0, 0, 1)`, the squared length of its normal overflows, the length
is `+inf`, and the stored plane is `(0, 0, 0, 0)`: no positive factor times the row
combination, whose last coefficient is 1. -/
theorem C2_counterexample :
    Binary32.rawPlanes (scaleX32 70) 0 =
      ⟨F32.scaled 1 70, F32.ofInt 0, F32.ofInt 0, F32.ofInt 1⟩ ∧
    Binary32.length ⟨F32.scaled 1 70, F32.ofInt 0, F32.ofInt 0⟩ = F32.inf false ∧
    (Binary32.extractPlanes (scaleX32 70)).planes 0 =
      ⟨F32.ofInt 0, F32.ofInt 0, F32.ofInt 0, F32.ofInt 0⟩ ∧
    F32.toRat (Binary32.rawPlanes (scaleX32 70) 0).w = 1 ∧
    F32.toRat ((Binary32.extractPlanes (scaleX32 70)).planes 0).w = 0 ∧
    ¬ ∃ s : ℚ, 0 < s ∧ F32.toRat ((Binary32.extractPlanes (scaleX32 70)).planes 0).w =
      s * F32.toRat (Binary32.rawPlanes (scaleX32 70) 0).w := by
  have h1 : Binary32.rawPlanes (scaleX32 70) 0 =
      ⟨F32.scaled 1 70, F32.ofInt 0, F32.ofInt 0, F32.ofInt 1⟩ := by decide
  have h2 : (Binary32.extractPlanes (scaleX32 70)).planes 0 =
      ⟨F32.ofInt 0, F32.ofInt 0, F32.ofInt 0, F32.ofInt 0⟩ := by decide
  have e1 : F32.ofInt 1 = F32.fin false 8388608 (-23) := by decide
  have e0 : F32.ofInt 0 = F32.fin false 0 0 := by decide
  have r1 : F32.toRat (Binary32.rawPlanes (scaleX32 70) 0).w = 1 := by
    rw [h1, e1]
    norm_num [F32.toRat, F32.signed]
  have r0 : F32.toRat ((Binary32.extractPlanes (scaleX32 70)).planes 0).w = 0 := by
    rw [h2, e0]
    norm_num [F32.toRat, F32.signed]
  refine ⟨h1, by decide, h2, r1, r0, ?_⟩
  rintro ⟨s, hs, h⟩
  rw [r1, r0, mul_one] at h
  exact absurd h.symm (ne_of_gt hs)

/-- C2, amended: `Frustum::extractPlanes` builds the six planes from the rows of the matrix
(row `i`, column `j` being `m[j][i]`) as LEFT = r3+r0, RIGHT = r3-r0, BOTTOM = r3+r1,
TOP = r3-r1, NEAR = r3+r2, FAR = r3-r2. Each stored plane is that row combination divided
component-wise by the computed length of its normal when that length is positive, and the
row combination itself otherwise. In binary32, when the four coefficients of the row
combination are finite, no stored coefficient has the opposite sign of the coefficient it
comes from, though it may be zero. -/
theorem C2_extractPlanes_row_combinations (sqrt : α → α) (m : Mat4 α) (k : Fin 6) :
    Frustum.rawPlanes m k = specPlanes m k ∧
    (Frustum.extractPlanes sqrt m).planes k =
      (if 0 < length sqrt (specPlanes m k).xyz then
        (specPlanes m k).divScalar (length sqrt (specPlanes m k).xyz)
      else specPlanes m k) ∧
    (∀ (v : Mat4 F32) (j : Fin 6), Binary32.isFinite4 (Binary32.rawPlanes v j) = true →
      ((F32.le (F32.ofInt 0) (Binary32.rawPlanes v j).x = true →
          F32.le (F32.ofInt 0) ((Binary32.extractPlanes v).planes j).x = true) ∧
        (F32.le (Binary32.rawPlanes v j).x (F32.ofInt 0) = true →
          F32.le ((Binary32.extractPlanes v).planes j).x (F32.ofInt 0) = true)) ∧
      ((F32.le (F32.ofInt 0) (Binary32.rawPlanes v j).y = true →
          F32.le (F32.ofInt 0) ((Binary32.extractPlanes v).planes j).y = true) ∧
        (F32.le (Binary32.rawPlanes v j).y (F32.ofInt 0) = true →
          F32.le ((Binary32.extractPlanes v).planes j).y (F32.ofInt 0) = true)) ∧
      ((F32.le (F32.ofInt 0) (Binary32.rawPlanes v j).z = true →
          F32.le (F32.ofInt 0) ((Binary32.extractPlanes v).planes j).z = true) ∧
        (F32.le (Binary32.rawPlanes v j).z (F32.ofInt 0) = true →
          F32.le ((Binary32.extractPlanes v).planes j).z (F32.ofInt 0) = true)) ∧
      ((F32.le (F32.ofInt 0) (Binary32.rawPlanes v j).w = true →
          F32.le (F32.ofInt 0) ((Binary32.extractPlanes v).planes j).w = true) ∧
        (F32.le (Binary32.rawPlanes v j).w (F32.ofInt 0) = true →
          F32.le ((Binary32.extractPlanes v).planes j).w (F32.ofInt 0) = true))) := by
  have e := Frustum.rawPlanes_eq_specPlanes m k
  refine ⟨e, ?_, fun v j hf => Binary32.normalizePlane_sign (Binary32.rawPlanes v j) hf⟩
  rw [← e]
  rfl

/-- C2 (amended) at a concrete input: the identity matrix over the reals, and in binary32
the identity with `m[0][0] = 2^70`, LEFT plane, whose coefficient `2^70` is stored as 0. -/
theorem C2_witness :
    Frustum.rawPlanes (Mat4.identity : Mat4 ℝ) 0 = specPlanes Mat4.identity 0 ∧
    Binary32.isFinite4 (Binary32.rawPlanes (scaleX32 70) 0) = true ∧
    F32.le (F32.ofInt 0) (Binary32.rawPlanes (scaleX32 70) 0).x = true ∧
    F32.le (F32.ofInt 0) ((Binary32.extractPlanes (scaleX32 70)).planes 0).x = true :=
  ⟨(C2_extractPlanes_row_combinations Real.sqrt Mat4.identity 0).1, by decide, by decide,
    ((C2_extractPlanes_row_combinations Real.sqrt Mat4.identity 0).2.2 (scaleX32 70) 0
      (by decide)).1.1 (by decide)⟩

/-- C5: `Frustum::isBoundingBoxInside` is the two-stage test over the eight corners:
(1) if some corner satisfies `isPointInside` the result is true; (2) otherwise, if for some
single plane all corners have negative signed distance, the result is false; (3) otherwise
the result is true. -/
theorem C5_isBoundingBoxInside_two_stage (f : Frustum α) (b : BoundingBox α) :
    b.getCorners.length = 8 ∧
    ((∃ corner ∈ b.getCorners, f.isPointInside corner = true) →
      f.isBoundingBoxInside b = true) ∧
    ((¬ ∃ corner ∈ b.getCorners, f.isPointInside corner = true) →
      (∃ k : Fin 6, ∀ corner ∈ b.getCorners, planeDistance (f.planes k) corner < 0) →
      f.isBoundingBoxInside b = false) ∧
    ((¬ ∃ corner ∈ b.getCorners, f.isPointInside corner = true) →
      (¬ ∃ k : Fin 6, ∀ corner ∈ b.getCorners, planeDistance (f.planes k) corner < 0) →
      f.isBoundingBoxInside b = true) := by
  refine ⟨?_, ?_, ?_, ?_⟩
  · unfold BoundingBox.getCorners
    split_ifs <;> rfl
  · intro h
    exact (f.isBoundingBoxInside_iff b).mpr (Or.inl h)
  · intro h1 ⟨k, hk⟩
    rw [← Bool.not_eq_true, Frustum.isBoundingBoxInside_iff]
    rintro (h | h)
    · exact h1 h
    · exact h k hk
  · intro _ h2
    refine (f.isBoundingBoxInside_iff b).mpr (Or.inr ?_)
    intro k hk
    exact h2 ⟨k, hk⟩

/-- C6: `Frustum::isPointInside p` is true iff the signed distance `a*x + b*y + c*z + d`
of `p` to every one of the six planes is `≥ 0`, that is iff `getDistanceToPlane p k ≥ 0`
for each `k` among LEFT, RIGHT, BOTTOM, TOP, NEAR, FAR. -/
theorem C6_isPointInside_iff (f : Frustum α) (p : Vec3 α) :
    (f.isPointInside p = true ↔
      ∀ k : Fin 6, (f.planes k).x * p.x + (f.planes k).y * p.y + (f.planes k).z * p.z
        + (f.planes k).w ≥ 0) ∧
    (f.isPointInside p = true ↔
      ∀ k ∈ [Frustum.LEFT, Frustum.RIGHT, Frustum.BOTTOM, Frustum.TOP, Frustum.NEAR,
        Frustum.FAR], f.getDistanceToPlane p k ≥ 0) := by
  refine ⟨f.isPointInside_iff p, ?_⟩
  rw [Frustum.isPointInside_iff]
  have e := fun k : Fin 6 => f.getDistanceToPlane_fin p k
  constructor
  · intro h k hk
    simp only [List.mem_cons, List.mem_singleton, List.not_mem_nil, or_false] at hk
    rcases hk with rfl | rfl | rfl | rfl | rfl | rfl
    · exact (e 0).symm ▸ h 0
    · exact (e 1).symm ▸ h 1
    · exact (e 2).symm ▸ h 2
    · exact (e 3).symm ▸ h 3
    · exact (e 4).symm ▸ h 4
    · exact (e 5).symm ▸ h 5
  · intro h k
    rw [← e k]
    apply h
    fin_cases k <;> simp [Frustum.LEFT, Frustum.RIGHT, Frustum.BOTTOM, Frustum.TOP,
      Frustum.NEAR, Frustum.FAR]

/-- C7: `Frustum::isSphereInside center radius` is true iff the signed distance from the
centre to every one of the six planes is `≥ -radius`. -/
theorem C7_isSphereInside_iff (f : Frustum α) (center : Vec3 α) (radius : α) :
    f.isSphereInside center radius = true ↔
      ∀ k : Fin 6, (f.planes k).x * center.x + (f.planes k).y * center.y
        + (f.planes k).z * center.z + (f.planes k).w ≥ -radius := by
  unfold Frustum.isSphereInside
  rw [Frustum.isSphereInsideLoop_iff, Frustum.forall_planeList]
  rfl

/-- C8: `BoundingBox::fromVertices` returns an invalid box for the empty list, and for
every non-empty list a valid box whose `min` is the component-wise minimum and whose `max`
is the component-wise maximum over all points: on each axis a bound of every point that
some point attains. -/
theorem C8_fromVertices_min_max (vs : List (Vec3 α)) :
    (BoundingBox.fromVertices ([] : List (Vec3 α))).valid = false ∧
    (vs ≠ [] →
      (BoundingBox.fromVertices vs).valid = true ∧
      (∀ v ∈ vs, (BoundingBox.fromVertices vs).min.x ≤ v.x ∧
        (BoundingBox.fromVertices vs).min.y ≤ v.y ∧ (BoundingBox.fromVertices vs).min.z ≤ v.z ∧
        v.x ≤ (BoundingBox.fromVertices vs).max.x ∧ v.y ≤ (BoundingBox.fromVertices vs).max.y ∧
        v.z ≤ (BoundingBox.fromVertices vs).max.z) ∧
      (∃ v ∈ vs, v.x = (BoundingBox.fromVertices vs).min.x) ∧
      (∃ v ∈ vs, v.y = (BoundingBox.fromVertices vs).min.y) ∧
      (∃ v ∈ vs, v.z = (BoundingBox.fromVertices vs).min.z) ∧
      (∃ v ∈ vs, v.x = (BoundingBox.fromVertices vs).max.x) ∧
      (∃ v ∈ vs, v.y = (BoundingBox.fromVertices vs).max.y) ∧
      (∃ v ∈ vs, v.z = (BoundingBox.fromVertices vs).max.z)) := by
  refine ⟨rfl, fun hne => ?_⟩
  obtain ⟨⟨x1, x2⟩, ⟨x3, x4⟩⟩ :=
    fromVertices_axis Vec3.x vec3_min_x vec3_max_x vs hne
  obtain ⟨⟨y1, y2⟩, ⟨y3, y4⟩⟩ :=
    fromVertices_axis Vec3.y vec3_min_y vec3_max_y vs hne
  obtain ⟨⟨z1, z2⟩, ⟨z3, z4⟩⟩ :=
    fromVertices_axis Vec3.z vec3_min_z vec3_max_z vs hne
  exact ⟨BoundingBox.fromVertices_valid vs hne,
    fun v hv => ⟨x1 v hv, y1 v hv, z1 v hv, x3 v hv, y3 v hv, z3 v hv⟩,
    x2, y2, z2, x4, y4, z4⟩

/-- C9: `BoundingBox::expand` grows the box to include its argument. `expand(point)` on an
invalid box yields the valid box `min = max = point`, on a valid box the component-wise
`min(min, point)` and `max(max, point)`, and the result always contains the point;
`expand(other)` with an invalid `other` leaves the receiver unchanged, with a valid `other`
and an invalid receiver makes the receiver exactly the `min` and `max` of `other`, and with both
valid yields the component-wise union. -/
theorem C9_expand_grows (b other : BoundingBox α) (point : Vec3 α) :
    (b.valid = false → b.expand point = ⟨point, point, true⟩) ∧
    (b.valid = true → b.expand point =
      ⟨⟨min b.min.x point.x, min b.min.y point.y, min b.min.z point.z⟩,
       ⟨max b.max.x point.x, max b.max.y point.y, max b.max.z point.z⟩, true⟩) ∧
    ((b.expand point).valid = true ∧
      (b.expand point).min.x ≤ point.x ∧ point.x ≤ (b.expand point).max.x ∧
      (b.expand point).min.y ≤ point.y ∧ point.y ≤ (b.expand point).max.y ∧
      (b.expand point).min.z ≤ point.z ∧ point.z ≤ (b.expand point).max.z) ∧
    (other.valid = false → b.expandBox other = b) ∧
    (other.valid = true → b.valid = false →
      b.expandBox other = ⟨other.min, other.max, true⟩) ∧
    (other.valid = true → b.valid = true → b.expandBox other =
      ⟨⟨min b.min.x other.min.x, min b.min.y other.min.y, min b.min.z other.min.z⟩,
       ⟨max b.max.x other.max.x, max b.max.y other.max.y, max b.max.z other.max.z⟩, true⟩) := by
  refine ⟨?_, ?_, ?_, ?_, ?_, ?_⟩
  · intro hv
    simp [BoundingBox.expand, hv]
  · intro hv
    simp [BoundingBox.expand, hv, Vec3.min, Vec3.max, glmMin_eq_min, glmMax_eq_max]
  · unfold BoundingBox.expand
    cases b.valid with
    | false => simp
    | true =>
      exact ⟨rfl, glmMin_le_right _ _, le_glmMax_right _ _, glmMin_le_right _ _,
        le_glmMax_right _ _, glmMin_le_right _ _, le_glmMax_right _ _⟩
  · intro hv
    simp [BoundingBox.expandBox, hv]
  · intro hvo hv
    simp [BoundingBox.expandBox, hvo, hv]
  · intro hvo hv
    simp [BoundingBox.expandBox, hvo, hv, Vec3.min, Vec3.max, glmMin_eq_min, glmMax_eq_max]

/-- C10, as stated, fails in two ways. The `(min, max)` constructor is part of the public
interface and stores its arguments unchecked, so `BoundingBox((1,0,0), (0,0,0))` is a valid
box with `min.x > max.x`. And `transform` divides by `w`: under the matrix with `w = -z` the
corner `(0,0,0)` of the unit cube has `w = 0`, its image is `0/0`, and the result is a valid
box whose `min` and `max` are NaN, for which `min <= max` is false. -/
theorem C10_counterexample :
    ((BoundingBox.ofMinMax (⟨1, 0, 0⟩ : Vec3 ℚ) ⟨0, 0, 0⟩).Reachable ∧
      (BoundingBox.ofMinMax (⟨1, 0, 0⟩ : Vec3 ℚ) ⟨0, 0, 0⟩).valid = true ∧
      ¬ (BoundingBox.ofMinMax (⟨1, 0, 0⟩ : Vec3 ℚ) ⟨0, 0, 0⟩).min.x ≤
          (BoundingBox.ofMinMax (⟨1, 0, 0⟩ : Vec3 ℚ) ⟨0, 0, 0⟩).max.x) ∧
    ((Binary32.mulVec projectiveMatrix
        ⟨F32.ofInt 0, F32.ofInt 0, F32.ofInt 0, F32.ofInt 1⟩).w = F32.ofInt 0 ∧
      (Binary32.transform
        (Binary32.ofMinMax ⟨F32.ofInt 0, F32.ofInt 0, F32.ofInt 0⟩
          ⟨F32.ofInt 1, F32.ofInt 1, F32.ofInt 1⟩) projectiveMatrix).valid = true ∧
      (Binary32.transform
        (Binary32.ofMinMax ⟨F32.ofInt 0, F32.ofInt 0, F32.ofInt 0⟩
          ⟨F32.ofInt 1, F32.ofInt 1, F32.ofInt 1⟩) projectiveMatrix).min =
        ⟨F32.nan, F32.nan, F32.nan⟩ ∧
      (Binary32.transform
        (Binary32.ofMinMax ⟨F32.ofInt 0, F32.ofInt 0, F32.ofInt 0⟩
          ⟨F32.ofInt 1, F32.ofInt 1, F32.ofInt 1⟩) projectiveMatrix).max =
        ⟨F32.nan, F32.nan, F32.nan⟩ ∧
      F32.le
        (Binary32.transform
          (Binary32.ofMinMax ⟨F32.ofInt 0, F32.ofInt 0, F32.ofInt 0⟩
            ⟨F32.ofInt 1, F32.ofInt 1, F32.ofInt 1⟩) projectiveMatrix).min.x
        (Binary32.transform
          (Binary32.ofMinMax ⟨F32.ofInt 0, F32.ofInt 0, F32.ofInt 0⟩
            ⟨F32.ofInt 1, F32.ofInt 1, F32.ofInt 1⟩) projectiveMatrix).max.x = false) :=
  ⟨⟨BoundingBox.Reachable.ofMinMax _ _, rfl, by
      simp only [BoundingBox.ofMinMax]
      norm_num⟩,
    ⟨by decide, by decide, by decide, by decide, by decide⟩⟩

/-- C10, amended: in binary32, every valid box obtained through the default constructor,
the `(min, max)` constructor called with `min <= max` on each axis, `fromVertices` and
`expand(point)` called with points that have no NaN coordinate, `expand(box)`, and
`transform` called with a matrix under which every corner of the box has finite clip
coordinates and `w != 0`, satisfies `min <= max` on each of the three axes. -/
theorem C10_valid_box_ordered (b : BoundingBox F32) (hr : Binary32.ReachableOrdered b)
    (hv : b.valid = true) :
    F32.le b.min.x b.max.x = true ∧ F32.le b.min.y b.max.y = true ∧
    F32.le b.min.z b.max.z = true :=
  Binary32.reachable_minLeMax b hr hv

/-- C10 (amended) at a concrete input: the box from `(0, 0, 1)` to `(1, 1, 2)` under the
projective matrix with `w = -z` (here `w` is `-1` or `-2`), then expanded by the point
`(5, -1, 0)`. -/
theorem C10_witness :
    Binary32.ReachableOrdered
      (Binary32.expand
        (Binary32.transform
          (Binary32.ofMinMax ⟨F32.ofInt 0, F32.ofInt 0, F32.ofInt 1⟩
            ⟨F32.ofInt 1, F32.ofInt 1, F32.ofInt 2⟩) projectiveMatrix)
        ⟨F32.ofInt 5, F32.ofInt (-1), F32.ofInt 0⟩) ∧
    (Binary32.expand
        (Binary32.transform
          (Binary32.ofMinMax ⟨F32.ofInt 0, F32.ofInt 0, F32.ofInt 1⟩
            ⟨F32.ofInt 1, F32.ofInt 1, F32.ofInt 2⟩) projectiveMatrix)
        ⟨F32.ofInt 5, F32.ofInt (-1), F32.ofInt 0⟩).valid = true ∧
    (Binary32.expand
        (Binary32.transform
          (Binary32.ofMinMax ⟨F32.ofInt 0, F32.ofInt 0, F32.ofInt 1⟩
            ⟨F32.ofInt 1, F32.ofInt 1, F32.ofInt 2⟩) projectiveMatrix)
        ⟨F32.ofInt 5, F32.ofInt (-1), F32.ofInt 0⟩).min =
      ⟨F32.ofInt (-1), F32.ofInt (-1), F32.ofInt (-1)⟩ ∧
    (F32.le
        (Binary32.expand
          (Binary32.transform
            (Binary32.ofMinMax ⟨F32.ofInt 0, F32.ofInt 0, F32.ofInt 1⟩
              ⟨F32.ofInt 1, F32.ofInt 1, F32.ofInt 2⟩) projectiveMatrix)
          ⟨F32.ofInt 5, F32.ofInt (-1), F32.ofInt 0⟩).min.x
        (Binary32.expand
          (Binary32.transform
            (Binary32.ofMinMax ⟨F32.ofInt 0, F32.ofInt 0, F32.ofInt 1⟩
              ⟨F32.ofInt 1, F32.ofInt 1, F32.ofInt 2⟩) projectiveMatrix)
          ⟨F32.ofInt 5, F32.ofInt (-1), F32.ofInt 0⟩).max.x = true) :=
  ⟨Binary32.ReachableOrdered.expand _ _ (by decide)
      (Binary32.ReachableOrdered.transform _ _ (by decide)
        (Binary32.ReachableOrdered.ofMinMax _ _ (by decide) (by decide) (by decide))),
    by decide, by decide,
    (C10_valid_box_ordered _
      (Binary32.ReachableOrdered.expand _ _ (by decide)
        (Binary32.ReachableOrdered.transform _ _ (by decide)
          (Binary32.ReachableOrdered.ofMinMax _ _ (by decide) (by decide) (by decide))))
      (by decide)).1⟩

/-- C11: `BoundingBox::transform` is a conservative enclosure. For every valid box with
`min ≤ max` and every affine matrix `M` (bottom row `0, 0, 0, 1`), the result is a valid box,
`w = 1` for every point, and for every point `p` of the box the transformed point `M * p`
lies within `[min, max]` of the result on each axis. -/
theorem C11_transform_encloses (b : BoundingBox α) (matrix : Mat4 α)
    (hv : b.valid = true) (_ho : b.Ordered)
    (haff : matrix 0 3 = 0 ∧ matrix 1 3 = 0 ∧ matrix 2 3 = 0 ∧ matrix 3 3 = 1)
    (p : Vec3 α) (hp : b.Contains p) :
    (b.transform matrix).valid = true ∧
    (matrix.mulVec (Vec4.ofVec3 p 1)).w = 1 ∧
    (b.transform matrix).Contains (matrix.mulVec (Vec4.ofVec3 p 1)).xyz := by
  obtain ⟨hvalid, hcorner⟩ := transform_contains_corner b matrix hv
  obtain ⟨hw, _, hxyz⟩ := affine_image matrix haff p
  refine ⟨hvalid, hw, ?_⟩
  rw [hxyz]
  have key : ∀ r : Fin 4, ∃ c1 ∈ b.getCorners, ∃ c2 ∈ b.getCorners,
      planeDistance (matrix.row r) c1 ≤ planeDistance (matrix.row r) p ∧
      planeDistance (matrix.row r) p ≤ planeDistance (matrix.row r) c2 :=
    fun r => between_corners b hv (matrix.row r) p hp
  have hc : ∀ c ∈ b.getCorners, (b.transform matrix).Contains
      ⟨planeDistance (matrix.row 0) c, planeDistance (matrix.row 1) c,
        planeDistance (matrix.row 2) c⟩ := by
    intro c hcm
    have := hcorner c hcm
    rwa [(affine_image matrix haff c).2.1] at this
  obtain ⟨x1, hx1, x2, hx2, hxa, hxb⟩ := key 0
  obtain ⟨y1, hy1, y2, hy2, hya, hyb⟩ := key 1
  obtain ⟨z1, hz1, z2, hz2, hza, hzb⟩ := key 2
  exact ⟨⟨(hc x1 hx1).1.1.trans hxa, hxb.trans (hc x2 hx2).1.2⟩,
    ⟨(hc y1 hy1).2.1.1.trans hya, hyb.trans (hc y2 hy2).2.1.2⟩,
    ⟨(hc z1 hz1).2.2.1.trans hza, hzb.trans (hc z2 hz2).2.2.2⟩⟩

/-- C11 at a concrete input: the unit cube under translation by `(1, 0, -2)` and scale 3,
and the centre of the cube. -/
theorem C11_witness :
    sampleBox.valid = true ∧ sampleBox.Ordered ∧
    (sampleTransform 0 3 = 0 ∧ sampleTransform 1 3 = 0 ∧ sampleTransform 2 3 = 0 ∧
      sampleTransform 3 3 = 1) ∧
    sampleBox.Contains ⟨1 / 2, 1 / 2, 1 / 2⟩ ∧
    ((sampleBox.transform sampleTransform).valid = true ∧
      (sampleTransform.mulVec (Vec4.ofVec3 ⟨1 / 2, 1 / 2, 1 / 2⟩ 1)).w = 1 ∧
      (sampleBox.transform sampleTransform).Contains
        (sampleTransform.mulVec (Vec4.ofVec3 ⟨1 / 2, 1 / 2, 1 / 2⟩ 1)).xyz) :=
  ⟨rfl,
    by norm_num [sampleBox, BoundingBox.Ordered, BoundingBox.ofMinMax],
    by simp [sampleTransform, scale, translate, Mat4.identity],
    by norm_num [sampleBox, BoundingBox.Contains, BoundingBox.ofMinMax],
    C11_transform_encloses sampleBox sampleTransform rfl
      (by norm_num [sampleBox, BoundingBox.Ordered, BoundingBox.ofMinMax])
      (by simp [sampleTransform, scale, translate, Mat4.identity])
      ⟨1 / 2, 1 / 2, 1 / 2⟩
      (by norm_num [sampleBox, BoundingBox.Contains, BoundingBox.ofMinMax])⟩

/-- C12, as stated, fails: the valid box `BoundingBox((1,0,0), (0,0,0))` has `min.x = 1`,
and its transform by the identity matrix has `min.x = 0` and `max.x = 1`. -/
theorem C12_counterexample :
    swappedBox.valid = true ∧ swappedBox.min.x = 1 ∧ swappedBox.max.x = 0 ∧
    (swappedBox.transform Mat4.identity).min.x = 0 ∧
    (swappedBox.transform Mat4.identity).max.x = 1 := by
  refine ⟨rfl, rfl, rfl, ?_, ?_⟩ <;>
    simp [swappedBox, BoundingBox.transform, BoundingBox.getCorners, BoundingBox.ofMinMax,
      BoundingBox.expand, BoundingBox.default, Mat4.mulVec, Mat4.identity, Vec4.ofVec3,
      Vec4.xyz, Vec3.divScalar, Vec3.min, Vec3.max, glmMin, glmMax] <;>
    norm_num

/-- C12, amended: for every valid box with `min ≤ max` on each axis, `transform` by the
identity matrix yields a valid box with the same `min` and the same `max`. -/
theorem C12_transform_identity (b : BoundingBox α) (hv : b.valid = true) (ho : b.Ordered) :
    (b.transform Mat4.identity).valid = true ∧
    (b.transform Mat4.identity).min = b.min ∧
    (b.transform Mat4.identity).max = b.max := by
  obtain ⟨⟨mx, my, mz⟩, ⟨Mx, My, Mz⟩, v⟩ := b
  obtain ⟨hx, hy, hz⟩ := ho
  simp only at hv hx hy hz
  subst hv
  simp [BoundingBox.transform, BoundingBox.getCorners, BoundingBox.expand,
    BoundingBox.default, Mat4.mulVec, Mat4.identity, Vec4.ofVec3, Vec4.xyz, Vec3.divScalar,
    Vec3.min, Vec3.max, glmMin_eq_min, glmMax_eq_max, hx, hy, hz]

/-- C12 (amended) at a concrete input: the unit cube. -/
theorem C12_witness :
    sampleBox.valid = true ∧ sampleBox.Ordered ∧
    ((sampleBox.transform Mat4.identity).valid = true ∧
      (sampleBox.transform Mat4.identity).min = sampleBox.min ∧
      (sampleBox.transform Mat4.identity).max = sampleBox.max) :=
  ⟨rfl,
    by norm_num [sampleBox, BoundingBox.Ordered, BoundingBox.ofMinMax],
    C12_transform_identity sampleBox rfl
      (by norm_num [sampleBox, BoundingBox.Ordered, BoundingBox.ofMinMax])⟩

/-- C13, as stated, fails: the result of `getCorners` is an array of eight vectors, and
for the invalid default box it has eight entries, not none. -/
theorem C13_counterexample :
    (BoundingBox.default : BoundingBox ℚ).valid = false ∧
    (BoundingBox.default : BoundingBox ℚ).getCorners.length = 8 ∧
    (BoundingBox.default : BoundingBox ℚ).getCorners ≠ [] :=
  ⟨rfl, rfl, by simp [BoundingBox.getCorners, BoundingBox.default]⟩

/-- C13, amended: `BoundingBox::getCorners` of an invalid box returns the value-initialised
array, eight zero vectors. -/
theorem C13_getCorners_invalid (b : BoundingBox α) (hv : b.valid = false) :
    b.getCorners = List.replicate 8 Vec3.zero := by
  unfold BoundingBox.getCorners
  rw [hv]
  rfl

/-- C13 (amended) at a concrete input: the default box. -/
theorem C13_witness :
    (BoundingBox.default : BoundingBox ℚ).valid = false ∧
    (BoundingBox.default : BoundingBox ℚ).getCorners = List.replicate 8 Vec3.zero :=
  ⟨rfl, C13_getCorners_invalid BoundingBox.default rfl⟩

/-- C14: `BoundingBox::intersects other` is true iff both boxes are valid and their closed
intervals overlap on all three axes; it is false whenever either box is invalid. -/
theorem C14_intersects_iff (b other : BoundingBox α) :
    (b.intersects other = true ↔
      b.valid = true ∧ other.valid = true ∧
      (b.min.x ≤ other.max.x ∧ b.max.x ≥ other.min.x) ∧
      (b.min.y ≤ other.max.y ∧ b.max.y ≥ other.min.y) ∧
      (b.min.z ≤ other.max.z ∧ b.max.z ≥ other.min.z)) ∧
    (b.valid = false ∨ other.valid = false → b.intersects other = false) := by
  unfold BoundingBox.intersects
  cases b.valid <;> cases other.valid <;> simp [and_assoc]

/-- C15, as stated, fails in binary32: for the single point `(2^127, 0, 0)` the box is valid
with `min = max = (2^127, 0, 0)`, the sum `min + max` overflows, and `getCenter()` is
`(+inf, 0, 0)`, which is not `<= max`. -/
theorem C15_counterexample :
    (Binary32.fromVertices [⟨F32.scaled 1 127, F32.ofInt 0, F32.ofInt 0⟩]).valid = true ∧
    (Binary32.fromVertices [⟨F32.scaled 1 127, F32.ofInt 0, F32.ofInt 0⟩]).max =
      ⟨F32.scaled 1 127, F32.ofInt 0, F32.ofInt 0⟩ ∧
    Binary32.getCenter
        (Binary32.fromVertices [⟨F32.scaled 1 127, F32.ofInt 0, F32.ofInt 0⟩]) =
      ⟨F32.inf false, F32.ofInt 0, F32.ofInt 0⟩ ∧
    F32.le
      (Binary32.getCenter
        (Binary32.fromVertices [⟨F32.scaled 1 127, F32.ofInt 0, F32.ofInt 0⟩])).x
      (Binary32.fromVertices [⟨F32.scaled 1 127, F32.ofInt 0, F32.ofInt 0⟩]).max.x = false :=
  ⟨by decide, by decide, by decide, by decide⟩

/-- C15, amended: in binary32, for every list of points whose coordinates are `float` values
of magnitude below `2^127` (so that `min + max` does not overflow), `b = fromVertices(points)`
satisfies `b.min <= b.getCenter() <= b.max` on every axis, and for every list of points with
finite coordinates `b.getSize() >= 0` on every axis (it may be `+inf`). In exact arithmetic,
for coordinates of magnitude at most `2^126`, `b.min ≤ b.getCenter ≤ b.max` and
`b.getSize ≥ 0`; for the empty list the box is invalid and `getCenter` and `getSize` are the
zero vector. -/
theorem C15_fromVertices_center_size (vs : List (Vec3 α))
    (_hb : ∀ v ∈ vs, |v.x| ≤ 2 ^ 126 ∧ |v.y| ≤ 2 ^ 126 ∧ |v.z| ≤ 2 ^ 126) :
    (BoundingBox.fromVertices vs).Contains (BoundingBox.fromVertices vs).getCenter ∧
    (0 ≤ (BoundingBox.fromVertices vs).getSize.x ∧ 0 ≤ (BoundingBox.fromVertices vs).getSize.y ∧
      0 ≤ (BoundingBox.fromVertices vs).getSize.z) ∧
    ((BoundingBox.fromVertices ([] : List (Vec3 α))).valid = false ∧
      (BoundingBox.fromVertices ([] : List (Vec3 α))).getCenter = Vec3.zero ∧
      (BoundingBox.fromVertices ([] : List (Vec3 α))).getSize = Vec3.zero) ∧
    (∀ ps : List (Vec3 F32), (∀ v ∈ ps, Binary32.isFinite3 v = true) →
      F32.le (F32.ofInt 0) (Binary32.getSize (Binary32.fromVertices ps)).x = true ∧
      F32.le (F32.ofInt 0) (Binary32.getSize (Binary32.fromVertices ps)).y = true ∧
      F32.le (F32.ofInt 0) (Binary32.getSize (Binary32.fromVertices ps)).z = true) ∧
    (∀ ps : List (Vec3 F32), (∀ v ∈ ps, Binary32.isFloat3 103 v = true) →
      (F32.le (Binary32.fromVertices ps).min.x
          (Binary32.getCenter (Binary32.fromVertices ps)).x = true ∧
        F32.le (Binary32.getCenter (Binary32.fromVertices ps)).x
          (Binary32.fromVertices ps).max.x = true) ∧
      (F32.le (Binary32.fromVertices ps).min.y
          (Binary32.getCenter (Binary32.fromVertices ps)).y = true ∧
        F32.le (Binary32.getCenter (Binary32.fromVertices ps)).y
          (Binary32.fromVertices ps).max.y = true) ∧
      (F32.le (Binary32.fromVertices ps).min.z
          (Binary32.getCenter (Binary32.fromVertices ps)).z = true ∧
        F32.le (Binary32.getCenter (Binary32.fromVertices ps)).z
          (Binary32.fromVertices ps).max.z = true)) := by
  refine ⟨?_, ?_, ⟨rfl, rfl, rfl⟩,
    fun ps hps => Binary32.getSize_fromVertices_nonneg ps hps,
    fun ps hps => Binary32.getCenter_fromVertices_within ps hps⟩
  · cases hv : (BoundingBox.fromVertices vs).valid with
    | false =>
      cases vs with
      | nil => simp [BoundingBox.fromVertices, BoundingBox.default, BoundingBox.getCenter,
          BoundingBox.Contains, Vec3.zero]
      | cons v0 t => exact absurd hv (by simp [BoundingBox.fromVertices, BoundingBox.ofMinMax])
    | true =>
      obtain ⟨hx, hy, hz⟩ := fromVertices_ordered vs hv
      simp only [BoundingBox.Contains, BoundingBox.getCenter, hv, Vec3.add, Vec3.mulScalar]
      refine ⟨⟨?_, ?_⟩, ⟨?_, ?_⟩, ⟨?_, ?_⟩⟩ <;> simp only [Bool.not_true] <;>
        norm_num <;> linarith
  · cases hv : (BoundingBox.fromVertices vs).valid with
    | false => simp [BoundingBox.getSize, hv, Vec3.zero]
    | true =>
      obtain ⟨hx, hy, hz⟩ := fromVertices_ordered vs hv
      simp only [BoundingBox.getSize, hv, Vec3.sub]
      refine ⟨?_, ?_, ?_⟩ <;> simp only [Bool.not_true] <;> norm_num <;> assumption

/-- C15 (amended) at a concrete input: two points over the rationals; in binary32 the points
`(2^127, 0, 0)` and `(-2^127, 0, 0)`, for which `getSize().x` is `+inf`, and the points
`(2^126, 1, -3)` and `(2^126 + 2^103, 5, -3)`, whose `getCenter().x` is rounded to `2^126`. -/
theorem C15_witness :
    (∀ v ∈ [(⟨1, 2, 3⟩ : Vec3 ℚ), ⟨-1, 0, 5⟩],
      |v.x| ≤ 2 ^ 126 ∧ |v.y| ≤ 2 ^ 126 ∧ |v.z| ≤ 2 ^ 126) ∧
    (BoundingBox.fromVertices [(⟨1, 2, 3⟩ : Vec3 ℚ), ⟨-1, 0, 5⟩]).Contains
      (BoundingBox.fromVertices [(⟨1, 2, 3⟩ : Vec3 ℚ), ⟨-1, 0, 5⟩]).getCenter ∧
    (∀ v ∈ [(⟨F32.scaled 1 127, F32.ofInt 0, F32.ofInt 0⟩ : Vec3 F32),
        ⟨F32.scaled (-1) 127, F32.ofInt 0, F32.ofInt 0⟩], Binary32.isFinite3 v = true) ∧
    (Binary32.getSize (Binary32.fromVertices
      [(⟨F32.scaled 1 127, F32.ofInt 0, F32.ofInt 0⟩ : Vec3 F32),
        ⟨F32.scaled (-1) 127, F32.ofInt 0, F32.ofInt 0⟩])).x = F32.inf false ∧
    F32.le (F32.ofInt 0) (Binary32.getSize (Binary32.fromVertices
      [(⟨F32.scaled 1 127, F32.ofInt 0, F32.ofInt 0⟩ : Vec3 F32),
        ⟨F32.scaled (-1) 127, F32.ofInt 0, F32.ofInt 0⟩])).x = true ∧
    (∀ v ∈ [(⟨F32.scaled 1 126, F32.ofInt 1, F32.ofInt (-3)⟩ : Vec3 F32),
        ⟨F32.scaled 8388609 103, F32.ofInt 5, F32.ofInt (-3)⟩],
      Binary32.isFloat3 103 v = true) ∧
    (Binary32.getCenter (Binary32.fromVertices
      [(⟨F32.scaled 1 126, F32.ofInt 1, F32.ofInt (-3)⟩ : Vec3 F32),
        ⟨F32.scaled 8388609 103, F32.ofInt 5, F32.ofInt (-3)⟩])).x =
      F32.scaled 1 126 ∧
    F32.le (Binary32.getCenter (Binary32.fromVertices
      [(⟨F32.scaled 1 126, F32.ofInt 1, F32.ofInt (-3)⟩ : Vec3 F32),
        ⟨F32.scaled 8388609 103, F32.ofInt 5, F32.ofInt (-3)⟩])).x
      (Binary32.fromVertices
        [(⟨F32.scaled 1 126, F32.ofInt 1, F32.ofInt (-3)⟩ : Vec3 F32),
          ⟨F32.scaled 8388609 103, F32.ofInt 5, F32.ofInt (-3)⟩]).max.x = true :=
  ⟨by
      intro v hv
      simp only [List.mem_cons, List.mem_singleton, List.not_mem_nil, or_false] at hv
      rcases hv with rfl | rfl <;> norm_num [abs_le],
    (C15_fromVertices_center_size [(⟨1, 2, 3⟩ : Vec3 ℚ), ⟨-1, 0, 5⟩] (by
      intro v hv
      simp only [List.mem_cons, List.mem_singleton, List.not_mem_nil, or_false] at hv
      rcases hv with rfl | rfl <;> norm_num [abs_le])).1,
    by decide, by decide,
    ((C15_fromVertices_center_size [(⟨1, 2, 3⟩ : Vec3 ℚ), ⟨-1, 0, 5⟩] (by
      intro v hv
      simp only [List.mem_cons, List.mem_singleton, List.not_mem_nil, or_false] at hv
      rcases hv with rfl | rfl <;> norm_num [abs_le])).2.2.2.1 _ (by decide)).1,
    by decide, by decide,
    ((C15_fromVertices_center_size [(⟨1, 2, 3⟩ : Vec3 ℚ), ⟨-1, 0, 5⟩] (by
      intro v hv
      simp only [List.mem_cons, List.mem_singleton, List.not_mem_nil, or_false] at hv
      rcases hv with rfl | rfl <;> norm_num [abs_le])).2.2.2.2 _ (by decide)).1.2⟩

/-- C16: `expand` is idempotent. For every valid box and every point `p` with
`min ≤ p ≤ max` component-wise, `expand p` leaves `min`, `max` and the valid flag unchanged;
and expanding any box twice by the same point gives the same box as expanding it once. -/
theorem C16_expand_idempotent (b : BoundingBox α) (p : Vec3 α) :
    (b.valid = true → b.Contains p → b.expand p = b) ∧
    (b.expand p).expand p = b.expand p := by
  have h1 : ∀ b' : BoundingBox α, b'.valid = true → b'.Contains p → b'.expand p = b' := by
    intro b' hv hc
    obtain ⟨⟨mx, my, mz⟩, ⟨Mx, My, Mz⟩, v⟩ := b'
    obtain ⟨⟨x1, x2⟩, ⟨y1, y2⟩, ⟨z1, z2⟩⟩ := hc
    simp only at hv x1 x2 y1 y2 z1 z2
    subst hv
    simp [BoundingBox.expand, Vec3.min, Vec3.max, glmMin_eq_min, glmMax_eq_max, x1, x2, y1,
      y2, z1, z2]
  exact ⟨h1 b, h1 _ (expand_valid b p) (expand_contains_self b p)⟩

/-- C17: with culling enabled the visibility filter produces exactly the sub-sequence of
passing instances, in input order. The matrices in the draw list after the plane are those
`T` with `isBoundingBoxInside (box.transform T)`, each with the bunny mesh, which is what
`Mesh::isVisibleInFrustum` tests; the culled counter is the number of failing instances, so
visible plus culled is the number of instances (the counter is an `int`: this part is for
lists shorter than `2^31`). -/
theorem C17_cull_enabled_filter (frustum : Frustum α) (box : BoundingBox α)
    (transforms : List (Mat4 α)) :
    (cullFrame true frustum box transforms).modelMatrices =
      Mat4.identity ::
        transforms.filter (fun T => frustum.isBoundingBoxInside (box.transform T)) ∧
    (cullFrame true frustum box transforms).visibleMeshes =
      MeshId.planeMesh :: List.replicate
        (transforms.filter (fun T => frustum.isBoundingBoxInside (box.transform T))).length
        MeshId.bunnyMesh ∧
    (∀ T, isVisibleInFrustum box frustum T = frustum.isBoundingBoxInside (box.transform T)) ∧
    (transforms.length < 2147483648 →
      (cullFrame true frustum box transforms).culledObjects =
        (transforms.filter
          (fun T => !frustum.isBoundingBoxInside (box.transform T))).length ∧
      ((transforms.filter
          (fun T => frustum.isBoundingBoxInside (box.transform T))).length : Int)
        + (cullFrame true frustum box transforms).culledObjects = transforms.length) := by
  obtain ⟨h1, h2, h3⟩ := foldl_cullStep frustum box transforms
    ⟨[Mat4.identity], [MeshId.planeMesh], 0⟩
  refine ⟨?_, ?_, fun _ => rfl, fun hlen => ?_⟩
  · simp only [cullFrame, if_true]
    rw [h1]
    rfl
  · simp only [cullFrame, if_true]
    rw [h2]
    rfl
  · have h3' := h3 (le_refl 0) (by simp only [zero_add]; exact_mod_cast hlen)
    have hc : (cullFrame true frustum box transforms).culledObjects =
        (transforms.filter
          (fun T => !frustum.isBoundingBoxInside (box.transform T))).length := by
      simp only [cullFrame, if_true]
      rw [h3']
      simp
    refine ⟨hc, ?_⟩
    rw [hc]
    exact_mod_cast length_filter_add_length_filter_not
      (fun T => frustum.isBoundingBoxInside (box.transform T)) transforms

/-- C17 at a concrete input: the unit cube under three model matrices against the cube
frustum `[-1, 1]^3`; the list is short enough for the counter, so one instance is counted
for each matrix. -/
theorem C17_witness :
    [Mat4.identity, translate Mat4.identity ⟨10, 0, 0⟩, sampleTransform].length < 2147483648 ∧
    (cullFrame true unitFrustum sampleBox
        [Mat4.identity, translate Mat4.identity ⟨10, 0, 0⟩, sampleTransform]).modelMatrices =
      Mat4.identity ::
        [Mat4.identity, translate Mat4.identity ⟨10, 0, 0⟩, sampleTransform].filter
          (fun T => unitFrustum.isBoundingBoxInside (sampleBox.transform T)) ∧
    (([Mat4.identity, translate Mat4.identity ⟨10, 0, 0⟩, sampleTransform].filter
        (fun T => unitFrustum.isBoundingBoxInside (sampleBox.transform T))).length : Int)
      + (cullFrame true unitFrustum sampleBox
          [Mat4.identity, translate Mat4.identity ⟨10, 0, 0⟩, sampleTransform]).culledObjects =
      [Mat4.identity, translate Mat4.identity ⟨10, 0, 0⟩, sampleTransform].length :=
  ⟨by decide,
    (C17_cull_enabled_filter unitFrustum sampleBox
      [Mat4.identity, translate Mat4.identity ⟨10, 0, 0⟩, sampleTransform]).1,
    ((C17_cull_enabled_filter unitFrustum sampleBox
      [Mat4.identity, translate Mat4.identity ⟨10, 0, 0⟩, sampleTransform]).2.2.2
        (by decide)).2⟩

/-- C18: with the culling toggle disabled all instances pass. For every instance list and
frustum the draw list is the plane followed by every model matrix in input order, each with
the bunny mesh, and the culled count is 0; for the 100 instances that `main` builds the draw
list has 101 entries. -/
theorem C18_cull_disabled_all_pass (frustum : Frustum α) (box : BoundingBox α)
    (transforms : List (Mat4 α)) :
    (cullFrame false frustum box transforms).modelMatrices = Mat4.identity :: transforms ∧
    (cullFrame false frustum box transforms).visibleMeshes =
      MeshId.planeMesh :: List.replicate transforms.length MeshId.bunnyMesh ∧
    (cullFrame false frustum box transforms).culledObjects = 0 ∧
    (bunnyTransforms : List (Mat4 α)).length = 100 ∧
    (cullFrame false frustum box bunnyTransforms).modelMatrices =
      Mat4.identity :: bunnyTransforms ∧
    (cullFrame false frustum box bunnyTransforms).visibleMeshes.length = 101 ∧
    visibleObjects (cullFrame false frustum box bunnyTransforms) = 101 := by
  have key : ∀ l : List (Mat4 α),
      (cullFrame false frustum box l).modelMatrices = Mat4.identity :: l ∧
      (cullFrame false frustum box l).visibleMeshes =
        MeshId.planeMesh :: List.replicate l.length MeshId.bunnyMesh := by
    intro l
    obtain ⟨h1, h2⟩ := foldl_passStep l ⟨[Mat4.identity], [MeshId.planeMesh], 0⟩
    simp only [cullFrame, Bool.false_eq_true, if_false]
    exact ⟨h1, h2⟩
  have hlen : (cullFrame false frustum box bunnyTransforms).visibleMeshes.length = 101 := by
    rw [(key bunnyTransforms).2, List.length_cons, List.length_replicate,
      bunnyTransforms_length]
  refine ⟨(key transforms).1, (key transforms).2, ?_, bunnyTransforms_length,
    (key bunnyTransforms).1, hlen, ?_⟩
  · simp [cullFrame]
  · unfold visibleObjects
    rw [hlen]
    rfl

/-- C21: the end-to-end grid scene. The 100 model matrices that `main` builds (a 10 by 10
grid on X/Z at height 0, each scaled by 3) are tested against the frustum of `main`: camera
at `(0, 2, 5)` with right vector `(1, 0, 0)` and any front vector `(0, fy, fz)` of length at
most 1 in the YZ plane (the program's `(0, 0, -1)` and the direction toward the origin are
such vectors), `tan(fovy / 2)` in `(0, 7/16]` (`tan 22.5° ≈ 0.4142`), aspect `800/600`, near
`0.1`, far `100`. For every valid local box inside `[-1/2, 1/2]^3`, the unit cube included,
fewer than 100 instances pass `isVisibleInFrustum`, and with culling enabled the draw list
has fewer than 100 entries, the always-drawn plane included. This holds for every `sqrt`. -/
theorem C21_grid_scene_culls (sqrt : α → α) (up : Vec3 α) (fy fz tanHalfFovy : α)
    (b : BoundingBox α) (ht : 0 < tanHalfFovy) (ht2 : tanHalfFovy ≤ 7 / 16)
    (hfront : fy * fy + fz * fz ≤ 1) (hv : b.valid = true)
    (hmin : (unitBoxAt (⟨0, 0, 0⟩ : Vec3 α)).Contains b.min)
    (hmax : (unitBoxAt (⟨0, 0, 0⟩ : Vec3 α)).Contains b.max) :
    (bunnyTransforms : List (Mat4 α)).length = 100 ∧
    ((bunnyTransforms : List (Mat4 α)).filter (fun T => isVisibleInFrustum b
      (Frustum.extractPlanes sqrt ((perspective tanHalfFovy (800 / 600) (1 / 10) 100).mul
        (getViewMatrix ⟨1, 0, 0⟩ up ⟨0, fy, fz⟩ ⟨0, 2, 5⟩))) T)).length < 100 ∧
    (cullFrame true
      (Frustum.extractPlanes sqrt ((perspective tanHalfFovy (800 / 600) (1 / 10) 100).mul
        (getViewMatrix ⟨1, 0, 0⟩ up ⟨0, fy, fz⟩ ⟨0, 2, 5⟩)))
      b bunnyTransforms).modelMatrices.length < 100 ∧
    (cullFrame true
      (Frustum.extractPlanes sqrt ((perspective tanHalfFovy (800 / 600) (1 / 10) 100).mul
        (getViewMatrix ⟨1, 0, 0⟩ up ⟨0, fy, fz⟩ ⟨0, 2, 5⟩)))
      b bunnyTransforms).visibleMeshes.length < 100 := by
  have hlen := grid_filter_length sqrt up fy fz tanHalfFovy ht ht2 hfront b hv hmin hmax
  obtain ⟨h1, h2, _⟩ := foldl_cullStep
    (Frustum.extractPlanes sqrt ((perspective tanHalfFovy (800 / 600) (1 / 10) 100).mul
      (getViewMatrix ⟨1, 0, 0⟩ up ⟨0, fy, fz⟩ ⟨0, 2, 5⟩)))
    b bunnyTransforms ⟨[Mat4.identity], [MeshId.planeMesh], 0⟩
  refine ⟨bunnyTransforms_length, lt_of_le_of_lt hlen (by norm_num), ?_, ?_⟩
  · simp only [cullFrame, if_true]
    rw [h1, List.length_append, List.length_singleton]
    omega
  · simp only [cullFrame, if_true]
    rw [h2, List.length_append, List.length_singleton, List.length_replicate]
    omega

/-- C21 at a concrete input: the real numbers with their square root, the camera of `main`
as constructed (front `(0, 0, -1)`, up `(0, 1, 0)`), `tan(45°/2) = √2 - 1`, and the unit
cube `[-1/2, 1/2]^3` as the local box. -/
theorem C21_witness :
    (0 : ℝ) < Real.sqrt 2 - 1 ∧ Real.sqrt 2 - 1 ≤ 7 / 16 ∧
    (0 : ℝ) * 0 + (-1) * (-1) ≤ 1 ∧
    (unitBoxAt (⟨0, 0, 0⟩ : Vec3 ℝ)).valid = true ∧
    ((bunnyTransforms : List (Mat4 ℝ)).filter (fun T =>
      isVisibleInFrustum (unitBoxAt (⟨0, 0, 0⟩ : Vec3 ℝ))
        (Frustum.extractPlanes Real.sqrt
          ((perspective (Real.sqrt 2 - 1) (800 / 600) (1 / 10) 100).mul
            (getViewMatrix ⟨1, 0, 0⟩ ⟨0, 1, 0⟩ ⟨0, 0, -1⟩ ⟨0, 2, 5⟩))) T)).length < 100 ∧
    (cullFrame true
      (Frustum.extractPlanes Real.sqrt
        ((perspective (Real.sqrt 2 - 1) (800 / 600) (1 / 10) 100).mul
          (getViewMatrix ⟨1, 0, 0⟩ ⟨0, 1, 0⟩ ⟨0, 0, -1⟩ ⟨0, 2, 5⟩)))
      (unitBoxAt (⟨0, 0, 0⟩ : Vec3 ℝ)) bunnyTransforms).visibleMeshes.length < 100 :=
  ⟨sub_pos.mpr ((Real.lt_sqrt zero_le_one).mpr (by norm_num)),
    sub_le_iff_le_add.mpr (Real.sqrt_le_iff.mpr ⟨by norm_num, by norm_num⟩),
    by norm_num, rfl,
    (C21_grid_scene_culls Real.sqrt ⟨0, 1, 0⟩ 0 (-1) (Real.sqrt 2 - 1)
      (unitBoxAt ⟨0, 0, 0⟩)
      (sub_pos.mpr ((Real.lt_sqrt zero_le_one).mpr (by norm_num)))
      (sub_le_iff_le_add.mpr (Real.sqrt_le_iff.mpr ⟨by norm_num, by norm_num⟩))
      (by norm_num) rfl
      (by norm_num [unitBoxAt, BoundingBox.Contains, BoundingBox.ofMinMax])
      (by norm_num [unitBoxAt, BoundingBox.Contains, BoundingBox.ofMinMax])).2.1,
    (C21_grid_scene_culls Real.sqrt ⟨0, 1, 0⟩ 0 (-1) (Real.sqrt 2 - 1)
      (unitBoxAt ⟨0, 0, 0⟩)
      (sub_pos.mpr ((Real.lt_sqrt zero_le_one).mpr (by norm_num)))
      (sub_le_iff_le_add.mpr (Real.sqrt_le_iff.mpr ⟨by norm_num, by norm_num⟩))
      (by norm_num) rfl
      (by norm_num [unitBoxAt, BoundingBox.Contains, BoundingBox.ofMinMax])
      (by norm_num [unitBoxAt, BoundingBox.Contains, BoundingBox.ofMinMax])).2.2.2⟩

/-- C22: `DeferredRenderer::cleanup` is idempotent and safe on partially initialised state.
From every renderer reachable by the constructor followed by any sequence of `initialize`
calls (succeeding or failing) and `cleanup` calls, `cleanup` leaves all nine handles zero,
and a second `cleanup` issues no delete call and leaves the state unchanged. -/
theorem C22_cleanup_idempotent (r : DeferredRenderer) (hr : r.Reachable) :
    r.cleanup.2.AllZero ∧ r.cleanup.2.cleanup = ([], r.cleanup.2) :=
  ⟨cleanup_allZero r (reachable_texturesFollowBuffer r hr), cleanup_cleanup r⟩

/-- C22 at a concrete input: a renderer built with stale values 7 and 9 in the
uninitialised `quadVAO` and `quadVBO`, whose `initialize` fails at the completeness check
after the framebuffer, the five textures and the depth buffer were created. -/
theorem C22_witness :
    ( DeferredRenderer.initialize
      ⟨some 1, some 2, some 3, some 4, some 5, some 6, some 1, false, none, none⟩
      (DeferredRenderer.construct 800 600 7 9)).2.Reachable ∧
    ( DeferredRenderer.initialize
      ⟨some 1, some 2, some 3, some 4, some 5, some 6, some 1, false, none, none⟩
      (DeferredRenderer.construct 800 600 7 9)).2 = ⟨800, 600, 1, 2, 3, 4, 5, 6, 1, 7, 9⟩ ∧
    (( DeferredRenderer.initialize
      ⟨some 1, some 2, some 3, some 4, some 5, some 6, some 1, false, none, none⟩
      (DeferredRenderer.construct 800 600 7 9)).2.cleanup.2.AllZero ∧
    ( DeferredRenderer.initialize
      ⟨some 1, some 2, some 3, some 4, some 5, some 6, some 1, false, none, none⟩
      (DeferredRenderer.construct 800 600 7 9)).2.cleanup.2.cleanup =
        ([], ( DeferredRenderer.initialize
          ⟨some 1, some 2, some 3, some 4, some 5, some 6, some 1, false, none, none⟩
          (DeferredRenderer.construct 800 600 7 9)).2.cleanup.2)) :=
  ⟨DeferredRenderer.Reachable.init _ _ (by simp [InitOracle.WellFormed])
      (DeferredRenderer.Reachable.construct 800 600 7 9),
    by decide,
    C22_cleanup_idempotent _
      (DeferredRenderer.Reachable.init _ _ (by simp [InitOracle.WellFormed])
        (DeferredRenderer.Reachable.construct 800 600 7 9))⟩

/-- C23: after `renderGeometryPass` returns, for every draw list and every OpenGL state
before it, every texture unit used by a drawn mesh's material (units 0 to 4) has no texture
bound, and the default framebuffer 0 is bound. Units 0 to 3 are unbound in any case; unit 4
also when it was unbound before the pass. -/
theorem C23_geometry_pass_unbinds (r : DeferredRenderer) (meshes : List PBRMesh)
    (modelMatrices : List (Mat4 α)) (geometryShader : Shader)
    (viewMatrix projectionMatrix : Mat4 α) (s : GLState α) :
    (∀ u, (∃ mesh ∈ meshes, (mesh.pbrMaterial.textureOnUnit u).isSome = true) →
      (r.renderGeometryPass meshes modelMatrices geometryShader viewMatrix projectionMatrix
        s).texture2D u = 0) ∧
    (∀ u, u < 4 →
      (r.renderGeometryPass meshes modelMatrices geometryShader viewMatrix projectionMatrix
        s).texture2D u = 0) ∧
    (s.texture2D 4 = 0 → ∀ u, u ≤ 4 →
      (r.renderGeometryPass meshes modelMatrices geometryShader viewMatrix projectionMatrix
        s).texture2D u = 0) ∧
    (r.renderGeometryPass meshes modelMatrices geometryShader viewMatrix projectionMatrix
      s).framebuffer = 0 := by
  obtain ⟨_, _, g3⟩ := geometryLoop_state geometryShader modelMatrices meshes 0
    (geometryShader.setMat4 "projection" projectionMatrix
      (geometryShader.setMat4 "view" viewMatrix (geometryShader.use (r.bindGBuffer s))))
  obtain ⟨_, l2⟩ := unbindUnitsLoop_state
    (geometryLoop geometryShader modelMatrices meshes 0
      (geometryShader.setMat4 "projection" projectionMatrix
        (geometryShader.setMat4 "view" viewMatrix (geometryShader.use (r.bindGBuffer s)))))
  have key : ∀ u,
      (r.renderGeometryPass meshes modelMatrices geometryShader viewMatrix projectionMatrix
        s).texture2D u =
      if u < 4 then 0 else
        (geometryLoop geometryShader modelMatrices meshes 0
          (geometryShader.setMat4 "projection" projectionMatrix
            (geometryShader.setMat4 "view" viewMatrix
              (geometryShader.use (r.bindGBuffer s))))).texture2D u := l2
  have four : ((∃ mesh ∈ meshes, (mesh.pbrMaterial.textureOnUnit 4).isSome = true) ∨
      s.texture2D 4 = 0) →
      (r.renderGeometryPass meshes modelMatrices geometryShader viewMatrix projectionMatrix
        s).texture2D 4 = 0 := by
    intro h
    rw [key 4, if_neg (by omega)]
    exact g3 h
  refine ⟨?_, ?_, ?_, rfl⟩
  · rintro u ⟨mesh, hm, hsome⟩
    have hu := textureOnUnit_isSome_le mesh.pbrMaterial u hsome
    by_cases h4 : u < 4
    · rw [key u, if_pos h4]
    · have : u = 4 := by omega
      subst this
      exact four (Or.inl ⟨mesh, hm, hsome⟩)
  · intro u hu
    rw [key u, if_pos hu]
  · intro h0 u hu
    by_cases h4 : u < 4
    · rw [key u, if_pos h4]
    · have : u = 4 := by omega
      subst this
      exact four (Or.inr h0)

/-- C24 fails on the code: for the material with an albedo texture 1 and a normal texture 2,
from a state with nothing bound, after `drawPBR` returns unit 0 still has the albedo texture
bound; `unbindTextures` binds texture 0 only on unit 1, the unit left active. -/
theorem C24_drawPBR_leaves_albedo_bound :
    (PBRMaterial.textureOnUnit ⟨some 1, some 2, none, none, none, true, true, false, false, false⟩
      0 = some 1) ∧
    ((PBRMesh.drawPBR ⟨10, 36, ⟨some 1, some 2, none, none, none, true, true, false, false, false⟩⟩
      ⟨3⟩ (⟨0, fun _ => 0, 0, 0, []⟩ : GLState ℚ)).texture2D 0 = 1) ∧
    ((PBRMesh.drawPBR ⟨10, 36, ⟨some 1, some 2, none, none, none, true, true, false, false, false⟩⟩
      ⟨3⟩ (⟨0, fun _ => 0, 0, 0, []⟩ : GLState ℚ)).texture2D 1 = 0) ∧
    ((PBRMesh.drawPBR ⟨10, 36, ⟨some 1, some 2, none, none, none, true, true, false, false, false⟩⟩
      ⟨3⟩ (⟨0, fun _ => 0, 0, 0, []⟩ : GLState ℚ)).activeUnit = 1) :=
  ⟨rfl, by decide, by decide, rfl⟩

/-- C25: the lighting pass binds the five G-buffer channels to the pairwise distinct units
5 to 9, none of which is a unit on which a material binds a texture (0 to 4) or which
`drawPBR` changes, and the sampler uniform set for each channel is the number of the unit on
which that channel's texture is bound. -/
theorem C25_lighting_pass_units {β : Type} (r : DeferredRenderer) (lightingShader : Shader)
    (viewPos : Vec3 β) (s : GLState β) :
    (issuedBetween s (r.renderLightingPass lightingShader viewPos s)).filterMap
        GLCommand.intUniform =
      [("gPosition", 5), ("gNormal", 6), ("gAlbedo", 7), ("gMetallicRoughness", 8),
        ("gAO", 9)] ∧
    ((r.renderLightingPass lightingShader viewPos s).texture2D 5 = r.gPosition ∧
      (r.renderLightingPass lightingShader viewPos s).texture2D 6 = r.gNormal ∧
      (r.renderLightingPass lightingShader viewPos s).texture2D 7 = r.gAlbedo ∧
      (r.renderLightingPass lightingShader viewPos s).texture2D 8 = r.gMetallicRoughness ∧
      (r.renderLightingPass lightingShader viewPos s).texture2D 9 = r.gAO) ∧
    [5, 6, 7, 8, 9].Nodup ∧
    (∀ u ∈ [5, 6, 7, 8, 9], ∀ m : PBRMaterial, m.textureOnUnit u = none) ∧
    (∀ u ∈ [5, 6, 7, 8, 9], ∀ (mesh : PBRMesh) (shader : Shader) (t : GLState β),
      (mesh.drawPBR shader t).texture2D u = t.texture2D u) :=
  ⟨renderLightingPass_intUniforms r lightingShader viewPos s,
    renderLightingPass_units r lightingShader viewPos s,
    by decide,
    fun u hu m => textureOnUnit_gbuffer_units u hu m,
    fun u hu mesh shader t => drawPBR_gbuffer_units u hu mesh shader t⟩

/-- C26: on an empty draw list the geometry pass binds the G-buffer, clears it, issues no
draw call, unbinds the units 0 to 3 and binds framebuffer 0; the lighting pass that follows
issues exactly one draw, the non-indexed triangle draw of the 6 quad vertices, with the
quad's vertex array bound. -/
theorem C26_empty_draw_list (r : DeferredRenderer) (modelMatrices : List (Mat4 α))
    (geometryShader lightingShader : Shader) (viewMatrix projectionMatrix : Mat4 α)
    (viewPos : Vec3 α) (s : GLState α) :
    issuedBetween s
        (r.renderGeometryPass [] modelMatrices geometryShader viewMatrix projectionMatrix s) =
      [GLCommand.bindFramebuffer r.gBuffer, GLCommand.viewport 0 0 r.width r.height,
        GLCommand.clear, GLCommand.useProgram geometryShader.id,
        GLCommand.uniformMatrix4fv geometryShader.id "view" viewMatrix,
        GLCommand.uniformMatrix4fv geometryShader.id "projection" projectionMatrix,
        GLCommand.activeTexture 0, GLCommand.bindTexture 0,
        GLCommand.activeTexture 1, GLCommand.bindTexture 0,
        GLCommand.activeTexture 2, GLCommand.bindTexture 0,
        GLCommand.activeTexture 3, GLCommand.bindTexture 0,
        GLCommand.bindFramebuffer 0, GLCommand.viewport 0 0 r.width r.height] ∧
    (issuedBetween s
        (r.renderGeometryPass [] modelMatrices geometryShader viewMatrix projectionMatrix
          s)).filter GLCommand.isDraw = [] ∧
    (r.renderGeometryPass [] modelMatrices geometryShader viewMatrix projectionMatrix
      s).framebuffer = 0 ∧
    (issuedBetween
        (r.renderGeometryPass [] modelMatrices geometryShader viewMatrix projectionMatrix s)
        (r.renderLightingPass lightingShader viewPos
          (r.renderGeometryPass [] modelMatrices geometryShader viewMatrix projectionMatrix
            s))).filter GLCommand.isDraw = [GLCommand.drawArrays 0 6] ∧
    ∃ before after,
      issuedBetween
        (r.renderGeometryPass [] modelMatrices geometryShader viewMatrix projectionMatrix s)
        (r.renderLightingPass lightingShader viewPos
          (r.renderGeometryPass [] modelMatrices geometryShader viewMatrix projectionMatrix
            s)) =
        before ++ [GLCommand.bindVertexArray r.quadVAO, GLCommand.drawArrays 0 6] ++ after := by
  have hg : issuedBetween s
        (r.renderGeometryPass [] modelMatrices geometryShader viewMatrix projectionMatrix s) =
      [GLCommand.bindFramebuffer r.gBuffer, GLCommand.viewport 0 0 r.width r.height,
        GLCommand.clear, GLCommand.useProgram geometryShader.id,
        GLCommand.uniformMatrix4fv geometryShader.id "view" viewMatrix,
        GLCommand.uniformMatrix4fv geometryShader.id "projection" projectionMatrix,
        GLCommand.activeTexture 0, GLCommand.bindTexture 0,
        GLCommand.activeTexture 1, GLCommand.bindTexture 0,
        GLCommand.activeTexture 2, GLCommand.bindTexture 0,
        GLCommand.activeTexture 3, GLCommand.bindTexture 0,
        GLCommand.bindFramebuffer 0, GLCommand.viewport 0 0 r.width r.height] := by
    simp [issuedBetween, DeferredRenderer.renderGeometryPass, DeferredRenderer.bindGBuffer,
      DeferredRenderer.unbindGBuffer, geometryLoop, unbindUnitsLoop, glBindTexture,
      glActiveTexture, glBindFramebuffer, GLState.issue, Shader.use, Shader.setMat4]
  have hl : ∀ t : GLState α,
      issuedBetween t (r.renderLightingPass lightingShader viewPos t) =
        [GLCommand.uniform3fv lightingShader.id "viewPos" viewPos,
          GLCommand.activeTexture 5, GLCommand.bindTexture r.gPosition,
          GLCommand.uniform1i lightingShader.id "gPosition" 5,
          GLCommand.activeTexture 6, GLCommand.bindTexture r.gNormal,
          GLCommand.uniform1i lightingShader.id "gNormal" 6,
          GLCommand.activeTexture 7, GLCommand.bindTexture r.gAlbedo,
          GLCommand.uniform1i lightingShader.id "gAlbedo" 7,
          GLCommand.activeTexture 8, GLCommand.bindTexture r.gMetallicRoughness,
          GLCommand.uniform1i lightingShader.id "gMetallicRoughness" 8,
          GLCommand.activeTexture 9, GLCommand.bindTexture r.gAO,
          GLCommand.uniform1i lightingShader.id "gAO" 9,
          GLCommand.getError] ++
        [GLCommand.bindVertexArray r.quadVAO, GLCommand.drawArrays 0 6] ++
        [GLCommand.bindVertexArray 0, GLCommand.getError] := by
    intro t
    simp [issuedBetween, DeferredRenderer.renderLightingPass, glBindTexture, glActiveTexture,
      glBindVertexArray, GLState.issue, Shader.setInt, Shader.setVec3]
  refine ⟨hg, ?_, rfl, ?_, ⟨_, _, hl _⟩⟩
  · rw [hg]
    rfl
  · rw [hl]
    rfl

/-- C27: the full-screen quad has exactly 6 vertices (24 floats) forming two triangles that
cover clip space `[-1, 1]^2`: every position is one of the four corners, all four corners
occur, the triangles (vertices 0,1,2 and 3,4,5) share the diagonal from `(-1, 1)` to
`(1, -1)`; and every texture coordinate is `(position + 1) / 2`, within `[0, 1]^2`. -/
theorem C27_screen_quad :
    (quadVertices : List α).length = 6 * 4 ∧
    (∀ i, i < 6 →
      ((quadPosition i : α × α).1 = -1 ∨ (quadPosition i : α × α).1 = 1) ∧
      ((quadPosition i : α × α).2 = -1 ∨ (quadPosition i : α × α).2 = 1)) ∧
    ((quadPosition 1 : α × α) = (-1, -1) ∧ (quadPosition 2 : α × α) = (1, -1) ∧
      (quadPosition 0 : α × α) = (-1, 1) ∧ (quadPosition 5 : α × α) = (1, 1)) ∧
    ((quadPosition 3 : α × α) = quadPosition 0 ∧ (quadPosition 4 : α × α) = quadPosition 2 ∧
      (quadPosition 0 : α × α).1 = -(quadPosition 2 : α × α).1 ∧
      (quadPosition 0 : α × α).2 = -(quadPosition 2 : α × α).2) ∧
    (∀ i, i < 6 →
      (quadTexCoord i : α × α).1 = ((quadPosition i : α × α).1 + 1) / 2 ∧
      (quadTexCoord i : α × α).2 = ((quadPosition i : α × α).2 + 1) / 2 ∧
      0 ≤ (quadTexCoord i : α × α).1 ∧ (quadTexCoord i : α × α).1 ≤ 1 ∧
      0 ≤ (quadTexCoord i : α × α).2 ∧ (quadTexCoord i : α × α).2 ≤ 1) := by
  refine ⟨rfl, ?_, ?_, ?_, ?_⟩
  · intro i hi
    interval_cases i <;> simp [quadPosition, quadVertices]
  · simp [quadPosition, quadVertices]
  · simp [quadPosition, quadVertices]
  · intro i hi
    interval_cases i <;> norm_num [quadPosition, quadTexCoord, quadVertices]

/-- C28: the any-corner-inside stage of `isBoundingBoxInside` is only a shortcut. For every
frustum and every box the result equals the one-stage test of the specification, "there is
no plane for which all 8 corners have negative signed distance". -/
theorem C28_isBoundingBoxInside_one_stage (f : Frustum α) (b : BoundingBox α) :
    f.isBoundingBoxInside b = f.oneStageTest b ∧
    (f.isBoundingBoxInside b = true ↔
      ¬ ∃ k : Fin 6, ∀ corner ∈ b.getCorners, planeDistance (f.planes k) corner < 0) := by
  constructor
  · rw [Bool.eq_iff_iff, Frustum.isBoundingBoxInside_iff_no_plane, Frustum.oneStageTest_iff]
  · rw [Frustum.isBoundingBoxInside_iff_no_plane, not_exists]

/-- C29: an invalid box is tested as the origin. Its `getCorners` is eight zero vectors and
its `transform` is invalid again, so for every frustum and model matrix the box test on the
transformed box equals `isPointInside (0,0,0)`; a mesh without vertices has an invalid
bounding box, so each of its instances is drawn exactly when the origin is inside the
frustum. -/
theorem C29_invalid_box_tested_as_origin (f : Frustum α) (b : BoundingBox α) (m : Mat4 α)
    (hv : b.valid = false) :
    b.getCorners = List.replicate 8 Vec3.zero ∧
    (b.transform m).valid = false ∧
    f.isBoundingBoxInside (b.transform m) = f.isPointInside Vec3.zero ∧
    isVisibleInFrustum b f m = f.isPointInside Vec3.zero ∧
    (BoundingBox.fromVertices ([] : List (Vec3 α))).valid = false ∧
    (∀ transforms : List (Mat4 α),
      (cullFrame true f (BoundingBox.fromVertices []) transforms).modelMatrices =
        Mat4.identity :: (if f.isPointInside Vec3.zero then transforms else [])) := by
  have ht : (b.transform m).valid = false := by
    rw [BoundingBox.transform_invalid b m hv]
    rfl
  have hbox : f.isBoundingBoxInside (b.transform m) = f.isPointInside Vec3.zero :=
    Frustum.isBoundingBoxInside_invalid f _ ht
  refine ⟨BoundingBox.getCorners_invalid b hv, ht, hbox, hbox, rfl, ?_⟩
  intro transforms
  obtain ⟨h1, _, _⟩ := foldl_cullStep f (BoundingBox.fromVertices []) transforms
    ⟨[Mat4.identity], [MeshId.planeMesh], 0⟩
  simp only [cullFrame, if_true]
  rw [h1]
  have hc : (fun T : Mat4 α =>
      f.isBoundingBoxInside ((BoundingBox.fromVertices ([] : List (Vec3 α))).transform T)) =
      fun _ => f.isPointInside Vec3.zero := by
    funext T
    rw [BoundingBox.transform_invalid _ T rfl]
    exact Frustum.isBoundingBoxInside_invalid f _ rfl
  rw [hc, filter_const]
  rfl

/-- C29 at a concrete input: the default (invalid) box under the sample model matrix against
the cube frustum `[-1, 1]^3`, which contains the origin: the instance is drawn. -/
theorem C29_witness :
    (BoundingBox.default : BoundingBox ℚ).valid = false ∧
    unitFrustum.isBoundingBoxInside
      ((BoundingBox.default : BoundingBox ℚ).transform sampleTransform) =
        unitFrustum.isPointInside Vec3.zero ∧
    unitFrustum.isPointInside (Vec3.zero : Vec3 ℚ) = true :=
  ⟨rfl,
    (C29_invalid_box_tested_as_origin unitFrustum BoundingBox.default sampleTransform rfl).2.2.1,
    (Frustum.isPointInside_iff _ _).mpr (by
      rw [forall_fin_six]
      simp [unitFrustum, planeDistance, dot, Vec4.xyz, Vec3.zero])⟩

end Claims

end GlowRenderer
